import Mathlib

/-!
# CollageCreator: geometry algebra and layout store

A shallow embedding of `Geometry.go`, `ImageLayout.go` and `Utility.go`.

## Numbers

Go's `float64` is embedded as `F64`: a rational number, one of the two
infinities, or not-a-number.  Arithmetic on finite values is exact (no rounding,
no overflow to infinity, no distinction between the two zeros); the special
values follow IEEE 754 and the special cases documented for `math.Min`,
`math.Max` and `math.Modf`.  Rounding to the nearest float64 is embedded where
a value enters from outside the float64 numbers or where the rounding decides
the course of a loop: in `strconv.ParseFloat`, in the conversion `float64(n)` of
`ParseDims`, and in the midpoint of the width-halving loop of the tiling.  Go's
`int` is embedded as `Int`, with the 64-bit range made explicit where
`strconv.Atoi` checks it.

## Strings

A Go string is embedded as a `List Char`.
-/

namespace CollageCreator

/-! ## float64 -/

/-- A `float64` value: not-a-number, an infinity, or a finite (exact rational) number. -/
inductive F64 where
  | nan : F64
  | ninf : F64
  | pinf : F64
  | num : ℚ → F64
deriving DecidableEq, Repr

namespace F64

/-- The float64 constant `0`. -/
def zero : F64 := num 0

/-- Go `math.IsNaN`. -/
def isNaN : F64 → Bool
  | nan => true
  | _ => false

/-- Go unary minus. -/
def neg : F64 → F64
  | nan => nan
  | ninf => pinf
  | pinf => ninf
  | num a => num (-a)

/-- Go `x + y` on float64. -/
def add : F64 → F64 → F64
  | nan, _ => nan
  | _, nan => nan
  | pinf, ninf => nan
  | ninf, pinf => nan
  | pinf, _ => pinf
  | _, pinf => pinf
  | ninf, _ => ninf
  | _, ninf => ninf
  | num a, num b => num (a + b)

/-- Go `x - y` on float64. -/
def sub (x y : F64) : F64 := add x (neg y)

/-- The product of an infinity of sign `s` (true for positive) with the finite `a`. -/
def infTimes (s : Bool) (a : ℚ) : F64 :=
  if a = 0 then nan
  else if (0 < a) = s then pinf else ninf

/-- Go `x * y` on float64. -/
def mul : F64 → F64 → F64
  | nan, _ => nan
  | _, nan => nan
  | pinf, pinf => pinf
  | pinf, ninf => ninf
  | ninf, pinf => ninf
  | ninf, ninf => pinf
  | pinf, num a => infTimes true a
  | ninf, num a => infTimes false a
  | num a, pinf => infTimes true a
  | num a, ninf => infTimes false a
  | num a, num b => num (a * b)

/-- Go `x / y` on float64 (a zero divisor is taken as the positive zero). -/
def div : F64 → F64 → F64
  | nan, _ => nan
  | _, nan => nan
  | pinf, pinf => nan
  | pinf, ninf => nan
  | ninf, pinf => nan
  | ninf, ninf => nan
  | pinf, num b => if 0 ≤ b then pinf else ninf
  | ninf, num b => if 0 ≤ b then ninf else pinf
  | num _, pinf => num 0
  | num _, ninf => num 0
  | num a, num b =>
    if b = 0 then (if a = 0 then nan else if 0 < a then pinf else ninf)
    else num (a / b)

/-- Go `x < y` on float64. -/
def lt : F64 → F64 → Bool
  | nan, _ => false
  | _, nan => false
  | ninf, ninf => false
  | ninf, _ => true
  | _, ninf => false
  | pinf, _ => false
  | num _, pinf => true
  | num a, num b => decide (a < b)

/-- Go `x <= y` on float64. -/
def le : F64 → F64 → Bool
  | nan, _ => false
  | _, nan => false
  | ninf, _ => true
  | _, pinf => true
  | pinf, _ => false
  | num _, ninf => false
  | num a, num b => decide (a ≤ b)

/-- Go `x >= y` on float64. -/
def ge (x y : F64) : Bool := le y x

/-- Go `x > y` on float64. -/
def gt (x y : F64) : Bool := lt y x

/-- Go `x == y` on float64 (false as soon as one side is NaN). -/
def feq : F64 → F64 → Bool
  | nan, _ => false
  | _, nan => false
  | ninf, ninf => true
  | pinf, pinf => true
  | num a, num b => decide (a = b)
  | _, _ => false

/-- Go `math.Min`: `-Inf` wins over everything, then NaN, then the smaller value. -/
def min (x y : F64) : F64 :=
  if x = ninf ∨ y = ninf then ninf
  else if x.isNaN ∨ y.isNaN then nan
  else if lt x y then x else y

/-- Go `math.Max`: `+Inf` wins over everything, then NaN, then the larger value. -/
def max (x y : F64) : F64 :=
  if x = pinf ∨ y = pinf then pinf
  else if x.isNaN ∨ y.isNaN then nan
  else if gt x y then x else y

end F64

/-! ## Dims -/

/-- Holds a pair of floats representing dimensions or coordinates. -/
structure Dims where
  x : F64
  y : F64
deriving DecidableEq, Repr

/-- Creates a new `Dims` object. -/
def NewDims (x y : F64) : Dims := ⟨x, y⟩

/-- Gets the X coordinate from a `Dims` object. -/
def Dims.X (d : Dims) : F64 := d.x

/-- Gets the Y coordinate from a `Dims` object. -/
def Dims.Y (d : Dims) : F64 := d.y

/-- Go's zero `Dims`. -/
def Dims.zeroValue : Dims := ⟨F64.zero, F64.zero⟩

/-! ## Geometry -/

/-- Units supported by the `Geometry` type. -/
inductive GeometryUnits where
  | Pixels
  | Percent
deriving DecidableEq, Repr

/-- A unit-bearing image measurement. -/
structure GeometryDimension where
  N : F64
  U : GeometryUnits
deriving DecidableEq, Repr

/-- Types of scaling supported by the `Geometry` type. -/
inductive GeometryScaling where
  | ScaleAlways
  | ScaleDownOnly
  | ScaleUpOnly
deriving DecidableEq, Repr

/-- The geometry of an image operation such as cropping or scaling. -/
structure Geometry where
  width : GeometryDimension
  height : GeometryDimension
  x : GeometryDimension
  y : GeometryDimension
  preserveAspectRatio : Bool
  scaling : GeometryScaling
deriving DecidableEq, Repr

open GeometryUnits GeometryScaling

/-- The value of Go's `Geometry{}` literal: every field at its zero value. -/
def Geometry.zeroValue : Geometry :=
  { width := ⟨F64.zero, Pixels⟩, height := ⟨F64.zero, Pixels⟩,
    x := ⟨F64.zero, Pixels⟩, y := ⟨F64.zero, Pixels⟩,
    preserveAspectRatio := false, scaling := ScaleAlways }

/-- Generates an "empty" `Geometry` object in which all numeric values are NaN. -/
def EmptyGeometry : Geometry :=
  { width := ⟨F64.nan, Pixels⟩, height := ⟨F64.nan, Pixels⟩,
    x := ⟨F64.nan, Pixels⟩, y := ⟨F64.nan, Pixels⟩,
    preserveAspectRatio := true, scaling := ScaleAlways }

namespace Geometry

/-- True if this `Geometry` explicitly specifies a width. -/
def HasWidth (geom : Geometry) : Bool := !geom.width.N.isNaN

/-- True if this `Geometry` explicitly specifies a height. -/
def HasHeight (geom : Geometry) : Bool := !geom.height.N.isNaN

/-- True if this `Geometry` explicitly specifies either a width or a height. -/
def HasSize (geom : Geometry) : Bool := geom.HasWidth || geom.HasHeight

/-- True if this `Geometry` explicitly specifies a horizontal offset. -/
def HasX (geom : Geometry) : Bool := !geom.x.N.isNaN

/-- True if this `Geometry` explicitly specifies a vertical offset. -/
def HasY (geom : Geometry) : Bool := !geom.y.N.isNaN

/-- True if this `Geometry` explicitly specifies either a horizontal or a vertical offset. -/
def HasOffset (geom : Geometry) : Bool := geom.HasX || geom.HasY

/-- True if this `Geometry` specifies preservation of the aspect ratio. -/
def PreserveAspectRatio (geom : Geometry) : Bool := geom.preserveAspectRatio

/-- The offset of this `Geometry` relative to an image of the given size. -/
def Offset (geom : Geometry) (fullSize : Dims) : Dims :=
  match geom.x.U with
  | Pixels =>
    let x := if geom.HasX then F64.max F64.zero (F64.min geom.x.N fullSize.X) else F64.zero
    let y := if geom.HasY then F64.max F64.zero (F64.min geom.y.N fullSize.Y) else F64.zero
    NewDims x y
  | Percent =>
    let x :=
      if geom.HasX then
        F64.max F64.zero (F64.min (F64.div (F64.mul fullSize.X geom.x.N) (F64.num 100)) fullSize.X)
      else F64.zero
    let y :=
      if geom.HasY then
        F64.max F64.zero (F64.min (F64.div (F64.mul fullSize.Y geom.y.N) (F64.num 100)) fullSize.Y)
      else F64.zero
    NewDims x y

/-- The size of an image cropped using this `Geometry`, relative to an image of the given size. -/
def Crop (geom : Geometry) (fullSize : Dims) : Dims :=
  if !geom.HasOffset then fullSize
  else
    let topLeft := geom.Offset fullSize
    match geom.width.U with
    | Pixels =>
      NewDims (F64.min geom.width.N (F64.sub fullSize.X topLeft.X))
        (F64.min geom.height.N (F64.sub fullSize.Y topLeft.Y))
    | Percent =>
      NewDims
        (F64.min (F64.div (F64.mul fullSize.X geom.width.N) (F64.num 100))
          (F64.sub fullSize.X topLeft.X))
        (F64.min (F64.div (F64.mul fullSize.Y geom.height.N) (F64.num 100))
          (F64.sub fullSize.Y topLeft.Y))

/-- The unit `Scale` works in, or `none` where `Scale` returns `fullSize` at once. -/
def scaleUnits (geom : Geometry) : Option GeometryUnits :=
  if geom.HasWidth && geom.HasHeight then
    if geom.width.U = geom.height.U then some geom.width.U else none
  else if geom.HasWidth then some geom.width.U
  else if geom.HasHeight then some geom.height.U
  else none

/-- The size of an image scaled using this `Geometry`, relative to an image of the given size.
The locals `xDim`, `yDim` start at Go's zero value and are assigned as in the source. -/
def Scale (geom : Geometry) (fullSize : Dims) : Dims :=
  match geom.scaleUnits with
  | none => fullSize
  | some units =>
    if geom.PreserveAspectRatio then
      match units with
      | Percent =>
        if !geom.HasWidth then
          NewDims (F64.div (F64.mul fullSize.X geom.height.N) (F64.num 100))
            (F64.div (F64.mul fullSize.Y geom.height.N) (F64.num 100))
        else if !geom.HasHeight then
          NewDims (F64.div (F64.mul fullSize.X geom.width.N) (F64.num 100))
            (F64.div (F64.mul fullSize.Y geom.width.N) (F64.num 100))
        else
          NewDims
            (F64.div (F64.mul fullSize.X (F64.min geom.width.N geom.height.N)) (F64.num 100))
            (F64.div (F64.mul fullSize.Y (F64.min geom.width.N geom.height.N)) (F64.num 100))
      | Pixels =>
        let aspect := F64.div fullSize.X fullSize.Y
        if !geom.HasWidth then
          NewDims (F64.mul aspect geom.height.N) geom.height.N
        else if !geom.HasHeight then
          NewDims geom.width.N (F64.div geom.width.N aspect)
        else
          NewDims (F64.min geom.width.N (F64.mul geom.height.N aspect))
            (F64.min geom.height.N (F64.div geom.width.N aspect))
    else
      match units with
      | Percent =>
        let xDim :=
          if geom.HasWidth then F64.div (F64.mul fullSize.X geom.width.N) (F64.num 100)
          else fullSize.X
        -- the source assigns the height result to `xDim`; `yDim` keeps its zero value
        let xDim := if geom.HasHeight then F64.div (F64.mul fullSize.Y geom.height.N) (F64.num 100)
          else xDim
        let yDim := if geom.HasHeight then F64.zero else fullSize.Y
        NewDims xDim yDim
      | Pixels =>
        let xDim := if geom.HasWidth then geom.width.N else fullSize.X
        let yDim := if geom.HasHeight then geom.height.N else fullSize.Y
        NewDims xDim yDim

end Geometry

/-- Apply both the `Scale` and `Crop` methods to a given image, in that order. -/
def ScaleAndCrop (original : Dims) (cropping : Geometry) (scaling : Geometry) : Dims :=
  cropping.Crop (scaling.Scale original)

/-! ## Image layout -/

/-- An identifier assigned to an input image as it is read in. -/
abbrev ImageIdentifier := Int

/-- Holds information about an input image (the `ImageData` handle is not modelled). -/
structure ImageInfo where
  imageId : ImageIdentifier
  fileName : List Char
  dimensions : Dims
deriving DecidableEq, Repr

/-- A Go `map[ImageIdentifier]V`, as the list of its entries (at most one per key is ever
looked up: `set` overwrites the entry of an existing key). -/
abbrev IdMap (V : Type) := List (ImageIdentifier × V)

/-- Go `_, in := m[k]`. -/
def IdMap.has {V : Type} (m : IdMap V) (k : ImageIdentifier) : Bool :=
  (List.lookup k m).isSome

/-- Go `m[k]`, with the zero value `z` of the element type for a missing key. -/
def IdMap.get {V : Type} (m : IdMap V) (z : V) (k : ImageIdentifier) : V :=
  (List.lookup k m).getD z

/-- Go `m[k] = v`. -/
def IdMap.set {V : Type} : IdMap V → ImageIdentifier → V → IdMap V
  | [], k, v => [(k, v)]
  | (k', v') :: m, k, v => if k' = k then (k, v) :: m else (k', v') :: IdMap.set m k v

/-- Go `len(m)`: the number of keys. -/
def IdMap.len {V : Type} (m : IdMap V) : Nat :=
  (m.map Prod.fst).dedup.length

/-- The map built by ranging over `m` and storing every entry into an empty map. -/
def IdMap.copy {V : Type} (m : IdMap V) : IdMap V :=
  m.foldl (fun rv e => rv.set e.1 e.2) []

/-- The axes along which `-scale-to-min` scales every image to the smallest. -/
structure DimensionInitializer_Uniform_ScaleToMinParameter where
  x : Bool
  y : Bool
deriving DecidableEq, Repr

/-- The component-specific parameters held in the `others` map of `parameters_data`, one
field per name that the components read with `OtherInt`, `OtherFloat`, `OtherBool` and
`OtherGeometry` (their `ParseCustomParameters` store every one of them before a component
runs, so the fatal error of a missing name does not arise); `Uniform_ScaleToMin` is read
with `Other` and may be absent. -/
structure CustomParameters where
  Random_MaxLayoutTries : Int := 25
  Random_MaxTriesPerImage : Int := 100
  Random_SizeToleranceFactor : F64 := F64.num (1 / 10)
  Balancer_MaxBalanceIterations : Int := 4
  Balancer_BalanceToleranceFactor : F64 := F64.num (1 / 100)
  TileInOrder_ExactOrder : Bool := false
  TileInOrder_Columns : Bool := false
  Uniform_Cropping : Geometry := EmptyGeometry
  Uniform_Scaling : Geometry := EmptyGeometry
  Uniform_ScaleToMin : Option DimensionInitializer_Uniform_ScaleToMinParameter := none
deriving DecidableEq, Repr

/-- The fields of `parameters_data` that the layout store and the position calculators read. -/
structure Parameters where
  aspectRatio : Geometry
  maxCanvasSize : Dims
  minCanvasSize : Dims
  padding : Geometry
  others : CustomParameters := {}
deriving DecidableEq, Repr

/-- Gets the `Geometry` governing padding around images during placement. -/
def Parameters.Padding (p : Parameters) : Geometry := p.padding

/-- The layout of the collage (`imageLayout_data`). -/
structure ImageLayout where
  size : Dims
  parameters : Parameters
  images : List ImageIdentifier
  imageInfo : IdMap ImageInfo
  dimensions : IdMap Dims
  scaling : IdMap Geometry
  cropping : IdMap Geometry
  positions : IdMap Dims
deriving DecidableEq, Repr

/-- True when `x` is not strictly beyond `y` on both axes. -/
def isWithin (x y : Dims) : Bool :=
  F64.le x.X y.X || F64.le x.Y y.Y

namespace ImageLayout

/-- The parameters assigned to this layout. -/
def Parameters (iLay : ImageLayout) : CollageCreator.Parameters := iLay.parameters

/-- Gets the `ImageInfo` for the given image (`none` is Go's nil interface). -/
def ImageInfoOf (iLay : ImageLayout) (img : ImageIdentifier) : Option ImageInfo :=
  List.lookup img iLay.imageInfo

/-- Gets the position information for the given image. -/
def PositionOf (iLay : ImageLayout) (img : ImageIdentifier) : Dims :=
  iLay.positions.get Dims.zeroValue img

/-- Gets the dimensions of the given image as it will be placed on the canvas. -/
def DimensionsOf (iLay : ImageLayout) (img : ImageIdentifier) : Dims :=
  iLay.dimensions.get Dims.zeroValue img

/-- Gets the scaling information for the given image. -/
def ScalingOf (iLay : ImageLayout) (img : ImageIdentifier) : Geometry :=
  iLay.scaling.get Geometry.zeroValue img

/-- Gets the cropping information for the given image. -/
def CroppingOf (iLay : ImageLayout) (img : ImageIdentifier) : Geometry :=
  iLay.cropping.get Geometry.zeroValue img

end ImageLayout

/-- Calculates the padding to be maintained around the given image. -/
def Padding (iLay : ImageLayout) (img : ImageIdentifier) : Dims :=
  iLay.Parameters.Padding.Scale (iLay.DimensionsOf img)

/-- The signed overlap of two padded rectangles. -/
def overlap_inner (pos1 pad1 pos2 pad2 dim1 dim2 : Dims) : Dims :=
  let x1 := F64.sub pos1.X pad1.X
  let x1p := F64.add (F64.add x1 dim1.X) pad1.X
  let x2 := F64.sub pos2.X pad2.X
  let x2p := F64.add (F64.add x2 dim2.X) pad2.X
  let y1 := F64.sub pos1.Y pad1.Y
  let y1p := F64.add (F64.add y1 dim1.Y) pad1.Y
  let y2 := F64.sub pos2.Y pad2.Y
  let y2p := F64.add (F64.add y2 dim2.Y) pad2.Y
  NewDims (F64.min (F64.sub x1p x2) (F64.sub x2p x1)) (F64.min (F64.sub y1p y2) (F64.sub y2p y1))

/-- The signed overlap of two images of the layout. -/
def Overlap (iLay : ImageLayout) (img1 img2 : ImageIdentifier) : Dims :=
  let pos1 := iLay.PositionOf img1
  let pad1 := Padding iLay img1
  let pos2 := iLay.PositionOf img2
  let pad2 := Padding iLay img2
  let dim1 := iLay.DimensionsOf img1
  let dim2 := iLay.DimensionsOf img2
  overlap_inner pos1 pad1 pos2 pad2 dim1 dim2

namespace ImageLayout

/-- Tests whether an image collides with any positioned one.  Go ranges over the
`positions` map in an unspecified order; the entries are visited here in list order. -/
def TestCollision (iLay : ImageLayout) (newImage : ImageIdentifier) : Option ImageIdentifier :=
  (iLay.positions.find?
    (fun e => decide (e.1 ≠ newImage) && !isWithin (Overlap iLay e.1 newImage) (NewDims F64.zero F64.zero))).map
    Prod.fst

/-- Sets the scaling of an image and recomputes its dimensions.  `none` is the run-time
panic of calling `DimensionsOf` on the nil `ImageInfo` of an unknown image. -/
def SetScaling (iLay : ImageLayout) (img : ImageIdentifier) (geom : Geometry) :
    Option (ImageLayout × Option ImageIdentifier) :=
  let l1 := { iLay with scaling := iLay.scaling.set img geom }
  match List.lookup img l1.imageInfo with
  | none => none
  | some info =>
    let dims := ScaleAndCrop info.dimensions (l1.cropping.get Geometry.zeroValue img)
      (l1.scaling.get Geometry.zeroValue img)
    let l2 := { l1 with dimensions := l1.dimensions.set img dims }
    let collidedWith := if l2.positions.has img then none else l2.TestCollision img
    some (l2, collidedWith)

/-- Sets the cropping of an image and recomputes its dimensions.  `none` is the run-time
panic of calling `DimensionsOf` on the nil `ImageInfo` of an unknown image. -/
def SetCropping (iLay : ImageLayout) (img : ImageIdentifier) (geom : Geometry) :
    Option (ImageLayout × Option ImageIdentifier) :=
  let l1 := { iLay with cropping := iLay.cropping.set img geom }
  match List.lookup img l1.imageInfo with
  | none => none
  | some info =>
    let dims := ScaleAndCrop info.dimensions (l1.cropping.get Geometry.zeroValue img)
      (l1.scaling.get Geometry.zeroValue img)
    let l2 := { l1 with dimensions := l1.dimensions.set img dims }
    let collidedWith := if l2.positions.has img then none else l2.TestCollision img
    some (l2, collidedWith)

/-- Sets the position of an image and tests it for collisions; the position stays stored
whatever the test finds. -/
def SetPosition (iLay : ImageLayout) (img : ImageIdentifier) (position : Dims) :
    ImageLayout × Option ImageIdentifier :=
  let l1 := { iLay with positions := iLay.positions.set img position }
  (l1, l1.TestCollision img)

/-- Clears all the position information set in this layout. -/
def ClearPositions (iLay : ImageLayout) : ImageLayout :=
  { iLay with positions := [] }

/-- Clears all the scaling information set in this layout: every image known to `imageInfo`
gets the empty cropping and scaling and its intrinsic dimensions. -/
def ClearDimensions (iLay : ImageLayout) : ImageLayout :=
  { iLay with
    cropping := iLay.imageInfo.map (fun e => (e.1, EmptyGeometry))
    scaling := iLay.imageInfo.map (fun e => (e.1, EmptyGeometry))
    dimensions := iLay.imageInfo.map (fun e => (e.1, e.2.dimensions)) }

/-- Gets the size of the output image being generated. -/
def CanvasSize (iLay : ImageLayout) : Dims := iLay.size

/-- Sets the size of the output image being generated. -/
def SetCanvasSize (iLay : ImageLayout) (d : Dims) : ImageLayout :=
  { iLay with size := d }

/-- The total number of constituent images in this layout. -/
def TotalImageCount (iLay : ImageLayout) : Int := (iLay.imageInfo.len : Nat)

/-- The number of images in this layout that have been positioned in the collage. -/
def PositionedImageCount (iLay : ImageLayout) : Int := (iLay.positions.len : Nat)

/-- Gets the list of images in this layout, a reference or a copy per the parameter.  The
copy has one slot per entry of `imageInfo`, filled from the front; `none` is the run-time
panic of writing past its end. -/
def Images (iLay : ImageLayout) (copy : Bool) : Option (List ImageIdentifier) :=
  if !copy then some iLay.images
  else if iLay.images.length ≤ iLay.imageInfo.len then
    some (iLay.images ++ List.replicate (iLay.imageInfo.len - iLay.images.length) 0)
  else none

/-- Creates a full copy of this layout: the four mutable maps are rebuilt entry by entry. -/
def Duplicate (iLay : ImageLayout) : ImageLayout :=
  { size := iLay.size
    parameters := iLay.parameters
    images := iLay.images
    imageInfo := iLay.imageInfo
    dimensions := iLay.dimensions.copy
    scaling := iLay.scaling.copy
    cropping := iLay.cropping.copy
    positions := iLay.positions.copy }

end ImageLayout

/-! ## Regular expressions

`regexp.MustCompile(p).FindStringSubmatch` returns the leftmost match and, among the
matches starting there, "the one that a backtracking search would have found first".  Both
patterns of `Geometry.go` are anchored with `^` and `$`, so the search starts at the first
byte and must consume the whole string.  `Regexp.run` is that backtracking search, in
continuation-passing style: the continuation receives the rest of the input and the
submatches recorded so far, and a failed continuation makes the search try its next
alternative. -/

/-- The fragment of RE2 syntax used by `dims_regex` and `geom_regex`. -/
inductive Regexp where
  /-- One character of a class, `[...]`. -/
  | cls : (Char → Bool) → Regexp
  /-- Concatenation. -/
  | cat : Regexp → Regexp → Regexp
  /-- Greedy option `r?`: tries `r` first, then the empty string. -/
  | quest : Regexp → Regexp
  /-- Greedy repetition `[...]*` of a class: tries the longest run first. -/
  | star : (Char → Bool) → Regexp
  /-- Capturing group number `i`. -/
  | capture : Nat → Regexp → Regexp

/-- The submatches of a match, by group number; a group that took no part is `""`. -/
abbrev Submatches := Nat → List Char

/-- Backtracking search for `[...]*`: longest run first. -/
def starRun {α : Type} (p : Char → Bool) : List Char → (List Char → Option α) → Option α
  | [], k => k []
  | c :: cs, k =>
    if p c then
      match starRun p cs k with
      | some r => some r
      | none => k (c :: cs)
    else k (c :: cs)

namespace Regexp

/-- Greedy repetition `[...]+` of a class. -/
def plus (p : Char → Bool) : Regexp := cat (cls p) (star p)

/-- Backtracking search: match `re` at the head of `s`, then hand the rest of the input and
the submatches to the continuation `k`. -/
def run : Regexp → List Char → Submatches → (List Char → Submatches → Option Submatches) →
    Option Submatches
  | cls p, s, sm, k =>
    match s with
    | [] => none
    | c :: cs => if p c then k cs sm else none
  | cat a b, s, sm, k => a.run s sm (fun s' sm' => b.run s' sm' k)
  | quest a, s, sm, k =>
    match a.run s sm k with
    | some r => some r
    | none => k s sm
  | star p, s, sm, k => starRun p s (fun s' => k s' sm)
  | capture i a, s, sm, k =>
    a.run s sm (fun s' sm' => k s' (Function.update sm' i (s.take (s.length - s'.length))))

/-- Go `FindStringSubmatch` for a pattern written `^re$`: `none` is the nil slice of a
failed match, and submatch 0 is the whole match. -/
def FindStringSubmatch (re : Regexp) (arg : List Char) : Option Submatches :=
  re.run arg (Function.update (fun _ => []) 0 arg)
    (fun rest sm => if rest.isEmpty then some sm else none)

/-- Go `MatchString` for a pattern written `^re$`. -/
def MatchString (re : Regexp) (arg : List Char) : Bool :=
  (re.FindStringSubmatch arg).isSome

end Regexp

/-- The language of a pattern: the strings it can match, whatever the search order. -/
def Regexp.Accepts : Regexp → List Char → Prop
  | Regexp.cls p, s => ∃ c, s = [c] ∧ p c = true
  | Regexp.cat a b, s => ∃ u v, s = u ++ v ∧ a.Accepts u ∧ b.Accepts v
  | Regexp.quest a, s => a.Accepts s ∨ s = []
  | Regexp.star p, s => ∀ c ∈ s, p c = true
  | Regexp.capture _ a, s => a.Accepts s

/-! ## Rounding to float64 -/

/-- The largest `k` with `2 ^ k ≤ n`, for `n ≥ 1` (`fuel` bounds the number of halvings). -/
def floorLog2Nat : Nat → Nat → Nat
  | 0, _ => 0
  | fuel + 1, n => if n < 2 then 0 else floorLog2Nat fuel (n / 2) + 1

/-- The floor of the binary logarithm of a positive rational number. -/
def floorLog2 (q : ℚ) : Int :=
  if 1 ≤ q then (floorLog2Nat ⌊q⌋.toNat ⌊q⌋.toNat : Nat)
  else
    let r : Nat := ⌈1 / q⌉.toNat
    if r ≤ 1 then 0 else -((floorLog2Nat r (r - 1) + 1 : Nat) : Int)

/-- Rounding of a non-negative rational to the nearest natural number, ties to even. -/
def roundHalfEven (q : ℚ) : Nat :=
  let fl : Nat := ⌊q⌋.toNat
  let r : ℚ := q - fl
  if r < 1 / 2 then fl
  else if 1 / 2 < r then fl + 1
  else if fl % 2 = 0 then fl else fl + 1

/-- The least magnitude that `strconv.ParseFloat` rounds to an infinity (half an ulp above
the largest `float64`): `2^1024 - 2^970`. -/
def float64Overflow : ℚ := 2 ^ 1024 - 2 ^ 970

/-- The float64 nearest to the rational `q`, ties to even, for a magnitude below the overflow
threshold: 53 significant bits, in steps of `2^-1074` below `2^-1022`. -/
def float64Nearest (q : ℚ) : ℚ :=
  if q = 0 then 0
  else
    let e : Int := max (floorLog2 |q|) (-1022)
    let m : Nat := roundHalfEven (|q| / (2 : ℚ) ^ (e - 52))
    if q < 0 then -((m : ℚ) * (2 : ℚ) ^ (e - 52)) else (m : ℚ) * (2 : ℚ) ^ (e - 52)

/-- The float64 that an exact result is rounded to: the nearest float64, and an infinity
from the overflow threshold on. -/
def F64.nearest : F64 → F64
  | F64.num q =>
    if float64Overflow ≤ q then F64.pinf
    else if q ≤ -float64Overflow then F64.ninf
    else F64.num (float64Nearest q)
  | v => v

/-! ## strconv -/

/-- The two errors of package `strconv`. -/
inductive NumError where
  /-- The text is not a number (`strconv.ErrSyntax`). -/
  | invalid
  /-- The value does not fit the result type (`strconv.ErrRange`). -/
  | outOfRange
deriving DecidableEq, Repr

/-- A Go `error` value as produced in `Geometry.go`. -/
inductive GoError where
  /-- The result of `errors.New(text)`. -/
  | errorsNew (text : List Char)
  /-- A `*strconv.NumError`. -/
  | numError (e : NumError)
deriving DecidableEq, Repr

/-- The value of a decimal digit. -/
def digitVal (c : Char) : Nat := c.toNat - 48

/-- The value of a string of decimal digits. -/
def digitsVal (ds : List Char) : Nat :=
  ds.foldl (fun acc c => 10 * acc + digitVal c) 0

/-- The character of a decimal digit. -/
def digitChar (d : Nat) : Char := Char.ofNat (48 + d)

/-- The decimal digits of `n`, most significant first (`fuel` bounds their number). -/
def decDigits : Nat → Nat → List Char
  | 0, _ => []
  | fuel + 1, n =>
    if n < 10 then [digitChar n] else decDigits fuel (n / 10) ++ [digitChar (n % 10)]

/-- The decimal text of a natural number, as `%d` and `strconv.Itoa` print it. -/
def natToDec (n : Nat) : List Char := decDigits (n + 1) n

/-- Go `strconv.Atoi` for a 64-bit `int`: an optional sign and at least one decimal digit. -/
def Atoi (s : List Char) : Except NumError Int :=
  let signed : Bool × List Char :=
    match s with
    | '+' :: r => (false, r)
    | '-' :: r => (true, r)
    | _ => (false, s)
  let ds := signed.2
  if ds.isEmpty || !ds.all Char.isDigit then Except.error NumError.invalid
  else if signed.1 then
    if digitsVal ds ≤ 2 ^ 63 then Except.ok (-(digitsVal ds : Int))
    else Except.error NumError.outOfRange
  else
    if digitsVal ds < 2 ^ 63 then Except.ok (digitsVal ds : Int)
    else Except.error NumError.outOfRange

/-- Go `float64(n)` for an `int` that holds a position on the canvas or a count of images
(taken as exact). -/
def F64.ofInt (n : Int) : F64 := F64.num n

/-- Go `float64(n)` for an `int`: the nearest float64, which is `n` itself up to `2^53` in
magnitude. -/
def F64.float64 (n : Int) : F64 := F64.num (float64Nearest n)

/-! ## ParseDims -/

/-- The pattern `^([0-9]+)?([,x]([0-9]*))?$`. -/
def dims_regex : Regexp :=
  Regexp.cat (Regexp.quest (Regexp.capture 1 (Regexp.plus Char.isDigit)))
    (Regexp.quest (Regexp.capture 2
      (Regexp.cat (Regexp.cls (fun c => c == ',' || c == 'x'))
        (Regexp.capture 3 (Regexp.star Char.isDigit)))))

/-- The text `"Malformed dimension string: '" + arg + "'"`. -/
def malformedDims (arg : List Char) : GoError :=
  GoError.errorsNew ("Malformed dimension string: '".toList ++ arg ++ "'".toList)

/-- Parses a string into a `Dims` object; returns the parsed object and an error. -/
def ParseDims (arg : List Char) : Dims × Option GoError :=
  if dims_regex.MatchString arg && arg.length != 0 &&
      ((arg.head? == some '(') == (arg.getLast? == some ')')) then
    match dims_regex.FindStringSubmatch arg with
    | none => (NewDims F64.zero F64.zero, some (malformedDims arg))
    | some sm =>
      match Atoi (sm 1), Atoi (sm 3) with
      | Except.ok x, Except.ok y => (NewDims (F64.float64 x) (F64.float64 y), none)
      | Except.ok x, Except.error _ =>
        if sm 2 = [] then (NewDims (F64.float64 x) (F64.float64 x), none)
        else (NewDims (F64.float64 x) F64.zero, none)
      | Except.error _, Except.ok y => (NewDims F64.zero (F64.float64 y), none)
      | Except.error _, Except.error _ => (Dims.zeroValue, none)
  else (NewDims F64.zero F64.zero, some (malformedDims arg))

/-! ## ParseGeometry -/

/-- The digits-and-point part of a decimal text, with the sign already read: digits, and an
optional point followed by digits, with at least one digit.  The result is the float64
nearest to the decimal value; a value that rounds to an infinity is `ErrRange`. -/
def parseDecimal (negative : Bool) (body : List Char) : Except NumError F64 :=
  let ip := body.takeWhile Char.isDigit
  let fp : Option (List Char) :=
    match body.dropWhile Char.isDigit with
    | [] => some []
    | '.' :: f => if f.all Char.isDigit then some f else none
    | _ => none
  match fp with
  | none => Except.error NumError.invalid
  | some f =>
    if ip.isEmpty && f.isEmpty then Except.error NumError.invalid
    else
      let v : ℚ := (digitsVal ip : ℚ) + (digitsVal f : ℚ) / 10 ^ f.length
      if float64Overflow ≤ v then Except.error NumError.outOfRange
      else Except.ok (F64.num (if negative then -float64Nearest v else float64Nearest v))

/-- Go `strconv.ParseFloat(s, 64)` on plain decimal text: an optional sign, then
`parseDecimal`.  (Go also reads exponents, hexadecimal floats, underscores, `inf` and `nan`;
`geom_regex` lets none of them through, and this embedding rejects them.) -/
def ParseFloat (s : List Char) : Except NumError F64 :=
  match s with
  | '+' :: r => parseDecimal false r
  | '-' :: r => parseDecimal true r
  | _ => parseDecimal false s

/-- Strips a leading `+` and parses the rest (called on non-empty text only). -/
def parseFloatDim (arg : List Char) : Except NumError F64 :=
  match arg with
  | '+' :: r => ParseFloat r
  | _ => ParseFloat arg

/-- The pattern `([0-9]+(\.[0-9]+)?)?`, its two groups numbered `i` and `i + 1`. -/
def floatregex (i : Nat) : Regexp :=
  Regexp.quest (Regexp.capture i
    (Regexp.cat (Regexp.plus Char.isDigit)
      (Regexp.quest (Regexp.capture (i + 1)
        (Regexp.cat (Regexp.cls (fun c => c == '.')) (Regexp.plus Char.isDigit))))))

/-- The pattern
`^F(xF)?([+-]F)?([+-]F)?([%]?)([!]?)([<>]?)$` where `F` is `floatregex`. -/
def geom_regex : Regexp :=
  Regexp.cat (floatregex 1)
    (Regexp.cat (Regexp.quest (Regexp.capture 3
        (Regexp.cat (Regexp.cls (fun c => c == 'x')) (floatregex 4))))
      (Regexp.cat (Regexp.quest (Regexp.capture 6
          (Regexp.cat (Regexp.cls (fun c => c == '+' || c == '-')) (floatregex 7))))
        (Regexp.cat (Regexp.quest (Regexp.capture 9
            (Regexp.cat (Regexp.cls (fun c => c == '+' || c == '-')) (floatregex 10))))
          (Regexp.cat (Regexp.capture 12 (Regexp.quest (Regexp.cls (fun c => c == '%'))))
            (Regexp.cat (Regexp.capture 13 (Regexp.quest (Regexp.cls (fun c => c == '!'))))
              (Regexp.capture 14
                (Regexp.quest (Regexp.cls (fun c => c == '<' || c == '>')))))))))

/-- Group number of the width. -/
def geom_regex_width : Nat := 1

/-- Group number of the height. -/
def geom_regex_height : Nat := 4

/-- Group number of the signed x offset. -/
def geom_regex_x : Nat := 6

/-- Group number of the signed y offset. -/
def geom_regex_y : Nat := 9

/-- Group number of the percent flag. -/
def geom_regex_scaleunits : Nat := 12

/-- Group number of the `!` flag. -/
def geom_regex_preserve_aspect : Nat := 13

/-- Group number of the `<` / `>` flag. -/
def geom_regex_scaling : Nat := 14

/-- The text `"Malformed geometry string: '" + arg + "'"`. -/
def malformedGeometry (arg : List Char) : GoError :=
  GoError.errorsNew ("Malformed geometry string: '".toList ++ arg ++ "'".toList)

/-- One scalar of `ParseGeometry`: parse `text` when `present` is not empty, else NaN. -/
def parseScalar (present text : List Char) : Except NumError F64 :=
  if present ≠ [] then parseFloatDim text else Except.ok F64.nan

/-- Parses a string into a `Geometry` object; returns the parsed object and an error.  On a
`ParseFloat` error the fields assigned so far are returned with it, as in the source. -/
def ParseGeometry (arg : List Char) : Geometry × Option GoError :=
  if geom_regex.MatchString arg && arg.length != 0 then
    match geom_regex.FindStringSubmatch arg with
    | none => (Geometry.zeroValue, some (malformedGeometry arg))
    | some sm =>
      let geom := Geometry.zeroValue
      let units := if sm geom_regex_scaleunits = ['%'] then Percent else Pixels
      match parseScalar (sm geom_regex_width) (sm geom_regex_width) with
      | Except.error e => (geom, some (GoError.numError e))
      | Except.ok ff =>
        let geom := { geom with width := ⟨ff, units⟩ }
        match parseScalar (sm geom_regex_height) (sm geom_regex_height) with
        | Except.error e => (geom, some (GoError.numError e))
        | Except.ok ff =>
          let geom := { geom with height := ⟨ff, units⟩ }
          match parseScalar (sm (geom_regex_x + 1)) (sm geom_regex_x) with
          | Except.error e => (geom, some (GoError.numError e))
          | Except.ok ff =>
            let geom := { geom with x := ⟨ff, units⟩ }
            match parseScalar (sm (geom_regex_y + 1)) (sm geom_regex_y) with
            | Except.error e => (geom, some (GoError.numError e))
            | Except.ok ff =>
              let geom := { geom with y := ⟨ff, units⟩ }
              let preserve : Bool := sm geom_regex_preserve_aspect != ['!']
              let geom := { geom with preserveAspectRatio := preserve }
              let scaling : GeometryScaling :=
                if sm geom_regex_scaling = ['<'] then ScaleUpOnly
                else if sm geom_regex_scaling = ['>'] then ScaleDownOnly
                else ScaleAlways
              let geom := { geom with scaling := scaling }
              (geom, none)
  else (Geometry.zeroValue, some (malformedGeometry arg))

/-! ## Geometry.String -/

/-- Go `math.Modf`: the integer part (truncated toward zero) and the fractional part, both
with the sign of the argument. -/
def F64.Modf : F64 → F64 × F64
  | F64.nan => (F64.nan, F64.nan)
  | F64.pinf => (F64.pinf, F64.nan)
  | F64.ninf => (F64.ninf, F64.nan)
  | F64.num q =>
    let whole : Int := if 0 ≤ q then ⌊q⌋ else -⌊-q⌋
    (F64.num whole, F64.num (q - whole))

/-- Go `int(f)` for a `float64`: truncation toward zero; outside the range of `int` the
result is implementation-specific, and is here the `-2^63` that amd64 produces. -/
def F64.toInt : F64 → Int
  | F64.num q =>
    let whole : Int := if 0 ≤ q then ⌊q⌋ else -⌊-q⌋
    if -(2 ^ 63 : Int) ≤ whole ∧ whole < 2 ^ 63 then whole else -(2 ^ 63)
  | _ => -(2 ^ 63)

/-- Go `fmt.Sprintf("%d", n)`. -/
def sprintf_d (n : Int) : List Char :=
  if n < 0 then '-' :: natToDec n.natAbs else natToDec n.natAbs

/-- Exactly `w` decimal digits of `n`, with leading zeros. -/
def fixedDigits : Nat → Nat → List Char
  | 0, _ => []
  | w + 1, n => fixedDigits w (n / 10) ++ [digitChar (n % 10)]

/-- Go `fmt.Sprintf("%f", val)`: six digits after the point. -/
def sprintf_f : F64 → List Char
  | F64.nan => "NaN".toList
  | F64.pinf => "+Inf".toList
  | F64.ninf => "-Inf".toList
  | F64.num q =>
    let n := roundHalfEven (|q| * 1000000)
    let body := natToDec (n / 1000000) ++ ('.' :: fixedDigits 6 (n % 1000000))
    if q < 0 then '-' :: body else body

/-- Prints a value as an integer when its fractional part is below `1e-5`, else with
`%f`. -/
def printFloat (val : F64) : List Char :=
  if F64.lt (F64.Modf val).2 (F64.num (1 / 100000)) then sprintf_d (F64.Modf val).1.toInt
  else sprintf_f val

/-- Converts a `Geometry` object into a string. -/
def Geometry.String (geom : Geometry) : List Char :=
  let rv : List Char := []
  let rv := if geom.HasWidth then rv ++ printFloat geom.width.N else rv
  let rv := if geom.HasHeight then rv ++ ('x' :: printFloat geom.height.N) else rv
  let rv :=
    if geom.HasX then
      (if F64.ge geom.x.N F64.zero then rv ++ ['+'] else rv) ++ printFloat geom.x.N
    else rv
  let rv :=
    if geom.HasY then
      let rv := if geom.x.N.isNaN then rv ++ ['+'] else rv
      let rv := if F64.ge geom.y.N F64.zero then rv ++ ['+'] else rv
      rv ++ printFloat geom.y.N
    else rv
  let rv :=
    match geom.width.U with
    | Percent => rv ++ ['%']
    | Pixels => rv
  let rv := if !geom.PreserveAspectRatio then rv ++ ['!'] else rv
  match geom.scaling with
  | ScaleDownOnly => rv ++ ['>']
  | ScaleUpOnly => rv ++ ['<']
  | ScaleAlways => rv

/-! ## The grammar of geometry text

The textual form `[W][xH][±X][±Y][%][!][<>]`, piece by piece.  The number after `x` or after
a sign may be missing, as `geom_regex` allows. -/

/-- An unsigned decimal number: digits, optionally followed by a point and more digits. -/
structure Numeral where
  /-- The digits before the point. -/
  ip : List Char
  /-- The digits after the point, when there is a point. -/
  fp : Option (List Char)
deriving DecidableEq, Repr

namespace Numeral

/-- Both digit strings are non-empty strings of decimal digits. -/
def valid (n : Numeral) : Bool :=
  !n.ip.isEmpty && n.ip.all Char.isDigit &&
    match n.fp with
    | none => true
    | some f => !f.isEmpty && f.all Char.isDigit

/-- The point and the digits after it. -/
def fracText (n : Numeral) : List Char :=
  match n.fp with
  | none => []
  | some f => '.' :: f

/-- The number as written. -/
def text (n : Numeral) : List Char := n.ip ++ n.fracText

/-- The number denoted. -/
def value (n : Numeral) : ℚ :=
  match n.fp with
  | none => (digitsVal n.ip : ℚ)
  | some f => (digitsVal n.ip : ℚ) + (digitsVal f : ℚ) / 10 ^ f.length

end Numeral

/-- The text of an optional number. -/
def optText (n : Option Numeral) : List Char :=
  match n with
  | none => []
  | some m => m.text

/-- The sign character: `-` for `true`, `+` for `false`. -/
def signChar (negative : Bool) : Char := if negative then '-' else '+'

/-- The text of an optional offset: a sign and an optional number. -/
def offsetText (o : Option (Bool × Option Numeral)) : List Char :=
  match o with
  | none => []
  | some (negative, n) => signChar negative :: optText n

/-- The pieces of a geometry text. -/
structure GeometryText where
  /-- The width `W`. -/
  w : Option Numeral
  /-- The part `xH`: present or not, and the height `H` which may be missing after `x`. -/
  h : Option (Option Numeral)
  /-- The part `±X`: the sign (`true` for `-`) and the number, which may be missing. -/
  x : Option (Bool × Option Numeral)
  /-- The part `±Y`. -/
  y : Option (Bool × Option Numeral)
  /-- The flag `%`. -/
  percent : Bool
  /-- The flag `!`. -/
  bang : Bool
  /-- The flag `<` (`ScaleUpOnly`), `>` (`ScaleDownOnly`) or none (`ScaleAlways`). -/
  scaling : GeometryScaling
deriving DecidableEq, Repr

namespace GeometryText

/-- The text of the part `xH`. -/
def hText (t : GeometryText) : List Char :=
  match t.h with
  | none => []
  | some n => 'x' :: optText n

/-- The text of the flag `%`. -/
def percentText (t : GeometryText) : List Char := if t.percent then ['%'] else []

/-- The text of the flag `!`. -/
def bangText (t : GeometryText) : List Char := if t.bang then ['!'] else []

/-- The text of the flag `<` or `>`. -/
def scalingText (t : GeometryText) : List Char :=
  match t.scaling with
  | ScaleAlways => []
  | ScaleDownOnly => ['>']
  | ScaleUpOnly => ['<']

/-- The geometry as written. -/
def text (t : GeometryText) : List Char :=
  optText t.w ++ (t.hText ++ (offsetText t.x ++ (offsetText t.y ++
    (t.percentText ++ (t.bangText ++ t.scalingText)))))

/-- The height, when `x` is followed by a number. -/
def hNumeral (t : GeometryText) : Option Numeral := t.h.bind id

/-- The number of an optional offset. -/
def offsetNumeral (o : Option (Bool × Option Numeral)) : Option Numeral :=
  o.bind Prod.snd

/-- Validity of an optional number. -/
def optValid (n : Option Numeral) : Bool :=
  match n with
  | none => true
  | some m => m.valid

/-- Every number of the text is well formed. -/
def valid (t : GeometryText) : Bool :=
  optValid t.w && optValid t.hNumeral && optValid (offsetNumeral t.x) &&
    optValid (offsetNumeral t.y)

/-- The first sign of the text opens the part `±X`: there is no `±Y` without a `±X`. -/
def canonical (t : GeometryText) : Bool := t.x.isSome || t.y.isNone

/-- An optional number is below the overflow threshold of `float64`. -/
def optInRange (n : Option Numeral) : Bool :=
  match n with
  | none => true
  | some m => decide (m.value < float64Overflow)

/-- Every number of the text is below the overflow threshold of `float64`. -/
def inRange (t : GeometryText) : Bool :=
  optInRange t.w && optInRange t.hNumeral && optInRange (offsetNumeral t.x) &&
    optInRange (offsetNumeral t.y)

/-- The scalar denoted by an optional number, the float64 nearest to it: NaN when
missing. -/
def optValue (n : Option Numeral) : F64 :=
  match n with
  | none => F64.nan
  | some m => F64.num (float64Nearest m.value)

/-- The scalar denoted by an optional offset, the float64 nearest to it: NaN when the number
is missing. -/
def offsetValue (o : Option (Bool × Option Numeral)) : F64 :=
  match o with
  | some (negative, some m) =>
    F64.num (if negative then -float64Nearest m.value else float64Nearest m.value)
  | _ => F64.nan

/-- The unit selected by the flag `%`. -/
def units (t : GeometryText) : GeometryUnits := if t.percent then Percent else Pixels

/-- The geometry denoted by the text. -/
def geometry (t : GeometryText) : Geometry :=
  { width := ⟨optValue t.w, t.units⟩
    height := ⟨optValue t.hNumeral, t.units⟩
    x := ⟨offsetValue t.x, t.units⟩
    y := ⟨offsetValue t.y, t.units⟩
    preserveAspectRatio := !t.bang
    scaling := t.scaling }

end GeometryText

/-- The same text read with its first sign opening the x offset. -/
def GeometryText.normalize (t : GeometryText) : GeometryText :=
  match t.x with
  | none => { t with x := t.y, y := none }
  | some _ => t

/-- The instances of the grammar `[W][xH][±X][±Y][%][!][<>]`. -/
def IsGeometryText (s : List Char) : Prop :=
  ∃ t : GeometryText, t.valid = true ∧ t.text = s

/-- A scalar prints exactly: it is absent, or it is a finite number that `ParseFloat` reads
back from the text `printFloat` prints for it. -/
def PrintsExactly (v : F64) : Prop :=
  v = F64.nan ∨ ∃ q, v = F64.num q ∧ ParseFloat (printFloat v) = Except.ok v

/-! ## Predicates on the backtracking search -/

/-- `re` matches `u` in front of `v`, recording submatches by `f`, as first choice of the
search: whenever the continuation accepts that split, the search returns its answer. -/
def Takes (re : Regexp) (u v : List Char) (f : Submatches → Submatches) : Prop :=
  ∀ sm k, (k v (f sm)).isSome = true → re.run (u ++ v) sm k = k v (f sm)

/-- `re` matches no prefix of `v`. -/
def Fails (re : Regexp) (v : List Char) : Prop :=
  ∀ sm k, re.run v sm k = none

/-- The first character of `v`, if any, is outside the class `p`. -/
def HeadNot (p : Char → Bool) (v : List Char) : Prop :=
  ∀ c ∈ v.head?, p c = false

/-! ## Submatches recorded on a geometry text -/

/-- The first character of `v`, if any, is one of `cs`. -/
def StartsIn (cs v : List Char) : Prop := ∀ c ∈ v.head?, c ∈ cs

/-- The submatches recorded by `floatregex i` on a number. -/
def floatCaps (i : Nat) (n : Option Numeral) (sm : Submatches) : Submatches :=
  match n with
  | none => sm
  | some m =>
    match m.fp with
    | none => Function.update sm i m.text
    | some f => Function.update (Function.update sm (i + 1) ('.' :: f)) i m.text

/-- The submatches recorded by the group `(xF)?`. -/
def hCaps (h : Option (Option Numeral)) (sm : Submatches) : Submatches :=
  match h with
  | none => sm
  | some n => Function.update (floatCaps 4 n sm) 3 ('x' :: optText n)

/-- The submatches recorded by a group `([+-]F)?` numbered `i`. -/
def offsetCaps (i : Nat) (o : Option (Bool × Option Numeral)) (sm : Submatches) : Submatches :=
  match o with
  | none => sm
  | some (negative, n) =>
    Function.update (floatCaps (i + 1) n sm) i (signChar negative :: optText n)

/-- The submatches recorded by `geom_regex` on a geometry text. -/
def geomCaps (t : GeometryText) (sm : Submatches) : Submatches :=
  Function.update
    (Function.update
      (Function.update
        (offsetCaps 9 t.y (offsetCaps 6 t.x (hCaps t.h (floatCaps 1 t.w sm))))
        12 t.percentText)
      13 t.bangText)
    14 t.scalingText

/-! ## Concrete geometries and sizes used by the examples -/

/-- The text of the flag `<` or `>`. -/
def scalingFlag (sc : GeometryScaling) : List Char :=
  match sc with
  | ScaleAlways => []
  | ScaleDownOnly => ['>']
  | ScaleUpOnly => ['<']

/-- The width `1` followed by 309 zeros, which is above the largest `float64`. -/
def hugeNumeral : Numeral := ⟨'1' :: List.replicate 309 '0', none⟩

/-- The number `1`. -/
def oneNumeral : Numeral := ⟨['1'], none⟩


/-- The geometry written `+10+20`: a pixel offset and no size. -/
def offsetOnlyGeometry : Geometry :=
  { EmptyGeometry with x := ⟨F64.num 10, Pixels⟩, y := ⟨F64.num 20, Pixels⟩ }

/-- The geometry written `50x80+10+20`. -/
def sizedCropGeometry : Geometry :=
  { EmptyGeometry with
    width := ⟨F64.num 50, Pixels⟩, height := ⟨F64.num 80, Pixels⟩,
    x := ⟨F64.num 10, Pixels⟩, y := ⟨F64.num 20, Pixels⟩ }

/-- The geometry written `200x100`: scale to fit, in pixels. -/
def fitGeometry : Geometry :=
  { EmptyGeometry with width := ⟨F64.num 200, Pixels⟩, height := ⟨F64.num 100, Pixels⟩ }

/-- The geometry written `50x50%!`: stretch both axes to 50 percent. -/
def stretchPercentGeometry : Geometry :=
  { EmptyGeometry with
    width := ⟨F64.num 50, Percent⟩, height := ⟨F64.num 50, Percent⟩,
    preserveAspectRatio := false }

/-- A stretch geometry with a pixel width and a percent height (as `x50%!` becomes once
scale-to-min has stored a pixel width in it). -/
def stretchMixedGeometry : Geometry :=
  { EmptyGeometry with
    width := ⟨F64.num 50, Pixels⟩, height := ⟨F64.num 50, Percent⟩,
    preserveAspectRatio := false }

/-- The geometry written `50x80!`: stretch to 50 by 80 pixels. -/
def stretchPixelsGeometry : Geometry :=
  { EmptyGeometry with
    width := ⟨F64.num 50, Pixels⟩, height := ⟨F64.num 80, Pixels⟩,
    preserveAspectRatio := false }

/-- The geometry printed `200x100+10-20%!<`. -/
def roundTripGeometry : Geometry :=
  { width := ⟨F64.num 200, Percent⟩, height := ⟨F64.num 100, Percent⟩,
    x := ⟨F64.num 10, Percent⟩, y := ⟨F64.num (-20), Percent⟩,
    preserveAspectRatio := false, scaling := ScaleUpOnly }

/-- A geometry with the negative width `-5` and nothing else. -/
def negativeWidthGeometry : Geometry :=
  { EmptyGeometry with width := ⟨F64.num (-5), Pixels⟩ }

/-- Default parameters: no aspect ratio, no canvas bounds, no padding (`Parameters_init`). -/
def defaultParameters : Parameters :=
  { aspectRatio := EmptyGeometry, maxCanvasSize := NewDims F64.zero F64.zero,
    minCanvasSize := NewDims F64.zero F64.zero, padding := EmptyGeometry }

/-- The metadata of image 0 of `sampleLayout`: 100 by 50 pixels. -/
def sampleInfo0 : ImageInfo :=
  { imageId := 0, fileName := "a.png".toList, dimensions := ⟨F64.num 100, F64.num 50⟩ }

/-- The metadata of image 1 of `sampleLayout`: 40 by 40 pixels. -/
def sampleInfo1 : ImageInfo :=
  { imageId := 1, fileName := "b.png".toList, dimensions := ⟨F64.num 40, F64.num 40⟩ }

/-- A layout of two images as left by ingest and `ClearDimensions`, nothing positioned. -/
def sampleLayout : ImageLayout :=
  { size := NewDims F64.zero F64.zero
    parameters := defaultParameters
    images := [0, 1]
    imageInfo := [(0, sampleInfo0), (1, sampleInfo1)]
    dimensions := [(0, sampleInfo0.dimensions), (1, sampleInfo1.dimensions)]
    scaling := [(0, EmptyGeometry), (1, EmptyGeometry)]
    cropping := [(0, EmptyGeometry), (1, EmptyGeometry)]
    positions := [] }

/-! ## The layout objects on the heap

Go layouts are pointers to `imageLayout_data`, and Go maps are references: two layouts
can share a map.  This section holds the objects by address, to state what `Duplicate`
copies. -/

/-- The object behind an `ImageLayout_impl`, with the four maps that the layout operations
write held by their address in the heap.  The `images` slice, the `imageInfo` map and the
parameters are shared between a layout and its copies too, but no layout operation writes
them, so they are held by value. -/
structure imageLayout_data where
  size : Dims
  parameters : Parameters
  images : List ImageIdentifier
  imageInfo : IdMap ImageInfo
  dimensions : Nat
  scaling : Nat
  cropping : Nat
  positions : Nat
deriving DecidableEq, Repr

/-- The heap: the `map[ImageIdentifier]Dims` objects, the `map[ImageIdentifier]Geometry`
objects and the `imageLayout_data` objects, each addressed by its index.  An
`ImageLayout_impl` is the address of its data. -/
structure Heap where
  dimsMaps : List (IdMap Dims)
  geomMaps : List (IdMap Geometry)
  data : List imageLayout_data
deriving DecidableEq, Repr

namespace Heap

/-- The layout that the observers (`CanvasSize`, `PositionOf`, `DimensionsOf`, ...) read
through the pointer `p`. -/
def view (h : Heap) (p : Nat) : Option ImageLayout :=
  match h.data[p]? with
  | none => none
  | some d =>
    match h.dimsMaps[d.dimensions]?, h.geomMaps[d.scaling]?, h.geomMaps[d.cropping]?,
      h.dimsMaps[d.positions]? with
    | some dimensions, some scaling, some cropping, some positions =>
      some
        { size := d.size, parameters := d.parameters, images := d.images,
          imageInfo := d.imageInfo, dimensions := dimensions, scaling := scaling,
          cropping := cropping, positions := positions }
    | _, _, _, _ => none

/-- `Duplicate` through the pointer `p`: a new data object with four new maps; the result
is the new heap and the pointer to the copy. -/
def Duplicate (h : Heap) (p : Nat) : Option (Heap × Nat) :=
  match h.data[p]? with
  | none => none
  | some d =>
    match h.dimsMaps[d.dimensions]?, h.geomMaps[d.scaling]?, h.geomMaps[d.cropping]?,
      h.dimsMaps[d.positions]? with
    | some dimensions, some scaling, some cropping, some positions =>
      let rv : imageLayout_data :=
        { size := d.size, parameters := d.parameters, images := d.images,
          imageInfo := d.imageInfo
          dimensions := h.dimsMaps.length
          scaling := h.geomMaps.length
          cropping := h.geomMaps.length + 1
          positions := h.dimsMaps.length + 1 }
      some
        ({ dimsMaps := h.dimsMaps ++ [dimensions.copy, positions.copy]
           geomMaps := h.geomMaps ++ [scaling.copy, cropping.copy]
           data := h.data ++ [rv] }, h.data.length)
    | _, _, _, _ => none

/-- `SetCanvasSize` through the pointer `p`. -/
def SetCanvasSize (h : Heap) (p : Nat) (d : Dims) : Option Heap :=
  match h.data[p]? with
  | none => none
  | some dat => some { h with data := h.data.set p { dat with size := d } }

/-- `SetPosition` through the pointer `p`: a write into the positions map of the layout. -/
def SetPosition (h : Heap) (p : Nat) (img : ImageIdentifier) (position : Dims) : Option Heap :=
  match h.data[p]? with
  | none => none
  | some dat =>
    match h.dimsMaps[dat.positions]? with
    | none => none
    | some positions =>
      some { h with dimsMaps := h.dimsMaps.set dat.positions (positions.set img position) }

/-- `SetScaling` through the pointer `p`: a write into the scaling map, then one into the
dimensions map. -/
def SetScaling (h : Heap) (p : Nat) (img : ImageIdentifier) (geom : Geometry) : Option Heap :=
  match h.data[p]? with
  | none => none
  | some dat =>
    match h.geomMaps[dat.scaling]? with
    | none => none
    | some scaling =>
      let h1 := { h with geomMaps := h.geomMaps.set dat.scaling (scaling.set img geom) }
      match List.lookup img dat.imageInfo, h1.geomMaps[dat.cropping]?, h1.geomMaps[dat.scaling]?,
        h1.dimsMaps[dat.dimensions]? with
      | some info, some cropping, some scaling1, some dimensions =>
        let dims := ScaleAndCrop info.dimensions (cropping.get Geometry.zeroValue img)
          (scaling1.get Geometry.zeroValue img)
        some { h1 with dimsMaps := h1.dimsMaps.set dat.dimensions (dimensions.set img dims) }
      | _, _, _, _ => none

/-- `SetCropping` through the pointer `p`: a write into the cropping map, then one into the
dimensions map. -/
def SetCropping (h : Heap) (p : Nat) (img : ImageIdentifier) (geom : Geometry) : Option Heap :=
  match h.data[p]? with
  | none => none
  | some dat =>
    match h.geomMaps[dat.cropping]? with
    | none => none
    | some cropping =>
      let h1 := { h with geomMaps := h.geomMaps.set dat.cropping (cropping.set img geom) }
      match List.lookup img dat.imageInfo, h1.geomMaps[dat.cropping]?, h1.geomMaps[dat.scaling]?,
        h1.dimsMaps[dat.dimensions]? with
      | some info, some cropping1, some scaling, some dimensions =>
        let dims := ScaleAndCrop info.dimensions (cropping1.get Geometry.zeroValue img)
          (scaling.get Geometry.zeroValue img)
        some { h1 with dimsMaps := h1.dimsMaps.set dat.dimensions (dimensions.set img dims) }
      | _, _, _, _ => none

/-- `ClearPositions` through the pointer `p`: the layout gets a new, empty positions map. -/
def ClearPositions (h : Heap) (p : Nat) : Option Heap :=
  match h.data[p]? with
  | none => none
  | some dat =>
    some
      { h with
        dimsMaps := h.dimsMaps ++ [[]]
        data := h.data.set p { dat with positions := h.dimsMaps.length } }

/-- `ClearDimensions` through the pointer `p`: the layout gets new cropping, scaling and
dimensions maps. -/
def ClearDimensions (h : Heap) (p : Nat) : Option Heap :=
  match h.data[p]? with
  | none => none
  | some dat =>
    let dat1 :=
      { dat with
        cropping := h.geomMaps.length
        scaling := h.geomMaps.length + 1
        dimensions := h.dimsMaps.length }
    some
      { dimsMaps := h.dimsMaps ++ [dat.imageInfo.map (fun e => (e.1, e.2.dimensions))]
        geomMaps := h.geomMaps ++
          [dat.imageInfo.map (fun e => (e.1, EmptyGeometry)),
           dat.imageInfo.map (fun e => (e.1, EmptyGeometry))]
        data := h.data.set p dat1 }

end Heap

/-- One mutating call on a layout. -/
inductive LayoutCall where
  | SetPosition (img : ImageIdentifier) (position : Dims)
  | SetScaling (img : ImageIdentifier) (geom : Geometry)
  | SetCropping (img : ImageIdentifier) (geom : Geometry)
  | SetCanvasSize (d : Dims)
  | ClearPositions
  | ClearDimensions
deriving DecidableEq, Repr

/-- The heap after the call `c` through the pointer `p` (`none`: the call panics). -/
def Heap.call (h : Heap) (p : Nat) : LayoutCall → Option Heap
  | LayoutCall.SetPosition img position => h.SetPosition p img position
  | LayoutCall.SetScaling img geom => h.SetScaling p img geom
  | LayoutCall.SetCropping img geom => h.SetCropping p img geom
  | LayoutCall.SetCanvasSize d => h.SetCanvasSize p d
  | LayoutCall.ClearPositions => h.ClearPositions p
  | LayoutCall.ClearDimensions => h.ClearDimensions p

/-- The heap after a sequence of calls through the pointer `p`. -/
def Heap.calls (h : Heap) (p : Nat) : List LayoutCall → Option Heap
  | [] => some h
  | c :: cs =>
    match h.call p c with
    | none => none
    | some h1 => h1.calls p cs

/-- The entries of a map have distinct keys, as in every Go map. -/
def IdMap.Distinct {V : Type} (m : IdMap V) : Prop := (m.map Prod.fst).Nodup

instance IdMap.decidableDistinct {V : Type} (m : IdMap V) : Decidable m.Distinct :=
  inferInstanceAs (Decidable (m.map Prod.fst).Nodup)

/-- The layout `p` and the layout `q` of the heap share none of their four maps. -/
def Heap.Apart (h : Heap) (p q : Nat) : Prop :=
  p ≠ q ∧ ∃ dp dq, h.data[p]? = some dp ∧ h.data[q]? = some dq ∧
    dp.dimensions < h.dimsMaps.length ∧ dp.positions < h.dimsMaps.length ∧
    dp.scaling < h.geomMaps.length ∧ dp.cropping < h.geomMaps.length ∧
    dq.dimensions < h.dimsMaps.length ∧ dq.positions < h.dimsMaps.length ∧
    dq.scaling < h.geomMaps.length ∧ dq.cropping < h.geomMaps.length ∧
    dp.dimensions ≠ dq.dimensions ∧ dp.dimensions ≠ dq.positions ∧
    dp.positions ≠ dq.dimensions ∧ dp.positions ≠ dq.positions ∧
    dp.scaling ≠ dq.scaling ∧ dp.scaling ≠ dq.cropping ∧
    dp.cropping ≠ dq.scaling ∧ dp.cropping ≠ dq.cropping

/-! ## Concrete layouts used by the examples -/

/-- The overlap of two padded rectangles on one axis as the specification words it: each
rectangle reaches from `p - q` to `p + d + q`. -/
def paddedOverlap (p1 d1 q1 p2 d2 q2 : F64) : F64 :=
  F64.min (F64.sub (F64.add (F64.add p1 d1) q1) (F64.sub p2 q2))
    (F64.sub (F64.add (F64.add p2 d2) q2) (F64.sub p1 q1))

/-- The metadata of a 100 by 100 image. -/
def squareInfo (id : ImageIdentifier) : ImageInfo :=
  { imageId := id, fileName := "s.png".toList, dimensions := ⟨F64.num 100, F64.num 100⟩ }

/-- The padding geometry written `0x0`: no padding around any image. -/
def zeroPadding : Geometry :=
  { EmptyGeometry with width := ⟨F64.num 0, Pixels⟩, height := ⟨F64.num 0, Pixels⟩ }

/-- The padding geometry written `10x10`: ten pixels around a square image. -/
def tenPadding : Geometry :=
  { EmptyGeometry with width := ⟨F64.num 10, Pixels⟩, height := ⟨F64.num 10, Pixels⟩ }

/-- Two 100 by 100 images, the first at the origin and the second at `second`, under the
padding geometry `padding`. -/
def twoSquares (padding : Geometry) (second : Dims) : ImageLayout :=
  { size := NewDims F64.zero F64.zero
    parameters := { defaultParameters with padding := padding }
    images := [0, 1]
    imageInfo := [(0, squareInfo 0), (1, squareInfo 1)]
    dimensions := [(0, ⟨F64.num 100, F64.num 100⟩), (1, ⟨F64.num 100, F64.num 100⟩)]
    scaling := [(0, EmptyGeometry), (1, EmptyGeometry)]
    cropping := [(0, EmptyGeometry), (1, EmptyGeometry)]
    positions := [(0, ⟨F64.num 0, F64.num 0⟩), (1, second)] }

/-- The layout `twoSquares zeroPadding (100, 0)` without the position of its second image. -/
def oneSquarePlaced : ImageLayout :=
  { twoSquares zeroPadding ⟨F64.num 100, F64.num 0⟩ with
    positions := [(0, ⟨F64.num 0, F64.num 0⟩)] }

/-- A heap holding the layout `twoSquares zeroPadding (100, 0)` at address 0. -/
def sampleHeap : Heap :=
  { dimsMaps := [(twoSquares zeroPadding ⟨F64.num 100, F64.num 0⟩).dimensions,
      (twoSquares zeroPadding ⟨F64.num 100, F64.num 0⟩).positions]
    geomMaps := [(twoSquares zeroPadding ⟨F64.num 100, F64.num 0⟩).scaling,
      (twoSquares zeroPadding ⟨F64.num 100, F64.num 0⟩).cropping]
    data := [{ size := NewDims F64.zero F64.zero
               parameters := (twoSquares zeroPadding ⟨F64.num 100, F64.num 0⟩).parameters
               images := [0, 1]
               imageInfo := [(0, squareInfo 0), (1, squareInfo 1)]
               dimensions := 0, scaling := 0, cropping := 1, positions := 1 }] }

/-- Calls that move, rescale and clear a layout. -/
def sampleCalls : List LayoutCall :=
  [LayoutCall.SetPosition 1 ⟨F64.num 50, F64.num 50⟩, LayoutCall.SetScaling 0 fitGeometry,
   LayoutCall.SetCropping 1 sizedCropGeometry, LayoutCall.SetCanvasSize ⟨F64.num 7, F64.num 7⟩,
   LayoutCall.ClearPositions, LayoutCall.ClearDimensions]

/-! ## More float64 functions -/

/-- Go `math.Abs`. -/
def F64.abs : F64 → F64
  | F64.nan => F64.nan
  | F64.ninf => F64.pinf
  | F64.pinf => F64.pinf
  | F64.num a => F64.num |a|

/-- Go `math.Round`: the nearest integer, halves away from zero. -/
def F64.round : F64 → F64
  | F64.num a => if 0 ≤ a then F64.num ⌊a + 1 / 2⌋ else F64.num (-⌊-a + 1 / 2⌋)
  | v => v

/-- Go `x != y` on float64: true as soon as one side is NaN. -/
def F64.fne (x y : F64) : Bool := !F64.feq x y

/-- Gets the coordinate in a `Dims` object indicated by the parameter: X if even, Y if odd. -/
def Dims.Dim (d : Dims) (i : Int) : F64 :=
  if i % 2 = 0 then d.x else d.y

/-- Sets the coordinate in a `Dims` object indicated by the parameter: X if even, Y if odd. -/
def Dims.SetDim (d : Dims) (i : Int) (val : F64) : Dims :=
  if i % 2 = 0 then { d with x := val } else { d with y := val }

/-- Go `a != b` on two `Dims` structs: some field differs under float64 `!=`. -/
def Dims.ne (a b : Dims) : Bool := F64.fne a.x b.x || F64.fne a.y b.y

/-! ## Sorting -/

/-- One step of Go's `insertionSort`: the element `x`, placed after the sorted elements
(given last first in `rev`), is swapped toward the front while it is less than the element
before it. -/
def insertionStep {α : Type} (less : α → α → Bool) (x : α) : List α → List α
  | [] => [x]
  | y :: rev => if less x y then y :: insertionStep less x rev else x :: y :: rev

/-- `IISBy.Sort`, that is `sort.Sort` with the comparator `less`: on a slice of at most 12
elements `sort.Sort` runs exactly this insertion sort (Go 1.19 and later; on at most 6
elements in every version); on a longer slice it returns some other arrangement ordered by
`less`. -/
def IISBy_Sort {α : Type} (less : α → α → Bool) (ids : List α) : List α :=
  (ids.foldl (fun rev x => insertionStep less x rev) []).reverse

/-! ## Random placement -/

/-- Go `rand.Intn(n)` when the generator delivers the raw value `r`: a value in `[0, n)`;
`none` is the panic for `n ≤ 0`. -/
def Intn (n : Int) (r : Nat) : Option Int :=
  if n ≤ 0 then none else some ((r : Int) % n)

/-- One random position for `img` on a canvas of size `maxDims`; `rnd k` and `rnd (k + 1)`
are the raw values the generator delivers.  The result is the layout with the position
stored, the collision witness, and the index of the next raw value. -/
def oneImageTry (imageLayout : ImageLayout) (img : ImageIdentifier) (maxDims : Dims)
    (rnd : Nat → Nat) (k : Nat) : Option (ImageLayout × Option ImageIdentifier × Nat) :=
  let maxX := maxDims.X
  let maxY := maxDims.Y
  match Intn (F64.toInt (F64.add
      (F64.max (F64.num 1) (F64.sub (F64.sub maxX (imageLayout.DimensionsOf img).X)
        (F64.mul (F64.num 2) (Padding imageLayout img).X)))
      (Padding imageLayout img).X)) (rnd k) with
  | none => none
  | some posX =>
    match Intn (F64.toInt (F64.add
        (F64.max (F64.num 1) (F64.sub (F64.sub maxY (imageLayout.DimensionsOf img).Y)
          (F64.mul (F64.num 2) (Padding imageLayout img).Y)))
        (Padding imageLayout img).Y)) (rnd (k + 1)) with
    | none => none
    | some posY =>
      let positionToTry := NewDims (F64.ofInt posX) (F64.ofInt posY)
      let r := imageLayout.SetPosition img positionToTry
      some (r.1, r.2, k + 2)

/-- The inner loop of `oneCanvasTry` for one image, with `left` passes to go
(`Random_MaxTriesPerImage - i + 1`): the flag tells whether the loop ended on a position
without collision (`i` did not exceed the maximum). -/
def oneCanvasTry_image (img : ImageIdentifier) (maxDims : Dims) (rnd : Nat → Nat) :
    Nat → ImageLayout → Nat → Option (ImageLayout × Bool × Nat)
  | 0, imageLayout, k => some (imageLayout, false, k)
  | left + 1, imageLayout, k =>
    match oneImageTry imageLayout img maxDims rnd k with
    | none => none
    | some (imageLayout1, positioned, k1) =>
      if positioned.isNone then some (imageLayout1, true, k1)
      else oneCanvasTry_image img maxDims rnd left imageLayout1 k1

/-- Tries to place every image of `imagesInOrder` on the canvas, each within
`Random_MaxTriesPerImage` tries. -/
def oneCanvasTry (maxDims : Dims) (rnd : Nat → Nat) :
    List ImageIdentifier → ImageLayout → Nat → Option (ImageLayout × Bool × Nat)
  | [], imageLayout, k => some (imageLayout, true, k)
  | img :: rest, imageLayout, k =>
    match oneCanvasTry_image img maxDims rnd
        imageLayout.parameters.others.Random_MaxTriesPerImage.toNat imageLayout k with
    | none => none
    | some (imageLayout1, placed, k1) =>
      if placed then oneCanvasTry maxDims rnd rest imageLayout1 k1
      else some (imageLayout1, false, k1)

/-- The loop of `calculatePositions_Random_inner`; `fuel` bounds the number of passes
(`none` when it runs out, or on a panic). -/
def calculatePositions_Random_loop (imagesInOrder : List ImageIdentifier) (maxDims : Dims)
    (rnd : Nat → Nat) : Nat → ImageLayout → Int → Nat → Option (ImageLayout × Int × Nat)
  | 0, _, _, _ => none
  | fuel + 1, imageLayout, tries, k =>
    if tries < imageLayout.parameters.others.Random_MaxLayoutTries ∧
        imageLayout.PositionedImageCount < imageLayout.TotalImageCount then
      match oneCanvasTry maxDims rnd imagesInOrder imageLayout k with
      | none => none
      | some (imageLayout1, success, k1) =>
        if !success then
          calculatePositions_Random_loop imagesInOrder maxDims rnd fuel
            imageLayout1.ClearPositions (tries + 1) k1
        else calculatePositions_Random_loop imagesInOrder maxDims rnd fuel imageLayout1 tries k1
    else some (imageLayout, tries, k)

/-- Places the images at random on a canvas of size `maxDims`.  The result is the layout
found (`none` for the nil layout) and the index of the next raw random value; the outer
`none` is a panic, or the loop outliving `fuel` passes. -/
def calculatePositions_Random_inner (images : ImageLayout) (maxDims : Dims) (rnd : Nat → Nat)
    (k : Nat) (fuel : Nat) : Option (Option ImageLayout × Nat) :=
  let imageLayout := images.Duplicate
  let imageLayout := imageLayout.SetCanvasSize maxDims
  match imageLayout.Images true with
  | none => none
  | some imagesInOrder =>
    let imagesInOrder := IISBy_Sort
      (fun lhs rhs =>
        F64.lt (F64.mul (imageLayout.DimensionsOf rhs).X (imageLayout.DimensionsOf rhs).Y)
          (F64.mul (imageLayout.DimensionsOf lhs).X (imageLayout.DimensionsOf lhs).Y))
      imagesInOrder
    match calculatePositions_Random_loop imagesInOrder maxDims rnd fuel imageLayout 0 k with
    | none => none
    | some (imageLayout1, tries, k1) =>
      if tries = imageLayout1.parameters.others.Random_MaxLayoutTries then some (none, k1)
      else some (some imageLayout1, k1)

/-! ## Balancer -/

/-- The imbalance record of one image; a pointer to an image is the image it points to. -/
structure imbalance where
  i : F64
  minBoundImage : Option ImageIdentifier
  maxBoundImage : Option ImageIdentifier
  minBound : F64
  maxBound : F64
deriving DecidableEq, Repr

/-- Go's `new(imbalance)`. -/
def imbalance.zeroValue : imbalance :=
  { i := F64.zero, minBoundImage := none, maxBoundImage := none, minBound := F64.zero,
    maxBound := F64.zero }

/-- The type `map[ImageIdentifier]*imbalance`. -/
abbrev imbalances := IdMap imbalance

/-- The body of the loop of `getImbalance` for the neighbour `j`.  The pointers stored are
`&j`, the address of the loop variable of this pass of the loop, which holds `j` (every pass
has a loop variable of its own). -/
def getImbalance_step (iLay : ImageLayout) (i : ImageIdentifier) (dimIndex : Int)
    (e : imbalance) (j : ImageIdentifier) : imbalance :=
  if i = j then e
  else
    let iDim := (iLay.PositionOf i).Dim dimIndex
    let jDim := (iLay.PositionOf j).Dim dimIndex
    let ov := Overlap iLay i j
    let oDim := if dimIndex = 0 then ov.X else ov.Y
    let oOpp := if dimIndex = 0 then ov.Y else ov.X
    if F64.ge oOpp F64.zero && F64.le oDim F64.zero then
      if F64.ge iDim jDim && F64.gt (F64.add iDim oDim) e.minBound then
        { e with minBoundImage := some j, minBound := F64.add iDim oDim }
      else if F64.le iDim jDim && F64.lt (F64.sub iDim oDim) e.maxBound then
        { e with maxBoundImage := some j, maxBound := F64.sub iDim oDim }
      else e
    else e

/-- The record that `getImbalance` leaves in `imb[i]`, from the record `e` found there. -/
def imbalanceOf (iLay : ImageLayout) (i : ImageIdentifier) (dimIndex : Int) (e : imbalance) :
    imbalance :=
  let iDim := (iLay.PositionOf i).Dim dimIndex
  let e := { e with
    minBound := F64.zero
    maxBound := F64.sub (iLay.CanvasSize.Dim dimIndex) ((iLay.DimensionsOf i).Dim dimIndex) }
  let e := iLay.images.foldl (getImbalance_step iLay i dimIndex) e
  { e with i := F64.sub (F64.add e.minBound (F64.div (F64.sub e.maxBound e.minBound) (F64.num 2))) iDim }

/-- Recomputes the imbalance of image `i` along the axis `dimIndex`; `none` is the nil
dereference when `imb` has no record for `i`. -/
def getImbalance (iLay : ImageLayout) (i : ImageIdentifier) (dimIndex : Int) (imb : imbalances) :
    Option imbalances :=
  match List.lookup i imb with
  | none => none
  | some e => some (imb.set i (imbalanceOf iLay i dimIndex e))

/-- Recomputes the imbalance of every image. -/
def getImbalances (iLay : ImageLayout) (dimIndex : Int) (imb : imbalances) : Option imbalances :=
  iLay.images.foldl
    (fun acc i =>
      match acc with
      | none => none
      | some imb => getImbalance iLay i dimIndex imb)
    (some imb)

/-- Recomputes the imbalance of the image just moved and of its lower neighbour (read twice:
the source reads `minBoundImage` for both neighbours). -/
def getNeighboringImbalances (iLay : ImageLayout) (lastBalanced : ImageIdentifier)
    (dimIndex : Int) (imb : imbalances) : Option imbalances :=
  match getImbalance iLay lastBalanced dimIndex imb with
  | none => none
  | some imb1 =>
    let step := fun (imb : imbalances) =>
      match (imb.get imbalance.zeroValue lastBalanced).minBoundImage with
      | some minBI => getImbalance iLay minBI dimIndex imb
      | none => some imb
    match step imb1 with
    | none => none
    | some imb2 => step imb2

/-- How a run of the balancer ends: normally with a value, on the fatal exit after a move
of `img` that collides with `collidedWith`, on a run-time panic, or (in this embedding) on
a loop that outlives the bound put on its passes. -/
inductive BalanceResult (α : Type) where
  | ok (a : α)
  | collision (img collidedWith : ImageIdentifier)
  | panic
  | outOfFuel
deriving DecidableEq, Repr

/-- The inner loop of `Balance` along one axis: `i` is the image moved by the pass before
(`none` for the nil pointer of the first pass), `iterations` counts the moves; `fuel`
bounds the number of passes. -/
def Balance_axis (dimIndex : Int) :
    Nat → ImageLayout → imbalances → List ImageIdentifier → Option ImageIdentifier → Int →
      BalanceResult (ImageLayout × imbalances × List ImageIdentifier × Int)
  | 0, _, _, _, _, _ => BalanceResult.outOfFuel
  | fuel + 1, iLay, imb, imagesInOrder, i, iterations =>
    match (match i with
      | none => getImbalances iLay dimIndex imb
      | some i => getNeighboringImbalances iLay i dimIndex imb) with
    | none => BalanceResult.panic
    | some imb =>
      if imagesInOrder.all (fun id => imb.has id) then
        let imagesInOrder := IISBy_Sort
          (fun lhs rhs =>
            F64.lt (F64.abs (imb.get imbalance.zeroValue rhs).i)
              (F64.abs (imb.get imbalance.zeroValue lhs).i))
          imagesInOrder
        match imagesInOrder with
        | [] => BalanceResult.panic
        | i :: _ =>
          let gap := F64.sub (imb.get imbalance.zeroValue i).maxBound
            (imb.get imbalance.zeroValue i).minBound
          let neededImbalance :=
            F64.mul iLay.parameters.others.Balancer_BalanceToleranceFactor gap
          if F64.le (F64.abs (imb.get imbalance.zeroValue i).i) neededImbalance then
            BalanceResult.ok (iLay, imb, imagesInOrder, iterations)
          else
            let pos := iLay.PositionOf i
            let pos := pos.SetDim dimIndex
              (F64.add (pos.Dim dimIndex) (imb.get imbalance.zeroValue i).i)
            let r := iLay.SetPosition i pos
            match r.2 with
            | some collidedWith => BalanceResult.collision i collidedWith
            | none => Balance_axis dimIndex fuel r.1 imb imagesInOrder (some i) (iterations + 1)
      else BalanceResult.panic

/-- The outer loop of `Balance`, with `left` rounds to go.  `passes` lists the rounds
completed so far, each with its axis and its number of moves (what the progress monitor is
told at the end of a round). -/
def Balance_rounds (fuel : Nat) :
    Nat → Int → ImageLayout → imbalances → List ImageIdentifier → List (Int × Int) →
      BalanceResult (ImageLayout × List (Int × Int))
  | 0, _, iLay, _, _, passes => BalanceResult.ok (iLay, passes)
  | left + 1, dimIndex, iLay, imb, imagesInOrder, passes =>
    match Balance_axis dimIndex fuel iLay imb imagesInOrder none 0 with
    | BalanceResult.collision img collidedWith => BalanceResult.collision img collidedWith
    | BalanceResult.panic => BalanceResult.panic
    | BalanceResult.outOfFuel => BalanceResult.outOfFuel
    | BalanceResult.ok (iLay, imb, imagesInOrder, iterations) =>
      let passes := passes ++ [(dimIndex, iterations)]
      let dimIndex := if dimIndex = 0 then 1 else 0
      if iterations = 0 then BalanceResult.ok (iLay, passes)
      else Balance_rounds fuel left dimIndex iLay imb imagesInOrder passes

/-- A run of `Balance`: the layout it returns and the rounds it went through, or the way it
stops otherwise. -/
def Balance_run (iLay : ImageLayout) (fuel : Nat) :
    BalanceResult (ImageLayout × List (Int × Int)) :=
  let imb : imbalances := iLay.images.foldl (fun imb img => imb.set img imbalance.zeroValue) []
  match iLay.Images true with
  | none => BalanceResult.panic
  | some imagesInOrder =>
    Balance_rounds fuel (2 * iLay.parameters.others.Balancer_MaxBalanceIterations).toNat 0 iLay
      imb imagesInOrder []

/-- Runs the iterative balancing on a layout (`none`: it does not return normally, or an
inner loop outlives `fuel` passes). -/
def Balance (iLay : ImageLayout) (fuel : Nat) : Option ImageLayout :=
  match Balance_run iLay fuel with
  | BalanceResult.ok r => some r.1
  | _ => none

/-- A 10 by 10 image. -/
def smallInfo (id : ImageIdentifier) : ImageInfo :=
  { imageId := id, fileName := "t.png".toList, dimensions := ⟨F64.num 10, F64.num 10⟩ }

/-- Two 10 by 10 images on a 100 by 100 canvas at (0,0) and (0,50), zero padding, the
default balance settings. -/
def balanceScenario : ImageLayout :=
  { size := ⟨F64.num 100, F64.num 100⟩
    parameters := { defaultParameters with padding := zeroPadding }
    images := [0, 1]
    imageInfo := [(0, smallInfo 0), (1, smallInfo 1)]
    dimensions := [(0, ⟨F64.num 10, F64.num 10⟩), (1, ⟨F64.num 10, F64.num 10⟩)]
    scaling := [(0, EmptyGeometry), (1, EmptyGeometry)]
    cropping := [(0, EmptyGeometry), (1, EmptyGeometry)]
    positions := [(0, ⟨F64.num 0, F64.num 0⟩), (1, ⟨F64.num 0, F64.num 50⟩)] }

/-! ## The canvas search of the random placement -/

/-- The smallest and the largest side among the images of the layout. -/
def getDimensionRange (imageLayout : ImageLayout) : F64 × F64 :=
  imageLayout.images.foldl
    (fun (acc : F64 × F64) img =>
      let d := imageLayout.DimensionsOf img
      let minDim := if F64.lt (F64.min d.X d.Y) acc.1 then F64.min d.X d.Y else acc.1
      let maxDim := if F64.gt (F64.max d.X d.Y) acc.2 then F64.max d.X d.Y else acc.2
      (minDim, maxDim))
    (F64.pinf, F64.ninf)

/-- Gets the target aspect ratio for the final output image, in the form of a float and a
boolean (the flag `preserveAspectRatio` of the geometry). -/
def Parameters.AspectRatio (p : Parameters) : F64 × Bool :=
  let geom := p.aspectRatio
  let ratio :=
    if F64.feq geom.height.N F64.zero || geom.height.N.isNaN then F64.zero
    else F64.div geom.width.N geom.height.N
  (ratio, geom.preserveAspectRatio)

/-- The aspect ratio of the parameters, or the mean aspect ratio of the images when the
parameters give none. -/
def autoAspectRatio (imageLayout : ImageLayout) : F64 :=
  let aspectRatio := imageLayout.parameters.AspectRatio.1
  if F64.feq aspectRatio F64.zero then
    let arSum := imageLayout.images.foldl
      (fun arSum img =>
        F64.add arSum (F64.div (imageLayout.DimensionsOf img).X (imageLayout.DimensionsOf img).Y))
      F64.zero
    F64.div arSum (F64.ofInt imageLayout.TotalImageCount)
  else aspectRatio

/-- The range `(minX, maxX)` of canvas widths that `calculatePositions_Random` searches. -/
def calculatePositions_Random_range (parameters : Parameters)
    (targetWidth maxWidthP aspectRatio : F64) : F64 × F64 :=
  let minX :=
    if Dims.ne parameters.minCanvasSize (NewDims F64.zero F64.zero) then
      F64.max parameters.minCanvasSize.X (F64.div parameters.minCanvasSize.Y aspectRatio)
    else targetWidth
  let maxX :=
    if Dims.ne parameters.maxCanvasSize (NewDims F64.zero F64.zero) then
      if F64.feq parameters.maxCanvasSize.X F64.zero then
        F64.div parameters.maxCanvasSize.Y aspectRatio
      else F64.min parameters.maxCanvasSize.X (F64.div parameters.maxCanvasSize.Y aspectRatio)
    else maxWidthP
  (minX, maxX)

/-- The bisection loop of `calculatePositions_Random` between a width that failed and one
that succeeded. -/
def calculatePositions_Random_bisect (imageLayout : ImageLayout)
    (aspectRatio targetWidth : F64) (rnd : Nat → Nat) (fuel : Nat) :
    Nat → F64 → F64 → ImageLayout → Nat → Option (ImageLayout × Nat)
  | 0, _, _, _, _ => none
  | left + 1, minX, maxX, bestSoFar, k =>
    let midpoint := F64.round (F64.add minX (F64.div (F64.sub maxX minX) (F64.num 2)))
    if F64.feq midpoint minX || F64.feq midpoint maxX ||
        F64.lt (F64.div (F64.sub maxX minX) targetWidth)
          imageLayout.parameters.others.Random_SizeToleranceFactor then
      some (bestSoFar, k)
    else
      match calculatePositions_Random_inner imageLayout
          (NewDims midpoint (F64.div midpoint aspectRatio)) rnd k fuel with
      | none => none
      | some (none, k1) =>
        calculatePositions_Random_bisect imageLayout aspectRatio targetWidth rnd fuel left
          midpoint maxX bestSoFar k1
      | some (some layout, k1) =>
        calculatePositions_Random_bisect imageLayout aspectRatio targetWidth rnd fuel left
          minX midpoint (layout.SetCanvasSize (NewDims midpoint (F64.div midpoint aspectRatio)))
          k1

/-- The random position calculator.  `sqrtCount` stands for
`math.Sqrt(float64(imageLayout.TotalImageCount()))`, which exact arithmetic cannot compute;
`rnd` is the sequence of raw values of the generator (the seed is not modelled); `fuel`
bounds every loop.  The result is the layout, `none` for the nil layout; the outer `none`
is a panic, the fatal exit of `Balance`, or a loop outliving `fuel`. -/
def calculatePositions_Random (imageLayout : ImageLayout) (sqrtCount : F64) (rnd : Nat → Nat)
    (fuel : Nat) : Option (Option ImageLayout) :=
  let parameters := imageLayout.parameters
  let range := getDimensionRange imageLayout
  let minDim := range.1
  let maxDim := range.2
  let targetWidth := F64.max maxDim (F64.mul sqrtCount minDim)
  let maxWidthP := F64.mul (F64.mul (F64.num 2) sqrtCount) maxDim
  let aspectRatio := autoAspectRatio imageLayout
  let minX := (calculatePositions_Random_range parameters targetWidth maxWidthP aspectRatio).1
  let maxX := (calculatePositions_Random_range parameters targetWidth maxWidthP aspectRatio).2
  let finish := fun (bestSoFar : ImageLayout) =>
    if 0 < parameters.others.Balancer_MaxBalanceIterations then
      (Balance bestSoFar fuel).map some
    else some (some bestSoFar)
  match calculatePositions_Random_inner imageLayout (NewDims minX (F64.div minX aspectRatio))
      rnd 0 fuel with
  | none => none
  | some (some bestSoFar, _) => finish bestSoFar
  | some (none, k1) =>
    match calculatePositions_Random_inner imageLayout (NewDims maxX (F64.div maxX aspectRatio))
        rnd k1 fuel with
    | none => none
    | some (none, _) => some none
    | some (some bestSoFar, k2) =>
      match calculatePositions_Random_bisect imageLayout aspectRatio targetWidth rnd fuel fuel
          minX maxX bestSoFar k2 with
      | none => none
      | some (bestSoFar, _) => finish bestSoFar

/-- One 100 by 100 image, zero padding, and the canvas limited to `maxCanvas`, `minCanvas`. -/
def oneSquare (minCanvas maxCanvas : Dims) (others : CustomParameters) : ImageLayout :=
  { size := NewDims F64.zero F64.zero
    parameters :=
      { aspectRatio := EmptyGeometry, maxCanvasSize := maxCanvas, minCanvasSize := minCanvas,
        padding := zeroPadding, others := others }
    images := [0]
    imageInfo := [(0, squareInfo 0)]
    dimensions := [(0, ⟨F64.num 100, F64.num 100⟩)]
    scaling := [(0, EmptyGeometry)]
    cropping := [(0, EmptyGeometry)]
    positions := [] }

/-- No two positioned images of the layout overlap: for no pair of distinct positioned
images is the overlap strictly positive on both axes. -/
def NoOverlap (l : ImageLayout) : Prop :=
  ∀ i j, l.positions.has i = true → l.positions.has j = true → i ≠ j →
    ¬ (F64.gt (Overlap l i j).x F64.zero = true ∧ F64.gt (Overlap l i j).y F64.zero = true)

/-- No two positioned images other than `ex` overlap. -/
def NoOverlapExcept (l : ImageLayout) (ex : ImageIdentifier) : Prop :=
  ∀ i j, l.positions.has i = true → l.positions.has j = true → i ≠ j → i ≠ ex → j ≠ ex →
    ¬ (F64.gt (Overlap l i j).x F64.zero = true ∧ F64.gt (Overlap l i j).y F64.zero = true)

/-- The two layouts differ in their positions at most. -/
def SameButPositions (l l' : ImageLayout) : Prop :=
  l'.size = l.size ∧ l'.parameters = l.parameters ∧ l'.images = l.images ∧
    l'.imageInfo = l.imageInfo ∧ l'.dimensions = l.dimensions ∧ l'.scaling = l.scaling ∧
    l'.cropping = l.cropping

/-- An imbalance within the tolerance: `|i| ≤ tolerance · (maxBound - minBound)`. -/
def imbalance.Within (e : imbalance) (tolerance : F64) : Prop :=
  F64.le (F64.abs e.i) (F64.mul tolerance (F64.sub e.maxBound e.minBound)) = true

/-- One 10 by 10 image in the middle of a 100 by 100 canvas. -/
def centeredScenario : ImageLayout :=
  { size := ⟨F64.num 100, F64.num 100⟩
    parameters := { defaultParameters with padding := zeroPadding }
    images := [0]
    imageInfo := [(0, smallInfo 0)]
    dimensions := [(0, ⟨F64.num 10, F64.num 10⟩)]
    scaling := [(0, EmptyGeometry)]
    cropping := [(0, EmptyGeometry)]
    positions := [(0, ⟨F64.num 45, F64.num 45⟩)] }

/-- The `ImageInfo` of an image of the given size. -/
def sizedInfoOf (id : ImageIdentifier) (w h : ℚ) : ImageInfo :=
  { imageId := id, fileName := "t.png".toList, dimensions := ⟨F64.num w, F64.num h⟩ }

/-- Four images on a 20 by 4 canvas, zero padding, the default balance settings: a 3 by 1
image at (3,1), a 2 by 2 image at (2,2), a 5 by 1 image at (1,0) and a 1 by 3 image at
(18,1); all inside the canvas, no two overlapping. -/
def collisionScenario : ImageLayout :=
  { size := ⟨F64.num 20, F64.num 4⟩
    parameters := { defaultParameters with padding := zeroPadding }
    images := [0, 1, 2, 3]
    imageInfo := [(0, sizedInfoOf 0 3 1), (1, sizedInfoOf 1 2 2), (2, sizedInfoOf 2 5 1),
      (3, sizedInfoOf 3 1 3)]
    dimensions := [(0, ⟨F64.num 3, F64.num 1⟩), (1, ⟨F64.num 2, F64.num 2⟩),
      (2, ⟨F64.num 5, F64.num 1⟩), (3, ⟨F64.num 1, F64.num 3⟩)]
    scaling := [(0, EmptyGeometry), (1, EmptyGeometry), (2, EmptyGeometry), (3, EmptyGeometry)]
    cropping := [(0, EmptyGeometry), (1, EmptyGeometry), (2, EmptyGeometry), (3, EmptyGeometry)]
    positions := [(0, ⟨F64.num 3, F64.num 1⟩), (1, ⟨F64.num 2, F64.num 2⟩),
      (2, ⟨F64.num 1, F64.num 0⟩), (3, ⟨F64.num 18, F64.num 1⟩)] }

/-- Two 10 by 10 images side by side on a 100 by 100 canvas, at (0,0) and (50,0), zero
padding, the default balance settings. -/
def sideBySide : ImageLayout :=
  { balanceScenario with
    positions := [(0, ⟨F64.num 0, F64.num 0⟩), (1, ⟨F64.num 50, F64.num 0⟩)] }

/-- Two 10 by 10 images one above the other on a 100 by 100 canvas, at (45, 80/3) and
(45, 190/3): each in the middle of its free space along both axes. -/
def balancedPair : ImageLayout :=
  { balanceScenario with
    positions := [(0, ⟨F64.num 45, F64.num (80 / 3)⟩), (1, ⟨F64.num 45, F64.num (190 / 3)⟩)] }

/-- One 10 by 10 image at (45,0) on a 100 by 100 canvas: in the middle along x, at the
edge along y. -/
def offCentreScenario : ImageLayout :=
  { centeredScenario with positions := [(0, ⟨F64.num 45, F64.num 0⟩)] }

/-! ## Uniform dimension initializer -/

/-- The loop of `InitializeDimensions` that finds the smallest intrinsic width and height
(each only when its axis is selected); `none` is the panic on an image without
`ImageInfo`. -/
def InitializeDimensions_minima (imageLayout : ImageLayout)
    (scalingToMinO : DimensionInitializer_Uniform_ScaleToMinParameter) : Option (F64 × F64) :=
  imageLayout.images.foldl
    (fun acc img =>
      match acc with
      | none => none
      | some (minWidth, minHeight) =>
        if scalingToMinO.x || scalingToMinO.y then
          match imageLayout.ImageInfoOf img with
          | none => none
          | some info =>
            some
              (if scalingToMinO.x then F64.min minWidth info.dimensions.x else minWidth,
               if scalingToMinO.y then F64.min minHeight info.dimensions.y else minHeight)
        else some (minWidth, minHeight))
    (some (F64.pinf, F64.pinf))

/-- The scaling geometry that `InitializeDimensions` applies to every image. -/
def InitializeDimensions_scaling (imageLayout : ImageLayout) : Option Geometry :=
  let scaling := imageLayout.parameters.others.Uniform_Scaling
  match imageLayout.parameters.others.Uniform_ScaleToMin with
  | none => some scaling
  | some scalingToMinO =>
    match InitializeDimensions_minima imageLayout scalingToMinO with
    | none => none
    | some (minWidth, minHeight) =>
      let scaling :=
        if F64.lt minWidth F64.pinf then { scaling with width := ⟨minWidth, Pixels⟩ } else scaling
      let scaling :=
        if F64.lt minHeight F64.pinf then { scaling with height := ⟨minHeight, Pixels⟩ }
        else scaling
      some scaling

/-- `DimensionInitializer_Uniform.InitializeDimensions`: the uniform cropping and scaling are
set on every image of the list, in order (`none`: a panic). -/
def InitializeDimensions (imageLayout : ImageLayout) : Option ImageLayout :=
  let cropping := imageLayout.parameters.others.Uniform_Cropping
  match InitializeDimensions_scaling imageLayout with
  | none => none
  | some scaling =>
    imageLayout.images.foldl
      (fun acc img =>
        match acc with
        | none => none
        | some il =>
          match il.SetCropping img cropping with
          | none => none
          | some r => (r.1.SetScaling img scaling).map Prod.fst)
      (some imageLayout)

/-- Every image of the list has metadata with finite positive dimensions. -/
def ImageLayout.PositiveInfo (l : ImageLayout) : Prop :=
  ∀ img ∈ l.images, ∃ info w h, l.ImageInfoOf img = some info ∧
    info.dimensions = ⟨F64.num w, F64.num h⟩ ∧ 0 < w ∧ 0 < h

/-- A 100 by 50 image and a 40 by 40 image as read in, with `-scale-to-min` set to
`scaleToMin`. -/
def uniformScenario (scaleToMin : DimensionInitializer_Uniform_ScaleToMinParameter) :
    ImageLayout :=
  { sampleLayout with
    parameters := { defaultParameters with others := { Uniform_ScaleToMin := some scaleToMin } }
    dimensions := [(0, sampleInfo0.dimensions), (1, sampleInfo1.dimensions)]
    scaling := []
    cropping := [] }

/-! ## Binary logarithms -/

/-- A float64 obtained from Go `math.Log2`, held by the float64 `pow` whose binary logarithm
it is: `pow` is a non-negative number (`0` for the logarithm `-Inf`), `+Inf`, or NaN.  The
difference of two logarithms is the logarithm of a quotient, so the skews of the tiling are
held exactly. -/
structure Log2 where
  pow : F64
deriving DecidableEq, Repr

/-- Go `math.Log2`: NaN below zero, `-Inf` at zero. -/
def math_Log2 : F64 → Log2
  | F64.num a => if a < 0 then ⟨F64.nan⟩ else ⟨F64.num a⟩
  | F64.pinf => ⟨F64.pinf⟩
  | _ => ⟨F64.nan⟩

namespace Log2

/-- The float64 constant `0` (the logarithm of one). -/
def zero : Log2 := ⟨F64.num 1⟩

/-- Go `math.Inf(0)`. -/
def inf : Log2 := ⟨F64.pinf⟩

/-- Go `x - y` on two logarithms. -/
def sub (x y : Log2) : Log2 := ⟨F64.div x.pow y.pow⟩

/-- Go `x != y` on two logarithms. -/
def fne (x y : Log2) : Bool := F64.fne x.pow y.pow

/-- Go `x < y` on two logarithms. -/
def lt (x y : Log2) : Bool := F64.lt x.pow y.pow

/-- Go `x > 0` on a logarithm. -/
def gtZero (x : Log2) : Bool := F64.gt x.pow (F64.num 1)

/-- Go `math.Abs` on a logarithm: the logarithm of the reciprocal below one. -/
def abs (x : Log2) : Log2 :=
  match x.pow with
  | F64.num a => if a ≤ 0 then ⟨F64.pinf⟩ else if a < 1 then ⟨F64.num (1 / a)⟩ else ⟨F64.num a⟩
  | v => ⟨v⟩

end Log2

/-- Go `math.Floor(math.Log2(x))`. -/
def F64.floorLog2 : F64 → F64
  | F64.num a => if a < 0 then F64.nan else if a = 0 then F64.ninf else F64.num (CollageCreator.floorLog2 a)
  | F64.pinf => F64.pinf
  | _ => F64.nan

/-- Go `math.Exp2` on a whole number or a special value (the tiling passes the result of
`math.Floor`, less five). -/
def F64.exp2 : F64 → F64
  | F64.num a => F64.num ((2 : ℚ) ^ ⌊a⌋)
  | F64.pinf => F64.pinf
  | F64.ninf => F64.num 0
  | F64.nan => F64.nan

/-! ## Tiling in order -/

/-- The outcome of a run: a result, a stop of the program (a run-time panic or `log.Fatal`),
or the bound on the number of loop passes reached. -/
inductive TilingRun (α : Type) where
  | done (a : α)
  | crash
  | outOfFuel
deriving DecidableEq, Repr

/-- The badness of one tiling. -/
structure tileInOrder_Badness where
  emptySpace : F64
  scaledownSum : F64
  aspectRatioSkew : Log2
deriving DecidableEq, Repr

/-- The comparator of badnesses with its two flags. -/
structure badnessComparator_LT_impl where
  hasAspectRatioF : Bool
  prioritizeAspectRatioF : Bool
deriving DecidableEq, Repr

namespace badnessComparator_LT_impl

/-- Whether the parameters give an aspect ratio. -/
def hasAspectRatio (bci : badnessComparator_LT_impl) : Bool := bci.hasAspectRatioF

/-- Whether the aspect ratio is compared first. -/
def prioritizeAspectRatio (bci : badnessComparator_LT_impl) : Bool := bci.prioritizeAspectRatioF

/-- Whether badness `b1` is better than badness `b2`. -/
def badnessLT (bci : badnessComparator_LT_impl) (b1 b2 : tileInOrder_Badness) : Bool :=
  if bci.prioritizeAspectRatio then
    if Log2.fne b1.aspectRatioSkew b2.aspectRatioSkew then
      Log2.lt b1.aspectRatioSkew.abs b2.aspectRatioSkew.abs
    else if F64.fne b1.emptySpace b2.emptySpace then F64.lt b1.emptySpace b2.emptySpace
    else F64.lt b1.scaledownSum b2.scaledownSum
  else
    if F64.fne b1.emptySpace b2.emptySpace then F64.lt b1.emptySpace b2.emptySpace
    else if Log2.fne b1.aspectRatioSkew b2.aspectRatioSkew then
      Log2.lt b1.aspectRatioSkew.abs b2.aspectRatioSkew.abs
    else F64.lt b1.scaledownSum b2.scaledownSum

end badnessComparator_LT_impl

/-- One line (a row or a column) of a tiling: its images, its thickness `fixedDim` and the
place `startsAt` of its first image along the line. -/
structure tileLine where
  images : List ImageIdentifier
  fixedDim : F64
  startsAt : F64
deriving DecidableEq, Repr

/-- The lines of a tiling and the sum of their thicknesses. -/
structure tileLayout where
  lines : List tileLine
  fixedDim : F64
deriving DecidableEq, Repr

/-- Appends a line to a tiling. -/
def tileLayout.append (tl : tileLayout) (line : tileLine) : tileLayout :=
  { lines := tl.lines ++ [line], fixedDim := F64.add tl.fixedDim line.fixedDim }

/-- Determines whether the padding to be maintained around the given image is in relative or
absolute units. -/
def PaddingIsRelative (iLay : ImageLayout) (_img : ImageIdentifier) : Bool :=
  let padding := iLay.Parameters.Padding
  (padding.HasWidth && decide (padding.width.U = GeometryUnits.Percent)) ||
    (padding.HasHeight && decide (padding.height.U = GeometryUnits.Percent))

/-- Parses a string into a `Geometry` object; `none` is the `log.Fatal` on an error. -/
def MustParseGeometry (arg : List Char) : Option Geometry :=
  match ParseGeometry arg with
  | (rv, none) => some rv
  | (_, some _) => none

/-- The minima, maxima and sums of the image dimensions on each axis, with twice the padding
added to every image when `withPadding` is set. -/
def getDimensionsRange (imageLayout : ImageLayout) (withPadding : Bool) : Dims × Dims × Dims :=
  let r := imageLayout.images.foldl
    (fun (acc : (F64 × F64 × F64) × (F64 × F64 × F64)) img =>
      let imgDims := imageLayout.DimensionsOf img
      let imgDims :=
        if withPadding then
          let padding := Padding imageLayout img
          NewDims (F64.add imgDims.X (F64.mul (F64.num 2) padding.X))
            (F64.add imgDims.Y (F64.mul (F64.num 2) padding.Y))
        else imgDims
      let minWidth := acc.1.1
      let maxWidth := acc.1.2.1
      let sumWidth := acc.1.2.2
      let minHeight := acc.2.1
      let maxHeight := acc.2.2.1
      let sumHeight := acc.2.2.2
      let sumWidth := F64.add sumWidth imgDims.X
      let sumHeight := F64.add sumHeight imgDims.Y
      let minWidth :=
        if F64.feq minWidth F64.zero || F64.lt imgDims.X minWidth then imgDims.X else minWidth
      let maxWidth :=
        if F64.feq maxWidth F64.zero || F64.gt imgDims.X maxWidth then imgDims.X else maxWidth
      let minHeight :=
        if F64.feq minHeight F64.zero || F64.lt imgDims.Y minHeight then imgDims.Y else minHeight
      let maxHeight :=
        if F64.feq maxHeight F64.zero || F64.gt imgDims.Y maxHeight then imgDims.Y else maxHeight
      ((minWidth, maxWidth, sumWidth), (minHeight, maxHeight, sumHeight)))
    ((F64.zero, F64.zero, F64.zero), (F64.zero, F64.zero, F64.zero))
  (NewDims r.1.1 r.2.1, NewDims r.1.2.1 r.2.2.1, NewDims r.1.2.2 r.2.2.2)

/-- The new dimensions of an image of dimensions `imgDims` in a line of thickness
`thickness`: the thickness across the line, and along the line the length that keeps the
proportions. -/
def finalizeTiling_dims (imgDims : Dims) (thickness : F64) (fixedDim varDim : Int) : Dims :=
  ((NewDims F64.zero F64.zero).SetDim fixedDim
    (F64.div (F64.mul (imgDims.Dim fixedDim) thickness) (imgDims.Dim varDim))).SetDim varDim
    thickness

/-- The body of the loop of `finalizeTiling_line`: scales one image to the thickness of the
line and places it at `nextImageDim`; the result is the layout and the next place along the
line.  `none` is the `log.Fatal` of `MustParseGeometry` or the panic of `SetScaling`. -/
def finalizeTiling_image (line : tileLine) (nextLineDim : F64) (fixedDim varDim : Int)
    (acc : Option (ImageLayout × F64)) (img : ImageIdentifier) : Option (ImageLayout × F64) :=
  match acc with
  | none => none
  | some (currentLayout, nextImageDim) =>
    let imgDims := currentLayout.DimensionsOf img
    let newImgDims := finalizeTiling_dims imgDims line.fixedDim fixedDim varDim
    match MustParseGeometry
        (sprintf_f newImgDims.X ++ ('x' :: sprintf_f newImgDims.Y) ++ ['!']) with
    | none => none
    | some newScaling =>
      match currentLayout.SetScaling img newScaling with
      | none => none
      | some (currentLayout, _) =>
        let imgPadding := Padding currentLayout img
        let pos := ((NewDims F64.zero F64.zero).SetDim fixedDim
          (F64.add nextImageDim (imgPadding.Dim fixedDim))).SetDim varDim
          (F64.add nextLineDim (imgPadding.Dim varDim))
        let currentLayout := (currentLayout.SetPosition img pos).1
        some (currentLayout,
          F64.add nextImageDim
            (F64.add (newImgDims.Dim fixedDim) (F64.mul (F64.num 2) (imgPadding.Dim fixedDim))))

/-- Scales and places the images of one line; the result is the layout and the position of
the next line.  `none` also stands for the panic of reading `line.images[0]` of an empty
line. -/
def finalizeTiling_line (imageLayout : ImageLayout) (line : tileLine) (nextLineDim : F64)
    (fixedDim varDim : Int) : Option (ImageLayout × F64) :=
  match line.images.foldl (finalizeTiling_image line nextLineDim fixedDim varDim)
      (some (imageLayout, line.startsAt)) with
  | none => none
  | some (currentLayout, _) =>
    match line.images.head? with
    | none => none
    | some first =>
      some (currentLayout,
        F64.add (F64.add nextLineDim line.fixedDim)
          (F64.mul (F64.num 2) ((Padding currentLayout first).Dim varDim)))

/-- The body of the loop of `finalizeTiling`: scales and places the images of the next
line. -/
def finalizeTiling_next (fixedDim varDim : Int) (acc : Option (ImageLayout × F64))
    (line : tileLine) : Option (ImageLayout × F64) :=
  match acc with
  | none => none
  | some (currentLayout, nextLineDim) =>
    finalizeTiling_line currentLayout line nextLineDim fixedDim varDim

/-- Scales and places the images of every line of a tiling; the result is the layout and the
position past the last line. -/
def finalizeTiling (imageLayout : ImageLayout) (tl : tileLayout) (fixedDim varDim : Int) :
    Option (ImageLayout × F64) :=
  tl.lines.foldl (finalizeTiling_next fixedDim varDim) (some (imageLayout, F64.zero))

/-- The variables of the loop of `runOneTiling`; `current` holds the images of the line
being filled, `imagesInOrder[currentLineStartIndex : i]`. -/
structure tilingState where
  current : List ImageIdentifier
  currentMinVarDim : F64
  imagesAspect : F64
  relativePaddingAspect : F64
  absolutePadding : F64
  scaledownSum : F64
  tl : tileLayout
deriving DecidableEq, Repr

/-- The sum `badness.scaledownSum` after the images of a line are added to it. -/
def runOneTiling_scaledown (currentLayout : ImageLayout) (varDim : Int) (line : tileLine)
    (scaledownSum : F64) : F64 :=
  line.images.foldl
    (fun sum jmg =>
      F64.add sum
        (F64.sub (F64.div ((currentLayout.DimensionsOf jmg).Dim varDim) line.fixedDim)
          (F64.num 1)))
    scaledownSum

/-- The width of the line being filled. -/
def tilingState.currentLineWidth (s : tilingState) : F64 :=
  F64.add (F64.mul (F64.add s.imagesAspect s.relativePaddingAspect) s.currentMinVarDim)
    s.absolutePadding

/-- The body of the first loop of `runOneTiling`: adds one image to the line being filled
and closes the line when it reaches the width `maxFixedDim`. -/
def runOneTiling_step (currentLayout : ImageLayout) (fixedDim varDim : Int) (maxFixedDim : F64)
    (s : tilingState) (img : ImageIdentifier) : tilingState :=
  let imgDims := currentLayout.DimensionsOf img
  let imgPadding := Padding currentLayout img
  let currentMinVarDim :=
    if F64.feq s.currentMinVarDim F64.zero || F64.lt (imgDims.Dim varDim) s.currentMinVarDim then
      imgDims.Dim varDim
    else s.currentMinVarDim
  let imagesAspect := F64.add s.imagesAspect (F64.div (imgDims.Dim fixedDim) (imgDims.Dim varDim))
  let relativePaddingAspect :=
    if PaddingIsRelative currentLayout img then
      F64.add s.relativePaddingAspect
        (F64.div (F64.mul (F64.num 2) (imgPadding.Dim fixedDim)) (imgDims.Dim varDim))
    else s.relativePaddingAspect
  let absolutePadding :=
    if PaddingIsRelative currentLayout img then s.absolutePadding
    else F64.add s.absolutePadding (F64.mul (F64.num 2) (imgPadding.Dim fixedDim))
  let currentLineWidth :=
    F64.add (F64.mul (F64.add imagesAspect relativePaddingAspect) currentMinVarDim) absolutePadding
  if F64.ge currentLineWidth maxFixedDim then
    let currentMinVarDim :=
      F64.div (F64.sub maxFixedDim absolutePadding) (F64.add imagesAspect relativePaddingAspect)
    let line : tileLine :=
      { images := s.current ++ [img], fixedDim := currentMinVarDim, startsAt := F64.zero }
    { current := []
      currentMinVarDim := F64.zero
      imagesAspect := F64.zero
      relativePaddingAspect := F64.zero
      absolutePadding := F64.zero
      scaledownSum := runOneTiling_scaledown currentLayout varDim line s.scaledownSum
      tl := s.tl.append line }
  else
    { current := s.current ++ [img]
      currentMinVarDim := currentMinVarDim
      imagesAspect := imagesAspect
      relativePaddingAspect := relativePaddingAspect
      absolutePadding := absolutePadding
      scaledownSum := s.scaledownSum
      tl := s.tl }

/-- The variables of `runOneTiling` before its first loop. -/
def tilingState.initial : tilingState :=
  { current := []
    currentMinVarDim := F64.zero
    imagesAspect := F64.zero
    relativePaddingAspect := F64.zero
    absolutePadding := F64.zero
    scaledownSum := F64.zero
    tl := { lines := [], fixedDim := F64.zero } }

/-- The lines of `runOneTiling` once the images left over after the last closed line are
made a line of their own, with the empty space and the sum of scale-downs of the badness. -/
def runOneTiling_lines (currentLayout : ImageLayout) (varDim : Int) (maxFixedDim : F64)
    (s : tilingState) : tileLayout × F64 × F64 :=
  if s.current ≠ [] then
    let currentLineWidth := s.currentLineWidth
    let emptySpace := F64.sub maxFixedDim currentLineWidth
    let centering := F64.div (F64.sub maxFixedDim currentLineWidth) (F64.num 2)
    let line : tileLine :=
      { images := s.current, fixedDim := s.currentMinVarDim, startsAt := centering }
    (s.tl.append line, emptySpace, runOneTiling_scaledown currentLayout varDim line s.scaledownSum)
  else (s.tl, F64.zero, s.scaledownSum)

/-- The axis along the lines for the budget `dim`: `1` (columns) when `dim.Y() > 0`. -/
def runOneTiling_fixedDim (dim : Dims) : Int := if F64.gt dim.Y F64.zero then 1 else 0

/-- The axis across the lines for the budget `dim`. -/
def runOneTiling_varDim (dim : Dims) : Int := if F64.gt dim.Y F64.zero then 0 else 1

/-- The variables of `runOneTiling` after its first loop. -/
def runOneTiling_state (imageLayout : ImageLayout) (imagesInOrder : List ImageIdentifier)
    (dim : Dims) : tilingState :=
  imagesInOrder.foldl
    (runOneTiling_step imageLayout (runOneTiling_fixedDim dim) (runOneTiling_varDim dim)
      (dim.Dim (runOneTiling_fixedDim dim)))
    tilingState.initial

/-- The lines into which `runOneTiling` tiles the images. -/
def runOneTiling_tiling (imageLayout : ImageLayout) (imagesInOrder : List ImageIdentifier)
    (dim : Dims) : tileLayout :=
  (runOneTiling_lines imageLayout (runOneTiling_varDim dim) (dim.Dim (runOneTiling_fixedDim dim))
    (runOneTiling_state imageLayout imagesInOrder dim)).1

/-- Tiles the images in the given order into lines of width `dim` (rows of width `dim.X()`,
or columns of height `dim.Y()` when that is positive) and returns the layout with its
badness; `none` is a stop of the program inside `finalizeTiling`. -/
def runOneTiling (imageLayout : ImageLayout) (imagesInOrder : List ImageIdentifier) (dim : Dims) :
    Option (ImageLayout × tileInOrder_Badness) :=
  let aspectRatio := imageLayout.Parameters.AspectRatio.1
  let fixedDim := runOneTiling_fixedDim dim
  let varDim := runOneTiling_varDim dim
  let maxFixedDim := dim.Dim fixedDim
  let s := runOneTiling_state imageLayout imagesInOrder dim
  let r := runOneTiling_lines imageLayout varDim maxFixedDim s
  match finalizeTiling imageLayout r.1 fixedDim varDim with
  | none => none
  | some (currentLayout, currentLinePosition) =>
    let canvasSize := ((NewDims F64.zero F64.zero).SetDim fixedDim maxFixedDim).SetDim varDim
      currentLinePosition
    let currentLayout := currentLayout.SetCanvasSize canvasSize
    let currentImageAspect := math_Log2 (F64.div canvasSize.X canvasSize.Y)
    some (currentLayout,
      { emptySpace := r.2.1
        scaledownSum := r.2.2
        aspectRatioSkew := Log2.sub currentImageAspect (math_Log2 aspectRatio) })

/-- The best tiling found so far: `*bestBadness` and `*bestSoFar` (`none` is the nil
interface). -/
structure tilingBest where
  bestBadness : tileInOrder_Badness
  bestSoFar : Option ImageLayout
deriving DecidableEq, Repr

/-- Runs one tiling of width `dim` on a copy of the layout and keeps it as the best one when
its canvas lies within the limits and its badness is better.  The result is `ilOut`,
`badness`, `bestBadnessChanged` and the best tiling. -/
def runTilingCheckBadness (imageLayout : ImageLayout) (imagesInOrder : List ImageIdentifier)
    (minDim maxDim : Dims) (bComp : badnessComparator_LT_impl) (best : tilingBest) (dim : F64) :
    Option (ImageLayout × tileInOrder_Badness × Bool × tilingBest) :=
  let createColumns := imageLayout.Parameters.others.TileInOrder_Columns
  let fixedDimD := if createColumns then NewDims F64.zero dim else NewDims dim F64.zero
  match runOneTiling imageLayout.Duplicate imagesInOrder fixedDimD with
  | none => none
  | some (ilOut, badness) =>
    let x := ilOut.CanvasSize.X
    let y := ilOut.CanvasSize.Y
    if F64.ge x minDim.X && F64.le x maxDim.X && F64.ge y minDim.Y && F64.le y maxDim.Y
        && bComp.badnessLT badness best.bestBadness then
      some (ilOut, badness, true, { bestBadness := badness, bestSoFar := some ilOut })
    else some (ilOut, badness, false, best)

/-- An entry of the fringe of the bisection: a width, the step it was reached with, and the
badness of its tiling. -/
structure fringeEntry where
  dim : F64
  delta : F64
  badness : tileInOrder_Badness
deriving DecidableEq, Repr

/-- Go `==` on two badnesses: every field equal as a float64. -/
def tileInOrder_Badness.eq (b1 b2 : tileInOrder_Badness) : Bool :=
  F64.feq b1.emptySpace b2.emptySpace && F64.feq b1.scaledownSum b2.scaledownSum &&
    !Log2.fne b1.aspectRatioSkew b2.aspectRatioSkew

/-- Go `==` on two fringe entries. -/
def fringeEntry.eq (f1 f2 : fringeEntry) : Bool :=
  F64.feq f1.dim f2.dim && F64.feq f1.delta f2.delta && f1.badness.eq f2.badness

/-- The comparator of fringe entries built on a comparator of badnesses. -/
structure fringeEntryComparator_LT_impl where
  bComp : badnessComparator_LT_impl
deriving DecidableEq, Repr

/-- Whether the fringe entry `f1` goes before `f2`: by badness, then by step. -/
def fringeEntryComparator_LT_impl.fringeEntryLT (fComp : fringeEntryComparator_LT_impl)
    (f1 f2 : fringeEntry) : Bool :=
  if fComp.bComp.badnessLT f1.badness f2.badness then true
  else if fComp.bComp.badnessLT f2.badness f1.badness then false
  else F64.lt f1.delta f2.delta

/-- The loop of `findFirstGreaterThan` on the bounds `min`, `max`; `none` is the panic of an
index out of range.  Every pass removes the midpoint from the range, so `fuel` passes suffice
when `fuel` is the length of the range. -/
def findFirstGreaterThan_loop (a : List fringeEntry) (newMember : fringeEntry)
    (fComp : fringeEntryComparator_LT_impl) : Nat → Int → Int → Option Int
  | 0, min, _ => some min
  | fuel + 1, min, max =>
    if min ≤ max then
      let midpoint := Int.tdiv (min + max) 2
      if midpoint < 0 then none
      else
        match a.get? midpoint.toNat with
        | none => none
        | some e =>
          if e.eq newMember then some (midpoint + 1)
          else if fComp.fringeEntryLT e newMember then
            findFirstGreaterThan_loop a newMember fComp fuel (midpoint + 1) max
          else findFirstGreaterThan_loop a newMember fComp fuel min (midpoint - 1)
    else some min

/-- The place of `newMember` among the first `length` entries of `a`, by binary search. -/
def findFirstGreaterThan (a : List fringeEntry) (length : Int) (newMember : fringeEntry)
    (fComp : fringeEntryComparator_LT_impl) : Option Int :=
  findFirstGreaterThan_loop a newMember fComp (length.toNat + 1) 0 (length - 1)

/-- The fringe: the array `badnesses` and the count `badnessesLength` of its entries in
use. -/
structure fringe where
  a : List fringeEntry
  length : Int
deriving DecidableEq, Repr

/-- Inserts `newMember` at its place among the entries in use and counts it; `none` is a
panic: an index out of range in the search, or no room left in the array for the entries
moved up. -/
def insertPreservingSort (f : fringe) (newMember : fringeEntry)
    (fComp : fringeEntryComparator_LT_impl) : Option fringe :=
  match findFirstGreaterThan f.a f.length newMember fComp with
  | none => none
  | some index =>
    if 0 ≤ index ∧ index ≤ f.length ∧ f.length + 1 ≤ (f.a.length : Int) then
      some
        { a := f.a.take index.toNat ++ newMember ::
            ((f.a.drop index.toNat).take (f.length - index).toNat ++
              f.a.drop (f.length.toNat + 1))
          length := f.length + 1 }
    else none

/-- The zero value of a fringe entry. -/
def fringeEntry.zeroValue : fringeEntry :=
  { dim := F64.zero, delta := F64.zero,
    badness := { emptySpace := F64.zero, scaledownSum := F64.zero, aspectRatioSkew := Log2.zero } }

/-- The first loop of `findMinimumByBisection` when the range is narrow: every width from
`j` to the maximum, in steps of one. -/
def findMinimumByBisection_scan (imageLayout : ImageLayout) (imagesInOrder : List ImageIdentifier)
    (minDim maxDim : Dims) (bComp : badnessComparator_LT_impl) (fixedDim : Int) :
    Nat → F64 → tilingBest → TilingRun tilingBest
  | 0, _, _ => TilingRun.outOfFuel
  | fuel + 1, j, best =>
    if F64.le j (maxDim.Dim fixedDim) then
      match runTilingCheckBadness imageLayout imagesInOrder minDim maxDim bComp best j with
      | none => TilingRun.crash
      | some r =>
        findMinimumByBisection_scan imageLayout imagesInOrder minDim maxDim bComp fixedDim fuel
          (F64.add j (F64.num 1)) r.2.2.2
    else TilingRun.done best

/-- The loop of `findMinimumByBisection` that fills the fringe: every width from `j` to the
maximum, in steps of `delta`. -/
def findMinimumByBisection_fill (imageLayout : ImageLayout) (imagesInOrder : List ImageIdentifier)
    (minDim maxDim : Dims) (bComp : badnessComparator_LT_impl) (fixedDim : Int) (delta : F64) :
    Nat → F64 → fringe → tilingBest → TilingRun (fringe × tilingBest)
  | 0, _, _, _ => TilingRun.outOfFuel
  | fuel + 1, j, badnesses, best =>
    if F64.le j (maxDim.Dim fixedDim) then
      match runTilingCheckBadness imageLayout imagesInOrder minDim maxDim bComp best j with
      | none => TilingRun.crash
      | some r =>
        match insertPreservingSort badnesses { dim := j, delta := delta, badness := r.2.1 }
            { bComp := bComp } with
        | none => TilingRun.crash
        | some badnesses =>
          findMinimumByBisection_fill imageLayout imagesInOrder minDim maxDim bComp fixedDim delta
            fuel (F64.add j delta) badnesses r.2.2.2
    else TilingRun.done (badnesses, best)

/-- The last loop of `findMinimumByBisection`: takes the best entry off the fringe, halves
its step and tries the width one step below it. -/
def findMinimumByBisection_refine (imageLayout : ImageLayout)
    (imagesInOrder : List ImageIdentifier) (minDim maxDim : Dims)
    (bComp : badnessComparator_LT_impl) (fixedDim : Int) :
    Nat → Int → Int → fringe → tilingBest → TilingRun tilingBest
  | 0, _, _, _, _ => TilingRun.outOfFuel
  | fuel + 1, i, lastBadnessChanged, badnesses, best =>
    if 0 < badnesses.length then
      match badnesses.a with
      | [] => TilingRun.crash
      | first :: rest =>
        let nextEntry := first
        let badnesses : fringe :=
          { a := rest.take (badnesses.length - 1).toNat ++
              badnesses.a.drop (badnesses.length - 1).toNat
            length := badnesses.length - 1 }
        let nextEntry := { nextEntry with delta := F64.div nextEntry.delta (F64.num 2) }
        if F64.ge nextEntry.delta (F64.num 1) then
          let dim := F64.sub nextEntry.dim nextEntry.delta
          match runTilingCheckBadness imageLayout imagesInOrder minDim maxDim bComp best dim with
          | none => TilingRun.crash
          | some r =>
            let newEntry : fringeEntry :=
              { dim := dim, delta := nextEntry.delta, badness := r.2.1 }
            let badnessChanged := r.2.2.1
            let best := r.2.2.2
            let lastBadnessChanged' := if badnessChanged then i else lastBadnessChanged
            if !badnessChanged && F64.feq best.bestBadness.emptySpace F64.zero
                && imagesInOrder.length = 0 then TilingRun.crash
            else if !badnessChanged && F64.feq best.bestBadness.emptySpace F64.zero
                && decide (i - lastBadnessChanged >
                  Int.tdiv (2 * (maxDim.Dim fixedDim).toInt) imagesInOrder.length) then
              TilingRun.done best
            else if F64.lt newEntry.badness.emptySpace nextEntry.badness.emptySpace then
              match insertPreservingSort badnesses newEntry { bComp := bComp } with
              | none => TilingRun.crash
              | some badnesses =>
                match insertPreservingSort badnesses nextEntry { bComp := bComp } with
                | none => TilingRun.crash
                | some badnesses =>
                  findMinimumByBisection_refine imageLayout imagesInOrder minDim maxDim bComp
                    fixedDim fuel (i + 1) lastBadnessChanged' badnesses best
            else
              findMinimumByBisection_refine imageLayout imagesInOrder minDim maxDim bComp
                fixedDim fuel (i + 1) lastBadnessChanged' badnesses best
        else
          findMinimumByBisection_refine imageLayout imagesInOrder minDim maxDim bComp fixedDim
            fuel (i + 1) lastBadnessChanged badnesses best
    else TilingRun.done best

/-- Searches the widths between the limits for the best tiling, coarse steps first.  The
result is the best tiling; `crash` also stands for the panic of `make` on a negative
length. -/
def findMinimumByBisection (imageLayout : ImageLayout) (imagesInOrder : List ImageIdentifier)
    (minDim maxDim : Dims) (bComp : badnessComparator_LT_impl) (best : tilingBest)
    (fixedDim : Int) (fuel : Nat) : TilingRun tilingBest :=
  let delta := F64.sub (F64.floorLog2 (F64.sub (maxDim.Dim fixedDim) (minDim.Dim fixedDim)))
    (F64.num 5)
  if F64.lt delta (F64.num 1) then
    findMinimumByBisection_scan imageLayout imagesInOrder minDim maxDim bComp fixedDim fuel
      (minDim.Dim fixedDim) best
  else if (maxDim.Dim fixedDim).toInt < 0 then TilingRun.crash
  else
    let badnesses : fringe :=
      { a := List.replicate (maxDim.Dim fixedDim).toInt.toNat fringeEntry.zeroValue, length := 0 }
    let delta := F64.exp2 delta
    match findMinimumByBisection_fill imageLayout imagesInOrder minDim maxDim bComp fixedDim delta
        fuel (F64.add (minDim.Dim fixedDim) delta) badnesses best with
    | TilingRun.done (badnesses, best) =>
      findMinimumByBisection_refine imageLayout imagesInOrder minDim maxDim bComp fixedDim fuel 1 0
        badnesses best
    | TilingRun.crash => TilingRun.crash
    | TilingRun.outOfFuel => TilingRun.outOfFuel

/-- The variables of the width-halving loop of `findMinimumByBinarySearch`, with the list of
the midpoints evaluated so far (latest first). -/
structure halving (σ : Type) where
  min : F64
  max : F64
  state : σ
  midpoints : List F64

/-- The width-halving loop of `findMinimumByBinarySearch`: `evaluate` runs the tiling of the
midpoint on the state and tells whether its skew is positive (`none` when the program stops
in it).  The difference, the sum and the half of the bounds are rounded to float64, which
decides whether the midpoint lies strictly between the bounds.  The result is the last state reached and whether the loop ended (`done`), the
program stopped (`crash`) or the bound on the number of passes was reached. -/
def findMinimumByBinarySearch_halve {σ : Type} (evaluate : σ → F64 → Option (σ × Bool)) :
    Nat → halving σ → halving σ × TilingRun Unit
  | 0, h => (h, TilingRun.outOfFuel)
  | fuel + 1, h =>
    if F64.gt (F64.nearest (F64.sub h.max h.min)) (F64.num 1) then
      let midpoint :=
        F64.round (F64.nearest (F64.div (F64.nearest (F64.add h.min h.max)) (F64.num 2)))
      match evaluate h.state midpoint with
      | none => ({ h with midpoints := midpoint :: h.midpoints }, TilingRun.crash)
      | some (state, positive) =>
        if positive then
          findMinimumByBinarySearch_halve evaluate fuel
            { min := h.min, max := midpoint, state := state, midpoints := midpoint :: h.midpoints }
        else
          findMinimumByBinarySearch_halve evaluate fuel
            { min := midpoint, max := h.max, state := state, midpoints := midpoint :: h.midpoints }
    else (h, TilingRun.done ())

/-- The second loop of `findMinimumByBinarySearch`: the widths `start - j` and `start + j`
for `j = 0, 1, ...` while both stay inside the limits and the best tiling leaves empty
space. -/
def findMinimumByBinarySearch_widen (imageLayout : ImageLayout)
    (imagesInOrder : List ImageIdentifier) (minDim maxDim : Dims)
    (bComp : badnessComparator_LT_impl) (fixedDim : Int) (start : F64) :
    Nat → F64 → tilingBest → TilingRun tilingBest
  | 0, _, _ => TilingRun.outOfFuel
  | fuel + 1, j, best =>
    if F64.gt (F64.sub start j) (minDim.Dim fixedDim) && F64.lt (F64.add start j) (maxDim.Dim fixedDim)
        && F64.gt best.bestBadness.emptySpace F64.zero then
      match runTilingCheckBadness imageLayout imagesInOrder minDim maxDim bComp best
          (F64.sub start j) with
      | none => TilingRun.crash
      | some r =>
        match runTilingCheckBadness imageLayout imagesInOrder minDim maxDim bComp r.2.2.2
            (F64.add start j) with
        | none => TilingRun.crash
        | some r =>
          findMinimumByBinarySearch_widen imageLayout imagesInOrder minDim maxDim bComp fixedDim
            start fuel (F64.add j (F64.num 1)) r.2.2.2
    else TilingRun.done best

/-- Searches the widths between the limits for the tiling whose aspect ratio is nearest the
target, by halving; then, unless the aspect ratio has priority, tries the widths around the
best one.  `crash` also stands for the nil dereference of `(*bestSoFar).CanvasSize()` when
no tiling was kept. -/
def findMinimumByBinarySearch (imageLayout : ImageLayout) (imagesInOrder : List ImageIdentifier)
    (minDim maxDim : Dims) (bComp : badnessComparator_LT_impl) (best : tilingBest)
    (fixedDim : Int) (fuel : Nat) : TilingRun tilingBest :=
  let bCompAspect : badnessComparator_LT_impl :=
    { hasAspectRatioF := bComp.hasAspectRatio, prioritizeAspectRatioF := true }
  let r := findMinimumByBinarySearch_halve
    (fun best midpoint =>
      match runTilingCheckBadness imageLayout imagesInOrder minDim maxDim bCompAspect best
          midpoint with
      | none => none
      | some r => some (r.2.2.2, r.2.1.aspectRatioSkew.gtZero))
    fuel
    { min := minDim.Dim fixedDim, max := maxDim.Dim fixedDim, state := best, midpoints := [] }
  match r.2 with
  | TilingRun.crash => TilingRun.crash
  | TilingRun.outOfFuel => TilingRun.outOfFuel
  | TilingRun.done _ =>
    let best := r.1.state
    if !bComp.prioritizeAspectRatio then
      match best.bestSoFar with
      | none => TilingRun.crash
      | some bestSoFar =>
        let start := bestSoFar.CanvasSize.Dim fixedDim
        findMinimumByBinarySearch_widen imageLayout imagesInOrder minDim maxDim bComp fixedDim start
          fuel F64.zero best
    else TilingRun.done best

/-- The result of `calculatePositions_TileInOrder`: the layout passed in as the call leaves
it, the layout returned (`none` is the nil interface) and the error returned. -/
structure tilingResult where
  input : ImageLayout
  il : Option ImageLayout
  err : Option GoError
deriving DecidableEq, Repr

/-- The limits of the canvas: those of the parameters, and where they are zero half the
smallest padded image side, and the sum of the padded image sides. -/
def calculatePositions_TileInOrder_limits (imageLayout : ImageLayout) : Dims × Dims :=
  let minDim := imageLayout.Parameters.minCanvasSize
  let r := getDimensionsRange imageLayout true
  let minDimN := r.1
  let sumsN := r.2.2
  let maxDim := imageLayout.Parameters.maxCanvasSize
  let minDim :=
    if F64.feq minDim.X F64.zero then { minDim with x := F64.div minDimN.X (F64.num 2) } else minDim
  let minDim :=
    if F64.feq minDim.Y F64.zero then { minDim with y := F64.div minDimN.Y (F64.num 2) } else minDim
  let maxDim := if F64.feq maxDim.X F64.zero then { maxDim with x := sumsN.X } else maxDim
  let maxDim := if F64.feq maxDim.Y F64.zero then { maxDim with y := sumsN.Y } else maxDim
  (minDim, maxDim)

/-- The order in which `calculatePositions_TileInOrder` tiles the images: that of the layout
when `TileInOrder_ExactOrder` is set, else a copy of it sorted by the dimension along the
lines.  `none` is the panic of `Images(true)`. -/
def calculatePositions_TileInOrder_order (imageLayout : ImageLayout) :
    Option (List ImageIdentifier) :=
  let fixedDim : Int := if imageLayout.Parameters.others.TileInOrder_Columns then 1 else 0
  if imageLayout.Parameters.others.TileInOrder_ExactOrder then imageLayout.Images false
  else
    match imageLayout.Images true with
    | none => none
    | some imagesInOrder =>
      some (IISBy_Sort
        (fun lhs rhs =>
          F64.lt ((imageLayout.DimensionsOf lhs).Dim fixedDim)
            ((imageLayout.DimensionsOf rhs).Dim fixedDim))
        imagesInOrder)

/-- Places the images of the layout in rows (or columns) in order. -/
def calculatePositions_TileInOrder (imageLayout : ImageLayout) (fuel : Nat) :
    TilingRun tilingResult :=
  let limits := calculatePositions_TileInOrder_limits imageLayout
  let minDim := limits.1
  let maxDim := limits.2
  let sumsN := (getDimensionsRange imageLayout true).2.2
  let aspect := imageLayout.Parameters.AspectRatio
  let aspectRatio := aspect.1
  let preserveAspectRatio := aspect.2
  let auto : Bool := F64.feq aspectRatio F64.zero
  let parsed : Geometry × Option GoError :=
    if auto then
      ParseGeometry (sprintf_f (F64.div sumsN.X sumsN.Y) ++ ('x' :: sprintf_f (F64.num 1)))
    else (imageLayout.Parameters.aspectRatio, none)
  match parsed.2 with
  | some err => TilingRun.done { input := imageLayout, il := none, err := some err }
  | none =>
    let imageLayout : ImageLayout :=
      { imageLayout with parameters := { imageLayout.parameters with aspectRatio := parsed.1 } }
    let hasAspectRatio : Bool := !auto
    let prioritizeAspectRatio : Bool := if auto then false else !preserveAspectRatio
    let bComp : badnessComparator_LT_impl :=
      { hasAspectRatioF := hasAspectRatio, prioritizeAspectRatioF := prioritizeAspectRatio }
    let fixedDim : Int := if imageLayout.Parameters.others.TileInOrder_Columns then 1 else 0
    match calculatePositions_TileInOrder_order imageLayout with
    | none => TilingRun.crash
    | some imagesInOrder =>
      if imagesInOrder.any
          (fun img => (imageLayout.CroppingOf img).HasSize || (imageLayout.CroppingOf img).HasOffset)
      then
        TilingRun.done
          { input := imageLayout, il := some imageLayout,
            err := some (GoError.errorsNew "TileInOrder does not support cropping".toList) }
      else
        let best : tilingBest :=
          { bestBadness :=
              { emptySpace := F64.pinf, scaledownSum := F64.pinf, aspectRatioSkew := Log2.inf }
            bestSoFar := none }
        let found :=
          if !bComp.hasAspectRatio then
            findMinimumByBisection imageLayout imagesInOrder minDim maxDim bComp best fixedDim fuel
          else
            findMinimumByBinarySearch imageLayout imagesInOrder minDim maxDim bComp best fixedDim
              fuel
        match found with
        | TilingRun.crash => TilingRun.crash
        | TilingRun.outOfFuel => TilingRun.outOfFuel
        | TilingRun.done best =>
          if F64.feq best.bestBadness.emptySpace F64.pinf then
            TilingRun.done
              { input := imageLayout, il := best.bestSoFar,
                err := some (GoError.errorsNew
                  "could not find a usable canvas size within these limits".toList) }
          else
            match best.bestSoFar with
            | none => TilingRun.crash
            | some bestSoFar =>
              TilingRun.done { input := imageLayout, il := some bestSoFar, err := none }

/-! ## Concrete tilings used by the examples -/

/-- An image of the given pixel size. -/
def sizedInfo (id : ImageIdentifier) (w h : ℚ) : ImageInfo :=
  { (squareInfo id) with dimensions := ⟨F64.num w, F64.num h⟩ }

/-- A layout of images of the given sizes (image `i` is the `i`-th of the list), nothing
scaled, cropped or positioned, under the given parameters. -/
def tilingLayout (parameters : Parameters) (sizes : List (ℚ × ℚ)) : ImageLayout :=
  let ids : List ImageIdentifier := (List.range sizes.length).map Int.ofNat
  let infos := (ids.zip sizes).map (fun e => (e.1, sizedInfo e.1 e.2.1 e.2.2))
  { size := NewDims F64.zero F64.zero
    parameters := parameters
    images := ids
    imageInfo := infos
    dimensions := infos.map (fun e => (e.1, e.2.dimensions))
    scaling := ids.map (fun i => (i, EmptyGeometry))
    cropping := ids.map (fun i => (i, EmptyGeometry))
    positions := [] }

/-- Two 100 by 100 images, zero padding, no limits, no aspect ratio, rows in exact order. -/
def twoSquaresTiling : ImageLayout :=
  tilingLayout
    { defaultParameters with
      padding := zeroPadding
      others := { TileInOrder_ExactOrder := true } }
    [(100, 100), (100, 100)]

/-- The aspect ratio geometry written `1x1!`. -/
def strictSquareAspect : Geometry :=
  { EmptyGeometry with
    width := ⟨F64.num 1, GeometryUnits.Pixels⟩, height := ⟨F64.num 1, GeometryUnits.Pixels⟩, preserveAspectRatio := false }

/-- Four 50 by 50 images, zero padding, no limits, the aspect ratio `1x1!`, rows. -/
def fourSquaresTiling : ImageLayout :=
  tilingLayout { defaultParameters with padding := zeroPadding, aspectRatio := strictSquareAspect }
    [(50, 50), (50, 50), (50, 50), (50, 50)]

/-- The lexicographic order on three float64 keys, by Go `<` and `==`. -/
def lexLT (a1 a2 a3 b1 b2 b3 : F64) : Bool :=
  F64.lt a1 b1 || (F64.feq a1 b1 && (F64.lt a2 b2 || (F64.feq a2 b2 && F64.lt a3 b3)))

/-- The order on badnesses as the specification words it: lexicographic by the magnitude of
the skew, the empty space and the sum of scale-downs when the aspect ratio has priority, and
by the empty space, the magnitude of the skew and the sum of scale-downs otherwise. -/
def badnessLexLT (prioritizeAspectRatio : Bool) (b1 b2 : tileInOrder_Badness) : Bool :=
  if prioritizeAspectRatio then
    lexLT b1.aspectRatioSkew.abs.pow b1.emptySpace b1.scaledownSum
      b2.aspectRatioSkew.abs.pow b2.emptySpace b2.scaledownSum
  else
    lexLT b1.emptySpace b1.aspectRatioSkew.abs.pow b1.scaledownSum
      b2.emptySpace b2.aspectRatioSkew.abs.pow b2.scaledownSum

/-- A badness of skew `+1` (a canvas twice as wide as the target), without empty space. -/
def skewUpBadness : tileInOrder_Badness :=
  { emptySpace := F64.num 0, scaledownSum := F64.num 0, aspectRatioSkew := ⟨F64.num 2⟩ }

/-- A badness of skew `-1` (a canvas half as wide as the target), with empty space 5. -/
def skewDownBadness : tileInOrder_Badness :=
  { emptySpace := F64.num 5, scaledownSum := F64.num 0, aspectRatioSkew := ⟨F64.num (1 / 2)⟩ }

/-- A fringe entry whose step, empty space and sum of scale-downs are finite numbers and
whose skew is a finite non-negative number (the logarithm of a number from one up). -/
def fringeEntry.Regular (f : fringeEntry) : Prop :=
  ∃ d e sd p : ℚ, f.delta = F64.num d ∧ f.badness.emptySpace = F64.num e ∧
    f.badness.scaledownSum = F64.num sd ∧ f.badness.aspectRatioSkew = ⟨F64.num p⟩ ∧ 1 ≤ p

/-- The entries in use of a fringe are sorted: none goes before an earlier one. -/
def fringe.Sorted (fComp : fringeEntryComparator_LT_impl) (f : fringe) : Prop :=
  (f.a.take f.length.toNat).Pairwise (fun x y => fComp.fringeEntryLT y x = false)

instance fringe.decidableSorted (fComp : fringeEntryComparator_LT_impl) (f : fringe) :
    Decidable (f.Sorted fComp) :=
  inferInstanceAs (Decidable ((f.a.take f.length.toNat).Pairwise _))

/-- The comparator of the bisection: no aspect ratio given, the empty space compared
first. -/
def bisectionComparator : fringeEntryComparator_LT_impl :=
  { bComp := { hasAspectRatioF := false, prioritizeAspectRatioF := false } }

/-- A fringe entry with the given step, empty space, sum of scale-downs and skew (the skew
given by the number it is the logarithm of). -/
def sampleEntry (delta emptySpace scaledownSum : F64) (pow : ℚ) : fringeEntry :=
  { dim := F64.num 100, delta := delta,
    badness :=
      { emptySpace := emptySpace, scaledownSum := scaledownSum, aspectRatioSkew := ⟨F64.num pow⟩ } }

/-- A fringe of room three holding two entries, the second with a NaN empty space. -/
def nanFringe : fringe :=
  { a := [sampleEntry (F64.num 1) (F64.num 0) (F64.num 1) 1,
      sampleEntry (F64.num 2) F64.nan (F64.num 0) 1, fringeEntry.zeroValue]
    length := 2 }

/-- A fringe of room three holding two entries of skews `-1` and `+1`. -/
def skewFringe : fringe :=
  { a := [sampleEntry (F64.num 1) (F64.num 0) (F64.num 0) (1 / 2),
      sampleEntry (F64.num 2) (F64.num 0) (F64.num 0) 2, fringeEntry.zeroValue]
    length := 2 }

/-- The scaling geometry written `WxH!` for the numbers `w` and `h`. -/
def stretchTo (w h : ℚ) : Geometry :=
  { EmptyGeometry with
    width := ⟨F64.num w, GeometryUnits.Pixels⟩, height := ⟨F64.num h, GeometryUnits.Pixels⟩,
    preserveAspectRatio := false }

/-- The aspect ratio geometry written `1x1`. -/
def squareAspect : Geometry :=
  { EmptyGeometry with
    width := ⟨F64.num 1, GeometryUnits.Pixels⟩, height := ⟨F64.num 1, GeometryUnits.Pixels⟩ }

/-- The layout `twoSquaresTiling` tiled as one column of two rows: canvas 100 by 200. -/
def twoSquaresTiled : ImageLayout :=
  { twoSquaresTiling with
    parameters := { twoSquaresTiling.parameters with aspectRatio := squareAspect }
    size := ⟨F64.num 100, F64.num 200⟩
    scaling := [(0, stretchTo 100 100), (1, stretchTo 100 100)]
    positions := [(0, ⟨F64.num 0, F64.num 0⟩), (1, ⟨F64.num 0, F64.num 100⟩)] }

/-- The layout `twoSquaresTiling` tiled as one row: canvas 200 by 100. -/
def twoSquaresInRow : ImageLayout :=
  { twoSquaresTiled with
    size := ⟨F64.num 200, F64.num 100⟩
    positions := [(0, ⟨F64.num 0, F64.num 0⟩), (1, ⟨F64.num 100, F64.num 0⟩)] }

/-- The layout `fourSquaresTiling` tiled as a grid of two rows of two: canvas 100 by 100. -/
def fourSquaresTiled : ImageLayout :=
  { fourSquaresTiling with
    size := ⟨F64.num 100, F64.num 100⟩
    scaling := [(0, stretchTo 50 50), (1, stretchTo 50 50), (2, stretchTo 50 50),
      (3, stretchTo 50 50)]
    positions := [(0, ⟨F64.num 0, F64.num 0⟩), (1, ⟨F64.num 50, F64.num 0⟩),
      (2, ⟨F64.num 0, F64.num 50⟩), (3, ⟨F64.num 50, F64.num 50⟩)] }

/-- One 100 by 100 image, zero padding, the aspect ratio `1x1` and a canvas at least 500
high. -/
def tallMinimumTiling : ImageLayout :=
  tilingLayout
    { defaultParameters with
      padding := zeroPadding
      aspectRatio := squareAspect
      minCanvasSize := NewDims F64.zero (F64.num 500) }
    [(100, 100)]

/-- A 100 by 50 image and a 50 by 100 image, zero padding, rows, not in exact order. -/
def wideTallTiling : ImageLayout :=
  tilingLayout { defaultParameters with padding := zeroPadding } [(100, 50), (50, 100)]

/-- The layout `twoSquaresTiling` with its second image cropped to 50 by 50 at offset
10, 20. -/
def croppedTiling : ImageLayout :=
  { twoSquaresTiling with cropping := [(0, EmptyGeometry), (1, sizedCropGeometry)] }

/-- The number that `%f` prints for the non-negative number `q`: `q` rounded to six
decimals. -/
def round6 (q : ℚ) : ℚ := (roundHalfEven (q * 1000000) : ℚ) / 1000000

/-- The number read back from the text that `%f` prints for a non-negative number: the
number rounded to six decimals, then to the nearest float64. -/
def stored6 (q : ℚ) : ℚ := float64Nearest (round6 q)

/-- The two axes of a tiling, along the lines and across them, are `0` and `1` in some
order. -/
def Axes (fd vd : Int) : Prop := (fd = 0 ∧ vd = 1) ∨ (fd = 1 ∧ vd = 0)

/-- The number held by a finite float64 (zero for the special values). -/
def F64.toRat : F64 → ℚ
  | F64.num q => q
  | _ => 0

/-- An image is ready for `finalizeTiling` in the layout `cl`: it has metadata, no cropping
offset, and the positive dimensions `fQ` along the lines and `vQ` across them. -/
def TileReady (cl : ImageLayout) (fd vd : Int) (fQ vQ : ImageIdentifier → ℚ)
    (img : ImageIdentifier) : Prop :=
  (List.lookup img cl.imageInfo).isSome = true ∧ (cl.CroppingOf img).HasOffset = false ∧
    (cl.DimensionsOf img).Dim fd = F64.num (fQ img) ∧
    (cl.DimensionsOf img).Dim vd = F64.num (vQ img) ∧ 0 < fQ img ∧ 0 < vQ img

/-- The padding geometry gives every image of positive dimensions a finite padding that is
not negative on either axis. -/
def NonnegPadding (g : Geometry) : Prop :=
  ∀ x y : ℚ, 0 < x → 0 < y → ∃ px py : ℚ, 0 ≤ px ∧ 0 ≤ py ∧
    g.Scale ⟨F64.num x, F64.num y⟩ = ⟨F64.num px, F64.num py⟩

/-- The images of a line of thickness `t` are placed in the layout `cl` from the place `c`
along the line, at the position `y` across the lines: each has the dimensions of the line as
they are stored and a padding that is not negative, and lies at `y` plus its padding across
the lines; the first stands at `c` plus its padding, and each next one after the length of
the one before and the paddings of the two. -/
def LinePlaced (cl : ImageLayout) (fd vd : Int) (fQ vQ : ImageIdentifier → ℚ) (t c y : ℚ)
    (images : List ImageIdentifier) : Prop :=
  (∀ img ∈ images,
    (cl.DimensionsOf img).Dim fd = F64.num (stored6 (fQ img * t / vQ img)) ∧
    (cl.DimensionsOf img).Dim vd = F64.num (stored6 t) ∧
    ∃ pf pv p : ℚ, 0 ≤ pf ∧ 0 ≤ pv ∧ (Padding cl img).Dim fd = F64.num pf ∧
      (Padding cl img).Dim vd = F64.num pv ∧
      (cl.PositionOf img).Dim vd = F64.num (y + pv) ∧
      (cl.PositionOf img).Dim fd = F64.num p ∧ c + pf ≤ p) ∧
  (∀ a, images.head? = some a → ∃ pf : ℚ, (Padding cl a).Dim fd = F64.num pf ∧
    (cl.PositionOf a).Dim fd = F64.num (c + pf)) ∧
  images.Chain' (fun a b => ∃ p pa pb : ℚ, (Padding cl a).Dim fd = F64.num pa ∧
    (Padding cl b).Dim fd = F64.num pb ∧ (cl.PositionOf a).Dim fd = F64.num p ∧
    (cl.PositionOf b).Dim fd = F64.num (p + (fQ a * t / vQ a + pa + pb)))

/-- The padding across the lines of the first image of a line, which `finalizeTiling_line`
adds twice to the thickness of the line for the position of the next line. -/
def linePadding (cl : ImageLayout) (vd : Int) (line : tileLine) : ℚ :=
  match line.images.head? with
  | some first => ((Padding cl first).Dim vd).toRat
  | none => 0

/-- A line is fit for `finalizeTiling` in the layout `cl`: it has images, all of them ready,
a positive thickness, a non-negative start, no value out of the range of the geometry text,
and no dimension that is stored as zero. -/
def LineFit (cl : ImageLayout) (fd vd : Int) (fQ vQ : ImageIdentifier → ℚ) (line : tileLine) :
    Prop :=
  line.images ≠ [] ∧ ∃ t s : ℚ, line.fixedDim = F64.num t ∧ 0 < t ∧ t ≤ 2 ^ 63 ∧
    0 < stored6 t ∧ line.startsAt = F64.num s ∧ 0 ≤ s ∧
    ∀ img ∈ line.images, TileReady cl fd vd fQ vQ img ∧ fQ img * t / vQ img ≤ 2 ^ 63 ∧
      0 < stored6 (fQ img * t / vQ img)

/-- The sum of the aspect ratios (length along the line over length across it) of the images
of a line. -/
def lineAspect (fQ vQ : ImageIdentifier → ℚ) (images : List ImageIdentifier) : ℚ :=
  (images.map (fun a => fQ a / vQ a)).sum

/-- The sum `relativePaddingAspect` of a line: twice the padding of each image over its
length across the line when the padding is relative, zero otherwise. -/
def lineRel (rel : Bool) (pQ vQ : ImageIdentifier → ℚ) (images : List ImageIdentifier) : ℚ :=
  if rel then (images.map (fun a => 2 * pQ a / vQ a)).sum else 0

/-- The sum `absolutePadding` of a line: twice the padding of each image when the padding is
absolute, zero otherwise. -/
def lineAbs (rel : Bool) (pQ : ImageIdentifier → ℚ) (images : List ImageIdentifier) : ℚ :=
  if rel then 0 else (images.map (fun a => 2 * pQ a)).sum

/-- An image as `runOneTiling` reads it in the layout `l`: positive finite dimensions `fQ`
along the lines and `vQ` across them, and a non-negative finite padding `pQ` along the
lines, relative or not as `rel` tells. -/
def TileInput (l : ImageLayout) (fd vd : Int) (fQ vQ pQ : ImageIdentifier → ℚ) (rel : Bool)
    (img : ImageIdentifier) : Prop :=
  (l.DimensionsOf img).Dim fd = F64.num (fQ img) ∧
    (l.DimensionsOf img).Dim vd = F64.num (vQ img) ∧ 0 < fQ img ∧ 0 < vQ img ∧
    (Padding l img).Dim fd = F64.num (pQ img) ∧ 0 ≤ pQ img ∧ PaddingIsRelative l img = rel

/-- A line closed by `runOneTiling` for the budget `w`: it has images, starts at zero, and
its thickness is the budget less the absolute padding over the sum of the aspect ratios and
of the relative padding, which is not more than the length across the line of any of its
images. -/
def ClosedLine (w : ℚ) (fQ vQ pQ : ImageIdentifier → ℚ) (rel : Bool) (line : tileLine) : Prop :=
  line.images ≠ [] ∧ line.startsAt = F64.num 0 ∧
    line.fixedDim = F64.num ((w - lineAbs rel pQ line.images) /
      (lineAspect fQ vQ line.images + lineRel rel pQ vQ line.images)) ∧
    ∀ a ∈ line.images, (w - lineAbs rel pQ line.images) /
      (lineAspect fQ vQ line.images + lineRel rel pQ vQ line.images) ≤ vQ a

/-- The state of the first loop of `runOneTiling` after the images `done`: the sums of the
line being filled, which is narrower than the budget, and the lines closed so far. -/
def TilingInv (l : ImageLayout) (fd vd : Int) (w : ℚ) (fQ vQ pQ : ImageIdentifier → ℚ)
    (rel : Bool) (s : tilingState) (done : List ImageIdentifier) : Prop :=
  ∃ m : ℚ, s.currentMinVarDim = F64.num m ∧
    s.imagesAspect = F64.num (lineAspect fQ vQ s.current) ∧
    s.relativePaddingAspect = F64.num (lineRel rel pQ vQ s.current) ∧
    s.absolutePadding = F64.num (lineAbs rel pQ s.current) ∧
    (s.current = [] → m = 0) ∧
    (s.current ≠ [] → 0 < m ∧ (∀ a ∈ s.current, m ≤ vQ a) ∧
      (lineAspect fQ vQ s.current + lineRel rel pQ vQ s.current) * m +
        lineAbs rel pQ s.current < w) ∧
    (∀ a ∈ s.current, TileInput l fd vd fQ vQ pQ rel a) ∧
    (s.tl.lines.map tileLine.images).flatten ++ s.current = done ∧
    (∀ line ∈ s.tl.lines, ClosedLine w fQ vQ pQ rel line) ∧
    ((∀ line ∈ s.tl.lines, 0 ≤ line.fixedDim.toRat) →
      F64.ge s.scaledownSum (F64.num 0) = true)

/-- The dimension of an image of the layout on the axis `i`, as a number. -/
def dimQ (l : ImageLayout) (i : Int) (img : ImageIdentifier) : ℚ :=
  ((l.DimensionsOf img).Dim i).toRat

/-- The aspect ratio of an image as the tiling adds it up: its length along the lines over
its length across them. -/
def tileAspect (l : ImageLayout) (fd vd : Int) (img : ImageIdentifier) : ℚ :=
  dimQ l fd img / dimQ l vd img

/-- The length along the line of an image scaled to the thickness `t` of its line: the
length that keeps its proportions, before it is rounded for the geometry text. -/
def tileLength (l : ImageLayout) (fd vd : Int) (t : ℚ) (img : ImageIdentifier) : ℚ :=
  dimQ l fd img * t / dimQ l vd img

/-- Three 50 by 50 images under the padding geometry `0x0!`, in rows. -/
def threeSquaresTiling : ImageLayout :=
  tilingLayout { defaultParameters with padding := stretchTo 0 0 } [(50, 50), (50, 50), (50, 50)]

/-- Two 100 by 100 images under the padding geometry `10x10`, in rows. -/
def paddedSquaresTiling : ImageLayout :=
  tilingLayout { defaultParameters with padding := tenPadding } [(100, 100), (100, 100)]

/-- Three 50 by 50 images under the padding geometry `0x0`, in rows. -/
def plainSquaresTiling : ImageLayout :=
  tilingLayout { defaultParameters with padding := zeroPadding } [(50, 50), (50, 50), (50, 50)]

/-- The indices that the loop of `findFirstGreaterThan` reads from the array, in the order
it reads them: the midpoints of the passes, up to and including the one at which the loop
ends. -/
def findFirstGreaterThan_probes (a : List fringeEntry) (newMember : fringeEntry)
    (fComp : fringeEntryComparator_LT_impl) : Nat → Int → Int → List Int
  | 0, _, _ => []
  | fuel + 1, min, max =>
    if min ≤ max then
      let midpoint := Int.tdiv (min + max) 2
      if midpoint < 0 then [midpoint]
      else
        match a.get? midpoint.toNat with
        | none => [midpoint]
        | some e =>
          if e.eq newMember then [midpoint]
          else if fComp.fringeEntryLT e newMember then
            midpoint :: findFirstGreaterThan_probes a newMember fComp fuel (midpoint + 1) max
          else midpoint :: findFirstGreaterThan_probes a newMember fComp fuel min (midpoint - 1)
    else []

/-- A fringe of room four holding three entries of steps 1, 2 and 3 with the same
badness. -/
def stepFringe : fringe :=
  { a := [sampleEntry (F64.num 1) (F64.num 0) (F64.num 0) 1,
      sampleEntry (F64.num 2) (F64.num 0) (F64.num 0) 1,
      sampleEntry (F64.num 3) (F64.num 0) (F64.num 0) 1, fringeEntry.zeroValue]
    length := 3 }

/-! ## Arithmetic facts about `F64` -/

theorem floorLog2Nat_spec : ∀ (fuel n : Nat), 1 ≤ n → n ≤ fuel →
    2 ^ floorLog2Nat fuel n ≤ n ∧ n < 2 ^ (floorLog2Nat fuel n + 1) := by
  intro fuel
  induction fuel with
  | zero => intro n h1 h2; omega
  | succ fuel ih =>
    intro n h1 h2
    unfold floorLog2Nat
    by_cases hn : n < 2
    · have : n = 1 := by omega
      subst this
      simp
    · simp only [hn, if_false]
      obtain ⟨a, b⟩ := ih (n / 2) (by omega) (by omega)
      constructor
      · calc 2 ^ (floorLog2Nat fuel (n / 2) + 1) = 2 ^ floorLog2Nat fuel (n / 2) * 2 := by
              rw [pow_succ]
          _ ≤ n / 2 * 2 := Nat.mul_le_mul_right 2 a
          _ ≤ n := Nat.div_mul_le_self n 2
      · have : n < (n / 2 + 1) * 2 := by omega
        calc n < (n / 2 + 1) * 2 := this
          _ ≤ 2 ^ (floorLog2Nat fuel (n / 2) + 1) * 2 := Nat.mul_le_mul_right 2 b
          _ = 2 ^ (floorLog2Nat fuel (n / 2) + 1 + 1) := by rw [← pow_succ]

/-- The power of two at the floor of the binary logarithm does not exceed the number. -/
theorem floorLog2_le (q : ℚ) (hq : 0 < q) : (2 : ℚ) ^ floorLog2 q ≤ q := by
  unfold floorLog2
  by_cases h1 : 1 ≤ q
  · simp only [h1, if_true]
    have hfl : (1 : Int) ≤ ⌊q⌋ := Int.le_floor.mpr (by exact_mod_cast h1)
    have hN : 1 ≤ ⌊q⌋.toNat := by omega
    obtain ⟨a, -⟩ := floorLog2Nat_spec ⌊q⌋.toNat ⌊q⌋.toNat hN (le_refl _)
    rw [zpow_natCast]
    have a' : ((2 ^ floorLog2Nat ⌊q⌋.toNat ⌊q⌋.toNat : Nat) : ℚ) ≤ (⌊q⌋.toNat : ℚ) := by
      exact_mod_cast a
    have e : ((⌊q⌋.toNat : Nat) : ℚ) = ((⌊q⌋ : Int) : ℚ) := by
      have : ((⌊q⌋.toNat : Nat) : Int) = ⌊q⌋ := Int.toNat_of_nonneg (by omega)
      exact_mod_cast this
    rw [e] at a'
    push_cast at a'
    exact le_trans a' (Int.floor_le q)
  · simp only [h1, if_false]
    have hq1 : q < 1 := not_le.mp h1
    have hinv : 1 < 1 / q := by
      rw [lt_div_iff₀ hq]
      linarith
    have hc : (2 : Int) ≤ ⌈1 / q⌉ := by
      have : (1 : Int) < ⌈1 / q⌉ := Int.lt_ceil.mpr (by exact_mod_cast hinv)
      omega
    have hr : ¬ ⌈1 / q⌉.toNat ≤ 1 := by omega
    simp only [hr, if_false]
    obtain ⟨-, b⟩ := floorLog2Nat_spec ⌈1 / q⌉.toNat (⌈1 / q⌉.toNat - 1) (by omega) (by omega)
    have b' : ⌈1 / q⌉.toNat ≤ 2 ^ (floorLog2Nat ⌈1 / q⌉.toNat (⌈1 / q⌉.toNat - 1) + 1) := by
      omega
    have b2 : ((⌈1 / q⌉.toNat : Nat) : ℚ) ≤
        ((2 ^ (floorLog2Nat ⌈1 / q⌉.toNat (⌈1 / q⌉.toNat - 1) + 1) : Nat) : ℚ) := by
      exact_mod_cast b'
    have e : ((⌈1 / q⌉.toNat : Nat) : ℚ) = ((⌈1 / q⌉ : Int) : ℚ) := by
      have : ((⌈1 / q⌉.toNat : Nat) : Int) = ⌈1 / q⌉ := Int.toNat_of_nonneg (by omega)
      exact_mod_cast this
    rw [e] at b2
    push_cast at b2
    have h3 : 1 / q ≤ (2 : ℚ) ^ (floorLog2Nat ⌈1 / q⌉.toNat (⌈1 / q⌉.toNat - 1) + 1) :=
      le_trans (Int.le_ceil _) b2
    rw [zpow_neg, zpow_natCast]
    have hp : (0 : ℚ) < 2 ^ (floorLog2Nat ⌈1 / q⌉.toNat (⌈1 / q⌉.toNat - 1) + 1) := by positivity
    rw [inv_le_comm₀ hp hq, ← one_div]
    exact h3

theorem roundHalfEven_natCast (n : Nat) : roundHalfEven (n : ℚ) = n := by
  unfold roundHalfEven
  simp

theorem floor_le_roundHalfEven (q : ℚ) : ⌊q⌋.toNat ≤ roundHalfEven q := by
  unfold roundHalfEven
  simp only
  split_ifs <;> omega

theorem float64Nearest_neg (q : ℚ) : float64Nearest (-q) = -float64Nearest q := by
  unfold float64Nearest
  by_cases h0 : q = 0
  · simp [h0]
  · have h0' : -q ≠ 0 := neg_ne_zero.mpr h0
    simp only [h0, h0', if_false, abs_neg]
    rcases lt_or_gt_of_ne h0 with h | h
    · have : ¬ -q < 0 := by linarith
      simp [h, this]
    · have h1 : ¬ q < 0 := by linarith
      have h2 : -q < 0 := by linarith
      simp [h1, h2]

theorem float64Nearest_nonneg (q : ℚ) (hq : 0 ≤ q) : 0 ≤ float64Nearest q := by
  unfold float64Nearest
  by_cases h0 : q = 0
  · simp [h0]
  · have : ¬ q < 0 := by linarith
    simp only [h0, this, if_false]
    positivity

/-- A number with at most 53 significant bits, and no bit below `2^-1074`, is a float64. -/
theorem float64Nearest_exact (k i : Int) (hk : |k| < 2 ^ 53) (hi : -1074 ≤ i) :
    float64Nearest ((k : ℚ) * (2 : ℚ) ^ i) = (k : ℚ) * (2 : ℚ) ^ i := by
  have key : ∀ (n : Nat), 0 < n → n < 2 ^ 53 →
      float64Nearest ((n : ℚ) * (2 : ℚ) ^ i) = (n : ℚ) * (2 : ℚ) ^ i := by
    intro n hn0 hn
    have hq : (0 : ℚ) < (n : ℚ) * (2 : ℚ) ^ i := by positivity
    have hlog := floorLog2_le _ hq
    have hlt : (n : ℚ) * (2 : ℚ) ^ i < (2 : ℚ) ^ (53 + i) := by
      rw [zpow_add₀ (by norm_num : (2 : ℚ) ≠ 0)]
      have : (n : ℚ) < (2 : ℚ) ^ (53 : Int) := by
        have h' : (n : ℚ) < ((2 ^ 53 : Nat) : ℚ) := by exact_mod_cast hn
        rw [Nat.cast_pow] at h'
        exact_mod_cast h'
      exact mul_lt_mul_of_pos_right this (by positivity)
    have he0 : floorLog2 ((n : ℚ) * (2 : ℚ) ^ i) < 53 + i := by
      have := lt_of_le_of_lt hlog hlt
      exact (zpow_lt_zpow_iff_right₀ (by norm_num : (1 : ℚ) < 2)).mp this
    unfold float64Nearest
    have hne : (n : ℚ) * (2 : ℚ) ^ i ≠ 0 := ne_of_gt hq
    have hnl : ¬ (n : ℚ) * (2 : ℚ) ^ i < 0 := by linarith
    simp only [hne, hnl, if_false, abs_of_pos hq]
    generalize hp : max (floorLog2 ((n : ℚ) * (2 : ℚ) ^ i)) (-1022) - 52 = p
    have hpi : p ≤ i := by
      rw [← hp]
      rcases max_cases (floorLog2 ((n : ℚ) * (2 : ℚ) ^ i)) (-1022) with ⟨h, -⟩ | ⟨h, -⟩ <;>
        rw [h] <;> omega
    obtain ⟨j, hj⟩ := Int.eq_ofNat_of_zero_le (by omega : 0 ≤ i - p)
    have hi' : i = p + j := by omega
    have hdiv : (n : ℚ) * (2 : ℚ) ^ i / (2 : ℚ) ^ p = ((n * 2 ^ j : Nat) : ℚ) := by
      rw [hi', zpow_add₀ (by norm_num : (2 : ℚ) ≠ 0), zpow_natCast]
      have : (2 : ℚ) ^ p ≠ 0 := by positivity
      field_simp
      ring
    rw [hdiv, roundHalfEven_natCast, hi', zpow_add₀ (by norm_num : (2 : ℚ) ≠ 0), zpow_natCast]
    push_cast
    ring
  rcases lt_trichotomy k 0 with h | h | h
  · have hn : (k.natAbs : Int) = -k := by omega
    have e : (k : ℚ) * (2 : ℚ) ^ i = -((k.natAbs : ℚ) * (2 : ℚ) ^ i) := by
      have : (k : ℚ) = -(k.natAbs : ℚ) := by
        have : (k : Int) = -(k.natAbs : Int) := by omega
        exact_mod_cast this
      rw [this]
      ring
    rw [e, float64Nearest_neg, key k.natAbs (by omega) (by
      have : |k| = -k := abs_of_neg h
      have h2 : ((k.natAbs : Nat) : Int) < 2 ^ 53 := by omega
      exact_mod_cast h2)]
  · subst h
    simp [float64Nearest]
  · have hn : (k.natAbs : Int) = k := by omega
    have e : (k : ℚ) = (k.natAbs : ℚ) := by
      have : (k : ℚ) = ((k.natAbs : Int) : ℚ) := by rw [hn]
      rw [this, Int.cast_natCast]
    rw [e]
    exact key k.natAbs (by omega) (by
      have : |k| = k := abs_of_pos h
      have h2 : ((k.natAbs : Nat) : Int) < 2 ^ 53 := by omega
      exact_mod_cast h2)

/-- Every whole number up to `2^53` in magnitude is a float64. -/
theorem float64Nearest_int (n : Int) (h : |n| ≤ 2 ^ 53) : float64Nearest (n : ℚ) = n := by
  by_cases hlt : |n| < 2 ^ 53
  · have := float64Nearest_exact n 0 hlt (by norm_num)
    simpa using this
  · have he : |n| = 2 ^ 53 := le_antisymm h (not_lt.mp hlt)
    rcases abs_eq (by norm_num : (0 : Int) ≤ 2 ^ 53) |>.mp he with h1 | h1
    · have := float64Nearest_exact 1 53 (by norm_num) (by norm_num)
      rw [h1]
      rw [Int.cast_one, one_mul] at this
      have e : (((2 : Int) ^ 53 : Int) : ℚ) = (2 : ℚ) ^ (53 : Int) := by norm_num
      rw [e]
      exact this
    · have := float64Nearest_exact (-1) 53 (by norm_num) (by norm_num)
      rw [h1]
      have e : ((-(2 : Int) ^ 53 : Int) : ℚ) = ((-1 : Int) : ℚ) * (2 : ℚ) ^ (53 : Int) := by
        norm_num
      rw [e]
      exact this

/-- The float64 nearest to a number from `2^-1022` on is positive. -/
theorem float64Nearest_pos (q : ℚ) (hq : (2 : ℚ) ^ (-1022 : Int) ≤ q) : 0 < float64Nearest q := by
  have hq0 : 0 < q := lt_of_lt_of_le (by positivity) hq
  unfold float64Nearest
  have hne : q ≠ 0 := ne_of_gt hq0
  have hnl : ¬ q < 0 := by linarith
  simp only [hne, hnl, if_false, abs_of_pos hq0]
  have hlog := floorLog2_le q hq0
  have hge : (2 : ℚ) ^ max (floorLog2 q) (-1022) ≤ q := by
    rcases max_cases (floorLog2 q) (-1022) with ⟨h, -⟩ | ⟨h, -⟩ <;> rw [h]
    · exact hlog
    · exact hq
  generalize max (floorLog2 q) (-1022) = e at hge
  have h52 : (2 : ℚ) ^ (52 : Int) ≤ q / (2 : ℚ) ^ (e - 52) := by
    rw [le_div_iff₀ (by positivity), ← zpow_add₀ (by norm_num : (2 : ℚ) ≠ 0)]
    simpa using hge
  have hfl : (2 : Int) ^ 52 ≤ ⌊q / (2 : ℚ) ^ (e - 52)⌋ := by
    rw [Int.le_floor]
    have e : (((2 : Int) ^ 52 : Int) : ℚ) = (2 : ℚ) ^ (52 : Int) := by norm_num
    rw [e]
    exact h52
  have := floor_le_roundHalfEven (q / (2 : ℚ) ^ (e - 52))
  have hpos : 0 < roundHalfEven (q / (2 : ℚ) ^ (e - 52)) := by omega
  have : (0 : ℚ) < (roundHalfEven (q / (2 : ℚ) ^ (e - 52)) : ℚ) := by exact_mod_cast hpos
  positivity


theorem F64.isNaN_num (a : ℚ) : (F64.num a).isNaN = false := rfl

theorem F64.add_num (a b : ℚ) : F64.add (F64.num a) (F64.num b) = F64.num (a + b) := rfl

theorem F64.sub_num (a b : ℚ) : F64.sub (F64.num a) (F64.num b) = F64.num (a - b) := by
  simp [F64.sub, F64.neg, F64.add, sub_eq_add_neg]

theorem F64.mul_num (a b : ℚ) : F64.mul (F64.num a) (F64.num b) = F64.num (a * b) := rfl

theorem F64.div_num (a b : ℚ) (hb : b ≠ 0) :
    F64.div (F64.num a) (F64.num b) = F64.num (a / b) := by
  simp [F64.div, hb]

theorem F64.div_hundred (a : ℚ) : F64.div (F64.num a) (F64.num 100) = F64.num (a / 100) :=
  F64.div_num a 100 (by norm_num)

theorem F64.min_num (a b : ℚ) : F64.min (F64.num a) (F64.num b) = F64.num (Min.min a b) := by
  unfold F64.min
  by_cases h : a < b
  · simp [F64.isNaN, F64.lt, h, min_eq_left (le_of_lt h)]
  · simp [F64.isNaN, F64.lt, h, min_eq_right (not_lt.mp h)]

theorem F64.max_num (a b : ℚ) : F64.max (F64.num a) (F64.num b) = F64.num (Max.max a b) := by
  unfold F64.max
  by_cases h : b < a
  · simp [F64.isNaN, F64.gt, F64.lt, h, max_eq_left (le_of_lt h)]
  · simp [F64.isNaN, F64.gt, F64.lt, h, max_eq_right (not_lt.mp h)]

theorem F64.min_nan_num (a : ℚ) : F64.min F64.nan (F64.num a) = F64.nan := by
  simp [F64.min, F64.isNaN]

/-- A value that is neither infinity is NaN or a finite number. -/
theorem F64.nan_or_num (v : F64) (h : v ≠ F64.pinf ∧ v ≠ F64.ninf) :
    v = F64.nan ∨ ∃ q, v = F64.num q := by
  cases v with
  | nan => exact Or.inl rfl
  | ninf => exact absurd rfl h.2
  | pinf => exact absurd rfl h.1
  | num q => exact Or.inr ⟨q, rfl⟩

/-! ## Offset, Crop and Scale -/

/-- Each component of `Offset` is a number in `[0, full.axis]`, for a geometry whose offset
scalars are absent or finite and a finite full size with non-negative components. -/
theorem Offset_range (g : Geometry) (a b : ℚ) (ha : 0 ≤ a) (hb : 0 ≤ b)
    (hx : g.x.N ≠ F64.pinf ∧ g.x.N ≠ F64.ninf) (hy : g.y.N ≠ F64.pinf ∧ g.y.N ≠ F64.ninf) :
    ∃ ox oy, g.Offset ⟨F64.num a, F64.num b⟩ = ⟨F64.num ox, F64.num oy⟩ ∧
      0 ≤ ox ∧ ox ≤ a ∧ 0 ≤ oy ∧ oy ≤ b := by
  obtain ⟨w, h, x, y, p, s⟩ := g
  obtain ⟨xn, xu⟩ := x
  obtain ⟨yn, yu⟩ := y
  simp only at hx hy
  rcases F64.nan_or_num xn hx with rfl | ⟨qx, rfl⟩ <;>
  rcases F64.nan_or_num yn hy with rfl | ⟨qy, rfl⟩ <;>
  cases xu <;>
  simp [Geometry.Offset, Geometry.HasY, Geometry.HasX, NewDims, Dims.X, Dims.Y, F64.isNaN,
    F64.mul_num, F64.div_hundred, F64.min_num, F64.max_num, F64.zero, ha, hb] <;>
  refine ⟨_, _, ⟨rfl, rfl⟩, ?_⟩ <;>
  simp [ha, hb]

/-- C6: for a geometry whose two offset scalars carry one unit (as in every geometry that
`ParseGeometry` or `EmptyGeometry` builds) and are absent or finite, and a finite full size
with non-negative components, each component of `Offset` is a number in `[0, full.axis]`;
an absent scalar yields 0; a pixel offset `v` yields `max 0 (min v full.axis)`, and a percent
offset `v` yields `max 0 (min (full.axis * v / 100) full.axis)`. -/
theorem Offset_spec (g : Geometry) (a b : ℚ) (ha : 0 ≤ a) (hb : 0 ≤ b)
    (hu : g.y.U = g.x.U)
    (hx : g.x.N ≠ F64.pinf ∧ g.x.N ≠ F64.ninf) (hy : g.y.N ≠ F64.pinf ∧ g.y.N ≠ F64.ninf) :
    (∃ ox oy, g.Offset ⟨F64.num a, F64.num b⟩ = ⟨F64.num ox, F64.num oy⟩ ∧
        0 ≤ ox ∧ ox ≤ a ∧ 0 ≤ oy ∧ oy ≤ b) ∧
      (g.x.N = F64.nan → (g.Offset ⟨F64.num a, F64.num b⟩).x = F64.num 0) ∧
      (g.y.N = F64.nan → (g.Offset ⟨F64.num a, F64.num b⟩).y = F64.num 0) ∧
      (g.x.U = Pixels → ∀ v, g.x.N = F64.num v →
        (g.Offset ⟨F64.num a, F64.num b⟩).x = F64.num (max 0 (min v a))) ∧
      (g.y.U = Pixels → ∀ v, g.y.N = F64.num v →
        (g.Offset ⟨F64.num a, F64.num b⟩).y = F64.num (max 0 (min v b))) ∧
      (g.x.U = Percent → ∀ v, g.x.N = F64.num v →
        (g.Offset ⟨F64.num a, F64.num b⟩).x = F64.num (max 0 (min (a * v / 100) a))) ∧
      (g.y.U = Percent → ∀ v, g.y.N = F64.num v →
        (g.Offset ⟨F64.num a, F64.num b⟩).y = F64.num (max 0 (min (b * v / 100) b))) := by
  refine ⟨Offset_range g a b ha hb hx hy, ?_⟩
  obtain ⟨w, h, x, y, p, s⟩ := g
  obtain ⟨xn, xu⟩ := x
  obtain ⟨yn, yu⟩ := y
  simp only at hx hy hu
  subst hu
  rcases F64.nan_or_num xn hx with rfl | ⟨qx, rfl⟩ <;>
  rcases F64.nan_or_num yn hy with rfl | ⟨qy, rfl⟩ <;>
  cases yu <;>
  simp [Geometry.Offset, Geometry.HasY, Geometry.HasX, NewDims, Dims.X, Dims.Y, F64.isNaN,
    F64.mul_num, F64.div_hundred, F64.min_num, F64.max_num, F64.zero, ha, hb]

theorem Offset_spec_witness :
    (0 : ℚ) ≤ 100 ∧ offsetOnlyGeometry.y.U = offsetOnlyGeometry.x.U ∧
      (offsetOnlyGeometry.Offset ⟨F64.num 100, F64.num 100⟩).y = F64.num (max 0 (min 20 100)) :=
  ⟨by norm_num, rfl,
    (Offset_spec offsetOnlyGeometry 100 100 (by norm_num) (by norm_num) rfl
      ⟨by decide, by decide⟩ ⟨by decide, by decide⟩).2.2.2.2.1 rfl 20 rfl⟩

/-- A geometry without offset crops nothing; with an offset (absent or finite scalars) and a
finite non-negative full size, on each axis where a size is declared the cropped size is
`min (declared size) (full.axis - Offset.axis)`, the declared size being resolved in the
unit stored with the width (pixels: the value; percent: `full.axis * value / 100`), and it
does not exceed `full.axis`. -/
theorem Crop_declared (g : Geometry) (a b : ℚ) (ha : 0 ≤ a) (hb : 0 ≤ b)
    (hx : g.x.N ≠ F64.pinf ∧ g.x.N ≠ F64.ninf) (hy : g.y.N ≠ F64.pinf ∧ g.y.N ≠ F64.ninf) :
    (g.HasOffset = false → g.Crop ⟨F64.num a, F64.num b⟩ = ⟨F64.num a, F64.num b⟩) ∧
    (g.HasOffset = true →
      ∃ ox oy, g.Offset ⟨F64.num a, F64.num b⟩ = ⟨F64.num ox, F64.num oy⟩ ∧
        (g.width.U = Pixels → ∀ w, g.width.N = F64.num w →
          (g.Crop ⟨F64.num a, F64.num b⟩).x = F64.num (min w (a - ox)) ∧ min w (a - ox) ≤ a) ∧
        (g.width.U = Pixels → ∀ h, g.height.N = F64.num h →
          (g.Crop ⟨F64.num a, F64.num b⟩).y = F64.num (min h (b - oy)) ∧ min h (b - oy) ≤ b) ∧
        (g.width.U = Percent → ∀ w, g.width.N = F64.num w →
          (g.Crop ⟨F64.num a, F64.num b⟩).x = F64.num (min (a * w / 100) (a - ox)) ∧
            min (a * w / 100) (a - ox) ≤ a) ∧
        (g.width.U = Percent → ∀ h, g.height.N = F64.num h →
          (g.Crop ⟨F64.num a, F64.num b⟩).y = F64.num (min (b * h / 100) (b - oy)) ∧
            min (b * h / 100) (b - oy) ≤ b)) := by
  refine ⟨fun h => by simp [Geometry.Crop, h], fun hoff => ?_⟩
  obtain ⟨ox, oy, hO, hox, -, hoy, -⟩ := Offset_range g a b ha hb hx hy
  refine ⟨ox, oy, hO, ?_, ?_, ?_, ?_⟩ <;> intro hu v hv <;>
    simp [Geometry.Crop, hoff, hO, hu, hv, NewDims, Dims.X, Dims.Y, F64.sub_num, F64.min_num,
      F64.mul_num, F64.div_hundred] <;>
    right <;> linarith

/-- The crop `50x80+10+20` of a 100 by 100 image is 50 wide. -/
theorem Crop_declared_example :
    (0 : ℚ) ≤ 100 ∧ sizedCropGeometry.HasOffset = true ∧
      ∃ ox oy, sizedCropGeometry.Offset ⟨F64.num 100, F64.num 100⟩ = ⟨F64.num ox, F64.num oy⟩ ∧
        (sizedCropGeometry.Crop ⟨F64.num 100, F64.num 100⟩).x = F64.num (min 50 (100 - ox)) := by
  obtain ⟨ox, oy, hO, hpx, -⟩ :=
    (Crop_declared sizedCropGeometry 100 100 (by norm_num) (by norm_num)
      ⟨by decide, by decide⟩ ⟨by decide, by decide⟩).2 rfl
  exact ⟨by norm_num, rfl, ox, oy, hO, (hpx rfl 50 rfl).1⟩

/-- C7: `Crop` misses the case of an axis without declared size.  The text `+10+20` parses
to a geometry with an offset and no size; on a 100 by 100 image its offset is (10, 20) and
its crop is `(NaN, NaN)`, not `(100 - 10, 100 - 20)`, because `math.Min` returns NaN as soon
as one argument is NaN; `Scale`, on the same geometry, tests `HasWidth` and `HasHeight` and
returns the full size. -/
theorem Crop_absent_size_is_nan :
    ParseGeometry "+10+20".toList = (offsetOnlyGeometry, none) ∧
    offsetOnlyGeometry.Offset ⟨F64.num 100, F64.num 100⟩ = ⟨F64.num 10, F64.num 20⟩ ∧
    offsetOnlyGeometry.Crop ⟨F64.num 100, F64.num 100⟩ = ⟨F64.nan, F64.nan⟩ ∧
    offsetOnlyGeometry.Scale ⟨F64.num 100, F64.num 100⟩ = ⟨F64.num 100, F64.num 100⟩ := by
  refine ⟨by decide!, by decide!, by decide!, by decide!⟩

/-- C8: `Scale` with aspect preservation in pixel units, on a finite full size `(a, b)` with
positive components.  If only the width `w` is present the result is `(w, _)` with the
proportions of the full size (`rx * b = ry * a`, and `rx / ry = a / b` when `w` is not zero);
symmetrically for the height; if both are present the result has the proportions of the
full size, `rx ≤ w`, `ry ≤ h`, and one of the two bounds is attained. -/
theorem Scale_preserve_pixels (g : Geometry) (a b : ℚ) (ha : 0 < a) (hb : 0 < b)
    (hp : g.preserveAspectRatio = true) :
    (∀ w, g.width = ⟨F64.num w, Pixels⟩ → g.height.N = F64.nan →
      ∃ rx ry, g.Scale ⟨F64.num a, F64.num b⟩ = ⟨F64.num rx, F64.num ry⟩ ∧
        rx = w ∧ rx * b = ry * a ∧ (w ≠ 0 → rx / ry = a / b)) ∧
    (∀ h, g.height = ⟨F64.num h, Pixels⟩ → g.width.N = F64.nan →
      ∃ rx ry, g.Scale ⟨F64.num a, F64.num b⟩ = ⟨F64.num rx, F64.num ry⟩ ∧
        ry = h ∧ rx * b = ry * a ∧ (h ≠ 0 → rx / ry = a / b)) ∧
    (∀ w h, g.width = ⟨F64.num w, Pixels⟩ → g.height = ⟨F64.num h, Pixels⟩ →
      ∃ rx ry, g.Scale ⟨F64.num a, F64.num b⟩ = ⟨F64.num rx, F64.num ry⟩ ∧
        rx * b = ry * a ∧ rx ≤ w ∧ ry ≤ h ∧ (rx = w ∨ ry = h)) := by
  have hab : a / b ≠ 0 := div_ne_zero ha.ne' hb.ne'
  have hab' : 0 < a / b := div_pos ha hb
  refine ⟨?_, ?_, ?_⟩
  · intro w hw hh
    refine ⟨w, w / (a / b), ?_, rfl, ?_, ?_⟩
    · simp [Geometry.Scale, Geometry.scaleUnits, Geometry.HasWidth, Geometry.HasHeight, hw, hh,
        hp, Geometry.PreserveAspectRatio, F64.isNaN, NewDims, Dims.X, Dims.Y,
        F64.div_num a b hb.ne', F64.div_num w (a / b) hab]
    · field_simp
    · intro hw0
      field_simp
      ring
  · intro h hh hw
    refine ⟨a / b * h, h, ?_, rfl, ?_, ?_⟩
    · simp [Geometry.Scale, Geometry.scaleUnits, Geometry.HasWidth, Geometry.HasHeight, hw, hh,
        hp, Geometry.PreserveAspectRatio, F64.isNaN, NewDims, Dims.X, Dims.Y,
        F64.div_num a b hb.ne', F64.mul_num]
    · field_simp
      ring
    · intro hh0
      field_simp
      ring
  · intro w h hw hh
    refine ⟨min w (h * (a / b)), min h (w / (a / b)), ?_, ?_, min_le_left _ _, min_le_left _ _, ?_⟩
    · simp [Geometry.Scale, Geometry.scaleUnits, Geometry.HasWidth, Geometry.HasHeight, hw, hh,
        hp, Geometry.PreserveAspectRatio, F64.isNaN, NewDims, Dims.X, Dims.Y,
        F64.div_num a b hb.ne', F64.mul_num, F64.div_num w (a / b) hab, F64.min_num]
    · by_cases hc : w ≤ h * (a / b)
      · have hc' : w / (a / b) ≤ h := by rwa [div_le_iff₀ hab']
        rw [min_eq_left hc, min_eq_right hc']
        field_simp
      · have hc1 : h * (a / b) ≤ w := le_of_lt (not_le.mp hc)
        have hc' : h ≤ w / (a / b) := by rwa [le_div_iff₀ hab']
        rw [min_eq_right hc1, min_eq_left hc']
        field_simp
    · by_cases hc : w ≤ h * (a / b)
      · left; exact min_eq_left hc
      · right
        have hc1 : h * (a / b) ≤ w := le_of_lt (not_le.mp hc)
        have hc' : h ≤ w / (a / b) := by rwa [le_div_iff₀ hab']
        exact min_eq_left hc'

/-- The C8 theorem applied to `200x100` on a 400 by 100 image. -/
theorem Scale_preserve_pixels_witness :
    (0 : ℚ) < 400 ∧ fitGeometry.preserveAspectRatio = true ∧
      ∃ rx ry, fitGeometry.Scale ⟨F64.num 400, F64.num 100⟩ = ⟨F64.num rx, F64.num ry⟩ ∧
        rx * 100 = ry * 400 ∧ rx ≤ 200 ∧ ry ≤ 100 ∧ (rx = 200 ∨ ry = 100) :=
  ⟨by norm_num, rfl,
    (Scale_preserve_pixels fitGeometry 400 100 (by norm_num) (by norm_num) rfl).2.2
      200 100 rfl rfl⟩

/-- C9 (as amended): `Scale` without aspect preservation, for every full size.  In pixels the
result is the width if present (else `full.x`) and the height if present (else `full.y`); in
percent with no height the result is `(full.x * width / 100, full.y)`; when width and height
are both present in different units, or both absent, `Scale` returns `full` unchanged. -/
theorem Scale_stretch (g : Geometry) (full : Dims) (hp : g.preserveAspectRatio = false) :
    (g.width.N ≠ F64.nan → g.height.N ≠ F64.nan → g.width.U = Pixels → g.height.U = Pixels →
      g.Scale full = ⟨g.width.N, g.height.N⟩) ∧
    (g.width.N ≠ F64.nan → g.height.N = F64.nan → g.width.U = Pixels →
      g.Scale full = ⟨g.width.N, full.y⟩) ∧
    (g.width.N = F64.nan → g.height.N ≠ F64.nan → g.height.U = Pixels →
      g.Scale full = ⟨full.x, g.height.N⟩) ∧
    (g.width.N ≠ F64.nan → g.height.N = F64.nan → g.width.U = Percent →
      g.Scale full = ⟨F64.div (F64.mul full.x g.width.N) (F64.num 100), full.y⟩) ∧
    (g.width.N ≠ F64.nan → g.height.N ≠ F64.nan → g.width.U ≠ g.height.U →
      g.Scale full = full) ∧
    (g.width.N = F64.nan → g.height.N = F64.nan → g.Scale full = full) := by
  obtain ⟨⟨wn, wu⟩, ⟨hn, hu⟩, x, y, p, s⟩ := g
  simp only at hp
  subst hp
  refine ⟨?_, ?_, ?_, ?_, ?_, ?_⟩ <;> intros <;> cases wn <;> cases hn <;>
    simp_all [Geometry.Scale, Geometry.scaleUnits, Geometry.HasWidth, Geometry.HasHeight,
      Geometry.PreserveAspectRatio, F64.isNaN, NewDims, Dims.X, Dims.Y]

/-- The C9 theorem applied to `50x80!` on a 100 by 200 image. -/
theorem Scale_stretch_witness :
    stretchPixelsGeometry.preserveAspectRatio = false ∧
      stretchPixelsGeometry.Scale ⟨F64.num 100, F64.num 200⟩ = ⟨F64.num 50, F64.num 80⟩ :=
  ⟨rfl,
    (Scale_stretch stretchPixelsGeometry ⟨F64.num 100, F64.num 200⟩ rfl).1
      (by decide) (by decide) rfl rfl⟩

/-- C9 as stated fails when width and height carry different units: a pixel width 50 and a
percent height 50 leave a 100 by 200 image unchanged, where the claim gives
`(50, 200 * 50 / 100)`. -/
theorem Scale_stretch_mixed_units_counterexample :
    stretchMixedGeometry.preserveAspectRatio = false ∧
      stretchMixedGeometry.width = ⟨F64.num 50, Pixels⟩ ∧
      stretchMixedGeometry.height = ⟨F64.num 50, Percent⟩ ∧
      stretchMixedGeometry.Scale ⟨F64.num 100, F64.num 200⟩ = ⟨F64.num 100, F64.num 200⟩ ∧
      stretchMixedGeometry.Scale ⟨F64.num 100, F64.num 200⟩ ≠
        ⟨F64.num 50, F64.num (200 * 50 / 100)⟩ := by
  have h : stretchMixedGeometry.Scale ⟨F64.num 100, F64.num 200⟩ =
      ⟨F64.num 100, F64.num 200⟩ := by
    simp [stretchMixedGeometry, Geometry.Scale, Geometry.scaleUnits, EmptyGeometry,
      Geometry.HasWidth, Geometry.HasHeight, F64.isNaN]
  refine ⟨rfl, rfl, rfl, h, ?_⟩
  rw [h]
  norm_num

/-- The slip in the percent branch of `Scale` without aspect preservation: the height result
is stored in the x component and y keeps its zero value, so `50x50%!` turns a 100 by 200
image into `(100, 0)` and not `(50, 100)`. -/
theorem Scale_stretch_percent_height_slip :
    stretchPercentGeometry.Scale ⟨F64.num 100, F64.num 200⟩ = ⟨F64.num 100, F64.num 0⟩ := by
  simp [stretchPercentGeometry, Geometry.Scale, Geometry.scaleUnits, EmptyGeometry,
    Geometry.HasWidth, Geometry.HasHeight, Geometry.PreserveAspectRatio, F64.isNaN, NewDims,
    Dims.X, Dims.Y, F64.mul_num, F64.div_hundred, F64.zero]
  norm_num

/-! ## Layout store -/

theorem IdMap.lookup_set_self {V : Type} (m : IdMap V) (k : ImageIdentifier) (v : V) :
    List.lookup k (IdMap.set m k v) = some v := by
  induction m with
  | nil => simp [IdMap.set, List.lookup]
  | cons e m ih =>
    obtain ⟨k', v'⟩ := e
    by_cases h : k' = k
    · simp [IdMap.set, h, List.lookup]
    · have h' : (k == k') = false := by simpa using fun h1 => h h1.symm
      simp [IdMap.set, h, List.lookup, h', ih]

theorem IdMap.lookup_set_ne {V : Type} (m : IdMap V) (k j : ImageIdentifier) (v : V)
    (hj : j ≠ k) : List.lookup j (IdMap.set m k v) = List.lookup j m := by
  induction m with
  | nil =>
    have h' : (j == k) = false := by simpa using hj
    simp [IdMap.set, List.lookup, h']
  | cons e m ih =>
    obtain ⟨k', v'⟩ := e
    by_cases h : k' = k
    · subst h
      have h' : (j == k') = false := by simpa using hj
      simp [IdMap.set, List.lookup, h']
    · simp only [IdMap.set, h, if_false, List.lookup]
      cases (j == k') <;> simp [ih]

theorem IdMap.get_set_self {V : Type} (m : IdMap V) (z : V) (k : ImageIdentifier) (v : V) :
    IdMap.get (IdMap.set m k v) z k = v := by
  simp [IdMap.get, IdMap.lookup_set_self]

theorem IdMap.get_set_ne {V : Type} (m : IdMap V) (z : V) (k j : ImageIdentifier) (v : V)
    (hj : j ≠ k) : IdMap.get (IdMap.set m k v) z j = IdMap.get m z j := by
  simp [IdMap.get, IdMap.lookup_set_ne m k j v hj]

/-- C10: for an image `id` known to the layout (with metadata `info`), `SetScaling id g` and
`SetCropping id g` both return, store `g`, and leave the stored dimensions of `id` equal to
`ScaleAndCrop info.dimensions (CroppingOf id) (ScalingOf id)`, that is to
`(CroppingOf id).Crop ((ScalingOf id).Scale info.dimensions)`; the dimensions, scaling and
cropping of every other image are unchanged. -/
theorem SetScaling_SetCropping_dimensions (l : ImageLayout) (id : ImageIdentifier)
    (info : ImageInfo) (g : Geometry) (hid : l.ImageInfoOf id = some info) :
    (∃ l' c, l.SetScaling id g = some (l', c) ∧ l'.ImageInfoOf id = some info ∧
      l'.ScalingOf id = g ∧ l'.CroppingOf id = l.CroppingOf id ∧
      l'.DimensionsOf id = ScaleAndCrop info.dimensions (l'.CroppingOf id) (l'.ScalingOf id) ∧
      l'.DimensionsOf id = (l'.CroppingOf id).Crop ((l'.ScalingOf id).Scale info.dimensions) ∧
      ∀ j, j ≠ id → l'.DimensionsOf j = l.DimensionsOf j ∧ l'.ScalingOf j = l.ScalingOf j ∧
        l'.CroppingOf j = l.CroppingOf j) ∧
    (∃ l' c, l.SetCropping id g = some (l', c) ∧ l'.ImageInfoOf id = some info ∧
      l'.CroppingOf id = g ∧ l'.ScalingOf id = l.ScalingOf id ∧
      l'.DimensionsOf id = ScaleAndCrop info.dimensions (l'.CroppingOf id) (l'.ScalingOf id) ∧
      l'.DimensionsOf id = (l'.CroppingOf id).Crop ((l'.ScalingOf id).Scale info.dimensions) ∧
      ∀ j, j ≠ id → l'.DimensionsOf j = l.DimensionsOf j ∧ l'.ScalingOf j = l.ScalingOf j ∧
        l'.CroppingOf j = l.CroppingOf j) := by
  unfold ImageLayout.ImageInfoOf at hid
  constructor
  · refine ⟨_, _, by simp only [ImageLayout.SetScaling, hid]; rfl, ?_⟩
    refine ⟨hid, ?_, rfl, ?_, ?_, ?_⟩
    · simp [ImageLayout.ScalingOf, IdMap.get_set_self]
    · simp [ImageLayout.DimensionsOf, ImageLayout.ScalingOf, ImageLayout.CroppingOf,
        IdMap.get_set_self]
    · simp [ImageLayout.DimensionsOf, ImageLayout.ScalingOf, ImageLayout.CroppingOf,
        IdMap.get_set_self, ScaleAndCrop]
    · intro j hj
      simp [ImageLayout.DimensionsOf, ImageLayout.ScalingOf, ImageLayout.CroppingOf,
        IdMap.get_set_ne _ _ _ _ _ hj]
  · refine ⟨_, _, by simp only [ImageLayout.SetCropping, hid]; rfl, ?_⟩
    refine ⟨hid, ?_, rfl, ?_, ?_, ?_⟩
    · simp [ImageLayout.CroppingOf, IdMap.get_set_self]
    · simp [ImageLayout.DimensionsOf, ImageLayout.ScalingOf, ImageLayout.CroppingOf,
        IdMap.get_set_self]
    · simp [ImageLayout.DimensionsOf, ImageLayout.ScalingOf, ImageLayout.CroppingOf,
        IdMap.get_set_self, ScaleAndCrop]
    · intro j hj
      simp [ImageLayout.DimensionsOf, ImageLayout.ScalingOf, ImageLayout.CroppingOf,
        IdMap.get_set_ne _ _ _ _ _ hj]

/-- The C10 theorem applied to image 0 of `sampleLayout` and the geometry `200x100`. -/
theorem SetScaling_SetCropping_dimensions_witness :
    sampleLayout.ImageInfoOf 0 = some sampleInfo0 ∧
      ∃ l' c, sampleLayout.SetScaling 0 fitGeometry = some (l', c) ∧
        l'.ScalingOf 0 = fitGeometry ∧
        l'.DimensionsOf 0 =
          ScaleAndCrop sampleInfo0.dimensions (l'.CroppingOf 0) (l'.ScalingOf 0) := by
  obtain ⟨l', c, h1, -, h2, -, h3, -⟩ :=
    (SetScaling_SetCropping_dimensions sampleLayout 0 sampleInfo0 fitGeometry rfl).1
  exact ⟨rfl, l', c, h1, h2, h3⟩

/-! ## The backtracking search on the strings it accepts -/

theorem HeadNot.of_nil (p : Char → Bool) : HeadNot p [] := by
  simp [HeadNot]

theorem HeadNot.cons {p : Char → Bool} {c : Char} (h : p c = false) (v : List Char) :
    HeadNot p (c :: v) := by
  simpa [HeadNot] using h

theorem starRun_stop {α : Type} (p : Char → Bool) (v : List Char) (k : List Char → Option α)
    (hv : HeadNot p v) : starRun p v k = k v := by
  cases v with
  | nil => rfl
  | cons c cs =>
    have : p c = false := hv c (by simp)
    simp [starRun, this]

theorem starRun_append {α : Type} (p : Char → Bool) (ds v : List Char)
    (k : List Char → Option α) (hds : ∀ c ∈ ds, p c = true) (hv : HeadNot p v)
    (hk : (k v).isSome = true) : starRun p (ds ++ v) k = k v := by
  induction ds with
  | nil => exact starRun_stop p v k hv
  | cons c cs ih =>
    have hc : p c = true := hds c (by simp)
    have ih' := ih (fun d hd => hds d (by simp [hd]))
    obtain ⟨r, hr⟩ := Option.isSome_iff_exists.mp hk
    simp [starRun, hc, ih', hr]

theorem Takes.of_cls {p : Char → Bool} {c : Char} (hc : p c = true) (v : List Char) :
    Takes (Regexp.cls p) [c] v id := by
  intro sm k _
  simp [Regexp.run, hc]

theorem Takes.of_star {p : Char → Bool} {ds v : List Char} (hds : ∀ c ∈ ds, p c = true)
    (hv : HeadNot p v) : Takes (Regexp.star p) ds v id := by
  intro sm k hk
  simp only [Regexp.run]
  exact starRun_append p ds v (fun s' => k s' sm) hds hv hk

theorem Takes.of_cat {a b : Regexp} {u u' v : List Char} {f g : Submatches → Submatches}
    (ha : Takes a u (u' ++ v) f) (hb : Takes b u' v g) :
    Takes (Regexp.cat a b) (u ++ u') v (g ∘ f) := by
  intro sm k hk
  simp only [Regexp.run, List.append_assoc]
  have hb' := hb (f sm) k hk
  rw [ha sm _ (by rw [hb']; exact hk), hb']
  rfl

theorem Takes.quest_some {a : Regexp} {u v : List Char} {f : Submatches → Submatches}
    (ha : Takes a u v f) : Takes (Regexp.quest a) u v f := by
  intro sm k hk
  obtain ⟨r, hr⟩ := Option.isSome_iff_exists.mp hk
  simp [Regexp.run, ha sm k hk, hr]

theorem Takes.quest_none {a : Regexp} {v : List Char} (ha : Fails a v) :
    Takes (Regexp.quest a) [] v id := by
  intro sm k _
  simp [Regexp.run, ha sm k]

theorem Takes.of_capture {a : Regexp} {u v : List Char} {f : Submatches → Submatches} (i : Nat)
    (ha : Takes a u v f) :
    Takes (Regexp.capture i a) u v (fun sm => Function.update (f sm) i u) := by
  intro sm k hk
  simp only [Regexp.run]
  have hlen : (u ++ v).take ((u ++ v).length - v.length) = u := by simp
  rw [ha sm _ (by rw [hlen]; exact hk), hlen]

theorem Takes.of_plus {p : Char → Bool} {c : Char} {ds v : List Char} (hc : p c = true)
    (hds : ∀ d ∈ ds, p d = true) (hv : HeadNot p v) :
    Takes (Regexp.plus p) (c :: ds) v id := by
  have h := Takes.of_cat (Takes.of_cls hc (ds ++ v)) (Takes.of_star hds hv)
  simpa [Regexp.plus] using h

theorem Fails.at_cls {p : Char → Bool} {v : List Char} (hv : HeadNot p v) :
    Fails (Regexp.cls p) v := by
  intro sm k
  cases v with
  | nil => rfl
  | cons c cs =>
    have : p c = false := hv c (by simp)
    simp [Regexp.run, this]

theorem Fails.at_cat {a : Regexp} (b : Regexp) {v : List Char} (ha : Fails a v) :
    Fails (Regexp.cat a b) v := by
  intro sm k
  simp [Regexp.run, ha sm _]

theorem Fails.at_capture {a : Regexp} (i : Nat) {v : List Char} (ha : Fails a v) :
    Fails (Regexp.capture i a) v := by
  intro sm k
  simp [Regexp.run, ha sm _]

theorem Fails.at_plus {p : Char → Bool} {v : List Char} (hv : HeadNot p v) :
    Fails (Regexp.plus p) v :=
  Fails.at_cat _ (Fails.at_cls hv)

/-- A pattern that takes the whole string finds the submatches it records. -/
theorem Takes.find {re : Regexp} {u : List Char} {f : Submatches → Submatches}
    (h : Takes re u [] f) :
    re.FindStringSubmatch u = some (f (Function.update (fun _ => []) 0 u)) := by
  have := h (Function.update (fun _ => []) 0 u)
    (fun rest sm => if rest.isEmpty then some sm else none) (by simp)
  simpa [Regexp.FindStringSubmatch] using this

/-! ## Decimal digits and `Atoi` -/

theorem digitChar_isDigit (d : Nat) (hd : d < 10) : (digitChar d).isDigit = true := by
  interval_cases d <;> decide

theorem digitVal_digitChar (d : Nat) (hd : d < 10) : digitVal (digitChar d) = d := by
  interval_cases d <;> decide

theorem digitsVal_append (ds : List Char) (c : Char) :
    digitsVal (ds ++ [c]) = 10 * digitsVal ds + digitVal c := by
  simp [digitsVal, List.foldl_append]

theorem decDigits_spec (fuel n : Nat) (h : n < fuel) :
    decDigits fuel n ≠ [] ∧ (∀ c ∈ decDigits fuel n, c.isDigit = true) ∧
      digitsVal (decDigits fuel n) = n := by
  induction fuel generalizing n with
  | zero => omega
  | succ fuel ih =>
    unfold decDigits
    by_cases hn : n < 10
    · simp only [hn, if_true]
      refine ⟨by simp, ?_, ?_⟩
      · intro c hc
        simp at hc
        subst hc
        exact digitChar_isDigit n hn
      · simp [digitsVal, digitVal_digitChar n hn]
    · simp only [hn, if_false]
      have hlt : n / 10 < fuel := by omega
      obtain ⟨-, h2, h3⟩ := ih (n / 10) hlt
      refine ⟨by simp, ?_, ?_⟩
      · intro c hc
        rw [List.mem_append] at hc
        rcases hc with hc | hc
        · exact h2 c hc
        · simp at hc
          subst hc
          exact digitChar_isDigit _ (Nat.mod_lt _ (by norm_num))
      · rw [digitsVal_append, h3, digitVal_digitChar _ (Nat.mod_lt _ (by norm_num))]
        omega

theorem natToDec_spec (n : Nat) :
    natToDec n ≠ [] ∧ (∀ c ∈ natToDec n, c.isDigit = true) ∧ digitsVal (natToDec n) = n :=
  decDigits_spec (n + 1) n (Nat.lt_succ_self n)

theorem isDigit_ne {c d : Char} (hc : c.isDigit = true) (hd : d.isDigit = false) : c ≠ d := by
  intro h
  subst h
  simp [hc] at hd

theorem Atoi_digits (c : Char) (cs : List Char) (h : ∀ d ∈ c :: cs, d.isDigit = true) :
    Atoi (c :: cs) =
      if digitsVal (c :: cs) < 2 ^ 63 then Except.ok ((digitsVal (c :: cs) : Nat) : Int)
      else Except.error NumError.outOfRange := by
  have hc : c.isDigit = true := h c (by simp)
  have h1 : c ≠ '+' := isDigit_ne hc (by decide)
  have h2 : c ≠ '-' := isDigit_ne hc (by decide)
  have hall : (c :: cs).all Char.isDigit = true := by
    rw [List.all_eq_true]
    exact h
  unfold Atoi
  split
  · next r heq => simp at heq; exact absurd heq.1 h1
  · next r heq => simp at heq; exact absurd heq.1 h2
  · simp only [hall]
    simp

theorem Atoi_nil : Atoi [] = Except.error NumError.invalid := rfl

/-! ## ParseDims -/

theorem dims_first_group (c : Char) (cs v : List Char) (h : ∀ d ∈ c :: cs, d.isDigit = true)
    (hv : HeadNot Char.isDigit v) :
    Takes (Regexp.quest (Regexp.capture 1 (Regexp.plus Char.isDigit))) (c :: cs) v
      (fun sm => Function.update (id sm) 1 (c :: cs)) :=
  Takes.quest_some (Takes.of_capture 1
    (Takes.of_plus (h c (by simp)) (fun d hd => h d (by simp [hd])) hv))

theorem dims_first_group_absent (v : List Char) (hv : HeadNot Char.isDigit v) :
    Takes (Regexp.quest (Regexp.capture 1 (Regexp.plus Char.isDigit))) [] v id :=
  Takes.quest_none (Fails.at_capture 1 (Fails.at_plus hv))

theorem dims_second_group (sep : Char) (ds : List Char) (hsep : sep = ',' ∨ sep = 'x')
    (h : ∀ d ∈ ds, d.isDigit = true) :
    Takes (Regexp.quest (Regexp.capture 2
      (Regexp.cat (Regexp.cls (fun c => c == ',' || c == 'x'))
        (Regexp.capture 3 (Regexp.star Char.isDigit))))) (sep :: ds) []
      (fun sm => Function.update (Function.update sm 3 ds) 2 (sep :: ds)) := by
  have h1 : Takes (Regexp.cls (fun c => c == ',' || c == 'x')) [sep] (ds ++ []) id :=
    Takes.of_cls (by rcases hsep with rfl | rfl <;> decide) _
  have h2 := Takes.of_capture 3 (Takes.of_star h (HeadNot.of_nil Char.isDigit))
  have h3 := Takes.quest_some (Takes.of_capture 2 (Takes.of_cat h1 h2))
  exact h3

theorem dims_second_group_absent :
    Takes (Regexp.quest (Regexp.capture 2
      (Regexp.cat (Regexp.cls (fun c => c == ',' || c == 'x'))
        (Regexp.capture 3 (Regexp.star Char.isDigit))))) [] [] id :=
  Takes.quest_none (Fails.at_capture 2 (Fails.at_cat _ (Fails.at_cls (HeadNot.of_nil _))))

theorem headNot_digit_sep (sep : Char) (ds : List Char) (hsep : sep = ',' ∨ sep = 'x') :
    HeadNot Char.isDigit (sep :: ds) :=
  HeadNot.cons (by rcases hsep with rfl | rfl <;> decide) ds

/-- Strings without parentheses pass the parenthesis test of `ParseDims`. -/
theorem paren_test (arg : List Char) (h : ∀ c ∈ arg, c ≠ '(' ∧ c ≠ ')') :
    ((arg.head? == some '(') == (arg.getLast? == some ')')) = true := by
  have h1 : (arg.head? == some '(') = false := by
    cases arg with
    | nil => rfl
    | cons c cs =>
      have := (h c (by simp)).1
      simpa using this
  have h2 : (arg.getLast? == some ')') = false := by
    cases hl : arg.getLast? with
    | none => rfl
    | some c =>
      have hm : c ∈ arg := List.mem_of_getLast?_eq_some hl
      have := (h c hm).2
      simpa using this
  rw [h1, h2]
  rfl

theorem digit_no_paren {c : Char} (hc : c.isDigit = true) : c ≠ '(' ∧ c ≠ ')' :=
  ⟨isDigit_ne hc (by decide), isDigit_ne hc (by decide)⟩

/-- `ParseDims` on a string on which `dims_regex` records the submatches `sm`. -/
theorem ParseDims_of_find (arg : List Char) (sm : Submatches)
    (hfind : dims_regex.FindStringSubmatch arg = some sm) (hne : arg ≠ [])
    (hp : ∀ c ∈ arg, c ≠ '(' ∧ c ≠ ')') :
    ParseDims arg =
      match Atoi (sm 1), Atoi (sm 3) with
      | Except.ok x, Except.ok y => (NewDims (F64.float64 x) (F64.float64 y), none)
      | Except.ok x, Except.error _ =>
        if sm 2 = [] then (NewDims (F64.float64 x) (F64.float64 x), none)
        else (NewDims (F64.float64 x) F64.zero, none)
      | Except.error _, Except.ok y => (NewDims F64.zero (F64.float64 y), none)
      | Except.error _, Except.error _ => (Dims.zeroValue, none) := by
  have hlen : (arg.length != 0) = true := by
    cases arg with
    | nil => exact absurd rfl hne
    | cons c cs => simp
  simp only [ParseDims, Regexp.MatchString, hfind, hlen, paren_test arg hp, Option.isSome_some,
    Bool.and_self, if_true]


theorem dims_find_single (dn : List Char) (hne : dn ≠ []) (hdn : ∀ d ∈ dn, d.isDigit = true) :
    ∃ sm, dims_regex.FindStringSubmatch dn = some sm ∧ sm 1 = dn ∧ sm 2 = [] ∧ sm 3 = [] := by
  obtain ⟨c, cs, rfl⟩ := List.exists_cons_of_ne_nil hne
  have h : Takes dims_regex ((c :: cs) ++ []) [] _ :=
    Takes.of_cat (dims_first_group c cs [] hdn (HeadNot.of_nil _)) dims_second_group_absent
  have hf := Takes.find h
  rw [List.append_nil] at hf
  exact ⟨_, hf, by simp [Function.update_apply], by simp [Function.update_apply],
    by simp [Function.update_apply]⟩

theorem dims_find_pair (dn dm : List Char) (sep : Char) (hsep : sep = ',' ∨ sep = 'x')
    (hdn : ∀ d ∈ dn, d.isDigit = true) (hdm : ∀ d ∈ dm, d.isDigit = true) :
    ∃ sm, dims_regex.FindStringSubmatch (dn ++ sep :: dm) = some sm ∧ sm 1 = dn ∧
      sm 2 = sep :: dm ∧ sm 3 = dm := by
  cases dn with
  | nil =>
    have h : Takes dims_regex ([] ++ sep :: dm) [] _ :=
      Takes.of_cat (dims_first_group_absent _ (headNot_digit_sep sep dm hsep))
        (dims_second_group sep dm hsep hdm)
    have hf := Takes.find h
    exact ⟨_, hf, by simp [Function.update_apply], by simp [Function.update_apply],
      by simp [Function.update_apply]⟩
  | cons c cs =>
    have h : Takes dims_regex ((c :: cs) ++ sep :: dm) [] _ :=
      Takes.of_cat (dims_first_group c cs _ hdn (headNot_digit_sep sep dm hsep))
        (dims_second_group sep dm hsep hdm)
    have hf := Takes.find h
    exact ⟨_, hf, by simp [Function.update_apply], by simp [Function.update_apply],
      by simp [Function.update_apply]⟩

theorem Atoi_of_digits (ds : List Char) (hne : ds ≠ []) (hds : ∀ d ∈ ds, d.isDigit = true)
    (hv : digitsVal ds < 2 ^ 63) : Atoi ds = Except.ok ((digitsVal ds : Nat) : Int) := by
  obtain ⟨c, cs, rfl⟩ := List.exists_cons_of_ne_nil hne
  rw [Atoi_digits c cs hds, if_pos hv]

theorem sep_no_paren (sep : Char) (hsep : sep = ',' ∨ sep = 'x') : sep ≠ '(' ∧ sep ≠ ')' := by
  rcases hsep with rfl | rfl <;> decide

/-- `ParseDims` on the five shapes of valid text, for arbitrary digit strings. -/
theorem ParseDims_digits (dn dm : List Char) (sep : Char) (hsep : sep = ',' ∨ sep = 'x')
    (hn : dn ≠ []) (hm : dm ≠ [])
    (hdn : ∀ d ∈ dn, d.isDigit = true) (hdm : ∀ d ∈ dm, d.isDigit = true)
    (hvn : digitsVal dn < 2 ^ 63) (hvm : digitsVal dm < 2 ^ 63) :
    ParseDims dn = (⟨F64.float64 (digitsVal dn), F64.float64 (digitsVal dn)⟩, none) ∧
    ParseDims (dn ++ sep :: dm) =
      (⟨F64.float64 (digitsVal dn), F64.float64 (digitsVal dm)⟩, none) ∧
    ParseDims (dn ++ [sep]) = (⟨F64.float64 (digitsVal dn), F64.num 0⟩, none) ∧
    ParseDims (sep :: dm) = (⟨F64.num 0, F64.float64 (digitsVal dm)⟩, none) := by
  have hpn : ∀ c ∈ dn, c ≠ '(' ∧ c ≠ ')' := fun c hc => digit_no_paren (hdn c hc)
  have hpm : ∀ c ∈ dm, c ≠ '(' ∧ c ≠ ')' := fun c hc => digit_no_paren (hdm c hc)
  have hps := sep_no_paren sep hsep
  refine ⟨?_, ?_, ?_, ?_⟩
  · obtain ⟨sm, hf, h1, h2, h3⟩ := dims_find_single dn hn hdn
    rw [ParseDims_of_find dn sm hf hn hpn, h1, h2, h3, Atoi_of_digits dn hn hdn hvn, Atoi_nil]
    simp [NewDims]
  · obtain ⟨sm, hf, h1, h2, h3⟩ := dims_find_pair dn dm sep hsep hdn hdm
    rw [ParseDims_of_find _ sm hf (by simp) (by
        intro c hc
        simp only [List.mem_append, List.mem_cons] at hc
        rcases hc with hc | rfl | hc
        · exact hpn c hc
        · exact hps
        · exact hpm c hc),
      h1, h3, Atoi_of_digits dn hn hdn hvn, Atoi_of_digits dm hm hdm hvm]
    simp [NewDims]
  · obtain ⟨sm, hf, h1, h2, h3⟩ := dims_find_pair dn [] sep hsep hdn (by simp)
    rw [ParseDims_of_find _ sm hf (by simp) (by
        intro c hc
        simp only [List.mem_append, List.mem_cons, List.not_mem_nil, or_false] at hc
        rcases hc with hc | rfl
        · exact hpn c hc
        · exact hps),
      h1, h2, h3, Atoi_of_digits dn hn hdn hvn, Atoi_nil]
    simp [NewDims, F64.zero]
  · obtain ⟨sm, hf, h1, h2, h3⟩ := dims_find_pair [] dm sep hsep (by simp) hdm
    rw [List.nil_append] at hf
    rw [ParseDims_of_find _ sm hf (by simp) (by
        intro c hc
        simp only [List.mem_cons] at hc
        rcases hc with rfl | hc
        · exact hps
        · exact hpm c hc),
      h1, h3, Atoi_of_digits dm hm hdm hvm, Atoi_nil]
    simp [NewDims, F64.zero]

/-- The conversion `float64(n)` is exact up to `2^53`. -/
theorem F64.float64_exact (n : Nat) (h : n ≤ 2 ^ 53) : F64.float64 (n : Int) = F64.num n := by
  unfold F64.float64
  have := float64Nearest_int (n : Int) (by
    rw [abs_of_nonneg (by positivity)]
    exact_mod_cast h)
  rw [this]
  simp

/-- C4 (as amended): for all non-negative integers `N`, `M` in the range of `int`, written
in decimal, `ParseDims "N" = (N', N')`, `ParseDims "NxM" = ParseDims "N,M" = (N', M')`,
`ParseDims "Nx" = (N', 0)` and `ParseDims "xM" = (0, M')`, each with a nil error, where `N'`
and `M'` are the float64 values nearest to `N` and `M`: the numbers themselves when they do
not exceed `2^53`. -/
theorem ParseDims_valid (N M : Nat) (hN : N < 2 ^ 63) (hM : M < 2 ^ 63) :
    ParseDims (natToDec N) = (⟨F64.float64 N, F64.float64 N⟩, none) ∧
    ParseDims (natToDec N ++ 'x' :: natToDec M) = (⟨F64.float64 N, F64.float64 M⟩, none) ∧
    ParseDims (natToDec N ++ ',' :: natToDec M) = (⟨F64.float64 N, F64.float64 M⟩, none) ∧
    ParseDims (natToDec N ++ ['x']) = (⟨F64.float64 N, F64.num 0⟩, none) ∧
    ParseDims ('x' :: natToDec M) = (⟨F64.num 0, F64.float64 M⟩, none) ∧
    (N ≤ 2 ^ 53 → F64.float64 N = F64.num N) ∧ (M ≤ 2 ^ 53 → F64.float64 M = F64.num M) := by
  obtain ⟨hn1, hn2, hn3⟩ := natToDec_spec N
  obtain ⟨hm1, hm2, hm3⟩ := natToDec_spec M
  have hx := ParseDims_digits (natToDec N) (natToDec M) 'x' (Or.inr rfl) hn1 hm1 hn2 hm2
    (by rw [hn3]; exact hN) (by rw [hm3]; exact hM)
  have hc := ParseDims_digits (natToDec N) (natToDec M) ',' (Or.inl rfl) hn1 hm1 hn2 hm2
    (by rw [hn3]; exact hN) (by rw [hm3]; exact hM)
  rw [hn3, hm3] at hx hc
  exact ⟨hx.1, hx.2.1, hc.2.1, hx.2.2.1, hx.2.2.2, F64.float64_exact N, F64.float64_exact M⟩

theorem ParseDims_valid_witness :
    (200 : Nat) < 2 ^ 63 ∧ (100 : Nat) < 2 ^ 63 ∧
      ParseDims (natToDec 200 ++ 'x' :: natToDec 100) = (⟨F64.num 200, F64.num 100⟩, none) ∧
      natToDec 200 ++ 'x' :: natToDec 100 = "200x100".toList := by
  obtain ⟨-, h, -, -, -, hn, hm⟩ := ParseDims_valid 200 100 (by norm_num) (by norm_num)
  rw [hn (by norm_num), hm (by norm_num)] at h
  exact ⟨by norm_num, by norm_num, by simpa using h, by decide⟩

/-- C4 (counterexample): `ParseDims "9007199254740993"`, the text of `2^53 + 1`, returns
`(2^53, 2^53)` with a nil error: the conversion `float64(x)` rounds the number to 53 bits. -/
theorem ParseDims_rounds_counterexample :
    ParseDims "9007199254740993".toList =
      (⟨F64.num 9007199254740992, F64.num 9007199254740992⟩, none) ∧
    natToDec (2 ^ 53 + 1) = "9007199254740993".toList ∧ (2 ^ 53 + 1 : Nat) < 2 ^ 63 := by
  refine ⟨by decide!, by decide!, by norm_num⟩

/-- C5 fails on the code: a lone separator and a digit string too large for an `int` are
accepted with a nil error and the value `(0, 0)`, and an oversized first number is silently
read as absent; only the empty string and text outside the pattern are rejected. -/
theorem ParseDims_accepts_malformed :
    ParseDims "x".toList = (⟨F64.num 0, F64.num 0⟩, none) ∧
    ParseDims ",".toList = (⟨F64.num 0, F64.num 0⟩, none) ∧
    ParseDims "99999999999999999999".toList = (⟨F64.num 0, F64.num 0⟩, none) ∧
    ParseDims "99999999999999999999x5".toList = (⟨F64.num 0, F64.num 5⟩, none) ∧
    ParseDims "".toList = (⟨F64.num 0, F64.num 0⟩, some (malformedDims "".toList)) ∧
    ParseDims "5x5x".toList = (⟨F64.num 0, F64.num 0⟩, some (malformedDims "5x5x".toList)) := by
  decide!

/-! ## The submatches of `geom_regex` on a geometry text -/

theorem Takes.of_cat_nil {a b : Regexp} {u u' : List Char} {f g : Submatches → Submatches}
    (ha : Takes a u u' f) (hb : Takes b u' [] g) :
    Takes (Regexp.cat a b) (u ++ u') [] (g ∘ f) := by
  have ha' : Takes a u (u' ++ []) f := by rwa [List.append_nil]
  exact Takes.of_cat ha' hb

theorem Numeral.valid_iff (n : Numeral) :
    n.valid = true ↔
      n.ip ≠ [] ∧ (∀ c ∈ n.ip, c.isDigit = true) ∧
        ∀ f, n.fp = some f → f ≠ [] ∧ ∀ c ∈ f, c.isDigit = true := by
  obtain ⟨ip, fp⟩ := n
  cases fp with
  | none => simp [Numeral.valid, List.isEmpty_iff]
  | some f => simp [Numeral.valid, List.isEmpty_iff, and_assoc]

theorem floatregex_some (i : Nat) (n : Numeral) (hn : n.valid = true) (v : List Char)
    (hv1 : HeadNot Char.isDigit v) (hv2 : HeadNot (fun c => c == '.') v) :
    Takes (floatregex i) n.text v (floatCaps i (some n)) := by
  obtain ⟨hne, hip, hfp⟩ := (Numeral.valid_iff n).mp hn
  obtain ⟨ip, fp⟩ := n
  simp only at hne hip hfp
  obtain ⟨c, cs, rfl⟩ := List.exists_cons_of_ne_nil hne
  have hc : c.isDigit = true := hip c (by simp)
  have hcs : ∀ d ∈ cs, d.isDigit = true := fun d hd => hip d (by simp [hd])
  cases fp with
  | none =>
    have h1 : Takes (Regexp.plus Char.isDigit) (c :: cs) ([] ++ v) id :=
      Takes.of_plus hc hcs (by simpa using hv1)
    have h2 : Takes (Regexp.quest (Regexp.capture (i + 1)
        (Regexp.cat (Regexp.cls (fun c => c == '.')) (Regexp.plus Char.isDigit)))) [] v id :=
      Takes.quest_none (Fails.at_capture _ (Fails.at_cat _ (Fails.at_cls hv2)))
    have h3 := Takes.quest_some (Takes.of_capture i (Takes.of_cat h1 h2))
    have hcaps : floatCaps i (some ⟨c :: cs, none⟩) =
        fun sm => Function.update sm i (c :: cs) := by
      funext sm
      simp [floatCaps, Numeral.text, Numeral.fracText]
    rw [hcaps]
    simpa [floatregex, Numeral.text, Numeral.fracText] using h3
  | some f =>
    obtain ⟨hfne, hf⟩ := hfp f rfl
    obtain ⟨d, ds, rfl⟩ := List.exists_cons_of_ne_nil hfne
    have hd : d.isDigit = true := hf d (by simp)
    have hds : ∀ e ∈ ds, e.isDigit = true := fun e he => hf e (by simp [he])
    have h1 : Takes (Regexp.plus Char.isDigit) (c :: cs) (('.' :: d :: ds) ++ v) id :=
      Takes.of_plus hc hcs (HeadNot.cons (by decide) _)
    have h2a : Takes (Regexp.cls (fun c => c == '.')) ['.'] ((d :: ds) ++ v) id :=
      Takes.of_cls (by decide) _
    have h2 := Takes.quest_some (Takes.of_capture (i + 1) (Takes.of_cat h2a (Takes.of_plus hd hds hv1)))
    have h3 := Takes.quest_some (Takes.of_capture i (Takes.of_cat h1 h2))
    have hcaps : floatCaps i (some ⟨c :: cs, some (d :: ds)⟩) =
        fun sm => Function.update (Function.update sm (i + 1) ('.' :: d :: ds)) i
          (c :: cs ++ '.' :: d :: ds) := by
      funext sm
      simp [floatCaps, Numeral.text, Numeral.fracText]
    rw [hcaps]
    simpa [floatregex, Numeral.text, Numeral.fracText] using h3

theorem floatregex_none (i : Nat) (v : List Char) (hv1 : HeadNot Char.isDigit v) :
    Takes (floatregex i) [] v (floatCaps i none) :=
  Takes.quest_none (Fails.at_capture _ (Fails.at_cat _ (Fails.at_plus hv1)))

theorem floatregex_opt (i : Nat) (n : Option Numeral) (hn : GeometryText.optValid n = true)
    (v : List Char) (hv1 : HeadNot Char.isDigit v) (hv2 : HeadNot (fun c => c == '.') v) :
    Takes (floatregex i) (optText n) v (floatCaps i n) := by
  cases n with
  | none => exact floatregex_none i v hv1
  | some m => exact floatregex_some i m hn v hv1 hv2


theorem StartsIn.headNot {p : Char → Bool} {cs v : List Char} (hv : StartsIn cs v)
    (hcs : ∀ c ∈ cs, p c = false) : HeadNot p v :=
  fun c hc => hcs c (hv c hc)

theorem StartsIn.append {cs u v : List Char} (hu : StartsIn cs u) (hv : StartsIn cs v) :
    StartsIn cs (u ++ v) := by
  cases u with
  | nil => simpa using hv
  | cons a as => simpa [StartsIn] using hu

theorem StartsIn.mono {cs cs' u : List Char} (hu : StartsIn cs u) (h : cs ⊆ cs') :
    StartsIn cs' u :=
  fun c hc => h (hu c hc)

theorem StartsIn.nil (cs : List Char) : StartsIn cs [] := by
  simp [StartsIn]

theorem startsIn_scalingText (t : GeometryText) : StartsIn ['<', '>'] t.scalingText := by
  cases h : t.scaling <;> simp [StartsIn, GeometryText.scalingText, h]

theorem startsIn_bangText (t : GeometryText) : StartsIn ['!'] t.bangText := by
  cases h : t.bang <;> simp [StartsIn, GeometryText.bangText, h]

theorem startsIn_percentText (t : GeometryText) : StartsIn ['%'] t.percentText := by
  cases h : t.percent <;> simp [StartsIn, GeometryText.percentText, h]

theorem startsIn_offsetText (o : Option (Bool × Option Numeral)) :
    StartsIn ['+', '-'] (offsetText o) := by
  rcases o with _ | ⟨neg, n⟩
  · simp [StartsIn, offsetText]
  · cases neg <;> simp [StartsIn, offsetText, signChar]

theorem startsIn_hText (t : GeometryText) : StartsIn ['x'] t.hText := by
  cases h : t.h <;> simp [StartsIn, GeometryText.hText, h]

/-- The submatches recorded by a flag group. -/
theorem flag_takes (j : Nat) (p : Char → Bool) (u v : List Char)
    (hu : u = [] ∨ ∃ c, u = [c] ∧ p c = true) (hv : u = [] → HeadNot p v) :
    Takes (Regexp.capture j (Regexp.quest (Regexp.cls p))) u v
      (fun sm => Function.update sm j u) := by
  rcases hu with rfl | ⟨c, rfl, hc⟩
  · exact Takes.of_capture j (Takes.quest_none (Fails.at_cls (hv rfl)))
  · exact Takes.of_capture j (Takes.quest_some (Takes.of_cls hc v))

theorem h_takes (t : GeometryText) (ht : GeometryText.optValid t.hNumeral = true)
    (v : List Char) (hv1 : HeadNot Char.isDigit v) (hv2 : HeadNot (fun c => c == '.') v)
    (hv3 : HeadNot (fun c => c == 'x') v) :
    Takes (Regexp.quest (Regexp.capture 3
      (Regexp.cat (Regexp.cls (fun c => c == 'x')) (floatregex 4)))) t.hText v (hCaps t.h) := by
  cases h : t.h with
  | none =>
    have : hCaps none = id := by funext sm; rfl
    rw [this]
    simpa [GeometryText.hText, h] using
      (Takes.quest_none (Fails.at_capture 3 (Fails.at_cat (floatregex 4) (Fails.at_cls hv3))))
  | some n =>
    have hn : GeometryText.optValid n = true := by
      simpa [GeometryText.hNumeral, h] using ht
    have h1 : Takes (Regexp.cls (fun c => c == 'x')) ['x'] (optText n ++ v) id :=
      Takes.of_cls (by decide) _
    have h2 := Takes.quest_some (Takes.of_capture 3
      (Takes.of_cat h1 (floatregex_opt 4 n hn v hv1 hv2)))
    have hc : hCaps (some n) =
        fun sm => Function.update ((floatCaps 4 n ∘ id) sm) 3 (['x'] ++ optText n) := by
      funext sm; rfl
    rw [hc]
    simpa [GeometryText.hText, h] using h2

theorem offset_takes (i : Nat) (o : Option (Bool × Option Numeral))
    (ho : GeometryText.optValid (GeometryText.offsetNumeral o) = true)
    (v : List Char) (hv1 : HeadNot Char.isDigit v) (hv2 : HeadNot (fun c => c == '.') v)
    (hv3 : o = none → HeadNot (fun c => c == '+' || c == '-') v) :
    Takes (Regexp.quest (Regexp.capture i
      (Regexp.cat (Regexp.cls (fun c => c == '+' || c == '-')) (floatregex (i + 1)))))
      (offsetText o) v (offsetCaps i o) := by
  rcases o with _ | ⟨neg, n⟩
  · have : offsetCaps i none = id := by funext sm; rfl
    rw [this]
    simpa [offsetText] using
      (Takes.quest_none (Fails.at_capture i (Fails.at_cat (floatregex (i + 1)) (Fails.at_cls (hv3 rfl)))))
  · have hn : GeometryText.optValid n = true := by
      simpa [GeometryText.offsetNumeral] using ho
    have h1 : Takes (Regexp.cls (fun c => c == '+' || c == '-')) [signChar neg]
        (optText n ++ v) id :=
      Takes.of_cls (by cases neg <;> decide) _
    have h2 := Takes.quest_some (Takes.of_capture i
      (Takes.of_cat h1 (floatregex_opt (i + 1) n hn v hv1 hv2)))
    have hc : offsetCaps i (some (neg, n)) =
        fun sm => Function.update ((floatCaps (i + 1) n ∘ id) sm) i
          ([signChar neg] ++ optText n) := by
      funext sm; rfl
    rw [hc]
    simpa [offsetText] using h2


theorem not_digit_flags : ∀ c ∈ ['x', '+', '-', '%', '!', '<', '>'], Char.isDigit c = false := by
  decide

theorem not_dot_flags :
    ∀ c ∈ ['x', '+', '-', '%', '!', '<', '>'], (fun c => c == '.') c = false := by
  decide

theorem geom_takes (t : GeometryText) (hv : t.valid = true) (hc : t.canonical = true) :
    Takes geom_regex t.text [] (geomCaps t) := by
  simp only [GeometryText.valid, Bool.and_eq_true] at hv
  obtain ⟨⟨⟨hw, hh⟩, hx⟩, hy⟩ := hv
  -- what may follow each piece
  have s6 : StartsIn ['<', '>'] t.scalingText := startsIn_scalingText t
  have s5 : StartsIn ['!', '<', '>'] (t.bangText ++ t.scalingText) :=
    ((startsIn_bangText t).mono (by simp)).append (s6.mono (by simp))
  have s4 : StartsIn ['%', '!', '<', '>'] (t.percentText ++ (t.bangText ++ t.scalingText)) :=
    ((startsIn_percentText t).mono (by simp)).append (s5.mono (by simp))
  have s3 : StartsIn ['+', '-', '%', '!', '<', '>']
      (offsetText t.y ++ (t.percentText ++ (t.bangText ++ t.scalingText))) :=
    ((startsIn_offsetText t.y).mono (by simp)).append (s4.mono (by simp))
  have s2 : StartsIn ['+', '-', '%', '!', '<', '>']
      (offsetText t.x ++ (offsetText t.y ++ (t.percentText ++ (t.bangText ++ t.scalingText)))) :=
    ((startsIn_offsetText t.x).mono (by simp)).append s3
  have s1 : StartsIn ['x', '+', '-', '%', '!', '<', '>']
      (t.hText ++ (offsetText t.x ++ (offsetText t.y ++
        (t.percentText ++ (t.bangText ++ t.scalingText))))) :=
    ((startsIn_hText t).mono (by simp)).append (s2.mono (by simp))
  -- the pieces, last first
  have t6 : Takes _ t.scalingText [] (fun sm => Function.update sm 14 t.scalingText) :=
    flag_takes 14 (fun c => c == '<' || c == '>') t.scalingText []
      (by cases h : t.scaling <;> simp [GeometryText.scalingText, h])
      (fun _ => HeadNot.of_nil _)
  have t5 : Takes _ t.bangText t.scalingText (fun sm => Function.update sm 13 t.bangText) :=
    flag_takes 13 (fun c => c == '!') t.bangText _
      (by cases h : t.bang <;> simp [GeometryText.bangText, h])
      (fun _ => s6.headNot (by decide))
  have t4 : Takes _ t.percentText (t.bangText ++ t.scalingText)
      (fun sm => Function.update sm 12 t.percentText) :=
    flag_takes 12 (fun c => c == '%') t.percentText _
      (by cases h : t.percent <;> simp [GeometryText.percentText, h])
      (fun _ => s5.headNot (by decide))
  have t3 := offset_takes 9 t.y hy _ (s4.headNot (by decide)) (s4.headNot (by decide))
    (fun _ => s4.headNot (by decide))
  have t2 := offset_takes 6 t.x hx _ (s3.headNot (by decide)) (s3.headNot (by decide))
    (fun hxn => by
      have hyn : t.y = none := by
        simpa [GeometryText.canonical, hxn] using hc
      rw [hyn]
      simpa [offsetText] using (s4.headNot (p := fun c => c == '+' || c == '-') (by decide)))
  have t1 := h_takes t hh _ (s2.headNot (by decide)) (s2.headNot (by decide))
    (s2.headNot (by decide))
  have t0 := floatregex_opt 1 t.w hw _ (s1.headNot not_digit_flags) (s1.headNot not_dot_flags)
  have h := Takes.of_cat_nil t0 (Takes.of_cat_nil t1 (Takes.of_cat_nil t2 (Takes.of_cat_nil t3
    (Takes.of_cat_nil t4 (Takes.of_cat_nil t5 t6)))))
  exact h

theorem floatCaps_other (i j : Nat) (n : Option Numeral) (sm : Submatches)
    (h1 : j ≠ i) (h2 : j ≠ i + 1) : floatCaps i n sm j = sm j := by
  rcases n with _ | ⟨ip, _ | f⟩ <;> simp [floatCaps, Function.update_apply, h1, h2]

theorem floatCaps_self (i : Nat) (n : Option Numeral) (sm : Submatches) (h : sm i = []) :
    floatCaps i n sm i = optText n := by
  rcases n with _ | ⟨ip, _ | f⟩ <;> simp [floatCaps, Function.update_apply, h, optText]

theorem hCaps_other (j : Nat) (h : Option (Option Numeral)) (sm : Submatches)
    (h1 : j ≠ 3) (h2 : j ≠ 4) (h3 : j ≠ 5) : hCaps h sm j = sm j := by
  cases h with
  | none => rfl
  | some n => simp [hCaps, Function.update_apply, h1, floatCaps_other 4 j n sm h2 h3]

theorem hCaps_four (h : Option (Option Numeral)) (sm : Submatches) (h4 : sm 4 = []) :
    hCaps h sm 4 = optText (h.bind id) := by
  cases h with
  | none => simp [hCaps, h4, optText]
  | some n => simp [hCaps, Function.update_apply, floatCaps_self 4 n sm h4]

theorem offsetCaps_other (i j : Nat) (o : Option (Bool × Option Numeral)) (sm : Submatches)
    (h1 : j ≠ i) (h2 : j ≠ i + 1) (h3 : j ≠ i + 2) : offsetCaps i o sm j = sm j := by
  rcases o with _ | ⟨neg, n⟩
  · rfl
  · simp [offsetCaps, Function.update_apply, h1, floatCaps_other (i + 1) j n sm h2 h3]

theorem offsetCaps_self (i : Nat) (o : Option (Bool × Option Numeral)) (sm : Submatches)
    (h : sm i = []) : offsetCaps i o sm i = offsetText o := by
  rcases o with _ | ⟨neg, n⟩
  · simp [offsetCaps, h, offsetText]
  · simp [offsetCaps, offsetText]

theorem offsetCaps_num (i : Nat) (o : Option (Bool × Option Numeral)) (sm : Submatches)
    (h : sm (i + 1) = []) :
    offsetCaps i o sm (i + 1) = optText (GeometryText.offsetNumeral o) := by
  rcases o with _ | ⟨neg, n⟩
  · simp [offsetCaps, h, optText, GeometryText.offsetNumeral]
  · simp [offsetCaps, Function.update_apply, floatCaps_self (i + 1) n sm h,
      GeometryText.offsetNumeral]

/-- The submatches that `ParseGeometry` reads, on a geometry text. -/
theorem geomCaps_apply (t : GeometryText) (s : List Char) :
    let sm := geomCaps t (Function.update (fun _ => []) 0 s)
    sm 1 = optText t.w ∧ sm 4 = optText t.hNumeral ∧
      sm 6 = offsetText t.x ∧ sm 7 = optText (GeometryText.offsetNumeral t.x) ∧
      sm 9 = offsetText t.y ∧ sm 10 = optText (GeometryText.offsetNumeral t.y) ∧
      sm 12 = t.percentText ∧ sm 13 = t.bangText ∧ sm 14 = t.scalingText := by
  intro sm
  have b : ∀ j, j ≠ 0 → (Function.update (fun _ => ([] : List Char)) 0 s) j = [] := by
    intro j hj
    simp [Function.update_apply, hj]
  refine ⟨?_, ?_, ?_, ?_, ?_, ?_, ?_, ?_, ?_⟩
  · simp only [sm, geomCaps]
    rw [Function.update_noteq (by decide), Function.update_noteq (by decide),
      Function.update_noteq (by decide),
      offsetCaps_other 9 1 _ _ (by decide) (by decide) (by decide),
      offsetCaps_other 6 1 _ _ (by decide) (by decide) (by decide),
      hCaps_other 1 _ _ (by decide) (by decide) (by decide),
      floatCaps_self 1 _ _ (b 1 (by decide))]
  · simp only [sm, geomCaps]
    rw [Function.update_noteq (by decide), Function.update_noteq (by decide),
      Function.update_noteq (by decide),
      offsetCaps_other 9 4 _ _ (by decide) (by decide) (by decide),
      offsetCaps_other 6 4 _ _ (by decide) (by decide) (by decide),
      hCaps_four _ _ (by rw [floatCaps_other 1 4 _ _ (by decide) (by decide)]; exact b 4 (by decide))]
    rfl
  · simp only [sm, geomCaps]
    rw [Function.update_noteq (by decide), Function.update_noteq (by decide),
      Function.update_noteq (by decide),
      offsetCaps_other 9 6 _ _ (by decide) (by decide) (by decide),
      offsetCaps_self 6 _ _ (by
        rw [hCaps_other 6 _ _ (by decide) (by decide) (by decide),
          floatCaps_other 1 6 _ _ (by decide) (by decide)]
        exact b 6 (by decide))]
  · simp only [sm, geomCaps]
    rw [Function.update_noteq (by decide), Function.update_noteq (by decide),
      Function.update_noteq (by decide),
      offsetCaps_other 9 7 _ _ (by decide) (by decide) (by decide),
      offsetCaps_num 6 _ _ (by
        rw [hCaps_other 7 _ _ (by decide) (by decide) (by decide),
          floatCaps_other 1 7 _ _ (by decide) (by decide)]
        exact b 7 (by decide))]
  · simp only [sm, geomCaps]
    rw [Function.update_noteq (by decide), Function.update_noteq (by decide),
      Function.update_noteq (by decide),
      offsetCaps_self 9 _ _ (by
        rw [offsetCaps_other 6 9 _ _ (by decide) (by decide) (by decide),
          hCaps_other 9 _ _ (by decide) (by decide) (by decide),
          floatCaps_other 1 9 _ _ (by decide) (by decide)]
        exact b 9 (by decide))]
  · simp only [sm, geomCaps]
    rw [Function.update_noteq (by decide), Function.update_noteq (by decide),
      Function.update_noteq (by decide),
      offsetCaps_num 9 _ _ (by
        rw [offsetCaps_other 6 10 _ _ (by decide) (by decide) (by decide),
          hCaps_other 10 _ _ (by decide) (by decide) (by decide),
          floatCaps_other 1 10 _ _ (by decide) (by decide)]
        exact b 10 (by decide))]
  · simp [sm, geomCaps, Function.update_apply]
  · simp [sm, geomCaps, Function.update_apply]
  · simp [sm, geomCaps, Function.update_apply]


theorem Numeral.text_ne_nil (n : Numeral) (hn : n.valid = true) : n.text ≠ [] := by
  obtain ⟨hne, -, -⟩ := (Numeral.valid_iff n).mp hn
  simp [Numeral.text, hne]

theorem parseDecimal_text (negative : Bool) (n : Numeral) (hn : n.valid = true) :
    parseDecimal negative n.text =
      if float64Overflow ≤ n.value then Except.error NumError.outOfRange
      else Except.ok
        (F64.num (if negative then -float64Nearest n.value else float64Nearest n.value)) := by
  obtain ⟨hne, hip, hfp⟩ := (Numeral.valid_iff n).mp hn
  obtain ⟨ip, fp⟩ := n
  simp only at hne hip hfp
  cases fp with
  | none =>
    have h1 : List.takeWhile Char.isDigit ip = ip := by
      rw [List.takeWhile_eq_self_iff]
      exact hip
    have h2 : List.dropWhile Char.isDigit ip = [] := by
      rw [List.dropWhile_eq_nil_iff]
      exact hip
    have h3 : ip.isEmpty = false := by
      cases ip with
      | nil => exact absurd rfl hne
      | cons c cs => rfl
    simp [parseDecimal, Numeral.text, Numeral.fracText, Numeral.value, h1, h2, h3, digitsVal]
  | some f =>
    obtain ⟨hfne, hf⟩ := hfp f rfl
    have h1 : List.takeWhile Char.isDigit (ip ++ '.' :: f) = ip := by
      rw [List.takeWhile_append_of_pos hip]
      simp [List.takeWhile]
    have h2 : List.dropWhile Char.isDigit (ip ++ '.' :: f) = '.' :: f := by
      rw [List.dropWhile_append_of_pos hip]
      simp [List.dropWhile]
    have h3 : f.all Char.isDigit = true := by
      rw [List.all_eq_true]
      exact hf
    have h4 : ip.isEmpty = false := by
      cases ip with
      | nil => exact absurd rfl hne
      | cons c cs => rfl
    simp only [parseDecimal, Numeral.text, Numeral.fracText, Numeral.value, h1, h2, h3, h4,
      if_true, Bool.false_and]
    rfl

theorem Numeral.head_isDigit (n : Numeral) (hn : n.valid = true) :
    ∃ c cs, n.text = c :: cs ∧ c.isDigit = true := by
  obtain ⟨hne, hip, -⟩ := (Numeral.valid_iff n).mp hn
  obtain ⟨c, cs, hcs⟩ := List.exists_cons_of_ne_nil hne
  exact ⟨c, cs ++ n.fracText, by simp [Numeral.text, hcs], hip c (by simp [hcs])⟩

theorem ParseFloat_text (n : Numeral) (hn : n.valid = true) :
    ParseFloat n.text = parseDecimal false n.text := by
  obtain ⟨c, cs, hcs, hc⟩ := Numeral.head_isDigit n hn
  have h1 : c ≠ '+' := isDigit_ne hc (by decide)
  have h2 : c ≠ '-' := isDigit_ne hc (by decide)
  rw [hcs]
  unfold ParseFloat
  split
  · next r heq => simp at heq; exact absurd heq.1 h1
  · next r heq => simp at heq; exact absurd heq.1 h2
  · rfl

theorem parseFloatDim_text (n : Numeral) (hn : n.valid = true) :
    parseFloatDim n.text = parseDecimal false n.text := by
  obtain ⟨c, cs, hcs, hc⟩ := Numeral.head_isDigit n hn
  have h1 : c ≠ '+' := isDigit_ne hc (by decide)
  rw [← ParseFloat_text n hn, hcs]
  unfold parseFloatDim
  split
  · next r heq => simp at heq; exact absurd heq.1 h1
  · rfl

theorem parseFloatDim_signed (negative : Bool) (n : Numeral) (hn : n.valid = true) :
    parseFloatDim (signChar negative :: n.text) = parseDecimal negative n.text := by
  cases negative with
  | false =>
    show ParseFloat n.text = _
    exact ParseFloat_text n hn
  | true => rfl

/-- The scalar read from an optional number, or the range error. -/
theorem parseScalar_opt (n : Option Numeral) (hn : GeometryText.optValid n = true) :
    parseScalar (optText n) (optText n) =
      if GeometryText.optInRange n then Except.ok (GeometryText.optValue n)
      else Except.error NumError.outOfRange := by
  cases n with
  | none => simp [parseScalar, optText, GeometryText.optInRange, GeometryText.optValue]
  | some m =>
    have hv : m.valid = true := hn
    simp only [parseScalar, optText, Numeral.text_ne_nil m hv, ne_eq, not_false_eq_true,
      if_true, parseFloatDim_text m hv, parseDecimal_text false m hv,
      GeometryText.optInRange, GeometryText.optValue]
    by_cases h : float64Overflow ≤ m.value
    · simp [h, not_lt.mpr h]
    · simp [h, not_le.mp h]

/-- The scalar read from an optional offset, or the range error. -/
theorem parseScalar_offset (o : Option (Bool × Option Numeral))
    (ho : GeometryText.optValid (GeometryText.offsetNumeral o) = true) :
    parseScalar (optText (GeometryText.offsetNumeral o)) (offsetText o) =
      if GeometryText.optInRange (GeometryText.offsetNumeral o) then
        Except.ok (GeometryText.offsetValue o)
      else Except.error NumError.outOfRange := by
  rcases o with _ | ⟨neg, _ | m⟩
  · simp [parseScalar, optText, GeometryText.offsetNumeral, GeometryText.optInRange,
      GeometryText.offsetValue]
  · simp [parseScalar, optText, GeometryText.offsetNumeral, GeometryText.optInRange,
      GeometryText.offsetValue]
  · have hv : m.valid = true := ho
    simp only [parseScalar, optText, offsetText, GeometryText.offsetNumeral, Option.bind,
      Numeral.text_ne_nil m hv, ne_eq, not_false_eq_true, if_true,
      parseFloatDim_signed neg m hv, parseDecimal_text neg m hv,
      GeometryText.optInRange, GeometryText.offsetValue]
    by_cases h : float64Overflow ≤ m.value
    · simp [h, not_lt.mpr h]
    · simp [h, not_le.mp h]


theorem units_of_percentText (t : GeometryText) :
    (if t.percentText = ['%'] then Percent else Pixels) = t.units := by
  cases h : t.percent <;> simp [GeometryText.percentText, GeometryText.units, h]

theorem preserve_of_bangText (t : GeometryText) : (t.bangText != ['!']) = !t.bang := by
  cases h : t.bang <;> simp [GeometryText.bangText, h]

theorem scaling_of_scalingText (t : GeometryText) :
    (if t.scalingText = ['<'] then ScaleUpOnly
      else if t.scalingText = ['>'] then ScaleDownOnly else ScaleAlways) = t.scaling := by
  cases h : t.scaling <;> simp [GeometryText.scalingText, h]

/-- `ParseGeometry` on a well-formed geometry text whose first sign opens the x offset: the
geometry denoted by the text when every number is in range, a range error otherwise. -/
theorem ParseGeometry_text (t : GeometryText) (hv : t.valid = true) (hc : t.canonical = true)
    (hne : t.text ≠ []) :
    (t.inRange = true → ParseGeometry t.text = (t.geometry, none)) ∧
    (t.inRange = false →
      (ParseGeometry t.text).2 = some (GoError.numError NumError.outOfRange)) := by
  have hfind := Takes.find (geom_takes t hv hc)
  obtain ⟨h1, h4, h6, h7, h9, h10, h12, h13, h14⟩ := geomCaps_apply t t.text
  have hlen : (t.text.length != 0) = true := by
    cases ht : t.text with
    | nil => exact absurd ht hne
    | cons c cs => simp
  simp only [GeometryText.valid, Bool.and_eq_true] at hv
  obtain ⟨⟨⟨hw, hh⟩, hx⟩, hy⟩ := hv
  have e : ParseGeometry t.text =
      match parseScalar (optText t.w) (optText t.w) with
      | Except.error e => (Geometry.zeroValue, some (GoError.numError e))
      | Except.ok ff =>
        match parseScalar (optText t.hNumeral) (optText t.hNumeral) with
        | Except.error e =>
          ({ Geometry.zeroValue with width := ⟨ff, t.units⟩ }, some (GoError.numError e))
        | Except.ok ff2 =>
          match parseScalar (optText (GeometryText.offsetNumeral t.x)) (offsetText t.x) with
          | Except.error e =>
            ({ Geometry.zeroValue with width := ⟨ff, t.units⟩, height := ⟨ff2, t.units⟩ },
              some (GoError.numError e))
          | Except.ok ff3 =>
            match parseScalar (optText (GeometryText.offsetNumeral t.y)) (offsetText t.y) with
            | Except.error e =>
              ({ Geometry.zeroValue with
                  width := ⟨ff, t.units⟩, height := ⟨ff2, t.units⟩, x := ⟨ff3, t.units⟩ },
                some (GoError.numError e))
            | Except.ok ff4 =>
              ({ width := ⟨ff, t.units⟩, height := ⟨ff2, t.units⟩, x := ⟨ff3, t.units⟩,
                 y := ⟨ff4, t.units⟩, preserveAspectRatio := !t.bang,
                 scaling := t.scaling }, none) := by
    simp only [ParseGeometry, Regexp.MatchString, hfind, hlen, Option.isSome_some,
      Bool.and_self, if_true, geom_regex_width, geom_regex_height, geom_regex_x, geom_regex_y,
      geom_regex_scaleunits, geom_regex_preserve_aspect, geom_regex_scaling]
    rw [h1, h4, h6, h7, h9, h10]
    simp only [h12, h13, h14, units_of_percentText, preserve_of_bangText,
      scaling_of_scalingText]
  rw [e, parseScalar_opt t.w hw, parseScalar_opt t.hNumeral hh, parseScalar_offset t.x hx,
    parseScalar_offset t.y hy]
  constructor
  · intro hr
    simp only [GeometryText.inRange, Bool.and_eq_true] at hr
    obtain ⟨⟨⟨rw, rh⟩, rx⟩, ry⟩ := hr
    simp [rw, rh, rx, ry, GeometryText.geometry]
  · intro hr
    cases rw : GeometryText.optInRange t.w <;>
    cases rh : GeometryText.optInRange t.hNumeral <;>
    cases rx : GeometryText.optInRange (GeometryText.offsetNumeral t.x) <;>
    cases ry : GeometryText.optInRange (GeometryText.offsetNumeral t.y) <;>
    simp [GeometryText.inRange, rw, rh, rx, ry] at hr ⊢

/-! ## ParseGeometry on well-formed text -/

/-- C1 (as amended): for every string `W x H ±X ±Y` followed by an optional `%`, `!` and one
of `<`, `>`, where `W`, `H`, `X`, `Y` are unsigned decimal numbers below the overflow
threshold of `float64`, `ParseGeometry` succeeds with the width, the height, x and y that are
the float64 values nearest to `W`, `H`, the signed `X` and the signed `Y`, all four in
percent iff `%` is present, `preserveAspectRatio` false iff `!` is present, and the scaling
mode of the flag. -/
theorem ParseGeometry_full (W H X Y : Numeral) (nx ny percent bang : Bool)
    (sc : GeometryScaling)
    (hW : W.valid = true) (hH : H.valid = true) (hX : X.valid = true) (hY : Y.valid = true)
    (rW : W.value < float64Overflow) (rH : H.value < float64Overflow)
    (rX : X.value < float64Overflow) (rY : Y.value < float64Overflow) :
    ParseGeometry (W.text ++ ('x' :: H.text ++ (signChar nx :: X.text ++
        (signChar ny :: Y.text ++ ((if percent then ['%'] else []) ++
          ((if bang then ['!'] else []) ++ scalingFlag sc)))))) =
      ({ width := ⟨F64.num (float64Nearest W.value), if percent then Percent else Pixels⟩
         height := ⟨F64.num (float64Nearest H.value), if percent then Percent else Pixels⟩
         x := ⟨F64.num (if nx then -float64Nearest X.value else float64Nearest X.value),
           if percent then Percent else Pixels⟩
         y := ⟨F64.num (if ny then -float64Nearest Y.value else float64Nearest Y.value),
           if percent then Percent else Pixels⟩
         preserveAspectRatio := !bang
         scaling := sc }, none) := by
  have h := (ParseGeometry_text ⟨some W, some (some H), some (nx, some X), some (ny, some Y),
    percent, bang, sc⟩
    (by simp [GeometryText.valid, GeometryText.optValid, GeometryText.hNumeral,
      GeometryText.offsetNumeral, hW, hH, hX, hY])
    (by simp [GeometryText.canonical])
    (by
      have := Numeral.text_ne_nil W hW
      simp [GeometryText.text, optText, this])).1
    (by simp [GeometryText.inRange, GeometryText.optInRange, GeometryText.hNumeral,
      GeometryText.offsetNumeral, rW, rH, rX, rY])
  simpa [GeometryText.text, GeometryText.geometry, GeometryText.hText, offsetText, optText,
    GeometryText.percentText, GeometryText.bangText, GeometryText.scalingText, scalingFlag,
    GeometryText.optValue, GeometryText.offsetValue, GeometryText.units,
    GeometryText.hNumeral] using h

theorem float64Overflow_pos : (1000 : ℚ) < float64Overflow := by
  have h1 : (2 : ℚ) ^ 1024 = 2 ^ 54 * 2 ^ 970 := by rw [← pow_add]
  have h2 : (1 : ℚ) ≤ 2 ^ 970 := one_le_pow₀ (by norm_num)
  have h3 : (1000 : ℚ) < 2 ^ 54 - 1 := by norm_num
  unfold float64Overflow
  rw [h1]
  nlinarith


/-- The C1 theorem applied to `200x100+10+20!>`. -/
theorem ParseGeometry_full_witness :
    ParseGeometry "200x100+10+20!>".toList =
      ({ width := ⟨F64.num 200, Pixels⟩, height := ⟨F64.num 100, Pixels⟩,
         x := ⟨F64.num 10, Pixels⟩, y := ⟨F64.num 20, Pixels⟩,
         preserveAspectRatio := false, scaling := ScaleDownOnly }, none) := by
  have v200 : (⟨"200".toList, none⟩ : Numeral).value = 200 := by
    have : digitsVal "200".toList = 200 := by decide
    show ((digitsVal "200".toList : ℕ) : ℚ) = 200
    rw [this]
    norm_num
  have v100 : (⟨"100".toList, none⟩ : Numeral).value = 100 := by
    have : digitsVal "100".toList = 100 := by decide
    show ((digitsVal "100".toList : ℕ) : ℚ) = 100
    rw [this]
    norm_num
  have v10 : (⟨"10".toList, none⟩ : Numeral).value = 10 := by
    have : digitsVal "10".toList = 10 := by decide
    show ((digitsVal "10".toList : ℕ) : ℚ) = 10
    rw [this]
    norm_num
  have v20 : (⟨"20".toList, none⟩ : Numeral).value = 20 := by
    have : digitsVal "20".toList = 20 := by decide
    show ((digitsVal "20".toList : ℕ) : ℚ) = 20
    rw [this]
    norm_num
  have h := ParseGeometry_full ⟨"200".toList, none⟩ ⟨"100".toList, none⟩ ⟨"10".toList, none⟩
    ⟨"20".toList, none⟩ false false false true ScaleDownOnly (by decide) (by decide)
    (by decide) (by decide)
    (by rw [v200]; exact lt_trans (by norm_num) float64Overflow_pos)
    (by rw [v100]; exact lt_trans (by norm_num) float64Overflow_pos)
    (by rw [v10]; exact lt_trans (by norm_num) float64Overflow_pos)
    (by rw [v20]; exact lt_trans (by norm_num) float64Overflow_pos)
  have e200 : float64Nearest 200 = 200 := by decide!
  have e100 : float64Nearest 100 = 100 := by decide!
  have e10 : float64Nearest 10 = 10 := by decide!
  have e20 : float64Nearest 20 = 20 := by decide!
  rw [v200, v100, v10, v20, e200, e100, e10, e20] at h
  exact h

/-- The text `0.1x0.5` parses to the width `3602879701896397 / 2^55`, the float64 nearest to
one tenth, and to the height one half. -/
theorem ParseGeometry_nearest_example :
    ParseGeometry "0.1x0.5".toList =
      ({ EmptyGeometry with
         width := ⟨F64.num (3602879701896397 / 36028797018963968), Pixels⟩,
         height := ⟨F64.num (1 / 2), Pixels⟩ }, none) := by
  decide!

theorem digitsVal_append_zeros (ds : List Char) (n : Nat) :
    digitsVal (ds ++ List.replicate n '0') = digitsVal ds * 10 ^ n := by
  induction n with
  | zero => simp
  | succ n ih =>
    rw [List.replicate_succ', ← List.append_assoc, digitsVal_append, ih]
    have : digitVal '0' = 0 := by decide
    rw [this, pow_succ]
    ring

theorem digitsVal_one_zeros (n : Nat) :
    digitsVal ('1' :: List.replicate n '0') = 10 ^ n := by
  have h := digitsVal_append_zeros ['1'] n
  have h1 : digitsVal ['1'] = 1 := by decide
  rw [h1, one_mul] at h
  exact h

theorem hugeNumeral_value : hugeNumeral.value = 10 ^ 309 := by
  show ((digitsVal ('1' :: List.replicate 309 '0') : ℕ) : ℚ) = 10 ^ 309
  rw [digitsVal_one_zeros]
  simp only [Nat.cast_pow, Nat.cast_ofNat]

theorem hugeNumeral_valid : hugeNumeral.valid = true := by
  refine (Numeral.valid_iff _).mpr ⟨List.cons_ne_nil _ _, ?_, fun f hf => nomatch hf⟩
  intro c hc
  rcases List.mem_cons.mp hc with rfl | hc
  · decide
  · rw [List.eq_of_mem_replicate hc]
    decide

theorem hugeNumeral_overflows : float64Overflow ≤ hugeNumeral.value := by
  rw [hugeNumeral_value]
  unfold float64Overflow
  have : (2 : ℚ) ^ 1024 ≤ 10 ^ 309 := by norm_num
  have h2 : (0 : ℚ) ≤ 2 ^ 970 := by positivity
  linarith

/-- C1 as stated fails for numbers that overflow `float64`: on `W x 1 + 1 + 1` with `W` the
310-digit number `10^309`, `ParseGeometry` returns the range error of `strconv.ParseFloat`. -/
theorem ParseGeometry_overflow_counterexample :
    hugeNumeral.valid = true ∧ oneNumeral.valid = true ∧
      (ParseGeometry (hugeNumeral.text ++ ('x' :: oneNumeral.text ++
        (signChar false :: oneNumeral.text ++ (signChar false :: oneNumeral.text))))).2 =
        some (GoError.numError NumError.outOfRange) := by
  refine ⟨hugeNumeral_valid, by decide, ?_⟩
  have h := (ParseGeometry_text ⟨some hugeNumeral, some (some oneNumeral),
    some (false, some oneNumeral), some (false, some oneNumeral), false, false, ScaleAlways⟩
    (by
      simp only [GeometryText.valid, GeometryText.optValid, GeometryText.hNumeral,
        GeometryText.offsetNumeral, Option.bind, id, hugeNumeral_valid, Bool.true_and,
        Bool.and_eq_true]
      decide)
    (by simp [GeometryText.canonical])
    (by
      have := Numeral.text_ne_nil hugeNumeral hugeNumeral_valid
      simp [GeometryText.text, optText, this])).2
    (by
      simp [GeometryText.inRange, GeometryText.optInRange, GeometryText.hNumeral,
        GeometryText.offsetNumeral, not_lt.mpr hugeNumeral_overflows])
  simpa [GeometryText.text, GeometryText.hText, offsetText, optText,
    GeometryText.percentText, GeometryText.bangText, GeometryText.scalingText] using h

/-! ## ParseGeometry and the grammar -/

theorem starRun_sound {α : Type} (p : Char → Bool) (s : List Char) (k : List Char → Option α)
    (r : α) (h : starRun p s k = some r) :
    ∃ u v, s = u ++ v ∧ (∀ c ∈ u, p c = true) ∧ k v = some r := by
  induction s with
  | nil => exact ⟨[], [], rfl, by simp, h⟩
  | cons c cs ih =>
    unfold starRun at h
    by_cases hc : p c = true
    · simp only [hc, if_true] at h
      cases hrec : starRun p cs k with
      | some r' =>
        rw [hrec] at h
        have hr : r' = r := by simpa using h
        subst hr
        obtain ⟨u, v, hs, hu, hk⟩ := ih hrec
        refine ⟨c :: u, v, by simp [hs], ?_, hk⟩
        intro d hd
        rcases List.mem_cons.mp hd with rfl | hd
        · exact hc
        · exact hu d hd
      | none =>
        rw [hrec] at h
        exact ⟨[], c :: cs, rfl, by simp, h⟩
    · simp only [hc] at h
      exact ⟨[], c :: cs, rfl, by simp, h⟩

/-- Soundness of the search: an answer comes from a split of the input into a string of the
language and a rest accepted by the continuation. -/
theorem Regexp.run_sound (re : Regexp) :
    ∀ (s : List Char) (sm : Submatches) (k : List Char → Submatches → Option Submatches)
      (r : Submatches), re.run s sm k = some r →
      ∃ u v sm', s = u ++ v ∧ re.Accepts u ∧ k v sm' = some r := by
  induction re with
  | cls p =>
    intro s sm k r h
    cases s with
    | nil => simp [Regexp.run] at h
    | cons c cs =>
      by_cases hc : p c = true
      · simp only [Regexp.run, hc, if_true] at h
        exact ⟨[c], cs, sm, rfl, ⟨c, rfl, hc⟩, h⟩
      · simp [Regexp.run, hc] at h
  | cat a b iha ihb =>
    intro s sm k r h
    simp only [Regexp.run] at h
    obtain ⟨u, v, sm', hs, hu, hk⟩ := iha s sm _ r h
    obtain ⟨u', v', sm'', hs', hu', hk'⟩ := ihb v sm' k r hk
    exact ⟨u ++ u', v', sm'', by simp [hs, hs'], ⟨u, u', rfl, hu, hu'⟩, hk'⟩
  | quest a iha =>
    intro s sm k r h
    simp only [Regexp.run] at h
    cases hrun : a.run s sm k with
    | some r' =>
      rw [hrun] at h
      obtain ⟨u, v, sm', hs, hu, hk⟩ := iha s sm k r' hrun
      have hr : r' = r := by simpa using h
      subst hr
      exact ⟨u, v, sm', hs, Or.inl hu, hk⟩
    | none =>
      rw [hrun] at h
      exact ⟨[], s, sm, rfl, Or.inr rfl, h⟩
  | star p =>
    intro s sm k r h
    simp only [Regexp.run] at h
    obtain ⟨u, v, hs, hu, hk⟩ := starRun_sound p s _ r h
    exact ⟨u, v, sm, hs, hu, hk⟩
  | capture i a iha =>
    intro s sm k r h
    simp only [Regexp.run] at h
    obtain ⟨u, v, sm', hs, hu, hk⟩ := iha s sm _ r h
    exact ⟨u, v, _, hs, hu, hk⟩

theorem Regexp.find_sound (re : Regexp) (s : List Char) (sm : Submatches)
    (h : re.FindStringSubmatch s = some sm) : re.Accepts s := by
  obtain ⟨u, v, sm', hs, hu, hk⟩ := Regexp.run_sound re s _ _ sm h
  have hv : v = [] := by
    cases v with
    | nil => rfl
    | cons c cs => simp at hk
  subst hv
  simpa [hs] using hu


theorem accepts_plus (p : Char → Bool) (u : List Char) (h : (Regexp.plus p).Accepts u) :
    u ≠ [] ∧ ∀ c ∈ u, p c = true := by
  obtain ⟨a, b, rfl, ⟨c, rfl, hc⟩, hb⟩ := h
  refine ⟨by simp, ?_⟩
  intro d hd
  simp only [List.singleton_append, List.mem_cons] at hd
  rcases hd with rfl | hd
  · exact hc
  · exact hb d hd

theorem valid_of_digits (ip : List Char) (fp : Option (List Char)) (h1 : ip ≠ [])
    (h2 : ∀ c ∈ ip, c.isDigit = true)
    (h3 : ∀ f, fp = some f → f ≠ [] ∧ ∀ c ∈ f, c.isDigit = true) :
    (⟨ip, fp⟩ : Numeral).valid = true :=
  (Numeral.valid_iff _).mpr ⟨h1, h2, h3⟩

theorem accepts_floatregex (i : Nat) (u : List Char) (h : (floatregex i).Accepts u) :
    ∃ n : Option Numeral, GeometryText.optValid n = true ∧ optText n = u := by
  rcases h with h | rfl
  · obtain ⟨a, b, rfl, ha, hb⟩ := h
    obtain ⟨ha1, ha2⟩ := accepts_plus _ a ha
    rcases hb with hb | rfl
    · obtain ⟨d, f, rfl, ⟨c, rfl, hc⟩, hf⟩ := hb
      obtain ⟨hf1, hf2⟩ := accepts_plus _ f hf
      have hc' : c = '.' := by simpa using hc
      subst hc'
      refine ⟨some ⟨a, some f⟩, valid_of_digits a (some f) ha1 ha2 ?_, ?_⟩
      · intro f' hf'
        cases hf'
        exact ⟨hf1, hf2⟩
      · simp [optText, Numeral.text, Numeral.fracText]
    · refine ⟨some ⟨a, none⟩, valid_of_digits a none ha1 ha2 (fun f hf => nomatch hf), ?_⟩
      simp [optText, Numeral.text, Numeral.fracText]
  · exact ⟨none, rfl, rfl⟩

theorem accepts_h (u : List Char)
    (h : (Regexp.quest (Regexp.capture 3
      (Regexp.cat (Regexp.cls (fun c => c == 'x')) (floatregex 4)))).Accepts u) :
    ∃ o : Option (Option Numeral), GeometryText.optValid (o.bind id) = true ∧
      (match o with
        | none => []
        | some n => 'x' :: optText n) = u := by
  rcases h with h | rfl
  · obtain ⟨a, b, rfl, ⟨c, rfl, hc⟩, hb⟩ := h
    obtain ⟨n, hn, rfl⟩ := accepts_floatregex 4 b hb
    have hc' : c = 'x' := by simpa using hc
    subst hc'
    exact ⟨some n, hn, rfl⟩
  · exact ⟨none, rfl, rfl⟩

theorem accepts_offset (i : Nat) (u : List Char)
    (h : (Regexp.quest (Regexp.capture i
      (Regexp.cat (Regexp.cls (fun c => c == '+' || c == '-')) (floatregex (i + 1))))).Accepts
        u) :
    ∃ o : Option (Bool × Option Numeral),
      GeometryText.optValid (GeometryText.offsetNumeral o) = true ∧ offsetText o = u := by
  rcases h with h | rfl
  · obtain ⟨a, b, rfl, ⟨c, rfl, hc⟩, hb⟩ := h
    obtain ⟨n, hn, rfl⟩ := accepts_floatregex (i + 1) b hb
    have hc' : c = '+' ∨ c = '-' := by simpa using hc
    rcases hc' with rfl | rfl
    · exact ⟨some (false, n), hn, rfl⟩
    · exact ⟨some (true, n), hn, rfl⟩
  · exact ⟨none, rfl, rfl⟩

theorem accepts_flag (j : Nat) (p : Char → Bool) (u : List Char)
    (h : (Regexp.capture j (Regexp.quest (Regexp.cls p))).Accepts u) :
    u = [] ∨ ∃ c, u = [c] ∧ p c = true := by
  rcases h with h | rfl
  · exact Or.inr h
  · exact Or.inl rfl

/-- Every string of the language of `geom_regex` is an instance of the grammar. -/
theorem isGeometryText_of_accepts (s : List Char) (h : geom_regex.Accepts s) :
    IsGeometryText s := by
  obtain ⟨u0, v0, rfl, h0, u1, v1, rfl, h1, u2, v2, rfl, h2, u3, v3, rfl, h3,
    u4, v4, rfl, h4, u5, u6, rfl, h5, h6⟩ := h
  obtain ⟨n0, hn0, rfl⟩ := accepts_floatregex 1 u0 h0
  obtain ⟨o1, ho1, rfl⟩ := accepts_h u1 h1
  obtain ⟨o2, ho2, rfl⟩ := accepts_offset 6 u2 h2
  obtain ⟨o3, ho3, rfl⟩ := accepts_offset 9 u3 h3
  have e4 : ∃ b : Bool, (if b then ['%'] else []) = u4 := by
    rcases accepts_flag 12 _ u4 h4 with rfl | ⟨c, rfl, hc⟩
    · exact ⟨false, rfl⟩
    · have : c = '%' := by simpa using hc
      exact ⟨true, by simp [this]⟩
  have e5 : ∃ b : Bool, (if b then ['!'] else []) = u5 := by
    rcases accepts_flag 13 _ u5 h5 with rfl | ⟨c, rfl, hc⟩
    · exact ⟨false, rfl⟩
    · have : c = '!' := by simpa using hc
      exact ⟨true, by simp [this]⟩
  have e6 : ∃ sc : GeometryScaling, scalingFlag sc = u6 := by
    rcases accepts_flag 14 _ u6 h6 with rfl | ⟨c, rfl, hc⟩
    · exact ⟨ScaleAlways, rfl⟩
    · have : c = '<' ∨ c = '>' := by simpa using hc
      rcases this with rfl | rfl
      · exact ⟨ScaleUpOnly, rfl⟩
      · exact ⟨ScaleDownOnly, rfl⟩
  obtain ⟨b4, rfl⟩ := e4
  obtain ⟨b5, rfl⟩ := e5
  obtain ⟨sc, rfl⟩ := e6
  refine ⟨⟨n0, o1, o2, o3, b4, b5, sc⟩, ?_, ?_⟩
  · simp only [GeometryText.valid, GeometryText.hNumeral, hn0, ho1, ho2, ho3, Bool.and_self]
  · simp only [GeometryText.text, GeometryText.hText, GeometryText.percentText,
      GeometryText.bangText, GeometryText.scalingText, scalingFlag]

theorem GeometryText.normalize_spec (t : GeometryText) (hv : t.valid = true) :
    t.normalize.valid = true ∧ t.normalize.canonical = true ∧ t.normalize.text = t.text ∧
      t.normalize.inRange = t.inRange := by
  obtain ⟨w, h, x, y, p, b, sc⟩ := t
  cases x with
  | none =>
    simp only [GeometryText.valid, GeometryText.hNumeral, GeometryText.offsetNumeral,
      Bool.and_eq_true] at hv
    refine ⟨?_, ?_, ?_, ?_⟩
    · obtain ⟨⟨⟨hw, hh⟩, -⟩, hy⟩ := hv
      simp only [GeometryText.normalize, GeometryText.valid, GeometryText.hNumeral,
        GeometryText.offsetNumeral, hw, hh, hy, Bool.and_self]
      rfl
    · cases y <;> simp [GeometryText.normalize, GeometryText.canonical]
    · simp [GeometryText.normalize, GeometryText.text, GeometryText.hText, offsetText,
        GeometryText.percentText, GeometryText.bangText, GeometryText.scalingText]
    · simp [GeometryText.normalize, GeometryText.inRange, GeometryText.hNumeral,
        GeometryText.offsetNumeral, GeometryText.optInRange, Bool.and_comm, Bool.and_assoc]
  | some v =>
    exact ⟨hv, by simp [GeometryText.normalize, GeometryText.canonical], rfl, rfl⟩


theorem ParseGeometry_nil :
    ParseGeometry [] = (Geometry.zeroValue, some (malformedGeometry [])) := by
  simp [ParseGeometry]

theorem ParseGeometry_of_not_instance (s : List Char) (h : ¬ IsGeometryText s) :
    ParseGeometry s = (Geometry.zeroValue, some (malformedGeometry s)) := by
  have hm : geom_regex.MatchString s = false := by
    cases hf : geom_regex.FindStringSubmatch s with
    | none => simp [Regexp.MatchString, hf]
    | some sm => exact absurd (isGeometryText_of_accepts s (Regexp.find_sound _ s sm hf)) h
  simp [ParseGeometry, hm]

/-- `ParseGeometry` on any non-empty well-formed geometry text. -/
theorem ParseGeometry_instance (t : GeometryText) (hv : t.valid = true) (hne : t.text ≠ []) :
    (t.inRange = true → (ParseGeometry t.text).2 = none) ∧
    (t.inRange = false →
      (ParseGeometry t.text).2 = some (GoError.numError NumError.outOfRange)) := by
  obtain ⟨h1, h2, h3, h4⟩ := GeometryText.normalize_spec t hv
  have h := ParseGeometry_text t.normalize h1 h2 (by rw [h3]; exact hne)
  rw [h3, h4] at h
  exact ⟨fun hr => by rw [h.1 hr], h.2⟩

/-- C2 (as amended): `ParseGeometry` returns the error `Malformed geometry string` exactly
on the empty string and on the strings that are not instances of the grammar
`[W][xH][±X][±Y][%][!][<>]` (then with the zero geometry); on a non-empty instance it
succeeds if and only if each of its numbers is below the overflow threshold of `float64`,
and returns the range error of `strconv.ParseFloat` otherwise. -/
theorem ParseGeometry_error_iff :
    (∀ s : List Char,
      (ParseGeometry s).2 = some (malformedGeometry s) ↔ (s = [] ∨ ¬ IsGeometryText s)) ∧
    (∀ s : List Char, (s = [] ∨ ¬ IsGeometryText s) → (ParseGeometry s).1 = Geometry.zeroValue) ∧
    (∀ t : GeometryText, t.valid = true → t.text ≠ [] →
      ((ParseGeometry t.text).2 = none ↔ t.inRange = true) ∧
      (t.inRange = false →
        (ParseGeometry t.text).2 = some (GoError.numError NumError.outOfRange))) := by
  refine ⟨?_, ?_, ?_⟩
  · intro s
    constructor
    · intro he
      by_contra hcon
      simp only [not_or, not_not] at hcon
      obtain ⟨hne, t, hv, rfl⟩ := hcon
      obtain ⟨h1, h2⟩ := ParseGeometry_instance t hv hne
      cases hr : t.inRange with
      | true => rw [h1 hr] at he; exact nomatch he
      | false => rw [h2 hr] at he; simp [malformedGeometry] at he
    · rintro (rfl | h)
      · rw [ParseGeometry_nil]
      · rw [ParseGeometry_of_not_instance s h]
  · rintro s (rfl | h)
    · rw [ParseGeometry_nil]
    · rw [ParseGeometry_of_not_instance s h]
  · intro t hv hne
    obtain ⟨h1, h2⟩ := ParseGeometry_instance t hv hne
    refine ⟨⟨fun he => ?_, h1⟩, h2⟩
    cases hr : t.inRange with
    | true => rfl
    | false => rw [h2 hr] at he; exact nomatch he

/-- C2 as stated fails: the 310-digit number `10^309` is a non-empty instance of the grammar
(a width alone), and `ParseGeometry` returns the range error of `strconv.ParseFloat` on
it. -/
theorem ParseGeometry_instance_rejected :
    IsGeometryText hugeNumeral.text ∧ hugeNumeral.text ≠ [] ∧
      (ParseGeometry hugeNumeral.text).2 = some (GoError.numError NumError.outOfRange) := by
  have hv : (⟨some hugeNumeral, none, none, none, false, false, ScaleAlways⟩ :
      GeometryText).valid = true := by
    simp only [GeometryText.valid, GeometryText.optValid, GeometryText.hNumeral,
      GeometryText.offsetNumeral, Option.bind, hugeNumeral_valid, Bool.and_self]
  have ht : (⟨some hugeNumeral, none, none, none, false, false, ScaleAlways⟩ :
      GeometryText).text = hugeNumeral.text := by
    simp [GeometryText.text, GeometryText.hText, offsetText, optText,
      GeometryText.percentText, GeometryText.bangText, GeometryText.scalingText]
  have hne := Numeral.text_ne_nil hugeNumeral hugeNumeral_valid
  refine ⟨⟨_, hv, ht⟩, hne, ?_⟩
  have h := (ParseGeometry_instance _ hv (by rw [ht]; exact hne)).2 (by
    simp [GeometryText.inRange, GeometryText.optInRange, GeometryText.hNumeral,
      GeometryText.offsetNumeral, not_lt.mpr hugeNumeral_overflows])
  rw [ht] at h
  exact h

/-! ## Round trip through `Geometry.String` -/

theorem fixedDigits_spec (w n : Nat) :
    (fixedDigits w n).length = w ∧ ∀ c ∈ fixedDigits w n, c.isDigit = true := by
  induction w generalizing n with
  | zero => simp [fixedDigits]
  | succ w ih =>
    obtain ⟨h1, h2⟩ := ih (n / 10)
    refine ⟨by simp [fixedDigits, h1], ?_⟩
    intro c hc
    simp only [fixedDigits, List.mem_append, List.mem_singleton] at hc
    rcases hc with hc | rfl
    · exact h2 c hc
    · exact digitChar_isDigit _ (Nat.mod_lt _ (by norm_num))

theorem natToDec_numeral_valid (n : Nat) : (⟨natToDec n, none⟩ : Numeral).valid = true := by
  obtain ⟨h1, h2, -⟩ := natToDec_spec n
  exact valid_of_digits _ none h1 h2 (fun f hf => nomatch hf)

theorem natToDec_numeral_value (n : Nat) : (⟨natToDec n, none⟩ : Numeral).value = n := by
  obtain ⟨-, -, h3⟩ := natToDec_spec n
  simp [Numeral.value, h3]

/-- The text printed for a finite number: an optional `-` and a well-formed number; with a
`-`, the number printed is not zero or the value is negative. -/
theorem printFloat_shape (q : ℚ) :
    ∃ (negative : Bool) (m : Numeral), m.valid = true ∧
      printFloat (F64.num q) = (if negative then ['-'] else []) ++ m.text ∧
      (negative = true → 1 ≤ m.value ∨ q < 0) := by
  unfold printFloat
  split
  · -- printed with %d
    generalize (F64.Modf (F64.num q)).1.toInt = n
    by_cases hn : n < 0
    · refine ⟨true, ⟨natToDec n.natAbs, none⟩, natToDec_numeral_valid _, ?_, ?_⟩
      · simp [sprintf_d, hn, Numeral.text, Numeral.fracText]
      · intro _
        left
        rw [natToDec_numeral_value]
        have : 1 ≤ n.natAbs := Int.natAbs_pos.mpr (ne_of_lt hn)
        exact_mod_cast this
    · refine ⟨false, ⟨natToDec n.natAbs, none⟩, natToDec_numeral_valid _, ?_, ?_⟩
      · simp [sprintf_d, hn, Numeral.text, Numeral.fracText]
      · intro h
        exact absurd h (by simp)
  · -- printed with %f
    obtain ⟨h1, h2, -⟩ := natToDec_spec (roundHalfEven (|q| * 1000000) / 1000000)
    obtain ⟨h3, h4⟩ := fixedDigits_spec 6 (roundHalfEven (|q| * 1000000) % 1000000)
    have hv : (⟨natToDec (roundHalfEven (|q| * 1000000) / 1000000),
        some (fixedDigits 6 (roundHalfEven (|q| * 1000000) % 1000000))⟩ : Numeral).valid =
        true := by
      refine valid_of_digits _ _ h1 h2 ?_
      intro f hf
      cases hf
      refine ⟨?_, h4⟩
      intro h0
      rw [h0] at h3
      simp at h3
    by_cases hq : q < 0
    · exact ⟨true, _, hv, by simp [sprintf_f, hq, Numeral.text, Numeral.fracText],
        fun _ => Or.inr hq⟩
    · exact ⟨false, _, hv, by simp [sprintf_f, hq, Numeral.text, Numeral.fracText],
        fun h => absurd h (by simp)⟩

theorem Numeral.value_nonneg (m : Numeral) : 0 ≤ m.value := by
  obtain ⟨ip, fp⟩ := m
  cases fp with
  | none => simp [Numeral.value]
  | some f =>
    simp only [Numeral.value]
    positivity

/-- The text printed for a number that prints exactly: a `-` exactly when the number is
negative, then a well-formed number in range whose nearest float64 is the magnitude of the
value. -/
theorem printFloat_exact (q : ℚ) (h : ParseFloat (printFloat (F64.num q)) = Except.ok (F64.num q)) :
    ∃ m : Numeral, m.valid = true ∧ m.value < float64Overflow ∧
      printFloat (F64.num q) = (if q < 0 then ['-'] else []) ++ m.text ∧
      q = if q < 0 then -float64Nearest m.value else float64Nearest m.value := by
  obtain ⟨neg, m, hv, hp, hneg⟩ := printFloat_shape q
  rw [hp] at h
  have h' : parseDecimal neg m.text = Except.ok (F64.num q) := by
    cases neg with
    | false => simpa [ParseFloat_text m hv] using h
    | true => exact h
  rw [parseDecimal_text neg m hv] at h'
  by_cases ho : float64Overflow ≤ m.value
  · simp [ho] at h'
  · simp only [ho, if_false, Except.ok.injEq, F64.num.injEq] at h'
    have hm := float64Nearest_nonneg m.value (Numeral.value_nonneg m)
    have hq : (q < 0) ↔ neg = true := by
      cases neg with
      | false =>
        simp only [Bool.false_eq_true, if_false] at h'
        simp [← h', hm]
      | true =>
        simp only [if_true] at h'
        rcases hneg rfl with hpos | hlt
        · have h2 : (2 : ℚ) ^ (-1022 : Int) ≤ 1 := by
            rw [zpow_neg]
            exact inv_le_one_of_one_le₀ (one_le_zpow₀ (by norm_num) (by norm_num))
          have := float64Nearest_pos m.value (le_trans h2 hpos)
          simp [← h', this]
        · simp [hlt]
    refine ⟨m, hv, not_le.mp ho, ?_, ?_⟩
    · rw [hp]
      cases neg <;> simp_all
    · cases neg with
      | false =>
        have hq' : ¬ q < 0 := by simpa using hq
        simp only [Bool.false_eq_true, if_false] at h'
        rw [if_neg hq', h']
      | true =>
        have hq' : q < 0 := by simpa using hq
        simp only [if_true] at h'
        rw [if_pos hq', h']


theorem append_ite (c : Prop) [Decidable c] (rv a : List Char) :
    (if c then rv ++ a else rv) = rv ++ (if c then a else []) := by
  split <;> simp

/-- The text of a geometry, block by block. -/
theorem Geometry.String_eq (g : Geometry) :
    g.String =
      (if g.HasWidth then printFloat g.width.N else []) ++
      ((if g.HasHeight then 'x' :: printFloat g.height.N else []) ++
      ((if g.HasX then (if F64.ge g.x.N F64.zero then ['+'] else []) ++ printFloat g.x.N
        else []) ++
      ((if g.HasY then
          (if g.x.N.isNaN then ['+'] else []) ++
            ((if F64.ge g.y.N F64.zero then ['+'] else []) ++ printFloat g.y.N)
        else []) ++
      ((if g.width.U = Percent then ['%'] else []) ++
      ((if g.preserveAspectRatio then [] else ['!']) ++ scalingFlag g.scaling))))) := by
  unfold Geometry.String
  lift_lets
  extract_lets rv0 rv1 rv2 rv3 rv3a rv3b rv4 rv5 rv6
  have h1 : rv1 = if g.HasWidth then printFloat g.width.N else [] := by
    show (if g.HasWidth then [] ++ printFloat g.width.N else []) = _
    simp
  have h2 : rv2 = rv1 ++ if g.HasHeight then 'x' :: printFloat g.height.N else [] :=
    append_ite _ rv1 _
  have h3 : rv3 = rv2 ++ if g.HasX then
      (if F64.ge g.x.N F64.zero then ['+'] else []) ++ printFloat g.x.N else [] := by
    show (if g.HasX then (if F64.ge g.x.N F64.zero then rv2 ++ ['+'] else rv2) ++
      printFloat g.x.N else rv2) = _
    rw [append_ite, List.append_assoc, append_ite]
  have h4 : rv4 = rv3 ++ if g.HasY then
      (if g.x.N.isNaN then ['+'] else []) ++
        ((if F64.ge g.y.N F64.zero then ['+'] else []) ++ printFloat g.y.N) else [] := by
    show (if g.HasY then
      (if F64.ge g.y.N F64.zero then (if g.x.N.isNaN then rv3 ++ ['+'] else rv3) ++ ['+']
        else (if g.x.N.isNaN then rv3 ++ ['+'] else rv3)) ++ printFloat g.y.N else rv3) = _
    rw [append_ite (F64.ge g.y.N F64.zero = true), append_ite (g.x.N.isNaN = true),
      List.append_assoc, List.append_assoc, append_ite]
  have h5 : rv5 = rv4 ++ if g.width.U = Percent then ['%'] else [] := by
    show (match g.width.U with
      | Percent => rv4 ++ ['%']
      | Pixels => rv4) = _
    cases g.width.U <;> simp
  have h6 : rv6 = rv5 ++ if g.preserveAspectRatio then [] else ['!'] := by
    show (if (!g.PreserveAspectRatio) = true then rv5 ++ ['!'] else rv5) = _
    cases hp : g.preserveAspectRatio <;> simp [Geometry.PreserveAspectRatio, hp]
  refine Eq.trans (b := rv6 ++ scalingFlag g.scaling) ?_ ?_
  · cases g.scaling <;> simp [scalingFlag]
  · rw [h6, h5, h4, h3, h2, h1]
    simp only [List.append_assoc]

/-- The width block, for a width that prints exactly and is not negative. -/
theorem size_piece (v : F64) (hv : PrintsExactly v) (hn : F64.lt v F64.zero = false) :
    ∃ n : Option Numeral, GeometryText.optValid n = true ∧ GeometryText.optInRange n = true ∧
      GeometryText.optValue n = v ∧ (if (!v.isNaN) = true then printFloat v else []) = optText n := by
  rcases hv with rfl | ⟨q, rfl, hq⟩
  · exact ⟨none, rfl, rfl, rfl, rfl⟩
  · obtain ⟨m, hm, hr, hp, hval⟩ := printFloat_exact q hq
    have hq0 : ¬ q < 0 := by simpa [F64.lt, F64.zero] using hn
    rw [if_neg hq0] at hp hval
    refine ⟨some m, hm, by simp [GeometryText.optInRange, hr], ?_, ?_⟩
    · simp [GeometryText.optValue, hval]
    · simp [F64.isNaN, hp, optText]

/-- The height block, for a height that prints exactly and is not negative. -/
theorem height_piece (v : F64) (hv : PrintsExactly v) (hn : F64.lt v F64.zero = false) :
    ∃ o : Option (Option Numeral), GeometryText.optValid (o.bind id) = true ∧
      GeometryText.optInRange (o.bind id) = true ∧ GeometryText.optValue (o.bind id) = v ∧
      (if (!v.isNaN) = true then 'x' :: printFloat v else []) =
        (match o with
          | none => []
          | some n => 'x' :: optText n) := by
  rcases hv with rfl | ⟨q, rfl, hq⟩
  · exact ⟨none, rfl, rfl, rfl, rfl⟩
  · obtain ⟨m, hm, hr, hp, hval⟩ := printFloat_exact q hq
    have hq0 : ¬ q < 0 := by simpa [F64.lt, F64.zero] using hn
    rw [if_neg hq0] at hp hval
    refine ⟨some (some m), hm, by simp [GeometryText.optInRange, hr], ?_, ?_⟩
    · simp [GeometryText.optValue, hval]
    · simp [F64.isNaN, hp, optText]

/-- An offset block, for an offset that prints exactly. -/
theorem offset_piece (v : F64) (hv : PrintsExactly v) :
    ∃ o : Option (Bool × Option Numeral),
      (o = none ↔ v = F64.nan) ∧
      GeometryText.optValid (GeometryText.offsetNumeral o) = true ∧
      GeometryText.optInRange (GeometryText.offsetNumeral o) = true ∧
      GeometryText.offsetValue o = v ∧
      (if (!v.isNaN) = true then (if F64.ge v F64.zero = true then ['+'] else []) ++ printFloat v
        else []) = offsetText o := by
  rcases hv with rfl | ⟨q, rfl, hq⟩
  · exact ⟨none, by simp, rfl, rfl, rfl, rfl⟩
  · obtain ⟨m, hm, hr, hp, hval⟩ := printFloat_exact q hq
    refine ⟨some (decide (q < 0), some m), by simp, hm,
      by simp [GeometryText.optInRange, GeometryText.offsetNumeral, hr], ?_, ?_⟩
    · by_cases hq0 : q < 0
      · rw [if_pos hq0] at hval
        simp [GeometryText.offsetValue, hq0, ← hval]
      · rw [if_neg hq0] at hval
        simp [GeometryText.offsetValue, hq0, ← hval]
    · by_cases hq0 : q < 0
      · simp [F64.isNaN, F64.ge, F64.le, F64.zero, hp, hq0, offsetText, signChar, optText,
          not_le.mpr hq0]
      · simp [F64.isNaN, F64.ge, F64.le, F64.zero, hp, hq0, offsetText, signChar, optText,
          not_lt.mp hq0]


/-- The two offset blocks together, for offsets that print exactly: when only `y` is
present, the extra `+` printed before it is an x part without a number. -/
theorem offsets_piece (xv yv : F64) (hx : PrintsExactly xv) (hy : PrintsExactly yv) :
    ∃ ox oy : Option (Bool × Option Numeral),
      (ox.isSome || oy.isNone) = true ∧
      GeometryText.optValid (GeometryText.offsetNumeral ox) = true ∧
      GeometryText.optValid (GeometryText.offsetNumeral oy) = true ∧
      GeometryText.optInRange (GeometryText.offsetNumeral ox) = true ∧
      GeometryText.optInRange (GeometryText.offsetNumeral oy) = true ∧
      GeometryText.offsetValue ox = xv ∧ GeometryText.offsetValue oy = yv ∧
      (if (!xv.isNaN) = true then
          (if F64.ge xv F64.zero = true then ['+'] else []) ++ printFloat xv
        else []) ++
        (if (!yv.isNaN) = true then
          (if xv.isNaN = true then ['+'] else []) ++
            ((if F64.ge yv F64.zero = true then ['+'] else []) ++ printFloat yv)
        else []) = offsetText ox ++ offsetText oy := by
  obtain ⟨ox, nx, vx, rx, ex, tx⟩ := offset_piece xv hx
  obtain ⟨oy, ny, vy, ry, ey, ty⟩ := offset_piece yv hy
  cases xv with
  | nan =>
    cases yv with
    | nan =>
      refine ⟨none, none, rfl, rfl, rfl, rfl, rfl, rfl, rfl, ?_⟩
      simp [F64.isNaN, offsetText]
    | num q =>
      refine ⟨some (false, none), oy, rfl, rfl, vy, rfl, ry, rfl, ey, ?_⟩
      rw [← ty]
      simp [F64.isNaN, offsetText, signChar, optText]
    | pinf => rcases hy with h | ⟨q, h, -⟩ <;> exact nomatch h
    | ninf => rcases hy with h | ⟨q, h, -⟩ <;> exact nomatch h
  | num q =>
    have hsome : ox.isSome = true := by
      cases ox with
      | none => exact absurd (nx.mp rfl) (by simp)
      | some v => rfl
    refine ⟨ox, oy, by simp [hsome], vx, vy, rx, ry, ex, ey, ?_⟩
    rw [← tx, ← ty]
    simp [F64.isNaN]
  | pinf => rcases hx with h | ⟨q, h, -⟩ <;> exact nomatch h
  | ninf => rcases hx with h | ⟨q, h, -⟩ <;> exact nomatch h

/-- C3 (as amended): for every geometry whose four scalars share one unit, whose present
values print exactly under `printFloat`, whose width and height are not negative and whose
text is not empty, `ParseGeometry (g.String)` succeeds and returns `g`. -/
theorem ParseGeometry_String (g : Geometry)
    (hu : g.height.U = g.width.U ∧ g.x.U = g.width.U ∧ g.y.U = g.width.U)
    (hw : PrintsExactly g.width.N) (hh : PrintsExactly g.height.N)
    (hx : PrintsExactly g.x.N) (hy : PrintsExactly g.y.N)
    (hwn : F64.lt g.width.N F64.zero = false) (hhn : F64.lt g.height.N F64.zero = false)
    (hne : g.String ≠ []) :
    ParseGeometry g.String = (g, none) := by
  obtain ⟨nw, vw, rw, ew, tw⟩ := size_piece g.width.N hw hwn
  obtain ⟨oh, vh, rh, eh, th⟩ := height_piece g.height.N hh hhn
  obtain ⟨ox, oy, hc, vx, vy, rx, ry, ex, ey, txy⟩ := offsets_piece g.x.N g.y.N hx hy
  have htext : (⟨nw, oh, ox, oy, decide (g.width.U = Percent), !g.preserveAspectRatio,
      g.scaling⟩ : GeometryText).text = g.String := by
    rw [Geometry.String_eq]
    simp only [Geometry.HasWidth, Geometry.HasHeight, Geometry.HasX, Geometry.HasY]
    rw [tw, th, ← List.append_assoc (if (!g.x.N.isNaN) = true then _ else _), txy]
    simp only [GeometryText.text, GeometryText.hText, GeometryText.percentText,
      GeometryText.bangText, GeometryText.scalingText, List.append_assoc]
    cases g.preserveAspectRatio <;> cases g.scaling <;>
      simp [scalingFlag]
  have hgeom : (⟨nw, oh, ox, oy, decide (g.width.U = Percent), !g.preserveAspectRatio,
      g.scaling⟩ : GeometryText).geometry = g := by
    obtain ⟨⟨wn, wu⟩, ⟨hn, hu'⟩, ⟨xn, xu⟩, ⟨yn, yu⟩, p, sc⟩ := g
    obtain ⟨hu1, hu2, hu3⟩ := hu
    simp only at hu1 hu2 hu3 ew eh ex ey
    subst hu1 hu2 hu3
    simp only [GeometryText.geometry, GeometryText.hNumeral, ew, eh, ex, ey,
      GeometryText.units, Bool.not_not]
    cases yu <;> simp
  have h := (ParseGeometry_text ⟨nw, oh, ox, oy, decide (g.width.U = Percent),
      !g.preserveAspectRatio, g.scaling⟩ (by
      simp only [GeometryText.valid, GeometryText.hNumeral, vw, vh, vx, vy, Bool.and_self])
    (by simpa [GeometryText.canonical] using hc)
    (by rw [htext]; exact hne)).1 (by
      simp only [GeometryText.inRange, GeometryText.hNumeral, rw, rh, rx, ry, Bool.and_self])
  rw [htext, hgeom] at h
  exact h


theorem float64Overflow_large : (2 : ℚ) ^ 64 < float64Overflow := by
  have h1 : (2 : ℚ) ^ 1024 = 2 ^ 54 * 2 ^ 970 := by rw [← pow_add]
  have h2 : (2 : ℚ) ^ 64 ≤ 2 ^ 970 := pow_le_pow_right₀ (by norm_num) (by norm_num)
  have h3 : (0 : ℚ) < 2 ^ 970 := by positivity
  have h4 : (2 : ℚ) ^ 54 - 1 > 1 := by norm_num
  unfold float64Overflow
  rw [h1]
  nlinarith

theorem trunc_intCast (z : Int) :
    (if (0 : ℚ) ≤ (z : ℚ) then ⌊(z : ℚ)⌋ else -⌊-(z : ℚ)⌋) = z := by
  split
  · exact Int.floor_intCast z
  · rw [← Int.cast_neg, Int.floor_intCast]
    simp

/-- An integer in the range of `int` is printed as `%d` prints it. -/
theorem printFloat_int (z : Int) (h1 : -(2 ^ 63 : Int) ≤ z) (h2 : z < 2 ^ 63) :
    printFloat (F64.num z) = sprintf_d z := by
  have hm : F64.Modf (F64.num z) = (F64.num z, F64.num 0) := by
    simp only [F64.Modf, trunc_intCast, sub_self]
  have ht : (F64.num (z : ℚ)).toInt = z := by
    simp only [F64.toInt, trunc_intCast, h1, h2, and_self, if_true]
  simp only [printFloat, hm, ht]
  have : F64.lt (F64.num 0) (F64.num (1 / 100000)) = true := by
    simp [F64.lt]
  rw [if_pos this]

/-- Integers up to `2^53` in magnitude print exactly. -/
theorem PrintsExactly_int (z : Int) (h1 : -(2 ^ 53 : Int) ≤ z) (h2 : z ≤ 2 ^ 53) :
    PrintsExactly (F64.num z) := by
  refine Or.inr ⟨z, rfl, ?_⟩
  rw [printFloat_int z (by omega) (by omega)]
  have hnear : float64Nearest ((z.natAbs : ℕ) : ℚ) = ((z.natAbs : ℕ) : ℚ) := by
    have := float64Nearest_int (z.natAbs : Int) (by
      rw [abs_of_nonneg (by positivity)]
      omega)
    rw [Int.cast_natCast] at this
    exact this
  have hv := natToDec_numeral_valid z.natAbs
  have hval := natToDec_numeral_value z.natAbs
  have hr : ¬ float64Overflow ≤ (⟨natToDec z.natAbs, none⟩ : Numeral).value := by
    rw [hval, not_le]
    refine lt_of_le_of_lt ?_ float64Overflow_large
    have : (z.natAbs : Int) ≤ 2 ^ 64 := by omega
    exact_mod_cast this
  have htext : (⟨natToDec z.natAbs, none⟩ : Numeral).text = natToDec z.natAbs := by
    simp [Numeral.text, Numeral.fracText]
  by_cases hz : z < 0
  · have hp : ParseFloat ('-' :: natToDec z.natAbs) =
        parseDecimal true (⟨natToDec z.natAbs, none⟩ : Numeral).text := by
      rw [htext]
      rfl
    simp only [sprintf_d, hz, if_true]
    rw [hp, parseDecimal_text true _ hv, if_neg hr, hval, hnear]
    have : ((z.natAbs : ℕ) : ℚ) = -(z : ℚ) := by
      have h : (z.natAbs : Int) = -z := by omega
      rw [← Int.cast_natCast, h, Int.cast_neg]
    simp [this]
  · have hp := ParseFloat_text _ hv
    rw [htext] at hp
    simp only [sprintf_d, hz, if_false]
    rw [hp, ← htext, parseDecimal_text false _ hv, if_neg hr, hval, hnear]
    have : ((z.natAbs : ℕ) : ℚ) = (z : ℚ) := by
      have h : (z.natAbs : Int) = z := by omega
      rw [← Int.cast_natCast, h]
    simp [this]


theorem printFloat_ne_nil (q : ℚ) : printFloat (F64.num q) ≠ [] := by
  obtain ⟨neg, m, hv, hp, -⟩ := printFloat_shape q
  rw [hp]
  have := Numeral.text_ne_nil m hv
  simp [this]

theorem roundTripGeometry_String : roundTripGeometry.String = "200x100+10-20%!<".toList := by
  have p200 : printFloat (F64.num 200) = "200".toList := by
    have h := printFloat_int 200 (by norm_num) (by norm_num)
    have e : sprintf_d 200 = "200".toList := by decide
    rw [e] at h
    simpa using h
  have p100 : printFloat (F64.num 100) = "100".toList := by
    have h := printFloat_int 100 (by norm_num) (by norm_num)
    have e : sprintf_d 100 = "100".toList := by decide
    rw [e] at h
    simpa using h
  have p10 : printFloat (F64.num 10) = "10".toList := by
    have h := printFloat_int 10 (by norm_num) (by norm_num)
    have e : sprintf_d 10 = "10".toList := by decide
    rw [e] at h
    simpa using h
  have p20 : printFloat (F64.num (-20)) = "-20".toList := by
    have h := printFloat_int (-20) (by norm_num) (by norm_num)
    have e : sprintf_d (-20) = "-20".toList := by decide
    rw [e] at h
    simpa using h
  rw [Geometry.String_eq]
  simp [roundTripGeometry, Geometry.HasWidth, Geometry.HasHeight, Geometry.HasX, Geometry.HasY,
    F64.isNaN, F64.ge, F64.le, F64.zero, scalingFlag, p200, p100, p10, p20]

/-- The C3 theorem applied to the geometry printed `200x100+10-20%!<`. -/
theorem ParseGeometry_String_witness :
    PrintsExactly roundTripGeometry.width.N ∧ PrintsExactly roundTripGeometry.y.N ∧
      roundTripGeometry.String = "200x100+10-20%!<".toList ∧
      ParseGeometry roundTripGeometry.String = (roundTripGeometry, none) := by
  have e200 : PrintsExactly (F64.num 200) := by
    simpa using PrintsExactly_int 200 (by norm_num) (by norm_num)
  have e100 : PrintsExactly (F64.num 100) := by
    simpa using PrintsExactly_int 100 (by norm_num) (by norm_num)
  have e10 : PrintsExactly (F64.num 10) := by
    simpa using PrintsExactly_int 10 (by norm_num) (by norm_num)
  have e20 : PrintsExactly (F64.num (-20)) := by
    simpa using PrintsExactly_int (-20) (by norm_num) (by norm_num)
  exact ⟨e200, e20, roundTripGeometry_String,
    ParseGeometry_String roundTripGeometry ⟨rfl, rfl, rfl⟩ e200 e100 e10 e20
      (by simp [roundTripGeometry, F64.lt, F64.zero])
      (by simp [roundTripGeometry, F64.lt, F64.zero])
      (by rw [roundTripGeometry_String]; decide)⟩

/-- C3 as stated fails twice.  The empty geometry meets its hypotheses, prints as the empty
string, and `ParseGeometry` rejects the empty string.  A geometry with the negative width
`-5` prints as `-5`, which is read back as the x offset `-5` with no width. -/
theorem ParseGeometry_String_counterexample :
    (EmptyGeometry.height.U = EmptyGeometry.width.U ∧ EmptyGeometry.x.U = EmptyGeometry.width.U ∧
        EmptyGeometry.y.U = EmptyGeometry.width.U) ∧
      PrintsExactly EmptyGeometry.width.N ∧ PrintsExactly EmptyGeometry.height.N ∧
      PrintsExactly EmptyGeometry.x.N ∧ PrintsExactly EmptyGeometry.y.N ∧
      EmptyGeometry.String = [] ∧
      ParseGeometry EmptyGeometry.String = (Geometry.zeroValue, some (malformedGeometry [])) ∧
      PrintsExactly negativeWidthGeometry.width.N ∧
      negativeWidthGeometry.String = "-5".toList ∧
      ParseGeometry negativeWidthGeometry.String =
        ({ EmptyGeometry with x := ⟨F64.num (-5), Pixels⟩ }, none) := by
  have hs : EmptyGeometry.String = [] := by
    rw [Geometry.String_eq]
    simp [EmptyGeometry, Geometry.HasWidth, Geometry.HasHeight, Geometry.HasX, Geometry.HasY,
      F64.isNaN, scalingFlag]
  have e5 : PrintsExactly (F64.num (-5)) := by
    simpa using PrintsExactly_int (-5) (by norm_num) (by norm_num)
  have p5 : printFloat (F64.num (-5)) = "-5".toList := by
    have h := printFloat_int (-5) (by norm_num) (by norm_num)
    have e : sprintf_d (-5) = "-5".toList := by decide
    rw [e] at h
    simpa using h
  have hn : negativeWidthGeometry.String = "-5".toList := by
    rw [Geometry.String_eq]
    simp [negativeWidthGeometry, EmptyGeometry, Geometry.HasWidth, Geometry.HasHeight,
      Geometry.HasX, Geometry.HasY, F64.isNaN, scalingFlag, p5]
  have v5 : (⟨['5'], none⟩ : Numeral).value = 5 := by
    have : digitsVal ['5'] = 5 := by decide
    show ((digitsVal ['5'] : ℕ) : ℚ) = 5
    rw [this]
    norm_num
  have hp := (ParseGeometry_text ⟨none, none, some (true, some ⟨['5'], none⟩), none, false,
    false, ScaleAlways⟩ (by decide) (by decide) (by decide)).1 (by
      simp only [GeometryText.inRange, GeometryText.optInRange, GeometryText.hNumeral,
        GeometryText.offsetNumeral, Option.bind, v5]
      have : (5 : ℚ) < float64Overflow := lt_trans (by norm_num) float64Overflow_large
      simp [this])
  refine ⟨⟨rfl, rfl, rfl⟩, Or.inl rfl, Or.inl rfl, Or.inl rfl, Or.inl rfl, hs, ?_, e5, hn, ?_⟩
  · rw [hs, ParseGeometry_nil]
  · rw [hn]
    have ht : (⟨none, none, some (true, some ⟨['5'], none⟩), none, false, false,
        ScaleAlways⟩ : GeometryText).text = "-5".toList := by decide
    rw [ht] at hp
    rw [hp]
    have e5 : float64Nearest 5 = 5 := by decide!
    simp [GeometryText.geometry, GeometryText.optValue, GeometryText.offsetValue,
      GeometryText.hNumeral, GeometryText.units, EmptyGeometry, v5, e5]

/-! ## Collisions, clearing and copying -/

theorem IdMap.has_iff_mem {V : Type} (m : IdMap V) (k : ImageIdentifier) :
    m.has k = true ↔ ∃ v, (k, v) ∈ m := by
  unfold IdMap.has
  induction m with
  | nil => simp [List.lookup]
  | cons e m ih =>
    obtain ⟨k', v'⟩ := e
    by_cases h : k = k'
    · subst h
      simp [List.lookup]
    · have h' : (k == k') = false := by simpa using h
      simp only [List.lookup, h', List.mem_cons, Prod.mk.injEq, h, false_and, false_or]
      exact ih

theorem F64.not_le_zero_iff (x : F64) (h : x.isNaN = false) :
    F64.le x F64.zero = false ↔ F64.gt x F64.zero = true := by
  cases x <;> simp_all [F64.le, F64.gt, F64.lt, F64.zero, F64.isNaN]

theorem TestCollision_eq_none (l : ImageLayout) (id : ImageIdentifier) :
    l.TestCollision id = none ↔
      ∀ j, l.positions.has j = true → j ≠ id →
        isWithin (Overlap l j id) (NewDims F64.zero F64.zero) = true := by
  unfold ImageLayout.TestCollision
  rw [Option.map_eq_none', List.find?_eq_none]
  constructor
  · intro h j hj hne
    obtain ⟨v, hv⟩ := (IdMap.has_iff_mem _ _).1 hj
    have := h (j, v) hv
    simpa [hne] using this
  · intro h e he
    have := h e.1 ((IdMap.has_iff_mem _ _).2 ⟨e.2, he⟩)
    by_cases hne : e.1 = id
    · simp [hne]
    · simpa [hne] using this hne

theorem TestCollision_eq_some (l : ImageLayout) (id j : ImageIdentifier)
    (h : l.TestCollision id = some j) :
    l.positions.has j = true ∧ j ≠ id ∧
      isWithin (Overlap l j id) (NewDims F64.zero F64.zero) = false := by
  unfold ImageLayout.TestCollision at h
  rw [Option.map_eq_some'] at h
  obtain ⟨e, he, rfl⟩ := h
  have hmem := List.mem_of_find?_eq_some he
  have hp := List.find?_some he
  simp only [Bool.and_eq_true, decide_eq_true_eq, Bool.not_eq_true'] at hp
  exact ⟨(IdMap.has_iff_mem _ _).2 ⟨e.2, hmem⟩, hp.1, hp.2⟩

theorem isWithin_zero (d : Dims) :
    isWithin d (NewDims F64.zero F64.zero) = true ↔
      (F64.le d.x F64.zero = true ∨ F64.le d.y F64.zero = true) := by
  simp [isWithin, NewDims, Dims.X, Dims.Y]

theorem isWithin_zero_false (d : Dims) (hx : d.x.isNaN = false) (hy : d.y.isNaN = false) :
    isWithin d (NewDims F64.zero F64.zero) = false ↔
      (F64.gt d.x F64.zero = true ∧ F64.gt d.y F64.zero = true) := by
  rw [← F64.not_le_zero_iff _ hx, ← F64.not_le_zero_iff _ hy]
  simp [isWithin, NewDims, Dims.X, Dims.Y]

/-- C13: `TestCollision id` returns no collision exactly when every positioned image
`j ≠ id` has `Overlap(j, id).x ≤ 0` or `Overlap(j, id).y ≤ 0`; and a witness `j` it returns is
positioned, differs from `id`, and has both components of `Overlap(j, id)` strictly positive.
The overlaps of the positioned images with `id` are taken to be numbers or infinities (a NaN
component is neither `≤ 0` nor `> 0`). -/
theorem TestCollision_spec (l : ImageLayout) (id : ImageIdentifier)
    (hnum : ∀ j, l.positions.has j = true →
      (Overlap l j id).x.isNaN = false ∧ (Overlap l j id).y.isNaN = false) :
    (l.TestCollision id = none ↔
      ∀ j, l.positions.has j = true → j ≠ id →
        (F64.le (Overlap l j id).x F64.zero = true ∨ F64.le (Overlap l j id).y F64.zero = true)) ∧
    (∀ j, l.TestCollision id = some j →
      l.positions.has j = true ∧ j ≠ id ∧
        F64.gt (Overlap l j id).x F64.zero = true ∧ F64.gt (Overlap l j id).y F64.zero = true) := by
  refine ⟨?_, ?_⟩
  · rw [TestCollision_eq_none]
    simp only [isWithin_zero]
  · intro j hj
    obtain ⟨h1, h2, h3⟩ := TestCollision_eq_some l id j hj
    exact ⟨h1, h2, (isWithin_zero_false _ (hnum j h1).1 (hnum j h1).2).1 h3⟩

theorem TestCollision_spec_witness :
    (∀ j, (twoSquares zeroPadding ⟨F64.num 50, F64.num 50⟩).positions.has j = true →
      (Overlap (twoSquares zeroPadding ⟨F64.num 50, F64.num 50⟩) j 1).x.isNaN = false ∧
      (Overlap (twoSquares zeroPadding ⟨F64.num 50, F64.num 50⟩) j 1).y.isNaN = false) ∧
    (twoSquares zeroPadding ⟨F64.num 50, F64.num 50⟩).TestCollision 1 = some 0 ∧
    F64.gt (Overlap (twoSquares zeroPadding ⟨F64.num 50, F64.num 50⟩) 0 1).x F64.zero = true := by
  have hnum : ∀ j, (twoSquares zeroPadding ⟨F64.num 50, F64.num 50⟩).positions.has j = true →
      (Overlap (twoSquares zeroPadding ⟨F64.num 50, F64.num 50⟩) j 1).x.isNaN = false ∧
      (Overlap (twoSquares zeroPadding ⟨F64.num 50, F64.num 50⟩) j 1).y.isNaN = false := by
    intro j hj
    obtain ⟨v, hv⟩ := (IdMap.has_iff_mem _ _).1 hj
    simp only [twoSquares, List.mem_cons, Prod.mk.injEq, List.mem_singleton, List.not_mem_nil,
      or_false] at hv
    rcases hv with ⟨rfl, _⟩ | ⟨rfl, _⟩ <;> decide!
  have h1 : (twoSquares zeroPadding ⟨F64.num 50, F64.num 50⟩).TestCollision 1 = some 0 := by
    decide!
  exact ⟨hnum, h1, ((TestCollision_spec _ 1 hnum).2 0 h1).2.2.1⟩

theorem IdMap.has_set_self {V : Type} (m : IdMap V) (k : ImageIdentifier) (v : V) :
    (IdMap.set m k v).has k = true := by
  simp [IdMap.has, IdMap.lookup_set_self]

theorem IdMap.has_set_ne {V : Type} (m : IdMap V) (k j : ImageIdentifier) (v : V)
    (hj : j ≠ k) : (IdMap.set m k v).has j = m.has j := by
  simp [IdMap.has, IdMap.lookup_set_ne m k j v hj]

/-- C11: for an image `id` known to the layout, `SetScaling id g` and `SetCropping id g`
return, leave the positions as they are, report no collision when `id` already has a position,
and otherwise report exactly `TestCollision id` evaluated on the updated layout. -/
theorem SetScaling_SetCropping_collision (l : ImageLayout) (id : ImageIdentifier)
    (info : ImageInfo) (g : Geometry) (hid : l.ImageInfoOf id = some info) :
    (∃ l' c, l.SetScaling id g = some (l', c) ∧ l'.positions = l.positions ∧
      (l.positions.has id = true → c = none) ∧
      (l.positions.has id = false → c = l'.TestCollision id)) ∧
    (∃ l' c, l.SetCropping id g = some (l', c) ∧ l'.positions = l.positions ∧
      (l.positions.has id = true → c = none) ∧
      (l.positions.has id = false → c = l'.TestCollision id)) := by
  unfold ImageLayout.ImageInfoOf at hid
  constructor
  · simp only [ImageLayout.SetScaling, hid]
    refine ⟨_, _, rfl, rfl, ?_, ?_⟩
    · intro h
      simp [h]
    · intro h
      simp [h]
  · simp only [ImageLayout.SetCropping, hid]
    refine ⟨_, _, rfl, rfl, ?_, ?_⟩
    · intro h
      simp [h]
    · intro h
      simp [h]

theorem SetScaling_SetCropping_collision_witness :
    sampleLayout.ImageInfoOf 0 = some sampleInfo0 ∧
      ∃ l' c, sampleLayout.SetScaling 0 fitGeometry = some (l', c) ∧
        c = l'.TestCollision 0 := by
  obtain ⟨l', c, h1, -, -, h2⟩ :=
    (SetScaling_SetCropping_collision sampleLayout 0 sampleInfo0 fitGeometry rfl).1
  exact ⟨rfl, l', c, h1, h2 rfl⟩

/-- C12: `SetPosition id p` always stores `p`: afterwards `PositionOf id = p`, `id` is
positioned, and the position (and being positioned) of every other image is unchanged,
whatever the collision result; it reports a witness exactly when some positioned `j ≠ id` has
an overlap with `id` that is strictly positive on both axes, and the witness it reports is such
an image.  The overlaps of the positioned images with `id` are taken to be numbers or
infinities (not NaN). -/
theorem SetPosition_spec (l : ImageLayout) (id : ImageIdentifier) (p : Dims)
    (hnum : ∀ j, (l.SetPosition id p).1.positions.has j = true →
      (Overlap (l.SetPosition id p).1 j id).x.isNaN = false ∧
      (Overlap (l.SetPosition id p).1 j id).y.isNaN = false) :
    (l.SetPosition id p).1.PositionOf id = p ∧
    (l.SetPosition id p).1.positions.has id = true ∧
    (∀ j, j ≠ id → (l.SetPosition id p).1.PositionOf j = l.PositionOf j ∧
      (l.SetPosition id p).1.positions.has j = l.positions.has j) ∧
    ((l.SetPosition id p).2.isSome = true ↔
      ∃ j, (l.SetPosition id p).1.positions.has j = true ∧ j ≠ id ∧
        F64.gt (Overlap (l.SetPosition id p).1 j id).x F64.zero = true ∧
        F64.gt (Overlap (l.SetPosition id p).1 j id).y F64.zero = true) ∧
    (∀ j, (l.SetPosition id p).2 = some j →
      (l.SetPosition id p).1.positions.has j = true ∧ j ≠ id ∧
        F64.gt (Overlap (l.SetPosition id p).1 j id).x F64.zero = true ∧
        F64.gt (Overlap (l.SetPosition id p).1 j id).y F64.zero = true) := by
  have hsome : ∀ j, (l.SetPosition id p).2 = some j →
      (l.SetPosition id p).1.positions.has j = true ∧ j ≠ id ∧
        F64.gt (Overlap (l.SetPosition id p).1 j id).x F64.zero = true ∧
        F64.gt (Overlap (l.SetPosition id p).1 j id).y F64.zero = true := by
    intro j hj
    obtain ⟨h1, h2, h3⟩ := TestCollision_eq_some (l.SetPosition id p).1 id j hj
    exact ⟨h1, h2, (isWithin_zero_false _ (hnum j h1).1 (hnum j h1).2).1 h3⟩
  refine ⟨?_, ?_, ?_, ?_, hsome⟩
  · simp [ImageLayout.SetPosition, ImageLayout.PositionOf, IdMap.get_set_self]
  · simp [ImageLayout.SetPosition, IdMap.has_set_self]
  · intro j hj
    simp [ImageLayout.SetPosition, ImageLayout.PositionOf, IdMap.get_set_ne _ _ _ _ _ hj,
      IdMap.has_set_ne _ _ _ _ hj]
  · constructor
    · intro h
      obtain ⟨j, hj⟩ := Option.isSome_iff_exists.mp h
      exact ⟨j, hsome j hj⟩
    · rintro ⟨j, hj, hne, hx, hy⟩
      by_contra hc
      have hnone : (l.SetPosition id p).1.TestCollision id = none := by
        simpa using hc
      have := (TestCollision_eq_none _ _).1 hnone j hj hne
      rw [(isWithin_zero_false _ (hnum j hj).1 (hnum j hj).2).2 ⟨hx, hy⟩] at this
      exact absurd this (by simp)

theorem SetPosition_spec_witness :
    (∀ j, (oneSquarePlaced.SetPosition 1 ⟨F64.num 50, F64.num 50⟩).1.positions.has j = true →
      (Overlap (oneSquarePlaced.SetPosition 1 ⟨F64.num 50, F64.num 50⟩).1 j 1).x.isNaN = false ∧
      (Overlap (oneSquarePlaced.SetPosition 1 ⟨F64.num 50, F64.num 50⟩).1 j 1).y.isNaN = false) ∧
    (oneSquarePlaced.SetPosition 1 ⟨F64.num 50, F64.num 50⟩).1.PositionOf 1 =
      ⟨F64.num 50, F64.num 50⟩ ∧
    (oneSquarePlaced.SetPosition 1 ⟨F64.num 50, F64.num 50⟩).2 = some 0 := by
  have hnum : ∀ j,
      (oneSquarePlaced.SetPosition 1 ⟨F64.num 50, F64.num 50⟩).1.positions.has j = true →
      (Overlap (oneSquarePlaced.SetPosition 1 ⟨F64.num 50, F64.num 50⟩).1 j 1).x.isNaN = false ∧
      (Overlap (oneSquarePlaced.SetPosition 1 ⟨F64.num 50, F64.num 50⟩).1 j 1).y.isNaN = false := by
    intro j hj
    obtain ⟨v, hv⟩ := (IdMap.has_iff_mem _ _).1 hj
    have hpos : (oneSquarePlaced.SetPosition 1 ⟨F64.num 50, F64.num 50⟩).1.positions =
        [(0, ⟨F64.num 0, F64.num 0⟩), (1, ⟨F64.num 50, F64.num 50⟩)] := by decide!
    rw [hpos] at hv
    simp only [List.mem_cons, Prod.mk.injEq, List.mem_singleton, List.not_mem_nil,
      or_false] at hv
    rcases hv with ⟨rfl, _⟩ | ⟨rfl, _⟩ <;> decide!
  exact ⟨hnum, (SetPosition_spec oneSquarePlaced 1 ⟨F64.num 50, F64.num 50⟩ hnum).1, by decide!⟩

/-- The x and y components that `overlap_inner` computes on finite inputs: the own padding of
a rectangle cancels in its far edge. -/
theorem overlap_inner_num (p1x p1y q1x q1y p2x p2y q2x q2y d1x d1y d2x d2y : ℚ) :
    overlap_inner ⟨F64.num p1x, F64.num p1y⟩ ⟨F64.num q1x, F64.num q1y⟩
      ⟨F64.num p2x, F64.num p2y⟩ ⟨F64.num q2x, F64.num q2y⟩
      ⟨F64.num d1x, F64.num d1y⟩ ⟨F64.num d2x, F64.num d2y⟩ =
    ⟨F64.num (min (p1x + d1x - (p2x - q2x)) (p2x + d2x - (p1x - q1x))),
     F64.num (min (p1y + d1y - (p2y - q2y)) (p2y + d2y - (p1y - q1y)))⟩ := by
  simp only [overlap_inner, Dims.X, Dims.Y, NewDims, F64.sub_num, F64.add_num, F64.min_num]
  congr 2 <;> congr 1 <;> ring

/-- C14: under the padding geometry `10x10`, two 100 by 100 images at (0,0) and (50,50) have
padding (10,10) each and `Overlap = (60,60)`, whereas the formula with both rectangles
extended by their padding on both sides gives `min(0+100+10-(50-10), 50+100+10-(0-10)) = 70`
on each axis. -/
theorem Overlap_padding_example :
    Overlap (twoSquares tenPadding ⟨F64.num 50, F64.num 50⟩) 0 1 = ⟨F64.num 60, F64.num 60⟩ ∧
    paddedOverlap (F64.num 0) (F64.num 100) (F64.num 10) (F64.num 50) (F64.num 100) (F64.num 10)
      = F64.num 70 ∧
    Padding (twoSquares tenPadding ⟨F64.num 50, F64.num 50⟩) 0 = ⟨F64.num 10, F64.num 10⟩ ∧
    Padding (twoSquares tenPadding ⟨F64.num 50, F64.num 50⟩) 1 = ⟨F64.num 10, F64.num 10⟩ := by
  decide!

/-- C15: in a layout whose padding is zero (padding geometry `0x0`), two 100 by 100 images
at (0,0) and (50,50) have `Overlap = (50,50)` and `TestCollision` reports a collision; at (0,0)
and (100,0) they have `Overlap = (0,100)` and `TestCollision` reports none. -/
theorem Overlap_scenario :
    Padding (twoSquares zeroPadding ⟨F64.num 50, F64.num 50⟩) 0 = ⟨F64.num 0, F64.num 0⟩ ∧
    Padding (twoSquares zeroPadding ⟨F64.num 50, F64.num 50⟩) 1 = ⟨F64.num 0, F64.num 0⟩ ∧
    Overlap (twoSquares zeroPadding ⟨F64.num 50, F64.num 50⟩) 0 1 = ⟨F64.num 50, F64.num 50⟩ ∧
    Overlap (twoSquares zeroPadding ⟨F64.num 50, F64.num 50⟩) 1 0 = ⟨F64.num 50, F64.num 50⟩ ∧
    (twoSquares zeroPadding ⟨F64.num 50, F64.num 50⟩).TestCollision 0 = some 1 ∧
    (twoSquares zeroPadding ⟨F64.num 50, F64.num 50⟩).TestCollision 1 = some 0 ∧
    Overlap (twoSquares zeroPadding ⟨F64.num 100, F64.num 0⟩) 0 1 = ⟨F64.num 0, F64.num 100⟩ ∧
    Overlap (twoSquares zeroPadding ⟨F64.num 100, F64.num 0⟩) 1 0 = ⟨F64.num 0, F64.num 100⟩ ∧
    (twoSquares zeroPadding ⟨F64.num 100, F64.num 0⟩).TestCollision 0 = none ∧
    (twoSquares zeroPadding ⟨F64.num 100, F64.num 0⟩).TestCollision 1 = none := by
  decide!

theorem IdMap.lookup_map {V W : Type} (m : IdMap V) (f : V → W) (k : ImageIdentifier) :
    List.lookup k (m.map (fun e => (e.1, f e.2))) = (List.lookup k m).map f := by
  induction m with
  | nil => rfl
  | cons e m ih =>
    obtain ⟨k', v'⟩ := e
    by_cases h : k = k'
    · subst h
      simp [List.lookup]
    · have h' : (k == k') = false := by simpa using h
      simp [List.lookup, h', ih]

/-- C16: `ClearDimensions` gives every image known to the layout the empty scaling, the empty
cropping and its intrinsic dimensions, and leaves the positions, the canvas size and the
image list unchanged. -/
theorem ClearDimensions_spec (l : ImageLayout) (id : ImageIdentifier) (info : ImageInfo)
    (hid : l.ImageInfoOf id = some info) :
    l.ClearDimensions.ScalingOf id = EmptyGeometry ∧
    l.ClearDimensions.CroppingOf id = EmptyGeometry ∧
    l.ClearDimensions.DimensionsOf id = info.dimensions ∧
    l.ClearDimensions.positions = l.positions ∧
    (∀ j, l.ClearDimensions.PositionOf j = l.PositionOf j) ∧
    l.ClearDimensions.CanvasSize = l.CanvasSize ∧
    l.ClearDimensions.images = l.images ∧
    l.ClearDimensions.ImageInfoOf id = some info := by
  unfold ImageLayout.ImageInfoOf at hid
  refine ⟨?_, ?_, ?_, rfl, fun _ => rfl, rfl, rfl, hid⟩
  · have := IdMap.lookup_map l.imageInfo (fun _ => EmptyGeometry) id
    simp only [ImageLayout.ScalingOf, ImageLayout.ClearDimensions, IdMap.get, this, hid]
    rfl
  · have := IdMap.lookup_map l.imageInfo (fun _ => EmptyGeometry) id
    simp only [ImageLayout.CroppingOf, ImageLayout.ClearDimensions, IdMap.get, this, hid]
    rfl
  · have := IdMap.lookup_map l.imageInfo (fun i => i.dimensions) id
    simp only [ImageLayout.DimensionsOf, ImageLayout.ClearDimensions, IdMap.get, this, hid]
    rfl

theorem ClearDimensions_spec_witness :
    (twoSquares tenPadding ⟨F64.num 50, F64.num 50⟩).ImageInfoOf 1 = some (squareInfo 1) ∧
    (twoSquares tenPadding ⟨F64.num 50, F64.num 50⟩).ClearDimensions.ScalingOf 1 = EmptyGeometry ∧
    (twoSquares tenPadding ⟨F64.num 50, F64.num 50⟩).ClearDimensions.PositionOf 1 =
      ⟨F64.num 50, F64.num 50⟩ := by
  obtain ⟨h1, -, -, -, h2, -⟩ :=
    ClearDimensions_spec (twoSquares tenPadding ⟨F64.num 50, F64.num 50⟩) 1 (squareInfo 1) rfl
  exact ⟨rfl, h1, (h2 1).trans (by decide!)⟩

theorem IdMap.set_of_not_mem {V : Type} (m : IdMap V) (k : ImageIdentifier) (v : V)
    (hk : k ∉ m.map Prod.fst) : m.set k v = m ++ [(k, v)] := by
  induction m with
  | nil => rfl
  | cons e m ih =>
    obtain ⟨k', v'⟩ := e
    simp only [List.map_cons, List.mem_cons, not_or] at hk
    have h1 : ¬ k' = k := fun h => hk.1 h.symm
    simp [IdMap.set, h1, ih hk.2]

theorem IdMap.foldl_set_distinct {V : Type} (m acc : IdMap V)
    (h : ((acc ++ m).map Prod.fst).Nodup) :
    m.foldl (fun rv e => rv.set e.1 e.2) acc = acc ++ m := by
  induction m generalizing acc with
  | nil => simp
  | cons e m ih =>
    have hk : e.1 ∉ acc.map Prod.fst := by
      simp only [List.map_append, List.map_cons] at h
      have := (List.nodup_append.1 h).2.2
      intro hmem
      exact this hmem (by simp)
    rw [List.foldl_cons, IdMap.set_of_not_mem acc e.1 e.2 hk]
    have h' : (((acc ++ [(e.1, e.2)]) ++ m).map Prod.fst).Nodup := by
      simpa using h
    rw [ih _ h']
    simp

theorem IdMap.copy_distinct {V : Type} (m : IdMap V) (h : m.Distinct) : m.copy = m := by
  unfold IdMap.copy
  rw [IdMap.foldl_set_distinct m [] (by simpa using h)]
  rfl

theorem Heap.view_congr (h h' : Heap) (p : Nat) (d : imageLayout_data)
    (hd : h.data[p]? = some d) (hd' : h'.data[p]? = some d)
    (h1 : h'.dimsMaps[d.dimensions]? = h.dimsMaps[d.dimensions]?)
    (h2 : h'.geomMaps[d.scaling]? = h.geomMaps[d.scaling]?)
    (h3 : h'.geomMaps[d.cropping]? = h.geomMaps[d.cropping]?)
    (h4 : h'.dimsMaps[d.positions]? = h.dimsMaps[d.positions]?) :
    h'.view p = h.view p := by
  simp only [Heap.view, hd, hd', h1, h2, h3, h4]

theorem Heap.call_frame (h h' : Heap) (p q : Nat) (c : LayoutCall) (hpq : h.Apart p q)
    (hc : h.call q c = some h') : h'.view p = h.view p ∧ h'.Apart p q := by
  obtain ⟨hne, dp, dq, hp, hq, b1, b2, b3, b4, b5, b6, b7, b8, n1, n2, n3, n4, n5, n6, n7, n8⟩ :=
    hpq
  have hqlt : q < h.data.length := by
    rcases Nat.lt_or_ge q h.data.length with hlt | hge
    · exact hlt
    · rw [List.getElem?_eq_none hge] at hq
      exact absurd hq (by simp)
  cases c with
  | SetPosition img position =>
    simp only [Heap.call, Heap.SetPosition, hq] at hc
    cases hm : h.dimsMaps[dq.positions]? with
    | none => simp [hm] at hc
    | some positions =>
      simp only [hm, Option.some.injEq] at hc
      subst hc
      refine ⟨Heap.view_congr _ _ p dp hp hp ?_ rfl rfl ?_, hne, dp, dq, hp, hq, ?_⟩
      · exact List.getElem?_set_ne (Ne.symm n2)
      · exact List.getElem?_set_ne (Ne.symm n4)
      · simp only [List.length_set]
        exact ⟨b1, b2, b3, b4, b5, b6, b7, b8, n1, n2, n3, n4, n5, n6, n7, n8⟩
  | SetCanvasSize d =>
    simp only [Heap.call, Heap.SetCanvasSize, hq, Option.some.injEq] at hc
    subst hc
    have hp' : (h.data.set q { dq with size := d })[p]? = some dp := by
      rw [List.getElem?_set_ne (Ne.symm hne)]
      exact hp
    refine ⟨Heap.view_congr _ _ p dp hp hp' rfl rfl rfl rfl, hne, dp, { dq with size := d },
      hp', ?_, ?_⟩
    · simp [List.getElem?_set_self hqlt]
    · exact ⟨b1, b2, b3, b4, b5, b6, b7, b8, n1, n2, n3, n4, n5, n6, n7, n8⟩
  | ClearPositions =>
    simp only [Heap.call, Heap.ClearPositions, hq, Option.some.injEq] at hc
    subst hc
    have hp' : (h.data.set q { dq with positions := h.dimsMaps.length })[p]? = some dp := by
      rw [List.getElem?_set_ne (Ne.symm hne)]
      exact hp
    refine ⟨Heap.view_congr _ _ p dp hp hp' ?_ rfl rfl ?_, hne, dp,
      { dq with positions := h.dimsMaps.length }, hp', ?_, ?_⟩
    · exact List.getElem?_append_left b1
    · exact List.getElem?_append_left b2
    · simp [List.getElem?_set_self hqlt]
    · simp only [List.length_append, List.length_singleton]
      exact ⟨by omega, by omega, b3, b4, by omega, by omega, b7, b8, n1, by omega, n3, by omega,
        n5, n6, n7, n8⟩
  | ClearDimensions =>
    simp only [Heap.call, Heap.ClearDimensions, hq, Option.some.injEq] at hc
    subst hc
    have hp' : ∀ x : imageLayout_data, (h.data.set q x)[p]? = some dp := by
      intro x
      rw [List.getElem?_set_ne (Ne.symm hne)]
      exact hp
    refine ⟨Heap.view_congr _ _ p dp hp (hp' _) ?_ ?_ ?_ ?_, hne, dp, _, hp' _,
      List.getElem?_set_self hqlt, ?_⟩
    · exact List.getElem?_append_left b1
    · exact List.getElem?_append_left b3
    · exact List.getElem?_append_left b4
    · exact List.getElem?_append_left b2
    · simp only [List.length_append, List.length_singleton, List.length_cons, List.length_nil]
      exact ⟨by omega, by omega, by omega, by omega, by omega, by omega, by omega, by omega,
        by omega, n2, by omega, n4, by omega, by omega, by omega, by omega⟩
  | SetScaling img geom =>
    simp only [Heap.call, Heap.SetScaling, hq] at hc
    cases hm : h.geomMaps[dq.scaling]? with
    | none => simp [hm] at hc
    | some scaling =>
      simp only [hm] at hc
      split at hc
      · rename_i info cropping scaling1 dimensions e1 e2 e3 e4
        simp only [Option.some.injEq] at hc
        subst hc
        refine ⟨Heap.view_congr _ _ p dp hp hp ?_ ?_ ?_ ?_, hne, dp, dq, hp, hq, ?_⟩
        · exact List.getElem?_set_ne (Ne.symm n1)
        · exact List.getElem?_set_ne (Ne.symm n5)
        · exact List.getElem?_set_ne (Ne.symm n7)
        · exact List.getElem?_set_ne (Ne.symm n3)
        · simp only [List.length_set]
          exact ⟨b1, b2, b3, b4, b5, b6, b7, b8, n1, n2, n3, n4, n5, n6, n7, n8⟩
      · simp at hc
  | SetCropping img geom =>
    simp only [Heap.call, Heap.SetCropping, hq] at hc
    cases hm : h.geomMaps[dq.cropping]? with
    | none => simp [hm] at hc
    | some cropping =>
      simp only [hm] at hc
      split at hc
      · rename_i info cropping1 scaling dimensions e1 e2 e3 e4
        simp only [Option.some.injEq] at hc
        subst hc
        refine ⟨Heap.view_congr _ _ p dp hp hp ?_ ?_ ?_ ?_, hne, dp, dq, hp, hq, ?_⟩
        · exact List.getElem?_set_ne (Ne.symm n1)
        · exact List.getElem?_set_ne (Ne.symm n6)
        · exact List.getElem?_set_ne (Ne.symm n8)
        · exact List.getElem?_set_ne (Ne.symm n3)
        · simp only [List.length_set]
          exact ⟨b1, b2, b3, b4, b5, b6, b7, b8, n1, n2, n3, n4, n5, n6, n7, n8⟩
      · simp at hc

theorem Heap.calls_frame (cs : List LayoutCall) (h h' : Heap) (p q : Nat) (hpq : h.Apart p q)
    (hc : h.calls q cs = some h') : h'.view p = h.view p := by
  induction cs generalizing h with
  | nil =>
    simp only [Heap.calls, Option.some.injEq] at hc
    rw [hc]
  | cons c cs ih =>
    simp only [Heap.calls] at hc
    cases h1 : h.call q c with
    | none => simp [h1] at hc
    | some h1' =>
      simp only [h1] at hc
      obtain ⟨hv, hap⟩ := Heap.call_frame h h1' p q c hpq h1
      rw [ih h1' hap hc, hv]

theorem Heap.Duplicate_view (h h1 : Heap) (p q : Nat) (l : ImageLayout)
    (hv : h.view p = some l) (hd : h.Duplicate p = some (h1, q)) :
    h1.view q = some l.Duplicate ∧ h1.view p = some l ∧ h1.Apart p q := by
  unfold Heap.view at hv
  unfold Heap.Duplicate at hd
  cases hdp : h.data[p]? with
  | none => simp [hdp] at hv
  | some d =>
    simp only [hdp] at hv hd
    split at hv
    · rename_i dimensions scaling cropping positions e1 e2 e3 e4
      simp only [e1, e2, e3, e4, Option.some.injEq, Prod.mk.injEq] at hd hv
      obtain ⟨rfl, rfl⟩ := hd
      subst hv
      have hplt : p < h.data.length := by
        rcases Nat.lt_or_ge p h.data.length with hlt | hge
        · exact hlt
        · rw [List.getElem?_eq_none hge] at hdp
          exact absurd hdp (by simp)
      have b1 : d.dimensions < h.dimsMaps.length := by
        rcases Nat.lt_or_ge d.dimensions h.dimsMaps.length with hlt | hge
        · exact hlt
        · rw [List.getElem?_eq_none hge] at e1
          exact absurd e1 (by simp)
      have b2 : d.positions < h.dimsMaps.length := by
        rcases Nat.lt_or_ge d.positions h.dimsMaps.length with hlt | hge
        · exact hlt
        · rw [List.getElem?_eq_none hge] at e4
          exact absurd e4 (by simp)
      have b3 : d.scaling < h.geomMaps.length := by
        rcases Nat.lt_or_ge d.scaling h.geomMaps.length with hlt | hge
        · exact hlt
        · rw [List.getElem?_eq_none hge] at e2
          exact absurd e2 (by simp)
      have b4 : d.cropping < h.geomMaps.length := by
        rcases Nat.lt_or_ge d.cropping h.geomMaps.length with hlt | hge
        · exact hlt
        · rw [List.getElem?_eq_none hge] at e3
          exact absurd e3 (by simp)
      have hp' : ∀ x : imageLayout_data, (h.data ++ [x])[p]? = some d := by
        intro x
        rw [List.getElem?_append_left hplt]
        exact hdp
      refine ⟨?_, ?_, Nat.ne_of_lt hplt, d, _, hp' _, List.getElem?_concat_length _ _, ?_⟩
      · have g1 : ∀ (xs : List (IdMap Dims)) (a b : IdMap Dims),
            (xs ++ [a, b])[xs.length]? = some a ∧ (xs ++ [a, b])[xs.length + 1]? = some b := by
          intro xs a b
          constructor
          · rw [List.getElem?_append_right (le_refl _)]
            simp
          · rw [List.getElem?_append_right (by omega)]
            simp
        have g2 : ∀ (xs : List (IdMap Geometry)) (a b : IdMap Geometry),
            (xs ++ [a, b])[xs.length]? = some a ∧ (xs ++ [a, b])[xs.length + 1]? = some b := by
          intro xs a b
          constructor
          · rw [List.getElem?_append_right (le_refl _)]
            simp
          · rw [List.getElem?_append_right (by omega)]
            simp
        simp only [Heap.view, ImageLayout.Duplicate, List.getElem?_concat_length, (g1 _ _ _).1,
          (g1 _ _ _).2, (g2 _ _ _).1, (g2 _ _ _).2]
      · simp only [Heap.view, hp' _, List.getElem?_append_left b1, List.getElem?_append_left b2,
          List.getElem?_append_left b3, List.getElem?_append_left b4, e1, e2, e3, e4]
      · simp only [List.length_append, List.length_cons, List.length_nil]
        exact ⟨by omega, by omega, by omega, by omega, by omega, by omega, by omega, by omega,
          by omega, by omega, by omega, by omega, by omega, by omega, by omega, by omega⟩
    · simp at hv

theorem Duplicate_of_distinct (l : ImageLayout) (h1 : l.dimensions.Distinct)
    (h2 : l.scaling.Distinct) (h3 : l.cropping.Distinct) (h4 : l.positions.Distinct) :
    l.Duplicate = l := by
  simp [ImageLayout.Duplicate, IdMap.copy_distinct, h1, h2, h3, h4]

/-- C17: when `Duplicate` is called on the layout at address `p` (whose maps have distinct
keys, as Go maps do), the copy at the new address `q` reads as the same layout (same canvas
size, image list, dimensions, scaling, cropping and positions), and after any sequence of
`SetPosition`, `SetScaling`, `SetCropping`, `SetCanvasSize`, `ClearPositions` and
`ClearDimensions` calls through `q` the layout read through `p` is still the original one. -/
theorem Duplicate_independent (h h1 : Heap) (p q : Nat) (l : ImageLayout)
    (hv : h.view p = some l) (hd : h.Duplicate p = some (h1, q))
    (d1 : l.dimensions.Distinct) (d2 : l.scaling.Distinct) (d3 : l.cropping.Distinct)
    (d4 : l.positions.Distinct) :
    h1.view q = some l ∧ h1.view p = some l ∧
    ∀ (cs : List LayoutCall) (h2 : Heap), h1.calls q cs = some h2 → h2.view p = some l := by
  obtain ⟨e1, e2, e3⟩ := Heap.Duplicate_view h h1 p q l hv hd
  refine ⟨?_, e2, ?_⟩
  · rw [e1, Duplicate_of_distinct l d1 d2 d3 d4]
  · intro cs h2 hc
    rw [Heap.calls_frame cs h1 h2 p q e3 hc, e2]

theorem Duplicate_independent_witness :
    ∃ h1 h2, sampleHeap.Duplicate 0 = some (h1, 1) ∧ h1.calls 1 sampleCalls = some h2 ∧
      h2.view 0 = some (twoSquares zeroPadding ⟨F64.num 100, F64.num 0⟩) ∧
      h2.view 1 ≠ h2.view 0 := by
  have hd : sampleHeap.Duplicate 0 = some ((sampleHeap.Duplicate 0).get (by decide!)) := by
    simp
  have hc : ((sampleHeap.Duplicate 0).get (by decide!)).1.calls 1 sampleCalls =
      some ((((sampleHeap.Duplicate 0).get (by decide!)).1.calls 1 sampleCalls).get
        (by decide!)) := by
    simp
  have hq : ((sampleHeap.Duplicate 0).get (by decide!)).2 = 1 := by decide!
  refine ⟨_, _, ?_, hc, ?_, by decide!⟩
  · rw [← hq]
    exact hd
  · exact (Duplicate_independent sampleHeap _ 0 _
      (twoSquares zeroPadding ⟨F64.num 100, F64.num 0⟩) (by decide!) hd (by decide) (by decide)
      (by decide) (by decide)).2.2 sampleCalls _ hc

/-! ## Random placement and balancing -/

theorem F64.gt_zero_of_le_zero (x : F64) (h : F64.le x F64.zero = true) :
    F64.gt x F64.zero = false := by
  cases x <;> simp_all [F64.le, F64.gt, F64.lt, F64.zero]

theorem isWithin_zero_not_positive (d : Dims)
    (h : isWithin d (NewDims F64.zero F64.zero) = true) :
    ¬ (F64.gt d.x F64.zero = true ∧ F64.gt d.y F64.zero = true) := by
  rintro ⟨hx, hy⟩
  rcases (isWithin_zero _).1 h with h1 | h1
  · rw [F64.gt_zero_of_le_zero _ h1] at hx
    exact absurd hx (by simp)
  · rw [F64.gt_zero_of_le_zero _ h1] at hy
    exact absurd hy (by simp)

theorem F64.min_comm (x y : F64) : F64.min x y = F64.min y x := by
  cases x <;> cases y <;> simp [F64.min, F64.isNaN, F64.lt]
  rename_i a b
  rcases lt_trichotomy a b with h | h | h
  · simp [h, not_lt.mpr (le_of_lt h)]
  · simp [h]
  · simp [h, not_lt.mpr (le_of_lt h)]

theorem Overlap_comm (l : ImageLayout) (i j : ImageIdentifier) :
    Overlap l i j = Overlap l j i := by
  simp only [Overlap, overlap_inner, NewDims]
  rw [F64.min_comm]
  congr 1
  rw [F64.min_comm]

theorem Overlap_SetPosition_ne (l : ImageLayout) (k i j : ImageIdentifier) (p : Dims)
    (hi : i ≠ k) (hj : j ≠ k) :
    Overlap (l.SetPosition k p).1 i j = Overlap l i j := by
  simp only [Overlap, ImageLayout.SetPosition, ImageLayout.PositionOf, Padding,
    ImageLayout.DimensionsOf, ImageLayout.Parameters, IdMap.get_set_ne _ _ _ _ _ hi,
    IdMap.get_set_ne _ _ _ _ _ hj]

theorem NoOverlap.except {l : ImageLayout} (h : NoOverlap l) (ex : ImageIdentifier) :
    NoOverlapExcept l ex :=
  fun i j hi hj hij _ _ => h i j hi hj hij

theorem NoOverlapExcept.keep_SetPosition {l : ImageLayout} {ex : ImageIdentifier}
    (h : NoOverlapExcept l ex) (p : Dims) : NoOverlapExcept (l.SetPosition ex p).1 ex := by
  intro i j hi hj hij hie hje
  rw [Overlap_SetPosition_ne l ex i j p hie hje]
  have hi' : l.positions.has i = true := by
    simpa [ImageLayout.SetPosition, IdMap.has_set_ne _ _ _ _ hie] using hi
  have hj' : l.positions.has j = true := by
    simpa [ImageLayout.SetPosition, IdMap.has_set_ne _ _ _ _ hje] using hj
  exact h i j hi' hj' hij hie hje

theorem NoOverlap.after_SetPosition {l : ImageLayout} {ex : ImageIdentifier}
    (h : NoOverlapExcept l ex) (p : Dims) (hc : (l.SetPosition ex p).2 = none) :
    NoOverlap (l.SetPosition ex p).1 := by
  have h1 := NoOverlapExcept.keep_SetPosition h p
  have h2 := (TestCollision_eq_none (l.SetPosition ex p).1 ex).1 hc
  intro i j hi hj hij
  by_cases hie : i = ex
  · subst hie
    rw [Overlap_comm]
    exact isWithin_zero_not_positive _ (h2 j hj (Ne.symm hij))
  · by_cases hje : j = ex
    · subst hje
      exact isWithin_zero_not_positive _ (h2 i hi hij)
    · exact h1 i j hi hj hij hie hje

theorem SameButPositions.refl (l : ImageLayout) : SameButPositions l l :=
  ⟨rfl, rfl, rfl, rfl, rfl, rfl, rfl⟩

theorem SameButPositions.trans {l1 l2 l3 : ImageLayout} (h1 : SameButPositions l1 l2)
    (h2 : SameButPositions l2 l3) : SameButPositions l1 l3 := by
  obtain ⟨a1, a2, a3, a4, a5, a6, a7⟩ := h1
  obtain ⟨b1, b2, b3, b4, b5, b6, b7⟩ := h2
  exact ⟨b1.trans a1, b2.trans a2, b3.trans a3, b4.trans a4, b5.trans a5, b6.trans a6,
    b7.trans a7⟩

theorem SameButPositions.by_SetPosition (l : ImageLayout) (img : ImageIdentifier) (p : Dims) :
    SameButPositions l (l.SetPosition img p).1 :=
  ⟨rfl, rfl, rfl, rfl, rfl, rfl, rfl⟩

theorem insertionStep_perm {α : Type} (less : α → α → Bool) (x : α) (rev : List α) :
    (insertionStep less x rev).Perm (x :: rev) := by
  induction rev with
  | nil => exact List.Perm.refl _
  | cons y rev ih =>
    unfold insertionStep
    split
    · exact ((List.Perm.cons y ih).trans (List.Perm.swap x y rev))
    · exact List.Perm.refl _

theorem foldl_insertionStep_perm {α : Type} (less : α → α → Bool) (ids rev : List α) :
    (ids.foldl (fun rev x => insertionStep less x rev) rev).Perm (ids.reverse ++ rev) := by
  induction ids generalizing rev with
  | nil => exact List.Perm.refl _
  | cons x ids ih =>
    rw [List.foldl_cons, List.reverse_cons, List.append_assoc]
    exact (ih _).trans (List.Perm.append_left _ (insertionStep_perm less x rev))

theorem IISBy_Sort_perm {α : Type} (less : α → α → Bool) (ids : List α) :
    (IISBy_Sort less ids).Perm ids := by
  unfold IISBy_Sort
  refine (List.reverse_perm _).trans ?_
  have := foldl_insertionStep_perm less ids []
  rw [List.append_nil] at this
  exact this.trans (List.reverse_perm _)

theorem oneImageTry_eq (l : ImageLayout) (img : ImageIdentifier) (m : Dims) (rnd : Nat → Nat)
    (k : Nat) (l' : ImageLayout) (c : Option ImageIdentifier) (k' : Nat)
    (h : oneImageTry l img m rnd k = some (l', c, k')) :
    ∃ p, l' = (l.SetPosition img p).1 ∧ c = (l.SetPosition img p).2 := by
  unfold oneImageTry at h
  simp only at h
  split at h
  · exact absurd h (by simp)
  · split at h
    · exact absurd h (by simp)
    · simp only [Option.some.injEq, Prod.mk.injEq] at h
      exact ⟨_, h.1.symm, h.2.1.symm⟩

theorem has_SetPosition (l : ImageLayout) (img i : ImageIdentifier) (p : Dims)
    (h : l.positions.has i = true) : (l.SetPosition img p).1.positions.has i = true := by
  by_cases hi : i = img
  · subst hi
    simp [ImageLayout.SetPosition, IdMap.has_set_self]
  · simpa [ImageLayout.SetPosition, IdMap.has_set_ne _ _ _ _ hi] using h

theorem oneCanvasTry_image_spec (img : ImageIdentifier) (m : Dims) (rnd : Nat → Nat)
    (left : Nat) (l : ImageLayout) (k : Nat) (l' : ImageLayout) (placed : Bool) (k' : Nat)
    (h : oneCanvasTry_image img m rnd left l k = some (l', placed, k'))
    (hno : NoOverlapExcept l img) :
    NoOverlapExcept l' img ∧
      (placed = true → NoOverlap l' ∧ l'.positions.has img = true) ∧
      (∀ i, l.positions.has i = true → l'.positions.has i = true) ∧
      SameButPositions l l' := by
  induction left generalizing l k with
  | zero =>
    simp only [oneCanvasTry_image, Option.some.injEq, Prod.mk.injEq] at h
    obtain ⟨rfl, rfl, rfl⟩ := h
    exact ⟨hno, fun hf => absurd hf (by simp), fun _ hi => hi, SameButPositions.refl _⟩
  | succ left ih =>
    simp only [oneCanvasTry_image] at h
    cases ht : oneImageTry l img m rnd k with
    | none => simp [ht] at h
    | some r =>
      obtain ⟨l1, c, k1⟩ := r
      simp only [ht] at h
      obtain ⟨p, rfl, rfl⟩ := oneImageTry_eq l img m rnd k l1 c k1 ht
      split at h
      · rename_i hc
        simp only [Option.some.injEq, Prod.mk.injEq] at h
        obtain ⟨rfl, rfl, rfl⟩ := h
        have hc' : (l.SetPosition img p).2 = none := by simpa using hc
        refine ⟨NoOverlapExcept.keep_SetPosition hno p, fun _ => ⟨NoOverlap.after_SetPosition hno p hc', ?_⟩,
          fun i hi => has_SetPosition l img i p hi, SameButPositions.by_SetPosition l img p⟩
        simp [ImageLayout.SetPosition, IdMap.has_set_self]
      · obtain ⟨a1, a2, a3, a4⟩ := ih _ _ h (NoOverlapExcept.keep_SetPosition hno p)
        exact ⟨a1, a2, fun i hi => a3 i (has_SetPosition l img i p hi),
          (SameButPositions.by_SetPosition l img p).trans a4⟩

theorem oneCanvasTry_spec (m : Dims) (rnd : Nat → Nat) (imgs : List ImageIdentifier)
    (l : ImageLayout) (k : Nat) (l' : ImageLayout) (success : Bool) (k' : Nat)
    (h : oneCanvasTry m rnd imgs l k = some (l', success, k')) (hno : NoOverlap l) :
    SameButPositions l l' ∧
      (success = true → NoOverlap l' ∧ (∀ img ∈ imgs, l'.positions.has img = true) ∧
        ∀ i, l.positions.has i = true → l'.positions.has i = true) := by
  induction imgs generalizing l k with
  | nil =>
    simp only [oneCanvasTry, Option.some.injEq, Prod.mk.injEq] at h
    obtain ⟨rfl, rfl, rfl⟩ := h
    exact ⟨SameButPositions.refl _, fun _ => ⟨hno, fun _ hm => absurd hm (by simp), fun _ hi => hi⟩⟩
  | cons img rest ih =>
    simp only [oneCanvasTry] at h
    cases ht : oneCanvasTry_image img m rnd
        l.parameters.others.Random_MaxTriesPerImage.toNat l k with
    | none => simp [ht] at h
    | some r =>
      obtain ⟨l1, placed, k1⟩ := r
      simp only [ht] at h
      obtain ⟨-, a2, a3, a4⟩ := oneCanvasTry_image_spec img m rnd _ l k l1 placed k1 ht
        (hno.except img)
      cases placed with
      | false =>
        simp only [Bool.false_eq_true, if_false, Option.some.injEq, Prod.mk.injEq] at h
        obtain ⟨rfl, rfl, rfl⟩ := h
        exact ⟨a4, fun hf => absurd hf (by simp)⟩
      | true =>
        simp only [if_true] at h
        obtain ⟨b1, b2⟩ := ih l1 k1 h (a2 rfl).1
        refine ⟨a4.trans b1, fun hs => ?_⟩
        obtain ⟨c1, c2, c3⟩ := b2 hs
        refine ⟨c1, ?_, fun i hi => c3 i (a3 i hi)⟩
        intro x hx
        rcases List.mem_cons.1 hx with rfl | hx
        · exact c3 _ (a2 rfl).2
        · exact c2 x hx

theorem calculatePositions_Random_loop_spec (order : List ImageIdentifier) (m : Dims)
    (rnd : Nat → Nat) (fuel : Nat) (l : ImageLayout) (tries : Int) (k : Nat)
    (l' : ImageLayout) (tries' : Int) (k' : Nat)
    (h : calculatePositions_Random_loop order m rnd fuel l tries k = some (l', tries', k'))
    (hno : NoOverlap l)
    (hpos : l.positions = [] ∨ ∀ img ∈ order, l.positions.has img = true)
    (ht : tries ≤ l.parameters.others.Random_MaxLayoutTries) :
    NoOverlap l' ∧ (l'.positions = [] ∨ ∀ img ∈ order, l'.positions.has img = true) ∧
      tries' ≤ l'.parameters.others.Random_MaxLayoutTries ∧
      ¬ (tries' < l'.parameters.others.Random_MaxLayoutTries ∧
        l'.PositionedImageCount < l'.TotalImageCount) ∧
      l'.images = l.images ∧ l'.imageInfo = l.imageInfo ∧ l'.size = l.size ∧
      l'.dimensions = l.dimensions ∧ l'.parameters = l.parameters := by
  induction fuel generalizing l tries k with
  | zero => simp [calculatePositions_Random_loop] at h
  | succ fuel ih =>
    simp only [calculatePositions_Random_loop] at h
    split at h
    · rename_i hcond
      cases hc : oneCanvasTry m rnd order l k with
      | none => simp [hc] at h
      | some r =>
        obtain ⟨l1, success, k1⟩ := r
        simp only [hc] at h
        obtain ⟨a1, a2⟩ := oneCanvasTry_spec m rnd order l k l1 success k1 hc hno
        obtain ⟨s1, s2, s3, s4, s5, s6, s7⟩ := a1
        cases success with
        | false =>
          simp only [Bool.not_false, if_true] at h
          have := ih l1.ClearPositions (tries + 1) k1 h
            (by intro i j hi; simp [ImageLayout.ClearPositions, IdMap.has] at hi)
            (Or.inl rfl)
            (by
              simp only [ImageLayout.ClearPositions, s2]
              omega)
          obtain ⟨b1, b2, b3, b4, b5, b6, b7, b8, b9⟩ := this
          exact ⟨b1, b2, b3, b4, b5.trans s3, b6.trans s4, b7.trans s1, b8.trans s5,
            b9.trans s2⟩
        | true =>
          simp only [Bool.not_true, Bool.false_eq_true, if_false] at h
          obtain ⟨c1, c2, -⟩ := a2 rfl
          have := ih l1 tries k1 h c1 (Or.inr c2) (by rw [s2]; exact ht)
          obtain ⟨b1, b2, b3, b4, b5, b6, b7, b8, b9⟩ := this
          exact ⟨b1, b2, b3, b4, b5.trans s3, b6.trans s4, b7.trans s1, b8.trans s5,
            b9.trans s2⟩
    · rename_i hcond
      simp only [Option.some.injEq, Prod.mk.injEq] at h
      obtain ⟨rfl, rfl, rfl⟩ := h
      exact ⟨hno, hpos, ht, hcond, rfl, rfl, rfl, rfl, rfl⟩

/-- The no-overlap postcondition of `calculatePositions_Random_inner` for a non-negative
`Random_MaxLayoutTries`: a layout it returns for an input without positions has every image
of the list positioned, no two positioned images with an overlap that is strictly positive on
both axes, and the canvas size it was called with. -/
theorem calculatePositions_Random_inner_no_overlap (images : ImageLayout) (maxDims : Dims)
    (rnd : Nat → Nat) (k fuel : Nat) (res : ImageLayout) (k' : Nat)
    (hpos : images.positions = [])
    (hmax : 0 ≤ images.parameters.others.Random_MaxLayoutTries)
    (h : calculatePositions_Random_inner images maxDims rnd k fuel = some (some res, k')) :
    (∀ img ∈ images.images, res.positions.has img = true) ∧
    NoOverlap res ∧ res.CanvasSize = maxDims := by
  unfold calculatePositions_Random_inner at h
  simp only at h
  cases hI : (images.Duplicate.SetCanvasSize maxDims).Images true with
  | none => simp [hI] at h
  | some order0 =>
    simp only [hI] at h
    split at h
    · exact absurd h (by simp)
    · rename_i l1 tries k1 hl
      have hp0 : (images.Duplicate.SetCanvasSize maxDims).positions = [] := by
        simp [ImageLayout.Duplicate, ImageLayout.SetCanvasSize, hpos, IdMap.copy]
      obtain ⟨b1, b2, b3, b4, b5, b6, b7, -, b9⟩ :=
        calculatePositions_Random_loop_spec _ maxDims rnd fuel _ 0 k l1 tries k1 hl
          (by intro i j hi; simp [hp0, IdMap.has] at hi) (Or.inl hp0) hmax
      split at h
      · exact absurd h (by simp)
      · rename_i hne
        simp only [Option.some.injEq, Prod.mk.injEq] at h
        obtain ⟨rfl, rfl⟩ := h
        refine ⟨?_, b1, b7⟩
        have hlt : tries < l1.parameters.others.Random_MaxLayoutTries :=
          lt_of_le_of_ne b3 hne
        have hcount : ¬ l1.PositionedImageCount < l1.TotalImageCount :=
          fun hc => b4 ⟨hlt, hc⟩
        simp only [ImageLayout.Images, Bool.not_true, Bool.false_eq_true, if_false,
          ImageLayout.Duplicate, ImageLayout.SetCanvasSize] at hI
        split at hI
        · rename_i hlen
          simp only [Option.some.injEq] at hI
          intro img himg
          rcases b2 with hnil | hall
          · simp only [ImageLayout.PositionedImageCount, ImageLayout.TotalImageCount, hnil,
              IdMap.len, List.map_nil, List.dedup_nil, List.length_nil, b6,
              ImageLayout.Duplicate, ImageLayout.SetCanvasSize] at hcount
            have h0 : (images.imageInfo.map Prod.fst).dedup.length = 0 := by
              simpa using hcount
            simp only [IdMap.len, h0, Nat.le_zero, List.length_eq_zero] at hlen
            rw [hlen] at himg
            exact absurd himg (by simp)
          · apply hall
            rw [(IISBy_Sort_perm _ _).mem_iff, ← hI]
            exact List.mem_append_left _ himg
        · exact absurd hI (by simp)

/-- C18: with `Random_MaxLayoutTries = -1`, `calculatePositions_Random_inner` called on a
layout of one image without positions returns a layout (not the nil layout) in which that
image has no position, whatever the random draws: the loop is skipped and the test
`tries == Random_MaxLayoutTries` fails. -/
theorem calculatePositions_Random_inner_negative_tries (rnd : Nat → Nat) (k fuel : Nat) :
    ∃ res, calculatePositions_Random_inner
        (oneSquare (NewDims F64.zero F64.zero) (NewDims F64.zero F64.zero)
          { Random_MaxLayoutTries := -1 })
        ⟨F64.num 100, F64.num 100⟩ rnd k (fuel + 1) = some (some res, k) ∧
      res.images = [0] ∧ res.positions = [] ∧ res.positions.has 0 = false := by
  refine ⟨_, rfl, rfl, rfl, rfl⟩

theorem F64.toInt_num (q : ℚ) (h0 : 0 ≤ q) (hb : q < 2 ^ 63) : F64.toInt (F64.num q) = ⌊q⌋ := by
  have h1 : (0 : Int) ≤ ⌊q⌋ := Int.floor_nonneg.2 h0
  have h2 : ⌊q⌋ < (2 : Int) ^ 63 := by
    have : ((⌊q⌋ : Int) : ℚ) < ((2 : Int) ^ 63 : Int) := by
      push_cast
      exact lt_of_le_of_lt (Int.floor_le q) hb
    exact_mod_cast this
  simp only [F64.toInt, h0, if_true]
  rw [if_pos ⟨by omega, h2⟩]

theorem Intn_of_pos (n : Int) (r : Nat) (hn : 0 < n) : Intn n r = some ((r : Int) % n) := by
  simp [Intn, not_le.mpr hn]

/-- C19: for a finite canvas `(cx, cy)`, finite dimensions `(dx, dy)` and finite non-negative
padding `(px, py)` of the image, `oneImageTry` returns, and the position it tries is a pair of
whole numbers `(X, Y)` with `0 ≤ X < max(1, cx - dx - 2·px) + px` and
`0 ≤ Y < max(1, cy - dy - 2·py) + py`; so on an axis where the image fits with its padding
(`canvas - dim - 2·padding ≥ 1`) the position satisfies `0 ≤ pos` and
`pos + dim + padding < canvas`. -/
theorem oneImageTry_position (l : ImageLayout) (img : ImageIdentifier) (rnd : Nat → Nat)
    (k : Nat) (cx cy dx dy px py : ℚ)
    (hd : l.DimensionsOf img = ⟨F64.num dx, F64.num dy⟩)
    (hp : Padding l img = ⟨F64.num px, F64.num py⟩)
    (hpx : 0 ≤ px) (hpy : 0 ≤ py)
    (hbx : max 1 (cx - dx - 2 * px) + px < 2 ^ 63)
    (hby : max 1 (cy - dy - 2 * py) + py < 2 ^ 63) :
    ∃ (X Y : Int) (c : Option ImageIdentifier),
      oneImageTry l img ⟨F64.num cx, F64.num cy⟩ rnd k =
        some ((l.SetPosition img ⟨F64.num X, F64.num Y⟩).1, c, k + 2) ∧
      0 ≤ X ∧ (X : ℚ) < max 1 (cx - dx - 2 * px) + px ∧
      0 ≤ Y ∧ (Y : ℚ) < max 1 (cy - dy - 2 * py) + py ∧
      (1 ≤ cx - dx - 2 * px → (X : ℚ) + dx + px < cx) ∧
      (1 ≤ cy - dy - 2 * py → (Y : ℚ) + dy + py < cy) := by
  have key : ∀ (c d p : ℚ) (r : Nat), 0 ≤ p → max 1 (c - d - 2 * p) + p < 2 ^ 63 →
      ∃ X : Int, Intn (F64.toInt (F64.add (F64.max (F64.num 1)
          (F64.sub (F64.sub (F64.num c) (F64.num d)) (F64.mul (F64.num 2) (F64.num p))))
          (F64.num p))) r = some X ∧ 0 ≤ X ∧ (X : ℚ) < max 1 (c - d - 2 * p) + p ∧
        (1 ≤ c - d - 2 * p → (X : ℚ) + d + p < c) := by
    intro c d p r hp0 hb
    have hq1 : (1 : ℚ) ≤ max 1 (c - d - 2 * p) + p := by
      have := le_max_left (1 : ℚ) (c - d - 2 * p)
      linarith
    have hq0 : (0 : ℚ) ≤ max 1 (c - d - 2 * p) + p := by linarith
    have hn : (0 : Int) < ⌊max 1 (c - d - 2 * p) + p⌋ := by
      have : (1 : Int) ≤ ⌊max 1 (c - d - 2 * p) + p⌋ := Int.le_floor.2 (by exact_mod_cast hq1)
      omega
    have hlt : (((r : Int) % ⌊max 1 (c - d - 2 * p) + p⌋ : Int) : ℚ) <
        max 1 (c - d - 2 * p) + p := by
      have h1 : (r : Int) % ⌊max 1 (c - d - 2 * p) + p⌋ < ⌊max 1 (c - d - 2 * p) + p⌋ :=
        Int.emod_lt_of_pos _ hn
      have h2 : ((⌊max 1 (c - d - 2 * p) + p⌋ : Int) : ℚ) ≤ max 1 (c - d - 2 * p) + p :=
        Int.floor_le _
      have h3 : (((r : Int) % ⌊max 1 (c - d - 2 * p) + p⌋ : Int) : ℚ) <
          ((⌊max 1 (c - d - 2 * p) + p⌋ : Int) : ℚ) := by exact_mod_cast h1
      linarith
    refine ⟨(r : Int) % ⌊max 1 (c - d - 2 * p) + p⌋, ?_, Int.emod_nonneg _ (ne_of_gt hn), hlt, ?_⟩
    · simp only [F64.sub_num, F64.mul_num, F64.max_num, F64.add_num]
      rw [F64.toInt_num _ hq0 hb, Intn_of_pos _ _ hn]
    · intro hfit
      have e : max 1 (c - d - 2 * p) = c - d - 2 * p := max_eq_right hfit
      linarith
  obtain ⟨X, hX, x0, x1, x2⟩ := key cx dx px (rnd k) hpx hbx
  obtain ⟨Y, hY, y0, y1, y2⟩ := key cy dy py (rnd (k + 1)) hpy hby
  refine ⟨X, Y, (l.SetPosition img ⟨F64.num X, F64.num Y⟩).2, ?_, x0, x1, y0, y1, x2, y2⟩
  simp only [oneImageTry, hd, hp, Dims.X, Dims.Y, hX, hY, F64.ofInt, NewDims]

theorem oneImageTry_position_witness :
    ∃ (X Y : Int) (c : Option ImageIdentifier),
      oneImageTry (oneSquare (NewDims F64.zero F64.zero) (NewDims F64.zero F64.zero) {}) 0
          ⟨F64.num 300, F64.num 200⟩ (fun _ => 1234) 0 =
        some (((oneSquare (NewDims F64.zero F64.zero) (NewDims F64.zero F64.zero) {}).SetPosition
          0 ⟨F64.num X, F64.num Y⟩).1, c, 2) ∧
      0 ≤ X ∧ (X : ℚ) + 100 + 0 < 300 ∧ 0 ≤ Y ∧ (Y : ℚ) + 100 + 0 < 200 := by
  obtain ⟨X, Y, c, h, x0, -, y0, -, x2, y2⟩ :=
    oneImageTry_position (oneSquare (NewDims F64.zero F64.zero) (NewDims F64.zero F64.zero) {}) 0
      (fun _ => 1234) 0 300 200 100 100 0 0 (by decide!) (by decide!) (le_refl 0) (le_refl 0)
      (by norm_num) (by norm_num)
  exact ⟨X, Y, c, h, x0, x2 (by norm_num), y0, y2 (by norm_num)⟩

/-- On a 50 by 50 canvas the only position `oneImageTry` tries for a 100 by 100 image
without padding is (0,0): the interval `[padding, canvas - dim - padding] = [0, -50]` is
empty, and the image reaches to 100, beyond the canvas. -/
theorem oneImageTry_small_canvas_counterexample :
    (oneImageTry (oneSquare (NewDims F64.zero F64.zero) (NewDims F64.zero F64.zero) {}) 0
        ⟨F64.num 50, F64.num 50⟩ (fun _ => 1234) 0).map
      (fun r => (r.1.PositionOf 0, r.2.1)) = some (⟨F64.num 0, F64.num 0⟩, none) ∧
    Padding (oneSquare (NewDims F64.zero F64.zero) (NewDims F64.zero F64.zero) {}) 0 =
      ⟨F64.num 0, F64.num 0⟩ ∧
    F64.le (F64.num 0) (F64.sub (F64.sub (F64.num 50) (F64.num 100)) (F64.num 0)) = false ∧
    F64.le (F64.add (F64.add (F64.num 0) (F64.num 100)) (F64.num 0)) (F64.num 50) = false := by
  decide!

/-- Under the padding geometry `10x10`, on a 200 by 200 canvas, `oneImageTry` tries the
position (0,0) for a 100 by 100 image when the generator delivers 0: a position below the
padding (10,10). -/
theorem oneImageTry_padding_slip :
    (oneImageTry (twoSquares tenPadding ⟨F64.num 0, F64.num 0⟩).ClearPositions 0
        ⟨F64.num 200, F64.num 200⟩ (fun _ => 0) 0).map
      (fun r => (r.1.PositionOf 0, r.2.1)) = some (⟨F64.num 0, F64.num 0⟩, none) ∧
    Padding (twoSquares tenPadding ⟨F64.num 0, F64.num 0⟩).ClearPositions 0 =
      ⟨F64.num 10, F64.num 10⟩ := by
  decide!

/-- C20: for one 100 by 100 image, no minimum canvas size and the maximum canvas size 50 by
50, `calculatePositions_Random` returns a layout whose canvas is 100 by 100 (the first canvas
tried has the width `targetWidth = 100`), which exceeds the maximum on both axes. -/
theorem calculatePositions_Random_exceeds_max :
    (calculatePositions_Random
        (oneSquare (NewDims F64.zero F64.zero) ⟨F64.num 50, F64.num 50⟩ {}) (F64.num 1)
        (fun _ => 0) 2).map
      (fun r => r.map (fun l => (l.CanvasSize, l.positions))) =
      some (some (⟨F64.num 100, F64.num 100⟩, [(0, ⟨F64.num 0, F64.num 0⟩)])) ∧
    (oneSquare (NewDims F64.zero F64.zero) ⟨F64.num 50, F64.num 50⟩ {}).parameters.maxCanvasSize =
      ⟨F64.num 50, F64.num 50⟩ := by
  decide!

theorem Balance_axis_spec (dimIndex : Int) (fuel : Nat) (l : ImageLayout) (imb : imbalances)
    (order : List ImageIdentifier) (i : Option ImageIdentifier) (its : Int)
    (l' : ImageLayout) (imb' : imbalances) (order' : List ImageIdentifier) (its' : Int)
    (h : Balance_axis dimIndex fuel l imb order i its = BalanceResult.ok (l', imb', order', its'))
    (hno : NoOverlap l) : NoOverlap l' ∧ SameButPositions l l' := by
  induction fuel generalizing l imb order i its with
  | zero => simp [Balance_axis] at h
  | succ fuel ih =>
    simp only [Balance_axis] at h
    split at h
    · exact absurd h (by simp)
    · rename_i imb1 himb
      split at h
      · split at h
        · exact absurd h (by simp)
        · rename_i first rest hsort
          split at h
          · simp only [BalanceResult.ok.injEq, Prod.mk.injEq] at h
            obtain ⟨rfl, -, -, -⟩ := h
            exact ⟨hno, SameButPositions.refl _⟩
          · split at h
            · exact absurd h (by simp)
            · rename_i hc
              obtain ⟨a1, a2⟩ := ih _ _ _ _ _ h
                (NoOverlap.after_SetPosition (hno.except first) _ hc)
              exact ⟨a1, (SameButPositions.by_SetPosition l first _).trans a2⟩
      · exact absurd h (by simp)

theorem Balance_rounds_spec (fuel left : Nat) (dimIndex : Int) (l : ImageLayout)
    (imb : imbalances) (order : List ImageIdentifier) (passes : List (Int × Int))
    (r : ImageLayout × List (Int × Int))
    (h : Balance_rounds fuel left dimIndex l imb order passes = BalanceResult.ok r)
    (hno : NoOverlap l) : NoOverlap r.1 ∧ SameButPositions l r.1 := by
  induction left generalizing dimIndex l imb order passes with
  | zero =>
    simp only [Balance_rounds, BalanceResult.ok.injEq] at h
    subst h
    exact ⟨hno, SameButPositions.refl _⟩
  | succ left ih =>
    simp only [Balance_rounds] at h
    split at h
    · exact absurd h (by simp)
    · exact absurd h (by simp)
    · exact absurd h (by simp)
    · rename_i l1 imb1 order1 its hax
      obtain ⟨a1, a2⟩ := Balance_axis_spec _ _ _ _ _ _ _ _ _ _ _ hax hno
      split at h
      · simp only [BalanceResult.ok.injEq] at h
        subst h
        exact ⟨a1, a2⟩
      · obtain ⟨b1, b2⟩ := ih _ _ _ _ _ h a1
        exact ⟨b1, a2.trans b2⟩

theorem Balance_eq_some (l : ImageLayout) (fuel : Nat) (l' : ImageLayout) :
    Balance l fuel = some l' ↔ ∃ passes, Balance_run l fuel = BalanceResult.ok (l', passes) := by
  unfold Balance
  constructor
  · intro h
    split at h
    · rename_i r hr
      simp only [Option.some.injEq] at h
      exact ⟨r.2, by rw [hr, ← h]⟩
    · exact absurd h (by simp)
  · rintro ⟨passes, h⟩
    rw [h]

/-- C28: if no two positioned images of a layout overlap (no overlap strictly positive on
both axes) and `Balance` returns normally, then no two positioned images of the result
overlap, and the canvas size, the image list and the dimensions, scaling and cropping of
every image are the same as before. -/
theorem Balance_postcondition (l : ImageLayout) (fuel : Nat) (l' : ImageLayout)
    (h : Balance l fuel = some l')
    (hno : ∀ i j, l.positions.has i = true → l.positions.has j = true → i ≠ j →
      ¬ (F64.gt (Overlap l i j).x F64.zero = true ∧ F64.gt (Overlap l i j).y F64.zero = true)) :
    (∀ i j, l'.positions.has i = true → l'.positions.has j = true → i ≠ j →
      ¬ (F64.gt (Overlap l' i j).x F64.zero = true ∧
        F64.gt (Overlap l' i j).y F64.zero = true)) ∧
    l'.CanvasSize = l.CanvasSize ∧
    (∀ img, l'.DimensionsOf img = l.DimensionsOf img ∧ l'.ScalingOf img = l.ScalingOf img ∧
      l'.CroppingOf img = l.CroppingOf img) ∧
    l'.images = l.images := by
  obtain ⟨passes, h⟩ := (Balance_eq_some l fuel l').1 h
  unfold Balance_run at h
  simp only at h
  split at h
  · exact absurd h (by simp)
  · obtain ⟨a1, a2, -, a4, -, a6, a7, a8⟩ := Balance_rounds_spec _ _ _ _ _ _ _ _ h hno
    simp only at a1 a2 a4 a6 a7 a8
    refine ⟨a1, a2, fun img => ?_, a4⟩
    simp [ImageLayout.DimensionsOf, ImageLayout.ScalingOf, ImageLayout.CroppingOf, a6, a7, a8]

/-- C29: for two 10 by 10 images on a 100 by 100 canvas at (0,0) and (0,50), zero padding,
tolerance 0.01 and 4 balance iterations, `Balance` returns with the first image at (45,20)
and the second at (45,50), both still positioned. -/
theorem Balance_scenario :
    (Balance balanceScenario 10).map (fun l => (l.PositionOf 0, l.PositionOf 1, l.positions.len))
      = some (⟨F64.num 45, F64.num 20⟩, ⟨F64.num 45, F64.num 50⟩, 2) := by
  decide!

theorem Balance_postcondition_witness :
    ∃ l', Balance balanceScenario 10 = some l' ∧ l'.CanvasSize = ⟨F64.num 100, F64.num 100⟩ ∧
      ¬ (F64.gt (Overlap l' 0 1).x F64.zero = true ∧ F64.gt (Overlap l' 0 1).y F64.zero = true) := by
  have h : Balance balanceScenario 10 = some ((Balance balanceScenario 10).get (by decide!)) := by
    simp
  have hno : ∀ i j, balanceScenario.positions.has i = true →
      balanceScenario.positions.has j = true → i ≠ j →
      ¬ (F64.gt (Overlap balanceScenario i j).x F64.zero = true ∧
        F64.gt (Overlap balanceScenario i j).y F64.zero = true) := by
    intro i j hi hj hij
    obtain ⟨v, hv⟩ := (IdMap.has_iff_mem _ _).1 hi
    obtain ⟨w, hw⟩ := (IdMap.has_iff_mem _ _).1 hj
    simp only [balanceScenario, List.mem_cons, Prod.mk.injEq, List.mem_singleton,
      List.not_mem_nil, or_false] at hv hw
    rcases hv with ⟨rfl, _⟩ | ⟨rfl, _⟩ <;> rcases hw with ⟨rfl, _⟩ | ⟨rfl, _⟩
    · exact absurd rfl hij
    · decide!
    · decide!
    · exact absurd rfl hij
  obtain ⟨a1, a2, -⟩ := Balance_postcondition balanceScenario 10 _ h hno
  exact ⟨_, h, a2, a1 0 1 (by decide!) (by decide!) (by decide)⟩

theorem getImbalance_step_bounds (iLay : ImageLayout) (i : ImageIdentifier) (dimIndex : Int)
    (e e' : imbalance) (j : ImageIdentifier) (h1 : e.minBound = e'.minBound)
    (h2 : e.maxBound = e'.maxBound) :
    (getImbalance_step iLay i dimIndex e j).minBound =
        (getImbalance_step iLay i dimIndex e' j).minBound ∧
      (getImbalance_step iLay i dimIndex e j).maxBound =
        (getImbalance_step iLay i dimIndex e' j).maxBound := by
  unfold getImbalance_step
  simp only [h1, h2]
  split_ifs <;> simp [h1, h2]

theorem foldl_getImbalance_step_bounds (iLay : ImageLayout) (i : ImageIdentifier)
    (dimIndex : Int) (js : List ImageIdentifier) (e e' : imbalance)
    (h1 : e.minBound = e'.minBound) (h2 : e.maxBound = e'.maxBound) :
    (js.foldl (getImbalance_step iLay i dimIndex) e).minBound =
        (js.foldl (getImbalance_step iLay i dimIndex) e').minBound ∧
      (js.foldl (getImbalance_step iLay i dimIndex) e).maxBound =
        (js.foldl (getImbalance_step iLay i dimIndex) e').maxBound := by
  induction js generalizing e e' with
  | nil => exact ⟨h1, h2⟩
  | cons j js ih =>
    obtain ⟨a, b⟩ := getImbalance_step_bounds iLay i dimIndex e e' j h1 h2
    exact ih _ _ a b

theorem imbalanceOf_indep (iLay : ImageLayout) (i : ImageIdentifier) (dimIndex : Int)
    (e e' : imbalance) :
    (imbalanceOf iLay i dimIndex e).i = (imbalanceOf iLay i dimIndex e').i ∧
      (imbalanceOf iLay i dimIndex e).minBound = (imbalanceOf iLay i dimIndex e').minBound ∧
      (imbalanceOf iLay i dimIndex e).maxBound = (imbalanceOf iLay i dimIndex e').maxBound := by
  obtain ⟨a, b⟩ := foldl_getImbalance_step_bounds iLay i dimIndex iLay.images
    { e with minBound := F64.zero,
             maxBound := F64.sub (iLay.CanvasSize.Dim dimIndex) ((iLay.DimensionsOf i).Dim dimIndex) }
    { e' with minBound := F64.zero,
              maxBound := F64.sub (iLay.CanvasSize.Dim dimIndex) ((iLay.DimensionsOf i).Dim dimIndex) }
    rfl rfl
  simp only [imbalanceOf, a, b, and_self]

theorem imbalanceOf_within (iLay : ImageLayout) (i : ImageIdentifier) (dimIndex : Int)
    (e e' : imbalance) (t : F64) (h : (imbalanceOf iLay i dimIndex e).Within t) :
    (imbalanceOf iLay i dimIndex e').Within t := by
  obtain ⟨a, b, c⟩ := imbalanceOf_indep iLay i dimIndex e e'
  unfold imbalance.Within at *
  rw [← a, ← b, ← c]
  exact h

theorem getImbalance_eq (l : ImageLayout) (i : ImageIdentifier) (d : Int) (imb : imbalances)
    (e : imbalance) (h : List.lookup i imb = some e) :
    getImbalance l i d imb = some (imb.set i (imbalanceOf l i d e)) := by
  simp [getImbalance, h]

theorem foldl_getImbalance_spec (l : ImageLayout) (d : Int) (is : List ImageIdentifier)
    (imb : imbalances) (hall : ∀ i ∈ is, imb.has i = true) :
    ∃ imb', is.foldl
        (fun acc i =>
          match acc with
          | none => none
          | some imb => getImbalance l i d imb)
        (some imb) = some imb' ∧
      (∀ k, imb'.has k = imb.has k) ∧
      (∀ k, k ∉ is → List.lookup k imb' = List.lookup k imb) ∧
      (∀ i ∈ is, ∃ e, List.lookup i imb' = some (imbalanceOf l i d e)) := by
  induction is generalizing imb with
  | nil => exact ⟨imb, rfl, fun _ => rfl, fun _ _ => rfl, fun _ hi => absurd hi (by simp)⟩
  | cons x xs ih =>
    have hx : imb.has x = true := hall x (by simp)
    obtain ⟨e, he⟩ := Option.isSome_iff_exists.1 hx
    have hkeys : ∀ k, (imb.set x (imbalanceOf l x d e)).has k = imb.has k := by
      intro k
      by_cases hk : k = x
      · subst hk
        rw [IdMap.has_set_self, hx]
      · exact IdMap.has_set_ne _ _ _ _ hk
    obtain ⟨imb', h1, h2, h3, h4⟩ := ih (imb.set x (imbalanceOf l x d e))
      (fun i hi => by rw [hkeys]; exact hall i (by simp [hi]))
    refine ⟨imb', ?_, fun k => (h2 k).trans (hkeys k), ?_, ?_⟩
    · rw [List.foldl_cons]
      simp only [getImbalance_eq l x d imb e he]
      exact h1
    · intro k hk
      simp only [List.mem_cons, not_or] at hk
      rw [h3 k hk.2, IdMap.lookup_set_ne _ _ _ _ hk.1]
    · intro i hi
      by_cases hmem : i ∈ xs
      · exact h4 i hmem
      · rcases List.mem_cons.1 hi with rfl | hi'
        · exact ⟨e, by rw [h3 _ hmem, IdMap.lookup_set_self]⟩
        · exact absurd hi' hmem

theorem foldl_set_has {V : Type} (z : V) (is : List ImageIdentifier) (acc : IdMap V) :
    ∀ k, (k ∈ is ∨ acc.has k = true) →
      (is.foldl (fun imb img => imb.set img z) acc).has k = true := by
  induction is generalizing acc with
  | nil =>
    intro k hk
    rcases hk with hk | hk
    · exact absurd hk (by simp)
    · exact hk
  | cons x xs ih =>
    intro k hk
    rw [List.foldl_cons]
    apply ih
    rcases hk with hk | hk
    · rcases List.mem_cons.1 hk with rfl | hk
      · exact Or.inr (IdMap.has_set_self _ _ _)
      · exact Or.inl hk
    · by_cases hkx : k = x
      · subst hkx
        exact Or.inr (IdMap.has_set_self _ _ _)
      · exact Or.inr (by rw [IdMap.has_set_ne _ _ _ _ hkx]; exact hk)

theorem Balance_axis_within (d : Int) (fuel : Nat) (l : ImageLayout) (imb : imbalances)
    (order : List ImageIdentifier) (its : Int) (hord : order ≠ [])
    (hsub : ∀ i ∈ order, i ∈ l.images)
    (hall : ∀ i ∈ l.images, imb.has i = true)
    (hw : ∀ i ∈ l.images, (imbalanceOf l i d imbalance.zeroValue).Within
      l.parameters.others.Balancer_BalanceToleranceFactor) :
    ∃ imb' order',
      Balance_axis d (fuel + 1) l imb order none its = BalanceResult.ok (l, imb', order', its) := by
  obtain ⟨imb1, h1, h2, -, h4⟩ := foldl_getImbalance_spec l d l.images imb hall
  have hg : getImbalances l d imb = some imb1 := h1
  have hallb : (order.all fun id => imb1.has id) = true := by
    rw [List.all_eq_true]
    intro i hi
    rw [h2]
    exact hall i (hsub i hi)
  simp only [Balance_axis, hg, hallb, if_true]
  cases hs : IISBy_Sort
      (fun lhs rhs =>
        F64.lt (F64.abs (IdMap.get imb1 imbalance.zeroValue rhs).i)
          (F64.abs (IdMap.get imb1 imbalance.zeroValue lhs).i)) order with
  | nil =>
    have hp := IISBy_Sort_perm
      (fun lhs rhs =>
        F64.lt (F64.abs (IdMap.get imb1 imbalance.zeroValue rhs).i)
          (F64.abs (IdMap.get imb1 imbalance.zeroValue lhs).i)) order
    rw [hs] at hp
    exact absurd (List.Perm.nil_eq hp).symm hord
  | cons first rest =>
    have hfirst : first ∈ l.images := by
      apply hsub
      have hp := IISBy_Sort_perm
        (fun lhs rhs =>
          F64.lt (F64.abs (IdMap.get imb1 imbalance.zeroValue rhs).i)
            (F64.abs (IdMap.get imb1 imbalance.zeroValue lhs).i)) order
      rw [hs] at hp
      exact hp.mem_iff.1 (List.mem_cons_self _ _)
    obtain ⟨e, he⟩ := h4 first hfirst
    have hget : IdMap.get imb1 imbalance.zeroValue first = imbalanceOf l first d e := by
      simp [IdMap.get, he]
    have hwithin := imbalanceOf_within l first d imbalance.zeroValue e _ (hw first hfirst)
    unfold imbalance.Within at hwithin
    simp only [hget, hwithin, if_true]
    exact ⟨_, _, rfl⟩

/-- C30 (as amended): for a layout with at least one image and one `imageInfo` entry per
image, in which the imbalance of every image along the x axis is within the tolerance
(`|i| ≤ tolerance · (maxBound - minBound)`), `Balance` returns the layout unchanged: it makes
no move. -/
theorem Balance_idempotent (l : ImageLayout) (fuel : Nat) (hne : l.images ≠ [])
    (hlen : l.images.length = l.imageInfo.len)
    (hw : ∀ i ∈ l.images, (imbalanceOf l i 0 imbalance.zeroValue).Within
      l.parameters.others.Balancer_BalanceToleranceFactor) :
    Balance l (fuel + 1) = some l := by
  unfold Balance Balance_run
  have hI : l.Images true = some l.images := by
    simp [ImageLayout.Images, hlen]
  simp only [hI]
  cases (2 * l.parameters.others.Balancer_MaxBalanceIterations).toNat with
  | zero => rfl
  | succ left =>
    obtain ⟨imb', order', h⟩ := Balance_axis_within 0 fuel l
      (l.images.foldl (fun imb img => imb.set img imbalance.zeroValue) []) l.images 0 hne
      (fun _ hi => hi) (fun i hi => foldl_set_has _ _ _ i (Or.inl hi)) hw
    simp only [Balance_rounds, h, if_true]

theorem Balance_idempotent_witness :
    balancedPair.images = [0, 1] ∧
    (∀ i ∈ balancedPair.images, (imbalanceOf balancedPair i 1 imbalance.zeroValue).Within
      balancedPair.parameters.others.Balancer_BalanceToleranceFactor) ∧
    Balance balancedPair 1 = some balancedPair := by
  have him : balancedPair.images = [0, 1] := by decide
  have hw : ∀ (d : Int), d = 0 ∨ d = 1 → ∀ i ∈ balancedPair.images,
      (imbalanceOf balancedPair i d imbalance.zeroValue).Within
        balancedPair.parameters.others.Balancer_BalanceToleranceFactor := by
    intro d hd i hi
    rw [him] at hi
    simp only [List.mem_cons, List.mem_singleton, List.not_mem_nil, or_false] at hi
    unfold imbalance.Within
    rcases hd with rfl | rfl <;> rcases hi with rfl | rfl <;> decide!
  exact ⟨him, hw 1 (Or.inr rfl),
    Balance_idempotent balancedPair 0 (by decide) (by decide!) (hw 0 (Or.inl rfl))⟩

/-- C30 (counterexample): two 10 by 10 images side by side at (0,0) and (50,0) on a 100 by
100 canvas.  `Balance` returns them at (25,45) and (60,45), after four rounds of which the
last makes no move; run on this output, `Balance` moves both images again, to (26.25,45) and
(62.5,45). -/
theorem Balance_rerun_counterexample :
    (Balance sideBySide 20).map (fun l => (l.PositionOf 0, l.PositionOf 1)) =
      some (⟨F64.num 25, F64.num 45⟩, ⟨F64.num 60, F64.num 45⟩) ∧
    Balance_run sideBySide 20 =
      BalanceResult.ok ({ sideBySide with
        positions := [(0, ⟨F64.num 25, F64.num 45⟩), (1, ⟨F64.num 60, F64.num 45⟩)] },
        [(0, 1), (1, 2), (0, 2), (1, 0)]) ∧
    (Balance { sideBySide with
        positions := [(0, ⟨F64.num 25, F64.num 45⟩), (1, ⟨F64.num 60, F64.num 45⟩)] } 20).map
        (fun l => (l.PositionOf 0, l.PositionOf 1)) =
      some (⟨F64.num (105 / 4), F64.num 45⟩, ⟨F64.num (125 / 2), F64.num 45⟩) := by
  refine ⟨by decide!, by decide!, by decide!⟩

/-- In the scenario of `Balance_scenario` the first image does not keep its x coordinate 0
(it ends at 45) and the second image does not move to y near 70 (it stays at 50). -/
theorem Balance_scenario_counterexample :
    (Balance balanceScenario 10).map (fun l => ((l.PositionOf 0).x, (l.PositionOf 1).y)) =
      some (F64.num 45, F64.num 50) := by
  decide!

/-! ## Symmetry, default padding, balancer rounds and the uniform initializer -/

/-- C38: `Overlap` is symmetric, `Overlap(i, j) = Overlap(j, i)` on both axes, for every layout
and every two images; so the collision test `!isWithin(Overlap(i, j), (0,0))` has the same
value for `(i, j)` and `(j, i)`. -/
theorem Overlap_symmetric (l : ImageLayout) (i j : ImageIdentifier) :
    Overlap l i j = Overlap l j i ∧
    (Overlap l i j).x = (Overlap l j i).x ∧ (Overlap l i j).y = (Overlap l j i).y ∧
    (!isWithin (Overlap l i j) (NewDims F64.zero F64.zero)) =
      (!isWithin (Overlap l j i) (NewDims F64.zero F64.zero)) := by
  rw [Overlap_comm l i j]
  exact ⟨rfl, rfl, rfl, rfl⟩

/-- Under the default (empty) padding geometry the padding of an image is its dimensions. -/
theorem Padding_default (l : ImageLayout) (img : ImageIdentifier)
    (h : l.parameters.padding = EmptyGeometry) : Padding l img = l.DimensionsOf img := by
  simp [Padding, ImageLayout.Parameters, Parameters.Padding, h, Geometry.Scale,
    Geometry.scaleUnits, EmptyGeometry, Geometry.HasWidth, Geometry.HasHeight, F64.isNaN]

/-- C32: under the default (empty) padding geometry, two 100 by 100 images at (0,0) and (50,50)
have padding (100,100), not (0,0), and `Overlap = (150,150)`, whereas the overlap of the
unpadded rectangles is (50,50). -/
theorem Padding_default_example :
    (twoSquares EmptyGeometry ⟨F64.num 50, F64.num 50⟩).parameters.padding =
      defaultParameters.padding ∧
    Padding (twoSquares EmptyGeometry ⟨F64.num 50, F64.num 50⟩) 0 = ⟨F64.num 100, F64.num 100⟩ ∧
    Overlap (twoSquares EmptyGeometry ⟨F64.num 50, F64.num 50⟩) 0 1 =
      ⟨F64.num 150, F64.num 150⟩ ∧
    overlap_inner ⟨F64.num 0, F64.num 0⟩ ⟨F64.num 0, F64.num 0⟩ ⟨F64.num 50, F64.num 50⟩
      ⟨F64.num 0, F64.num 0⟩ ⟨F64.num 100, F64.num 100⟩ ⟨F64.num 100, F64.num 100⟩ =
      ⟨F64.num 50, F64.num 50⟩ := by
  decide!

/-- C34: for the four images of `collisionScenario` on a 20 by 4 canvas (all positioned,
inside the canvas, no collision between any two), `Balance` ends on the fatal exit: the
fourth move, of image 1, collides with image 3. -/
theorem Balance_collision :
    Balance_run collisionScenario 10 = BalanceResult.collision 1 3 ∧
    collisionScenario.TestCollision 0 = none ∧ collisionScenario.TestCollision 1 = none ∧
    collisionScenario.TestCollision 2 = none ∧ collisionScenario.TestCollision 3 = none ∧
    collisionScenario.positions.len = 4 ∧
    collisionScenario.images.all
      (fun i =>
        F64.le F64.zero (collisionScenario.PositionOf i).x &&
        F64.le F64.zero (collisionScenario.PositionOf i).y &&
        F64.le (F64.add (collisionScenario.PositionOf i).x (collisionScenario.DimensionsOf i).x)
          collisionScenario.CanvasSize.x &&
        F64.le (F64.add (collisionScenario.PositionOf i).y (collisionScenario.DimensionsOf i).y)
          collisionScenario.CanvasSize.y) = true := by
  decide!

theorem Balance_rounds_passes (fuel left : Nat) (dimIndex : Int) (l : ImageLayout)
    (imb : imbalances) (order : List ImageIdentifier) (passes : List (Int × Int))
    (r : ImageLayout × List (Int × Int)) (hd : dimIndex = 0 ∨ dimIndex = 1)
    (h : Balance_rounds fuel left dimIndex l imb order passes = BalanceResult.ok r) :
    ∃ more : List (Int × Int), r.2 = passes ++ more ∧ more.length ≤ left ∧
      (∀ k (hk : k < more.length), (more.get ⟨k, hk⟩).1 = (dimIndex + k) % 2) ∧
      (∀ k (hk : k < more.length), k + 1 < more.length → (more.get ⟨k, hk⟩).2 ≠ 0) ∧
      (more.length < left → ∃ last, more.getLast? = some last ∧ last.2 = 0) := by
  induction left generalizing dimIndex l imb order passes with
  | zero =>
    simp only [Balance_rounds, BalanceResult.ok.injEq] at h
    subst h
    exact ⟨[], by simp, by simp, fun k hk => absurd hk (by simp), fun k hk => absurd hk (by simp),
      fun hlt => absurd hlt (by simp)⟩
  | succ left ih =>
    simp only [Balance_rounds] at h
    split at h
    · exact absurd h (by simp)
    · exact absurd h (by simp)
    · exact absurd h (by simp)
    · rename_i l1 imb1 order1 its hax
      split at h
      · rename_i hz
        simp only [BalanceResult.ok.injEq] at h
        subst h
        refine ⟨[(dimIndex, its)], rfl, by simp, ?_, ?_, ?_⟩
        · intro k hk
          have : k = 0 := by simpa using hk
          subst this
          rcases hd with rfl | rfl <;> simp
        · intro k hk hk1
          simp at hk1
        · intro _
          exact ⟨(dimIndex, its), rfl, hz⟩
      · rename_i hnz
        have hd' : (if dimIndex = 0 then (1 : Int) else 0) = 0 ∨
            (if dimIndex = 0 then (1 : Int) else 0) = 1 := by
          rcases hd with rfl | rfl <;> simp
        obtain ⟨more, e, b1, b2, b3, b4⟩ := ih _ _ _ _ _ hd' h
        refine ⟨(dimIndex, its) :: more, by rw [e]; simp, by simp; omega, ?_, ?_, ?_⟩
        · intro k hk
          cases k with
          | zero => rcases hd with rfl | rfl <;> simp
          | succ k =>
            have hk' : k < more.length := by simpa using hk
            have := b2 k hk'
            simp only [List.get_eq_getElem, List.getElem_cons_succ] at this ⊢
            rw [this]
            rcases hd with rfl | rfl
            · simp only [if_true]
              push_cast
              omega
            · simp only [one_ne_zero, if_false]
              push_cast
              omega
        · intro k hk hk1
          cases k with
          | zero => simpa using hnz
          | succ k =>
            have hk' : k < more.length := by simpa using hk
            have := b3 k hk' (by simpa using hk1)
            simpa using this
        · intro hlt
          have hlt' : more.length < left := by simpa using hlt
          obtain ⟨last, e1, e2⟩ := b4 hlt'
          refine ⟨last, ?_, e2⟩
          cases more with
          | nil => simp at e1
          | cons m ms => simpa [List.getLast?_cons_cons] using e1

theorem Balance_run_within (l : ImageLayout) (fuel : Nat) (hne : l.images ≠ [])
    (hlen : l.images.length = l.imageInfo.len)
    (hw : ∀ i ∈ l.images, (imbalanceOf l i 0 imbalance.zeroValue).Within
      l.parameters.others.Balancer_BalanceToleranceFactor) :
    ∃ passes, Balance_run l (fuel + 1) = BalanceResult.ok (l, passes) := by
  unfold Balance_run
  have hI : l.Images true = some l.images := by
    simp [ImageLayout.Images, hlen]
  simp only [hI]
  cases (2 * l.parameters.others.Balancer_MaxBalanceIterations).toNat with
  | zero => exact ⟨[], rfl⟩
  | succ left =>
    obtain ⟨imb', order', h⟩ := Balance_axis_within 0 fuel l
      (l.images.foldl (fun imb img => imb.set img imbalance.zeroValue) []) l.images 0 hne
      (fun _ hi => hi) (fun i hi => foldl_set_has _ _ _ i (Or.inl hi)) hw
    exact ⟨[] ++ [(0, 0)], by simp only [Balance_rounds, h, if_true]⟩

/-- C35: when `Balance` returns, the rounds it went through number at most
`2 · Balancer_MaxBalanceIterations`, round `k` (from 0) runs along the axis `k mod 2` (x first),
every round but the last made at least one move, and if fewer than the maximum were run the
last one made none; and if every image is within tolerance along the x axis (for a layout with
at least one image and one `imageInfo` entry per image) `Balance` returns the layout
unchanged, whatever the imbalances along y. -/
theorem Balance_pass_structure (l : ImageLayout) (fuel : Nat) :
    (∀ l' passes, Balance_run l fuel = BalanceResult.ok (l', passes) →
      passes.length ≤ (2 * l.parameters.others.Balancer_MaxBalanceIterations).toNat ∧
      (∀ k (hk : k < passes.length), (passes.get ⟨k, hk⟩).1 = (k : Int) % 2) ∧
      (∀ k (hk : k < passes.length), k + 1 < passes.length → (passes.get ⟨k, hk⟩).2 ≠ 0) ∧
      (passes.length < (2 * l.parameters.others.Balancer_MaxBalanceIterations).toNat →
        ∃ last, passes.getLast? = some last ∧ last.2 = 0)) ∧
    (l.images ≠ [] → l.images.length = l.imageInfo.len →
      (∀ i ∈ l.images, (imbalanceOf l i 0 imbalance.zeroValue).Within
        l.parameters.others.Balancer_BalanceToleranceFactor) →
      Balance l (fuel + 1) = some l) := by
  constructor
  · intro l' passes h
    unfold Balance_run at h
    simp only at h
    split at h
    · exact absurd h (by simp)
    · obtain ⟨more, e, b1, b2, b3, b4⟩ := Balance_rounds_passes _ _ _ _ _ _ _ _ (Or.inl rfl) h
      simp only [List.nil_append] at e
      subst e
      refine ⟨b1, ?_, b3, b4⟩
      intro k hk
      rw [b2 k hk, zero_add]
  · intro hne hlen hw
    obtain ⟨passes, h⟩ := Balance_run_within l fuel hne hlen hw
    exact (Balance_eq_some l (fuel + 1) l).2 ⟨passes, h⟩

theorem Balance_pass_structure_witness :
    Balance offCentreScenario 1 = some offCentreScenario ∧
    Balance_run offCentreScenario 1 = BalanceResult.ok (offCentreScenario, [(0, 0)]) ∧
    ¬ (imbalanceOf offCentreScenario 0 1 imbalance.zeroValue).Within
      offCentreScenario.parameters.others.Balancer_BalanceToleranceFactor ∧
    [((0 : Int), (0 : Int))].length ≤
      (2 * offCentreScenario.parameters.others.Balancer_MaxBalanceIterations).toNat := by
  have h1 := (Balance_pass_structure offCentreScenario 0).2 (by decide) (by decide!)
    (by
      intro i hi
      have : i = 0 := by simpa [offCentreScenario, centeredScenario] using hi
      subst this
      unfold imbalance.Within
      decide!)
  have h2 : Balance_run offCentreScenario 1 = BalanceResult.ok (offCentreScenario, [(0, 0)]) := by
    decide!
  refine ⟨h1, h2, ?_, ((Balance_pass_structure offCentreScenario 1).1 _ _ h2).1⟩
  unfold imbalance.Within
  decide!

theorem F64.min_pinf_num (w : ℚ) : F64.min F64.pinf (F64.num w) = F64.num w := by
  simp [F64.min, F64.isNaN, F64.lt]

theorem SetCropping_SetScaling_step (l : ImageLayout) (img : ImageIdentifier) (info : ImageInfo)
    (c s : Geometry) (hinfo : List.lookup img l.imageInfo = some info) :
    ∃ l', (match l.SetCropping img c with
        | none => none
        | some r => (r.1.SetScaling img s).map Prod.fst) = some l' ∧
      l'.imageInfo = l.imageInfo ∧ l'.images = l.images ∧
      l'.DimensionsOf img = ScaleAndCrop info.dimensions c s ∧
      ∀ j, j ≠ img → l'.DimensionsOf j = l.DimensionsOf j := by
  simp only [ImageLayout.SetCropping, hinfo, ImageLayout.SetScaling, Option.map_some']
  refine ⟨_, rfl, rfl, rfl, ?_, ?_⟩
  · simp [ImageLayout.DimensionsOf, IdMap.get_set_self]
  · intro j hj
    simp [ImageLayout.DimensionsOf, IdMap.get_set_ne _ _ _ _ _ hj]

theorem InitializeDimensions_fold (c s : Geometry) (is : List ImageIdentifier)
    (l : ImageLayout) (hall : ∀ img ∈ is, ∃ info, List.lookup img l.imageInfo = some info) :
    ∃ l', is.foldl
        (fun acc img =>
          match acc with
          | none => none
          | some il =>
            match il.SetCropping img c with
            | none => none
            | some r => (r.1.SetScaling img s).map Prod.fst)
        (some l) = some l' ∧
      l'.imageInfo = l.imageInfo ∧ l'.images = l.images ∧
      (∀ img ∈ is, ∀ info, List.lookup img l.imageInfo = some info →
        l'.DimensionsOf img = ScaleAndCrop info.dimensions c s) ∧
      ∀ j, j ∉ is → l'.DimensionsOf j = l.DimensionsOf j := by
  induction is generalizing l with
  | nil => exact ⟨l, rfl, rfl, rfl, fun _ h => absurd h (by simp), fun _ _ => rfl⟩
  | cons x xs ih =>
    obtain ⟨info, hinfo⟩ := hall x (by simp)
    obtain ⟨l1, e1, a1, a2, a3, a4⟩ := SetCropping_SetScaling_step l x info c s hinfo
    obtain ⟨l', e2, b1, b2, b3, b4⟩ := ih l1
      (fun img hi => by rw [a1]; exact hall img (by simp [hi]))
    refine ⟨l', ?_, b1.trans a1, b2.trans a2, ?_, ?_⟩
    · rw [List.foldl_cons]
      simp only [e1]
      exact e2
    · intro img hi info' hinfo'
      by_cases hmem : img ∈ xs
      · exact b3 img hmem info' (by rw [a1]; exact hinfo')
      · rcases List.mem_cons.1 hi with rfl | h
        · rw [b4 _ hmem, a3]
          rw [hinfo] at hinfo'
          simp only [Option.some.injEq] at hinfo'
          rw [hinfo']
        · exact absurd h hmem
    · intro j hj
      simp only [List.mem_cons, not_or] at hj
      rw [b4 j hj.2, a4 j hj.1]

theorem InitializeDimensions_minima_x (l : ImageLayout) (is : List ImageIdentifier)
    (a : F64) (ha : a = F64.pinf ∨ ∃ q, a = F64.num q)
    (hall : ∀ img ∈ is, ∃ info w h, l.ImageInfoOf img = some info ∧
      info.dimensions = ⟨F64.num w, F64.num h⟩ ∧ 0 < w ∧ 0 < h) :
    ∃ a', is.foldl
        (fun acc img =>
          match acc with
          | none => none
          | some (minWidth, minHeight) =>
            if (true || false) = true then
              match l.ImageInfoOf img with
              | none => none
              | some info =>
                some
                  (if true = true then F64.min minWidth info.dimensions.x else minWidth,
                   if false = true then F64.min minHeight info.dimensions.y else minHeight)
            else some (minWidth, minHeight))
        (some (a, F64.pinf)) = some (a', F64.pinf) ∧
      ((a' = F64.pinf ∧ is = []) ∨
        ∃ m, a' = F64.num m ∧
          (∀ img ∈ is, ∀ info w h, l.ImageInfoOf img = some info →
            info.dimensions = ⟨F64.num w, F64.num h⟩ → m ≤ w) ∧
          ((∃ q, a = F64.num q ∧ m ≤ q) ∨ a = F64.pinf) ∧
          ((a = F64.num m) ∨ ∃ img ∈ is, ∃ info h, l.ImageInfoOf img = some info ∧
            info.dimensions = ⟨F64.num m, F64.num h⟩)) := by
  induction is generalizing a with
  | nil =>
    refine ⟨a, rfl, ?_⟩
    rcases ha with rfl | ⟨q, rfl⟩
    · exact Or.inl ⟨rfl, rfl⟩
    · exact Or.inr ⟨q, rfl, fun _ h => absurd h (by simp), Or.inl ⟨q, rfl, le_refl _⟩, Or.inl rfl⟩
  | cons x xs ih =>
    obtain ⟨info, w, h, hinfo, hdims, hw, hh⟩ := hall x (by simp)
    have hx : info.dimensions.x = F64.num w := by rw [hdims]
    have hstep : ∃ q, F64.min a info.dimensions.x = F64.num q ∧ q ≤ w ∧
        ((a = F64.pinf ∧ q = w) ∨ ∃ q0, a = F64.num q0 ∧ q = min q0 w) := by
      rcases ha with rfl | ⟨q0, rfl⟩
      · exact ⟨w, by rw [hx, F64.min_pinf_num], le_refl _, Or.inl ⟨rfl, rfl⟩⟩
      · exact ⟨min q0 w, by rw [hx, F64.min_num], min_le_right _ _, Or.inr ⟨q0, rfl, rfl⟩⟩
    obtain ⟨q, hq, hqw, hqa⟩ := hstep
    obtain ⟨a', e, hres⟩ := ih (F64.num q) (Or.inr ⟨q, rfl⟩)
      (fun img hi => hall img (by simp [hi]))
    refine ⟨a', ?_, ?_⟩
    · rw [List.foldl_cons]
      simp only [Bool.or_false, if_true, hinfo, hq]
      simpa using e
    · rcases hres with ⟨rfl, -⟩ | ⟨m, rfl, h1, h2, h3⟩
      · exact absurd e (by
          intro e
          have := ih (F64.num q) (Or.inr ⟨q, rfl⟩) (fun img hi => hall img (by simp [hi]))
          obtain ⟨a'', e', hres'⟩ := this
          rw [e] at e'
          simp only [Option.some.injEq, Prod.mk.injEq, and_true] at e'
          subst e'
          rcases hres' with ⟨-, hnil⟩ | ⟨m, hm, -⟩
          · subst hnil
            simp at e
          · simp at hm)
      · have hmq : m ≤ q := by
          rcases h2 with ⟨q', hq', hle⟩ | hp
          · simp only [F64.num.injEq] at hq'
            subst hq'
            exact hle
          · simp at hp
        refine Or.inr ⟨m, rfl, ?_, ?_, ?_⟩
        · intro img hi info' w' h' hinfo' hdims'
          rcases List.mem_cons.1 hi with rfl | hi
          · rw [hinfo] at hinfo'
            simp only [Option.some.injEq] at hinfo'
            subst hinfo'
            rw [hdims] at hdims'
            simp only [Dims.mk.injEq, F64.num.injEq] at hdims'
            rw [← hdims'.1]
            exact le_trans hmq hqw
          · exact h1 img hi info' w' h' hinfo' hdims'
        · rcases hqa with ⟨rfl, -⟩ | ⟨q0, rfl, rfl⟩
          · exact Or.inr rfl
          · exact Or.inl ⟨q0, rfl, le_trans hmq (min_le_left _ _)⟩
        · rcases h3 with h3 | ⟨img, hi, info', h', hinfo', hdims'⟩
          · simp only [F64.num.injEq] at h3
            subst h3
            rcases hqa with ⟨rfl, rfl⟩ | ⟨q0, rfl, rfl⟩
            · exact Or.inr ⟨x, by simp, info, h, hinfo, hdims⟩
            · rcases min_choice q0 w with hc | hc
              · left
                rw [hc]
              · right
                exact ⟨x, by simp, info, h, hinfo, by rw [hc, hdims]⟩
          · exact Or.inr ⟨img, by simp [hi], info', h', hinfo', hdims'⟩

theorem InitializeDimensions_minima_y (l : ImageLayout) (is : List ImageIdentifier)
    (a : F64) (ha : a = F64.pinf ∨ ∃ q, a = F64.num q)
    (hall : ∀ img ∈ is, ∃ info w h, l.ImageInfoOf img = some info ∧
      info.dimensions = ⟨F64.num w, F64.num h⟩ ∧ 0 < w ∧ 0 < h) :
    ∃ a', is.foldl
        (fun acc img =>
          match acc with
          | none => none
          | some (minWidth, minHeight) =>
            if (false || true) = true then
              match l.ImageInfoOf img with
              | none => none
              | some info =>
                some
                  (if false = true then F64.min minWidth info.dimensions.x else minWidth,
                   if true = true then F64.min minHeight info.dimensions.y else minHeight)
            else some (minWidth, minHeight))
        (some (F64.pinf, a)) = some (F64.pinf, a') ∧
      ((a' = F64.pinf ∧ is = []) ∨
        ∃ m, a' = F64.num m ∧
          (∀ img ∈ is, ∀ info w h, l.ImageInfoOf img = some info →
            info.dimensions = ⟨F64.num w, F64.num h⟩ → m ≤ h) ∧
          ((∃ q, a = F64.num q ∧ m ≤ q) ∨ a = F64.pinf) ∧
          ((a = F64.num m) ∨ ∃ img ∈ is, ∃ info w, l.ImageInfoOf img = some info ∧
            info.dimensions = ⟨F64.num w, F64.num m⟩)) := by
  induction is generalizing a with
  | nil =>
    refine ⟨a, rfl, ?_⟩
    rcases ha with rfl | ⟨q, rfl⟩
    · exact Or.inl ⟨rfl, rfl⟩
    · exact Or.inr ⟨q, rfl, fun _ h => absurd h (by simp), Or.inl ⟨q, rfl, le_refl _⟩, Or.inl rfl⟩
  | cons x xs ih =>
    obtain ⟨info, w, h, hinfo, hdims, hw, hh⟩ := hall x (by simp)
    have hx : info.dimensions.y = F64.num h := by rw [hdims]
    have hstep : ∃ q, F64.min a info.dimensions.y = F64.num q ∧ q ≤ h ∧
        ((a = F64.pinf ∧ q = h) ∨ ∃ q0, a = F64.num q0 ∧ q = min q0 h) := by
      rcases ha with rfl | ⟨q0, rfl⟩
      · exact ⟨h, by rw [hx, F64.min_pinf_num], le_refl _, Or.inl ⟨rfl, rfl⟩⟩
      · exact ⟨min q0 h, by rw [hx, F64.min_num], min_le_right _ _, Or.inr ⟨q0, rfl, rfl⟩⟩
    obtain ⟨q, hq, hqw, hqa⟩ := hstep
    obtain ⟨a', e, hres⟩ := ih (F64.num q) (Or.inr ⟨q, rfl⟩)
      (fun img hi => hall img (by simp [hi]))
    refine ⟨a', ?_, ?_⟩
    · rw [List.foldl_cons]
      simp only [Bool.false_or, if_true, hinfo, hq]
      simpa using e
    · rcases hres with ⟨rfl, -⟩ | ⟨m, rfl, h1, h2, h3⟩
      · exact absurd e (by
          intro e
          have := ih (F64.num q) (Or.inr ⟨q, rfl⟩) (fun img hi => hall img (by simp [hi]))
          obtain ⟨a'', e', hres'⟩ := this
          rw [e] at e'
          simp only [Option.some.injEq, Prod.mk.injEq, true_and] at e'
          subst e'
          rcases hres' with ⟨-, hnil⟩ | ⟨m, hm, -⟩
          · subst hnil
            simp at e
          · simp at hm)
      · have hmq : m ≤ q := by
          rcases h2 with ⟨q', hq', hle⟩ | hp
          · simp only [F64.num.injEq] at hq'
            subst hq'
            exact hle
          · simp at hp
        refine Or.inr ⟨m, rfl, ?_, ?_, ?_⟩
        · intro img hi info' w' h' hinfo' hdims'
          rcases List.mem_cons.1 hi with rfl | hi
          · rw [hinfo] at hinfo'
            simp only [Option.some.injEq] at hinfo'
            subst hinfo'
            rw [hdims] at hdims'
            simp only [Dims.mk.injEq, F64.num.injEq] at hdims'
            rw [← hdims'.2]
            exact le_trans hmq hqw
          · exact h1 img hi info' w' h' hinfo' hdims'
        · rcases hqa with ⟨rfl, -⟩ | ⟨q0, rfl, rfl⟩
          · exact Or.inr rfl
          · exact Or.inl ⟨q0, rfl, le_trans hmq (min_le_left _ _)⟩
        · rcases h3 with h3 | ⟨img, hi, info', h', hinfo', hdims'⟩
          · simp only [F64.num.injEq] at h3
            subst h3
            rcases hqa with ⟨rfl, rfl⟩ | ⟨q0, rfl, rfl⟩
            · exact Or.inr ⟨x, by simp, info, w, hinfo, hdims⟩
            · rcases min_choice q0 h with hc | hc
              · left
                rw [hc]
              · right
                exact ⟨x, by simp, info, w, hinfo, by rw [hc, hdims]⟩
          · exact Or.inr ⟨img, by simp [hi], info', h', hinfo', hdims'⟩

theorem ScaleAndCrop_width_only (m w h : ℚ) (hw : 0 < w) (hh : 0 < h) :
    ScaleAndCrop ⟨F64.num w, F64.num h⟩ EmptyGeometry
      { EmptyGeometry with width := ⟨F64.num m, Pixels⟩ } = ⟨F64.num m, F64.num (m / (w / h))⟩ := by
  have h1 : w / h ≠ 0 := div_ne_zero (ne_of_gt hw) (ne_of_gt hh)
  simp [ScaleAndCrop, Geometry.Crop, Geometry.Scale, Geometry.scaleUnits, EmptyGeometry,
    Geometry.HasWidth, Geometry.HasHeight, Geometry.HasOffset, Geometry.HasX, Geometry.HasY,
    F64.isNaN, Geometry.PreserveAspectRatio, NewDims, Dims.X, Dims.Y, F64.div, ne_of_gt hh, h1]

theorem ScaleAndCrop_height_only (m w h : ℚ) (hh : 0 < h) :
    ScaleAndCrop ⟨F64.num w, F64.num h⟩ EmptyGeometry
      { EmptyGeometry with height := ⟨F64.num m, Pixels⟩ } = ⟨F64.num (w / h * m), F64.num m⟩ := by
  simp [ScaleAndCrop, Geometry.Crop, Geometry.Scale, Geometry.scaleUnits, EmptyGeometry,
    Geometry.HasWidth, Geometry.HasHeight, Geometry.HasOffset, Geometry.HasX, Geometry.HasY,
    F64.isNaN, Geometry.PreserveAspectRatio, NewDims, Dims.X, Dims.Y, F64.div, F64.mul,
    ne_of_gt hh]

theorem InitializeDimensions_x_only (l : ImageLayout)
    (hc : l.parameters.others.Uniform_Cropping = EmptyGeometry)
    (hs : l.parameters.others.Uniform_Scaling = EmptyGeometry)
    (hpos : l.PositiveInfo)
    (hx : l.parameters.others.Uniform_ScaleToMin = some ⟨true, false⟩) :
    ∃ l', InitializeDimensions l = some l' ∧
      (l.images = [] ∨ ∃ m,
        (∃ img ∈ l.images, ∃ info h, l.ImageInfoOf img = some info ∧
          info.dimensions = ⟨F64.num m, F64.num h⟩) ∧
        ∀ img ∈ l.images, ∀ info w h, l.ImageInfoOf img = some info →
          info.dimensions = ⟨F64.num w, F64.num h⟩ →
          m ≤ w ∧ ∃ y, l'.DimensionsOf img = ⟨F64.num m, F64.num y⟩ ∧ 0 < y ∧ m / y = w / h) := by
  have hinfos : ∀ img ∈ l.images, ∃ info, List.lookup img l.imageInfo = some info := by
    intro img hi
    obtain ⟨info, w, h, e, -⟩ := hpos img hi
    exact ⟨info, e⟩
  obtain ⟨a', e, hres⟩ := InitializeDimensions_minima_x l l.images F64.pinf (Or.inl rfl) hpos
  have emin : InitializeDimensions_minima l ⟨true, false⟩ = some (a', F64.pinf) := e
  rcases hres with ⟨rfl, hnil⟩ | ⟨m, rfl, h1, -, h3⟩
  · refine ⟨l, ?_, Or.inl hnil⟩
    simp [InitializeDimensions, InitializeDimensions_scaling, hx, emin, F64.lt, hnil]
  · have hm : ∃ img ∈ l.images, ∃ info h, l.ImageInfoOf img = some info ∧
        info.dimensions = ⟨F64.num m, F64.num h⟩ := by
      rcases h3 with h3 | h3
      · simp at h3
      · exact h3
    have hmpos : 0 < m := by
      obtain ⟨img, hi, info, h, e1, e2⟩ := hm
      obtain ⟨info', w', h', e1', e2', hw', -⟩ := hpos img hi
      rw [e1] at e1'
      simp only [Option.some.injEq] at e1'
      subst e1'
      rw [e2] at e2'
      simp only [Dims.mk.injEq, F64.num.injEq] at e2'
      rw [e2'.1]
      exact hw'
    obtain ⟨l', e2, -, -, b3, -⟩ := InitializeDimensions_fold EmptyGeometry
      { EmptyGeometry with width := ⟨F64.num m, Pixels⟩ } l.images l hinfos
    refine ⟨l', ?_, Or.inr ⟨m, hm, ?_⟩⟩
    · simp only [InitializeDimensions, InitializeDimensions_scaling, hx, emin, hc, hs, F64.lt,
        if_true, Bool.false_eq_true, if_false]
      exact e2
    · intro img hi info w h hinfo hdims
      obtain ⟨info', w', h', e1', e2', hw', hh'⟩ := hpos img hi
      rw [hinfo] at e1'
      simp only [Option.some.injEq] at e1'
      subst e1'
      rw [hdims] at e2'
      simp only [Dims.mk.injEq, F64.num.injEq] at e2'
      obtain ⟨rfl, rfl⟩ := e2'
      refine ⟨h1 img hi info w h hinfo hdims, m / (w / h), ?_, by positivity, ?_⟩
      · rw [b3 img hi info hinfo, hdims, ScaleAndCrop_width_only m w h hw' hh']
      · field_simp
        ring

theorem InitializeDimensions_y_only (l : ImageLayout)
    (hc : l.parameters.others.Uniform_Cropping = EmptyGeometry)
    (hs : l.parameters.others.Uniform_Scaling = EmptyGeometry)
    (hpos : l.PositiveInfo)
    (hy : l.parameters.others.Uniform_ScaleToMin = some ⟨false, true⟩) :
    ∃ l', InitializeDimensions l = some l' ∧
      (l.images = [] ∨ ∃ m,
        (∃ img ∈ l.images, ∃ info w, l.ImageInfoOf img = some info ∧
          info.dimensions = ⟨F64.num w, F64.num m⟩) ∧
        ∀ img ∈ l.images, ∀ info w h, l.ImageInfoOf img = some info →
          info.dimensions = ⟨F64.num w, F64.num h⟩ →
          m ≤ h ∧ ∃ x, l'.DimensionsOf img = ⟨F64.num x, F64.num m⟩ ∧ 0 < x ∧ x / m = w / h) := by
  have hinfos : ∀ img ∈ l.images, ∃ info, List.lookup img l.imageInfo = some info := by
    intro img hi
    obtain ⟨info, w, h, e, -⟩ := hpos img hi
    exact ⟨info, e⟩
  obtain ⟨a', e, hres⟩ := InitializeDimensions_minima_y l l.images F64.pinf (Or.inl rfl) hpos
  have emin : InitializeDimensions_minima l ⟨false, true⟩ = some (F64.pinf, a') := e
  rcases hres with ⟨rfl, hnil⟩ | ⟨m, rfl, h1, -, h3⟩
  · refine ⟨l, ?_, Or.inl hnil⟩
    simp [InitializeDimensions, InitializeDimensions_scaling, hy, emin, F64.lt, hnil]
  · have hm : ∃ img ∈ l.images, ∃ info w, l.ImageInfoOf img = some info ∧
        info.dimensions = ⟨F64.num w, F64.num m⟩ := by
      rcases h3 with h3 | h3
      · simp at h3
      · exact h3
    have hmpos : 0 < m := by
      obtain ⟨img, hi, info, w, e1, e2⟩ := hm
      obtain ⟨info', w', h', e1', e2', -, hh'⟩ := hpos img hi
      rw [e1] at e1'
      simp only [Option.some.injEq] at e1'
      subst e1'
      rw [e2] at e2'
      simp only [Dims.mk.injEq, F64.num.injEq] at e2'
      rw [e2'.2]
      exact hh'
    obtain ⟨l', e2, -, -, b3, -⟩ := InitializeDimensions_fold EmptyGeometry
      { EmptyGeometry with height := ⟨F64.num m, Pixels⟩ } l.images l hinfos
    refine ⟨l', ?_, Or.inr ⟨m, hm, ?_⟩⟩
    · simp only [InitializeDimensions, InitializeDimensions_scaling, hy, emin, hc, hs, F64.lt,
        if_true, Bool.false_eq_true, if_false]
      exact e2
    · intro img hi info w h hinfo hdims
      obtain ⟨info', w', h', e1', e2', hw', hh'⟩ := hpos img hi
      rw [hinfo] at e1'
      simp only [Option.some.injEq] at e1'
      subst e1'
      rw [hdims] at e2'
      simp only [Dims.mk.injEq, F64.num.injEq] at e2'
      obtain ⟨rfl, rfl⟩ := e2'
      refine ⟨h1 img hi info w h hinfo hdims, w / h * m, ?_, by positivity, ?_⟩
      · rw [b3 img hi info hinfo, hdims, ScaleAndCrop_height_only m w h hh']
      · field_simp
        ring

/-- C31: with empty uniform cropping and scaling and metadata of finite positive dimensions
for every image, `InitializeDimensions` returns, and when `Uniform_ScaleToMin` selects only x
every image gets the same on-canvas width `m`, the smallest intrinsic width among the images,
and a height `y` with `m / y` equal to its intrinsic aspect ratio `w / h`; when it selects
only y, every image gets the same height `m`, the smallest intrinsic height, and a width `x`
with `x / m = w / h`. -/
theorem InitializeDimensions_scale_to_min (l : ImageLayout)
    (hc : l.parameters.others.Uniform_Cropping = EmptyGeometry)
    (hs : l.parameters.others.Uniform_Scaling = EmptyGeometry)
    (hpos : l.PositiveInfo) :
    (l.parameters.others.Uniform_ScaleToMin = some ⟨true, false⟩ →
      ∃ l', InitializeDimensions l = some l' ∧
        (l.images = [] ∨ ∃ m,
          (∃ img ∈ l.images, ∃ info h, l.ImageInfoOf img = some info ∧
            info.dimensions = ⟨F64.num m, F64.num h⟩) ∧
          ∀ img ∈ l.images, ∀ info w h, l.ImageInfoOf img = some info →
            info.dimensions = ⟨F64.num w, F64.num h⟩ →
            m ≤ w ∧
              ∃ y, l'.DimensionsOf img = ⟨F64.num m, F64.num y⟩ ∧ 0 < y ∧ m / y = w / h)) ∧
    (l.parameters.others.Uniform_ScaleToMin = some ⟨false, true⟩ →
      ∃ l', InitializeDimensions l = some l' ∧
        (l.images = [] ∨ ∃ m,
          (∃ img ∈ l.images, ∃ info w, l.ImageInfoOf img = some info ∧
            info.dimensions = ⟨F64.num w, F64.num m⟩) ∧
          ∀ img ∈ l.images, ∀ info w h, l.ImageInfoOf img = some info →
            info.dimensions = ⟨F64.num w, F64.num h⟩ →
            m ≤ h ∧
              ∃ x, l'.DimensionsOf img = ⟨F64.num x, F64.num m⟩ ∧ 0 < x ∧ x / m = w / h)) :=
  ⟨InitializeDimensions_x_only l hc hs hpos, InitializeDimensions_y_only l hc hs hpos⟩

theorem uniformScenario_positive (p : DimensionInitializer_Uniform_ScaleToMinParameter) :
    (uniformScenario p).PositiveInfo := by
  intro img hi
  have : img = 0 ∨ img = 1 := by simpa [uniformScenario, sampleLayout] using hi
  rcases this with rfl | rfl
  · exact ⟨sampleInfo0, 100, 50, rfl, rfl, by norm_num, by norm_num⟩
  · exact ⟨sampleInfo1, 40, 40, rfl, rfl, by norm_num, by norm_num⟩

theorem InitializeDimensions_scale_to_min_witness :
    (InitializeDimensions (uniformScenario ⟨true, false⟩)).map (fun l => l.dimensions) =
      some [(0, ⟨F64.num 40, F64.num 20⟩), (1, ⟨F64.num 40, F64.num 40⟩)] ∧
    ∃ l', InitializeDimensions (uniformScenario ⟨true, false⟩) = some l' ∧
      ((uniformScenario ⟨true, false⟩).images = [] ∨ ∃ m : ℚ,
        ∀ img ∈ (uniformScenario ⟨true, false⟩).images, ∃ y,
          l'.DimensionsOf img = ⟨F64.num m, F64.num y⟩) := by
  refine ⟨by decide!, ?_⟩
  obtain ⟨l', e, h⟩ := (InitializeDimensions_scale_to_min (uniformScenario ⟨true, false⟩) rfl rfl
    (uniformScenario_positive _)).1 rfl
  refine ⟨l', e, ?_⟩
  rcases h with h | ⟨m, -, h⟩
  · exact Or.inl h
  · refine Or.inr ⟨m, fun img hi => ?_⟩
    obtain ⟨info, w, hh, e1, e2, -, -⟩ := uniformScenario_positive ⟨true, false⟩ img hi
    obtain ⟨-, y, hy, -⟩ := h img hi info w hh e1 e2
    exact ⟨y, hy⟩

/-! ## Tiling in order: comparators, fringe, search and scenarios -/

theorem F64_feq_eq (a b : F64) (h : F64.feq a b = true) : a = b := by
  cases a <;> cases b <;> simp_all [F64.feq]

theorem F64_lt_irrefl (a : F64) : F64.lt a a = false := by
  cases a <;> simp [F64.lt]

theorem F64_lt_trans (a b c : F64) (h1 : F64.lt a b = true) (h2 : F64.lt b c = true) :
    F64.lt a c = true := by
  cases a <;> cases b <;> cases c <;> simp_all [F64.lt]
  exact lt_trans h1 h2

theorem F64_lt_asymm (a b : F64) (h1 : F64.lt a b = true) : F64.lt b a = false := by
  cases h : F64.lt b a
  · rfl
  · have := F64_lt_trans a b a h1 h
    rw [F64_lt_irrefl] at this
    exact absurd this (by simp)

theorem F64_fne_eq (a b : F64) (h : F64.fne a b = false) : a = b := by
  apply F64_feq_eq
  simpa [F64.fne] using h

theorem F64_fne_of_lt (a b : F64) (h : F64.lt a b = true) : F64.fne a b = true := by
  cases hn : F64.fne a b
  · have := F64_fne_eq a b hn
    subst this
    rw [F64_lt_irrefl] at h
    exact absurd h (by simp)
  · rfl

theorem Log2_fne_eq (a b : Log2) (h : Log2.fne a b = false) : a = b := by
  cases a
  cases b
  simp only [Log2.fne] at h
  simp [F64_fne_eq _ _ h]

theorem Log2_fne_of_abs_lt (a b : Log2) (h : Log2.lt a.abs b.abs = true) :
    Log2.fne a b = true := by
  cases hn : Log2.fne a b
  · have := Log2_fne_eq a b hn
    subst this
    simp only [Log2.lt] at h
    rw [F64_lt_irrefl] at h
    exact absurd h (by simp)
  · rfl

/-- Transitivity of a comparison that orders by a first key and, the first keys being equal,
by the rest. -/
theorem lex_step_trans {α β : Type} (ne lt : α → α → Bool) (rest : β → β → Bool)
    (heq : ∀ a b, ne a b = false → a = b)
    (hne : ∀ a b, lt a b = true → ne a b = true)
    (htr : ∀ a b c, lt a b = true → lt b c = true → lt a c = true)
    (hrest : ∀ x y z, rest x y = true → rest y z = true → rest x z = true)
    (a b c : α) (x y z : β)
    (h1 : (if ne a b = true then lt a b else rest x y) = true)
    (h2 : (if ne b c = true then lt b c else rest y z) = true) :
    (if ne a c = true then lt a c else rest x z) = true := by
  by_cases hab : ne a b = true
  · rw [if_pos hab] at h1
    by_cases hbc : ne b c = true
    · rw [if_pos hbc] at h2
      have h := htr a b c h1 h2
      rw [if_pos (hne a c h)]
      exact h
    · have e := heq b c (by simpa using hbc)
      subst e
      rw [if_pos hab]
      exact h1
  · have e := heq a b (by simpa using hab)
    subst e
    rw [if_neg hab] at h1
    by_cases hbc : ne a c = true
    · rw [if_pos hbc] at h2 ⊢
      exact h2
    · rw [if_neg hbc] at h2 ⊢
      exact hrest x y z h1 h2

/-- Asymmetry of a comparison that orders by a first key and then by the rest. -/
theorem lex_step_asymm {α β : Type} (ne lt : α → α → Bool) (rest : β → β → Bool)
    (hsymm : ∀ a b, ne a b = ne b a)
    (has : ∀ a b, lt a b = true → lt b a = false)
    (hrest : ∀ x y, rest x y = true → rest y x = false)
    (a b : α) (x y : β)
    (h1 : (if ne a b = true then lt a b else rest x y) = true) :
    (if ne b a = true then lt b a else rest y x) = false := by
  rw [hsymm b a]
  by_cases hab : ne a b = true
  · rw [if_pos hab] at h1 ⊢
    exact has a b h1
  · rw [if_neg hab] at h1 ⊢
    exact hrest x y h1

theorem F64_fne_symm (a b : F64) : F64.fne a b = F64.fne b a := by
  cases a <;> cases b <;> simp [F64.fne, F64.feq, eq_comm]

theorem Log2_fne_symm (a b : Log2) : Log2.fne a b = Log2.fne b a := F64_fne_symm _ _

theorem badnessLT_irrefl (bci : badnessComparator_LT_impl) (a : tileInOrder_Badness) :
    bci.badnessLT a a = false := by
  unfold badnessComparator_LT_impl.badnessLT
  simp only [Log2.lt, F64_lt_irrefl, ite_self]

theorem badnessLT_asymm (bci : badnessComparator_LT_impl) (a b : tileInOrder_Badness)
    (h : bci.badnessLT a b = true) : bci.badnessLT b a = false := by
  unfold badnessComparator_LT_impl.badnessLT at h ⊢
  by_cases hp : bci.prioritizeAspectRatio = true
  · rw [if_pos hp] at h ⊢
    exact lex_step_asymm Log2.fne (fun s t => Log2.lt s.abs t.abs)
      (fun x y : tileInOrder_Badness =>
        if F64.fne x.emptySpace y.emptySpace = true then F64.lt x.emptySpace y.emptySpace
        else F64.lt x.scaledownSum y.scaledownSum)
      Log2_fne_symm (fun s t hst => F64_lt_asymm _ _ hst)
      (fun x y hxy => lex_step_asymm F64.fne F64.lt
        (fun x y : tileInOrder_Badness => F64.lt x.scaledownSum y.scaledownSum)
        F64_fne_symm F64_lt_asymm (fun x y hxy => F64_lt_asymm _ _ hxy) _ _ x y hxy)
      _ _ a b h
  · rw [if_neg hp] at h ⊢
    exact lex_step_asymm F64.fne F64.lt
      (fun x y : tileInOrder_Badness =>
        if Log2.fne x.aspectRatioSkew y.aspectRatioSkew = true then
          Log2.lt x.aspectRatioSkew.abs y.aspectRatioSkew.abs
        else F64.lt x.scaledownSum y.scaledownSum)
      F64_fne_symm F64_lt_asymm
      (fun x y hxy => lex_step_asymm Log2.fne (fun s t => Log2.lt s.abs t.abs)
        (fun x y : tileInOrder_Badness => F64.lt x.scaledownSum y.scaledownSum)
        Log2_fne_symm (fun s t hst => F64_lt_asymm _ _ hst)
        (fun x y hxy => F64_lt_asymm _ _ hxy) _ _ x y hxy)
      _ _ a b h

theorem badnessLT_trans (bci : badnessComparator_LT_impl) (a b c : tileInOrder_Badness)
    (h1 : bci.badnessLT a b = true) (h2 : bci.badnessLT b c = true) :
    bci.badnessLT a c = true := by
  unfold badnessComparator_LT_impl.badnessLT at h1 h2 ⊢
  by_cases hp : bci.prioritizeAspectRatio = true
  · rw [if_pos hp] at h1 h2 ⊢
    exact lex_step_trans Log2.fne (fun s t => Log2.lt s.abs t.abs)
      (fun x y : tileInOrder_Badness =>
        if F64.fne x.emptySpace y.emptySpace = true then F64.lt x.emptySpace y.emptySpace
        else F64.lt x.scaledownSum y.scaledownSum)
      Log2_fne_eq Log2_fne_of_abs_lt (fun s t u hst htu => F64_lt_trans _ _ _ hst htu)
      (fun x y z hxy hyz => lex_step_trans F64.fne F64.lt
        (fun x y : tileInOrder_Badness => F64.lt x.scaledownSum y.scaledownSum)
        F64_fne_eq F64_fne_of_lt F64_lt_trans
        (fun x y z hxy hyz => F64_lt_trans _ _ _ hxy hyz) _ _ _ x y z hxy hyz)
      _ _ _ a b c h1 h2
  · rw [if_neg hp] at h1 h2 ⊢
    exact lex_step_trans F64.fne F64.lt
      (fun x y : tileInOrder_Badness =>
        if Log2.fne x.aspectRatioSkew y.aspectRatioSkew = true then
          Log2.lt x.aspectRatioSkew.abs y.aspectRatioSkew.abs
        else F64.lt x.scaledownSum y.scaledownSum)
      F64_fne_eq F64_fne_of_lt F64_lt_trans
      (fun x y z hxy hyz => lex_step_trans Log2.fne (fun s t => Log2.lt s.abs t.abs)
        (fun x y : tileInOrder_Badness => F64.lt x.scaledownSum y.scaledownSum)
        Log2_fne_eq Log2_fne_of_abs_lt (fun s t u hst htu => F64_lt_trans _ _ _ hst htu)
        (fun x y z hxy hyz => F64_lt_trans _ _ _ hxy hyz) _ _ _ x y z hxy hyz)
      _ _ _ a b c h1 h2

theorem fringeEntryLT_irrefl (fComp : fringeEntryComparator_LT_impl) (f : fringeEntry) :
    fComp.fringeEntryLT f f = false := by
  simp [fringeEntryComparator_LT_impl.fringeEntryLT, badnessLT_irrefl, F64_lt_irrefl]

theorem fringeEntryLT_asymm (fComp : fringeEntryComparator_LT_impl) (f g : fringeEntry)
    (h : fComp.fringeEntryLT f g = true) : fComp.fringeEntryLT g f = false := by
  unfold fringeEntryComparator_LT_impl.fringeEntryLT at h ⊢
  by_cases h1 : fComp.bComp.badnessLT f.badness g.badness = true
  · have h2 := badnessLT_asymm _ _ _ h1
    simp [h1, h2]
  · by_cases h2 : fComp.bComp.badnessLT g.badness f.badness = true
    · simp [h1, h2] at h
    · simp only [h1, h2, if_false] at h ⊢
      simp only [Bool.false_eq_true, if_false]
      exact F64_lt_asymm _ _ h

theorem badnessLT_regular (bci : badnessComparator_LT_impl) (b1 b2 : tileInOrder_Badness)
    (e1 s1 p1 e2 s2 p2 : ℚ) (h1 : b1 = ⟨F64.num e1, F64.num s1, ⟨F64.num p1⟩⟩)
    (h2 : b2 = ⟨F64.num e2, F64.num s2, ⟨F64.num p2⟩⟩) (hp1 : 1 ≤ p1) (hp2 : 1 ≤ p2) :
    bci.badnessLT b1 b2 = true ↔
      if bci.prioritizeAspectRatioF = true then
        p1 < p2 ∨ (p1 = p2 ∧ (e1 < e2 ∨ (e1 = e2 ∧ s1 < s2)))
      else e1 < e2 ∨ (e1 = e2 ∧ (p1 < p2 ∨ (p1 = p2 ∧ s1 < s2))) := by
  subst h1 h2
  have a1 : ¬ p1 ≤ 0 := by linarith
  have a2 : ¬ p2 ≤ 0 := by linarith
  have a3 : ¬ p1 < 1 := by linarith
  have a4 : ¬ p2 < 1 := by linarith
  simp only [badnessComparator_LT_impl.badnessLT, badnessComparator_LT_impl.prioritizeAspectRatio,
    Log2.fne, Log2.lt, Log2.abs, F64.fne, F64.feq, F64.lt, a1, a2, a3, a4, if_false]
  by_cases hp : bci.prioritizeAspectRatioF = true
  · simp only [hp, if_true]
    by_cases hpp : p1 = p2
    · by_cases hee : e1 = e2
      · simp [hpp, hee]
      · simp [hpp, hee]
    · simp [hpp]
  · simp only [hp, if_false]
    by_cases hee : e1 = e2
    · by_cases hpp : p1 = p2
      · simp [hpp, hee]
      · simp [hpp, hee]
    · simp [hee]

theorem fringeEntryLT_regular (fComp : fringeEntryComparator_LT_impl) (f g : fringeEntry)
    (d1 e1 s1 p1 d2 e2 s2 p2 : ℚ)
    (hd1 : f.delta = F64.num d1) (hb1 : f.badness = ⟨F64.num e1, F64.num s1, ⟨F64.num p1⟩⟩)
    (hd2 : g.delta = F64.num d2) (hb2 : g.badness = ⟨F64.num e2, F64.num s2, ⟨F64.num p2⟩⟩)
    (hp1 : 1 ≤ p1) (hp2 : 1 ≤ p2) :
    fComp.fringeEntryLT f g = true ↔
      if fComp.bComp.prioritizeAspectRatioF = true then
        p1 < p2 ∨ (p1 = p2 ∧ (e1 < e2 ∨ (e1 = e2 ∧ (s1 < s2 ∨ (s1 = s2 ∧ d1 < d2)))))
      else e1 < e2 ∨ (e1 = e2 ∧ (p1 < p2 ∨ (p1 = p2 ∧ (s1 < s2 ∨ (s1 = s2 ∧ d1 < d2))))) := by
  have k1 := badnessLT_regular fComp.bComp f.badness g.badness e1 s1 p1 e2 s2 p2 hb1 hb2 hp1 hp2
  have k2 := badnessLT_regular fComp.bComp g.badness f.badness e2 s2 p2 e1 s1 p1 hb2 hb1 hp2 hp1
  unfold fringeEntryComparator_LT_impl.fringeEntryLT
  rw [hd1, hd2]
  by_cases hp : fComp.bComp.prioritizeAspectRatioF = true
  · simp only [hp, if_true] at k1 k2 ⊢
    by_cases c1 : fComp.bComp.badnessLT f.badness g.badness = true
    · simp only [c1, if_true, true_iff]
      rcases k1.mp c1 with h | ⟨h, h' | ⟨h', h''⟩⟩
      · exact Or.inl h
      · exact Or.inr ⟨h, Or.inl h'⟩
      · exact Or.inr ⟨h, Or.inr ⟨h', Or.inl h''⟩⟩
    · by_cases c2 : fComp.bComp.badnessLT g.badness f.badness = true
      · simp only [c1, c2, if_true, if_false, Bool.false_eq_true, false_iff]
        have n2 := k2.mp c2
        intro n1
        rcases n1 with h | ⟨h, h' | ⟨h', h'' | ⟨h'', _⟩⟩⟩ <;>
          rcases n2 with g | ⟨g, g' | ⟨g', g''⟩⟩ <;> linarith
      · simp only [c1, c2, if_false, Bool.false_eq_true, F64.lt, decide_eq_true_eq]
        have n1 := fun h => c1 (k1.mpr h)
        have n2 := fun h => c2 (k2.mpr h)
        have hpe : p1 = p2 := by
          rcases lt_trichotomy p1 p2 with h | h | h
          · exact absurd (Or.inl h) n1
          · exact h
          · exact absurd (Or.inl h) n2
        have hee : e1 = e2 := by
          rcases lt_trichotomy e1 e2 with h | h | h
          · exact absurd (Or.inr ⟨hpe, Or.inl h⟩) n1
          · exact h
          · exact absurd (Or.inr ⟨hpe.symm, Or.inl h⟩) n2
        have hss : s1 = s2 := by
          rcases lt_trichotomy s1 s2 with h | h | h
          · exact absurd (Or.inr ⟨hpe, Or.inr ⟨hee, h⟩⟩) n1
          · exact h
          · exact absurd (Or.inr ⟨hpe.symm, Or.inr ⟨hee.symm, h⟩⟩) n2
        subst hpe hee hss
        simp
  · simp only [hp, if_false] at k1 k2 ⊢
    by_cases c1 : fComp.bComp.badnessLT f.badness g.badness = true
    · simp only [c1, if_true, true_iff]
      rcases k1.mp c1 with h | ⟨h, h' | ⟨h', h''⟩⟩
      · exact Or.inl h
      · exact Or.inr ⟨h, Or.inl h'⟩
      · exact Or.inr ⟨h, Or.inr ⟨h', Or.inl h''⟩⟩
    · by_cases c2 : fComp.bComp.badnessLT g.badness f.badness = true
      · simp only [c1, c2, if_true, if_false, Bool.false_eq_true, false_iff]
        have n2 := k2.mp c2
        intro n1
        rcases n1 with h | ⟨h, h' | ⟨h', h'' | ⟨h'', _⟩⟩⟩ <;>
          rcases n2 with g | ⟨g, g' | ⟨g', g''⟩⟩ <;> linarith
      · simp only [c1, c2, if_false, Bool.false_eq_true, F64.lt, decide_eq_true_eq]
        have n1 := fun h => c1 (k1.mpr h)
        have n2 := fun h => c2 (k2.mpr h)
        have hee : e1 = e2 := by
          rcases lt_trichotomy e1 e2 with h | h | h
          · exact absurd (Or.inl h) n1
          · exact h
          · exact absurd (Or.inl h) n2
        have hpe : p1 = p2 := by
          rcases lt_trichotomy p1 p2 with h | h | h
          · exact absurd (Or.inr ⟨hee, Or.inl h⟩) n1
          · exact h
          · exact absurd (Or.inr ⟨hee.symm, Or.inl h⟩) n2
        have hss : s1 = s2 := by
          rcases lt_trichotomy s1 s2 with h | h | h
          · exact absurd (Or.inr ⟨hee, Or.inr ⟨hpe, h⟩⟩) n1
          · exact h
          · exact absurd (Or.inr ⟨hee.symm, Or.inr ⟨hpe.symm, h⟩⟩) n2
        subst hpe hee hss
        simp

/-- The lexicographic order on four rational keys is transitive. -/
theorem lex4_trans (a1 a2 a3 a4 b1 b2 b3 b4 c1 c2 c3 c4 : ℚ)
    (h1 : a1 < b1 ∨ (a1 = b1 ∧ (a2 < b2 ∨ (a2 = b2 ∧ (a3 < b3 ∨ (a3 = b3 ∧ a4 < b4))))))
    (h2 : b1 < c1 ∨ (b1 = c1 ∧ (b2 < c2 ∨ (b2 = c2 ∧ (b3 < c3 ∨ (b3 = c3 ∧ b4 < c4)))))) :
    a1 < c1 ∨ (a1 = c1 ∧ (a2 < c2 ∨ (a2 = c2 ∧ (a3 < c3 ∨ (a3 = c3 ∧ a4 < c4))))) := by
  rcases h1 with h | ⟨rfl, h1⟩
  · rcases h2 with g | ⟨rfl, _⟩
    · exact Or.inl (lt_trans h g)
    · exact Or.inl h
  · rcases h2 with g | ⟨rfl, h2⟩
    · exact Or.inl g
    · refine Or.inr ⟨rfl, ?_⟩
      rcases h1 with h | ⟨rfl, h1⟩
      · rcases h2 with g | ⟨rfl, _⟩
        · exact Or.inl (lt_trans h g)
        · exact Or.inl h
      · rcases h2 with g | ⟨rfl, h2⟩
        · exact Or.inl g
        · refine Or.inr ⟨rfl, ?_⟩
          rcases h1 with h | ⟨rfl, h1⟩
          · rcases h2 with g | ⟨rfl, _⟩
            · exact Or.inl (lt_trans h g)
            · exact Or.inl h
          · rcases h2 with g | ⟨rfl, h2⟩
            · exact Or.inl g
            · exact Or.inr ⟨rfl, lt_trans h1 h2⟩

theorem fringeEntryLT_trans_regular (fComp : fringeEntryComparator_LT_impl) (f g h : fringeEntry)
    (hf : f.Regular) (hg : g.Regular) (hh : h.Regular)
    (h1 : fComp.fringeEntryLT f g = true) (h2 : fComp.fringeEntryLT g h = true) :
    fComp.fringeEntryLT f h = true := by
  obtain ⟨d1, e1, s1, p1, hd1, he1, hs1, hk1, hp1⟩ := hf
  obtain ⟨d2, e2, s2, p2, hd2, he2, hs2, hk2, hp2⟩ := hg
  obtain ⟨d3, e3, s3, p3, hd3, he3, hs3, hk3, hp3⟩ := hh
  have b1 : f.badness = ⟨F64.num e1, F64.num s1, ⟨F64.num p1⟩⟩ := by
    rw [← he1, ← hs1, ← hk1]
  have b2 : g.badness = ⟨F64.num e2, F64.num s2, ⟨F64.num p2⟩⟩ := by
    rw [← he2, ← hs2, ← hk2]
  have b3 : h.badness = ⟨F64.num e3, F64.num s3, ⟨F64.num p3⟩⟩ := by
    rw [← he3, ← hs3, ← hk3]
  rw [fringeEntryLT_regular fComp f g d1 e1 s1 p1 d2 e2 s2 p2 hd1 b1 hd2 b2 hp1 hp2] at h1
  rw [fringeEntryLT_regular fComp g h d2 e2 s2 p2 d3 e3 s3 p3 hd2 b2 hd3 b3 hp2 hp3] at h2
  rw [fringeEntryLT_regular fComp f h d1 e1 s1 p1 d3 e3 s3 p3 hd1 b1 hd3 b3 hp1 hp3]
  by_cases hp : fComp.bComp.prioritizeAspectRatioF = true
  · simp only [hp, if_true] at h1 h2 ⊢
    exact lex4_trans _ _ _ _ _ _ _ _ _ _ _ _ h1 h2
  · simp only [hp, if_false] at h1 h2 ⊢
    exact lex4_trans _ _ _ _ _ _ _ _ _ _ _ _ h1 h2

theorem fringeEntry_eq_eq (f g : fringeEntry) (h : f.eq g = true) : f = g := by
  obtain ⟨d1, e1, ⟨a1, b1, c1⟩⟩ := f
  obtain ⟨d2, e2, ⟨a2, b2, c2⟩⟩ := g
  simp only [fringeEntry.eq, tileInOrder_Badness.eq, Bool.and_eq_true, Bool.not_eq_true',
    ] at h
  obtain ⟨⟨h1, h2⟩, ⟨h3, h4⟩, h5⟩ := h
  rw [F64_feq_eq _ _ h1, F64_feq_eq _ _ h2, F64_feq_eq _ _ h3, F64_feq_eq _ _ h4,
    Log2_fne_eq _ _ h5]

/-- The binary search of `findFirstGreaterThan` on the `n` entries in use: it ends within
the bound on its passes with an index between the bounds, and on sorted entries, under a
comparison that is transitive and whose negation is transitive on them, no entry before the
index goes after the new one and no entry from the index on goes before it. -/
theorem findFirstGreaterThan_loop_spec (a : List fringeEntry) (newMember : fringeEntry)
    (fComp : fringeEntryComparator_LT_impl) (n : Nat) (hn : n ≤ a.length) :
    ∀ (fuel : Nat) (min max : Int), 0 ≤ min → max < n → min ≤ max + 1 → max - min + 1 ≤ fuel →
      ∃ k : Nat, findFirstGreaterThan_loop a newMember fComp fuel min max = some (k : Int) ∧
        min ≤ k ∧ (k : Int) ≤ max + 1 ∧
        ((∀ x ∈ newMember :: a.take n, ∀ y ∈ newMember :: a.take n,
            ∀ z ∈ newMember :: a.take n, fComp.fringeEntryLT x y = true →
              fComp.fringeEntryLT y z = true → fComp.fringeEntryLT x z = true) →
          (∀ x ∈ newMember :: a.take n, ∀ y ∈ newMember :: a.take n,
            ∀ z ∈ newMember :: a.take n, fComp.fringeEntryLT x y = false →
              fComp.fringeEntryLT y z = false → fComp.fringeEntryLT x z = false) →
          (a.take n).Pairwise (fun x y => fComp.fringeEntryLT y x = false) →
          (∀ x ∈ (a.take n).take min.toNat, fComp.fringeEntryLT newMember x = false) →
          (∀ y ∈ (a.take n).drop (max + 1).toNat, fComp.fringeEntryLT y newMember = false) →
          (∀ x ∈ (a.take n).take k, fComp.fringeEntryLT newMember x = false) ∧
            (∀ y ∈ (a.take n).drop k, fComp.fringeEntryLT y newMember = false)) := by
  intro fuel
  induction fuel with
  | zero =>
    intro min max h0 _ h2 h3
    refine ⟨min.toNat, ?_, by omega, by omega, ?_⟩
    · simp only [findFirstGreaterThan_loop]
      congr 1
      omega
    · intro _ _ _ i1 i2
      have e : (max + 1).toNat = min.toNat := by omega
      rw [e] at i2
      exact ⟨i1, i2⟩
  | succ fuel ih =>
    intro min max h0 h1 h2 h3
    by_cases hmm : min ≤ max
    · have hsum : 0 ≤ min + max := by omega
      have hmid : Int.tdiv (min + max) 2 = (min + max) / 2 := Int.tdiv_eq_ediv hsum (by norm_num)
      have hm1 : min ≤ (min + max) / 2 := by omega
      have hm2 : (min + max) / 2 ≤ max := by omega
      have hlt : ((min + max) / 2).toNat < n := by omega
      have hlen : (a.take n).length = n := by simp [hn]
      have hlt' : ((min + max) / 2).toNat < (a.take n).length := by omega
      have hlta : ((min + max) / 2).toNat < a.length := by omega
      have hget : a.get? ((min + max) / 2).toNat = some (a.take n)[((min + max) / 2).toNat] := by
        rw [List.get?_eq_getElem?, List.getElem?_eq_getElem hlta, List.getElem_take]
      have hsplit : a.take n = (a.take n).take ((min + max) / 2).toNat ++
          (a.take n)[((min + max) / 2).toNat] ::
            (a.take n).drop (((min + max) / 2).toNat + 1) := by
        conv_lhs => rw [← List.take_append_drop ((min + max) / 2).toNat (a.take n)]
        rw [List.drop_eq_getElem_cons hlt']
      have htake : (a.take n).take (((min + max) / 2).toNat + 1) =
          (a.take n).take ((min + max) / 2).toNat ++ [(a.take n)[((min + max) / 2).toNat]] := by
        rw [List.take_succ, List.getElem?_eq_getElem hlt']
        rfl
      have hmem : (a.take n)[((min + max) / 2).toNat] ∈ newMember :: a.take n :=
        List.mem_cons_of_mem _ (List.getElem_mem _)
      generalize hu : a.take n = u at *
      generalize hm : ((min + max) / 2).toNat = m at *
      generalize he : u[m] = e at *
      have hnot : ¬ (min + max) / 2 < 0 := by omega
      simp only [findFirstGreaterThan_loop, if_pos hmm, hmid, hnot, if_false, hm, hget]
      by_cases heq : e.eq newMember = true
      · have e1 := fringeEntry_eq_eq _ _ heq
        subst e1
        refine ⟨m + 1, ?_, by omega, by omega, ?_⟩
        · simp only [heq, if_true]
          congr 1
          omega
        · intro _ _ hs _ _
          rw [hsplit, List.pairwise_append] at hs
          obtain ⟨-, hs2, hs3⟩ := hs
          rw [List.pairwise_cons] at hs2
          refine ⟨?_, hs2.1⟩
          intro x hx
          rw [htake, List.mem_append, List.mem_singleton] at hx
          rcases hx with hx | rfl
          · exact hs3 x hx e (List.mem_cons_self _ _)
          · exact fringeEntryLT_irrefl _ _
      · simp only [heq, Bool.false_eq_true, if_false]
        by_cases hlt2 : fComp.fringeEntryLT e newMember = true
        · simp only [hlt2, if_true]
          obtain ⟨k, hk1, hk2, hk3, hk4⟩ := ih ((min + max) / 2 + 1) max (by omega) h1 (by omega)
            (by omega)
          refine ⟨k, hk1, by omega, hk3, ?_⟩
          intro hT hN hs i1 i2
          refine hk4 hT hN hs ?_ i2
          have e2 : ((min + max) / 2 + 1).toNat = m + 1 := by omega
          rw [e2, htake]
          intro x hx
          rw [hsplit, List.pairwise_append] at hs
          obtain ⟨-, -, hs3⟩ := hs
          rw [List.mem_append, List.mem_singleton] at hx
          rcases hx with hx | rfl
          · have hxe := hs3 x hx e (List.mem_cons_self _ _)
            cases hc : fComp.fringeEntryLT newMember x
            · rfl
            · have hxm : x ∈ newMember :: u :=
                List.mem_cons_of_mem _ (List.mem_of_mem_take hx)
              have := hT e hmem newMember (List.mem_cons_self _ _) x hxm hlt2 hc
              rw [hxe] at this
              exact absurd this (by simp)
          · exact fringeEntryLT_asymm _ _ _ hlt2
        · have hlt3 : fComp.fringeEntryLT e newMember = false := by simpa using hlt2
          simp only [hlt3, Bool.false_eq_true, if_false]
          obtain ⟨k, hk1, hk2, hk3, hk4⟩ := ih min ((min + max) / 2 - 1) h0 (by omega) (by omega)
            (by omega)
          refine ⟨k, hk1, hk2, by omega, ?_⟩
          intro hT hN hs i1 i2
          refine hk4 hT hN hs i1 ?_
          have e2 : ((min + max) / 2 - 1 + 1).toNat = m := by omega
          rw [e2]
          intro y hy
          have hs' := hs
          rw [hsplit, List.pairwise_append] at hs
          obtain ⟨-, hs2, -⟩ := hs
          rw [List.pairwise_cons] at hs2
          have hd : u.drop m = e :: u.drop (m + 1) := by
            rw [List.drop_eq_getElem_cons hlt', he]
          rw [hd, List.mem_cons] at hy
          rcases hy with rfl | hy
          · exact hlt3
          · have hym : y ∈ newMember :: u :=
              List.mem_cons_of_mem _ (List.mem_of_mem_drop hy)
            exact hN y hym e hmem newMember (List.mem_cons_self _ _) (hs2.1 y hy) hlt3
    · have e : min = max + 1 := by omega
      subst e
      refine ⟨(max + 1).toNat, ?_, by omega, by omega, ?_⟩
      · simp only [findFirstGreaterThan_loop, if_neg hmm]
        congr 1
        omega
      · intro _ _ _ i1 i2
        exact ⟨i1, i2⟩

theorem lex4_iff (a1 a2 a3 a4 b1 b2 b3 b4 : ℚ) :
    (toLex (a1, toLex (a2, toLex (a3, a4))) < toLex (b1, toLex (b2, toLex (b3, b4)))) ↔
    (a1 < b1 ∨ (a1 = b1 ∧ (a2 < b2 ∨ (a2 = b2 ∧ (a3 < b3 ∨ (a3 = b3 ∧ a4 < b4)))))) := by
  simp [Prod.Lex.lt_iff]

/-- The negation of the lexicographic order on four rational keys is transitive. -/
theorem lex4_negtrans (a1 a2 a3 a4 b1 b2 b3 b4 c1 c2 c3 c4 : ℚ)
    (h1 : ¬ (a1 < b1 ∨ (a1 = b1 ∧ (a2 < b2 ∨ (a2 = b2 ∧ (a3 < b3 ∨ (a3 = b3 ∧ a4 < b4)))))))
    (h2 : ¬ (b1 < c1 ∨ (b1 = c1 ∧ (b2 < c2 ∨ (b2 = c2 ∧ (b3 < c3 ∨ (b3 = c3 ∧ b4 < c4))))))) :
    ¬ (a1 < c1 ∨ (a1 = c1 ∧ (a2 < c2 ∨ (a2 = c2 ∧ (a3 < c3 ∨ (a3 = c3 ∧ a4 < c4)))))) := by
  rw [← lex4_iff, not_lt] at *
  exact le_trans h2 h1

theorem fringeEntryLT_negtrans_regular (fComp : fringeEntryComparator_LT_impl)
    (f g h : fringeEntry) (hf : f.Regular) (hg : g.Regular) (hh : h.Regular)
    (h1 : fComp.fringeEntryLT f g = false) (h2 : fComp.fringeEntryLT g h = false) :
    fComp.fringeEntryLT f h = false := by
  obtain ⟨d1, e1, s1, p1, hd1, he1, hs1, hk1, hp1⟩ := hf
  obtain ⟨d2, e2, s2, p2, hd2, he2, hs2, hk2, hp2⟩ := hg
  obtain ⟨d3, e3, s3, p3, hd3, he3, hs3, hk3, hp3⟩ := hh
  have b1 : f.badness = ⟨F64.num e1, F64.num s1, ⟨F64.num p1⟩⟩ := by
    rw [← he1, ← hs1, ← hk1]
  have b2 : g.badness = ⟨F64.num e2, F64.num s2, ⟨F64.num p2⟩⟩ := by
    rw [← he2, ← hs2, ← hk2]
  have b3 : h.badness = ⟨F64.num e3, F64.num s3, ⟨F64.num p3⟩⟩ := by
    rw [← he3, ← hs3, ← hk3]
  rw [← Bool.not_eq_true,
    fringeEntryLT_regular fComp f g d1 e1 s1 p1 d2 e2 s2 p2 hd1 b1 hd2 b2 hp1 hp2] at h1
  rw [← Bool.not_eq_true,
    fringeEntryLT_regular fComp g h d2 e2 s2 p2 d3 e3 s3 p3 hd2 b2 hd3 b3 hp2 hp3] at h2
  rw [← Bool.not_eq_true,
    fringeEntryLT_regular fComp f h d1 e1 s1 p1 d3 e3 s3 p3 hd1 b1 hd3 b3 hp1 hp3]
  by_cases hp : fComp.bComp.prioritizeAspectRatioF = true
  · simp only [hp, if_true] at h1 h2 ⊢
    exact lex4_negtrans _ _ _ _ _ _ _ _ _ _ _ _ h1 h2
  · simp only [hp, if_false] at h1 h2 ⊢
    exact lex4_negtrans _ _ _ _ _ _ _ _ _ _ _ _ h1 h2

/-- Every index that the loop of `findFirstGreaterThan` reads lies between the bounds, and
the loop returns the index after the one it reads as soon as the entry there equals the new
one. -/
theorem findFirstGreaterThan_probes_spec (a : List fringeEntry) (newMember : fringeEntry)
    (fComp : fringeEntryComparator_LT_impl) :
    ∀ (fuel : Nat) (min max index : Int), 0 ≤ min →
      findFirstGreaterThan_loop a newMember fComp fuel min max = some index →
      ∀ m ∈ findFirstGreaterThan_probes a newMember fComp fuel min max,
        min ≤ m ∧ m ≤ max ∧
          ∀ e, a.get? m.toNat = some e → e.eq newMember = true → index = m + 1 := by
  intro fuel
  induction fuel with
  | zero =>
    intro min max index _ _ m hm
    simp [findFirstGreaterThan_probes] at hm
  | succ fuel ih =>
    intro min max index h0 hres m hm
    unfold findFirstGreaterThan_probes at hm
    unfold findFirstGreaterThan_loop at hres
    by_cases hmm : min ≤ max
    · simp only [hmm, if_true] at hm hres
      have hmid0 : 0 ≤ min + max := by omega
      have hd : Int.tdiv (min + max) 2 = (min + max) / 2 :=
        Int.tdiv_eq_ediv hmid0 (by norm_num)
      have hlo : min ≤ Int.tdiv (min + max) 2 := by rw [hd]; omega
      have hhi : Int.tdiv (min + max) 2 ≤ max := by rw [hd]; omega
      have hnn : ¬ Int.tdiv (min + max) 2 < 0 := by omega
      simp only [hnn, if_false] at hm hres
      cases hget : a.get? (Int.tdiv (min + max) 2).toNat with
      | none =>
        rw [hget] at hres
        exact absurd hres (by simp)
      | some e =>
        rw [hget] at hm hres
        simp only at hm hres
        by_cases heq : e.eq newMember = true
        · simp only [heq, if_true, List.mem_singleton] at hm hres
          subst hm
          refine ⟨hlo, hhi, ?_⟩
          intro e' _ _
          exact (Option.some.inj hres).symm
        · have heq' : e.eq newMember = false := by simpa using heq
          simp only [heq', Bool.false_eq_true, if_false] at hm hres
          by_cases hlt : fComp.fringeEntryLT e newMember = true
          · simp only [hlt, if_true, List.mem_cons] at hm hres
            rcases hm with rfl | hm
            · refine ⟨hlo, hhi, ?_⟩
              intro e' he' hq
              rw [hget] at he'
              rw [← Option.some.inj he'] at hq
              rw [hq] at heq'
              exact absurd heq' (by simp)
            · obtain ⟨i1, i2, i3⟩ := ih _ max index (by omega) hres m hm
              exact ⟨by omega, i2, i3⟩
          · have hlt' : fComp.fringeEntryLT e newMember = false := by simpa using hlt
            simp only [hlt', Bool.false_eq_true, if_false, List.mem_cons] at hm hres
            rcases hm with rfl | hm
            · refine ⟨hlo, hhi, ?_⟩
              intro e' he' hq
              rw [hget] at he'
              rw [← Option.some.inj he'] at hq
              rw [hq] at heq'
              exact absurd heq' (by simp)
            · obtain ⟨i1, i2, i3⟩ := ih min _ index h0 hres m hm
              exact ⟨i1, by omega, i3⟩
    · simp [hmm] at hm

/-- C36 (as amended): when the array has room, `insertPreservingSort` on `n` entries in use
finds an index in `[0, n]`, which is the index after the entry it reads as soon as that entry
equals the new one under `==` (every index it reads is one of the `n` in use), and yields
`n + 1` entries in use that are a permutation of the old ones and the new one; when the old
entries and the new one have finite components and non-negative skews and the old ones are
sorted under `fringeEntryLT`, the new entries in use are sorted again. -/
theorem insertPreservingSort_sorted (fComp : fringeEntryComparator_LT_impl) (f : fringe)
    (newMember : fringeEntry) (h0 : 0 ≤ f.length) (hroom : f.length < f.a.length) :
    ∃ index f', findFirstGreaterThan f.a f.length newMember fComp = some index ∧
      0 ≤ index ∧ index ≤ f.length ∧
      (∀ m ∈ findFirstGreaterThan_probes f.a newMember fComp (f.length.toNat + 1) 0
          (f.length - 1),
        0 ≤ m ∧ m < f.length ∧
          ∀ e, f.a.get? m.toNat = some e → e.eq newMember = true → index = m + 1) ∧
      insertPreservingSort f newMember fComp = some f' ∧
      f'.length = f.length + 1 ∧ f'.a.length = f.a.length ∧
      (f'.a.take f'.length.toNat).Perm (newMember :: f.a.take f.length.toNat) ∧
      ((∀ e ∈ newMember :: f.a.take f.length.toNat, e.Regular) → f.Sorted fComp →
        f'.Sorted fComp) := by
  have hn : f.length.toNat ≤ f.a.length := by omega
  obtain ⟨k, hk1, hk2, hk3, hk4⟩ := findFirstGreaterThan_loop_spec f.a newMember fComp
    f.length.toNat hn (f.length.toNat + 1) 0 (f.length - 1) (le_refl _) (by omega) (by omega)
    (by omega)
  have hkn : k ≤ f.length.toNat := by omega
  have hcond : 0 ≤ (k : Int) ∧ (k : Int) ≤ f.length ∧ f.length + 1 ≤ (f.a.length : Int) :=
    ⟨by omega, by omega, by omega⟩
  have e1 : ((k : Int)).toNat = k := by omega
  have e2 : (f.length - (k : Int)).toNat = f.length.toNat - k := by omega
  have e3 : (f.length + 1).toNat = f.length.toNat + 1 := by omega
  have t1 : f.a.take k = (f.a.take f.length.toNat).take k := by
    rw [List.take_take, min_eq_left hkn]
  have t2 : (f.a.drop k).take (f.length.toNat - k) = (f.a.take f.length.toNat).drop k := by
    rw [List.drop_take]
  have hlen : (f.a.take f.length.toNat).length = f.length.toNat := by simp [hn]
  have hl1 : ((f.a.take f.length.toNat).take k ++
      newMember :: (f.a.take f.length.toNat).drop k).length = f.length.toNat + 1 := by
    simp only [List.length_append, List.length_cons, List.length_take, List.length_drop]
    omega
  have hview : (f.a.take k ++ newMember ::
      ((f.a.drop k).take (f.length.toNat - k) ++ f.a.drop (f.length.toNat + 1))).take
        (f.length.toNat + 1) =
      (f.a.take f.length.toNat).take k ++ newMember :: (f.a.take f.length.toNat).drop k := by
    rw [t1, t2]
    have : (f.a.take f.length.toNat).take k ++ newMember ::
        ((f.a.take f.length.toNat).drop k ++ f.a.drop (f.length.toNat + 1)) =
        ((f.a.take f.length.toNat).take k ++ newMember :: (f.a.take f.length.toNat).drop k) ++
          f.a.drop (f.length.toNat + 1) := by simp
    rw [this, ← hl1, List.take_left']
    rfl
  refine ⟨(k : Int),
    { a := f.a.take k ++ newMember ::
        ((f.a.drop k).take (f.length.toNat - k) ++ f.a.drop (f.length.toNat + 1))
      length := f.length + 1 },
    hk1, by omega, by omega, ?_, ?_, rfl, ?_, ?_, ?_⟩
  · intro m hm
    obtain ⟨i1, i2, i3⟩ := findFirstGreaterThan_probes_spec f.a newMember fComp
      (f.length.toNat + 1) 0 (f.length - 1) k (le_refl _) hk1 m hm
    exact ⟨i1, by omega, i3⟩
  · simp only [insertPreservingSort, findFirstGreaterThan, hk1, hcond, and_self, if_true, e1, e2]
  · simp only [e1, e2, List.length_append, List.length_cons, List.length_take,
      List.length_drop]
    omega
  · simp only [e1, e2, e3, hview]
    have := @List.perm_middle _ newMember ((f.a.take f.length.toNat).take k)
      ((f.a.take f.length.toNat).drop k)
    rw [List.take_append_drop] at this
    exact this
  · intro hreg hs
    unfold fringe.Sorted at hs ⊢
    simp only [e1, e2, e3, hview]
    obtain ⟨r1, r2⟩ := hk4
      (fun x hx y hy z hz => fringeEntryLT_trans_regular fComp x y z (hreg x hx) (hreg y hy)
        (hreg z hz))
      (fun x hx y hy z hz => fringeEntryLT_negtrans_regular fComp x y z (hreg x hx) (hreg y hy)
        (hreg z hz))
      hs (by simp) (by
        have : (f.length - 1 + 1).toNat = f.length.toNat := by omega
        rw [this, List.drop_of_length_le (by omega)]
        simp)
    have hs' := hs
    rw [← List.take_append_drop k (f.a.take f.length.toNat), List.pairwise_append] at hs'
    obtain ⟨p1, p2, p3⟩ := hs'
    rw [List.pairwise_append, List.pairwise_cons]
    refine ⟨p1, ⟨r2, p2⟩, ?_⟩
    intro x hx y hy
    rw [List.mem_cons] at hy
    rcases hy with rfl | hy
    · exact r1 x hx
    · exact p3 x hx y hy

theorem sampleEntry_regular (d e s p : ℚ) (hp : 1 ≤ p) :
    (sampleEntry (F64.num d) (F64.num e) (F64.num s) p).Regular :=
  ⟨d, e, s, p, rfl, rfl, rfl, rfl, hp⟩

theorem insertPreservingSort_sorted_witness :
    ((0 : Int) ≤ stepFringe.length ∧ stepFringe.length < stepFringe.a.length) ∧
    findFirstGreaterThan_probes stepFringe.a (sampleEntry (F64.num 3) (F64.num 0) (F64.num 0) 1)
      bisectionComparator (stepFringe.length.toNat + 1) 0 (stepFringe.length - 1) = [1, 2] ∧
    (∀ e ∈ sampleEntry (F64.num 3) (F64.num 0) (F64.num 0) 1 ::
      stepFringe.a.take stepFringe.length.toNat, e.Regular) ∧
    stepFringe.Sorted bisectionComparator ∧
    ∃ index f', findFirstGreaterThan stepFringe.a stepFringe.length
        (sampleEntry (F64.num 3) (F64.num 0) (F64.num 0) 1) bisectionComparator = some index ∧
      index = 2 + 1 ∧
      insertPreservingSort stepFringe (sampleEntry (F64.num 3) (F64.num 0) (F64.num 0) 1)
        bisectionComparator = some f' ∧
      f'.length = stepFringe.length + 1 ∧
      (f'.a.take f'.length.toNat).Perm
        (sampleEntry (F64.num 3) (F64.num 0) (F64.num 0) 1 ::
          stepFringe.a.take stepFringe.length.toNat) ∧
      f'.Sorted bisectionComparator := by
  have hreg : ∀ e ∈ sampleEntry (F64.num 3) (F64.num 0) (F64.num 0) 1 ::
      stepFringe.a.take stepFringe.length.toNat, e.Regular := by
    intro e he
    have ht : stepFringe.a.take stepFringe.length.toNat =
        [sampleEntry (F64.num 1) (F64.num 0) (F64.num 0) 1,
          sampleEntry (F64.num 2) (F64.num 0) (F64.num 0) 1,
          sampleEntry (F64.num 3) (F64.num 0) (F64.num 0) 1] := by decide
    rw [ht] at he
    simp only [List.mem_cons, List.mem_singleton, List.not_mem_nil, or_false] at he
    rcases he with rfl | rfl | rfl | rfl
    · exact sampleEntry_regular 3 0 0 1 (le_refl _)
    · exact sampleEntry_regular 1 0 0 1 (le_refl _)
    · exact sampleEntry_regular 2 0 0 1 (le_refl _)
    · exact sampleEntry_regular 3 0 0 1 (le_refl _)
  have hs : stepFringe.Sorted bisectionComparator := by decide!
  have hp : findFirstGreaterThan_probes stepFringe.a
      (sampleEntry (F64.num 3) (F64.num 0) (F64.num 0) 1) bisectionComparator
      (stepFringe.length.toNat + 1) 0 (stepFringe.length - 1) = [1, 2] := by decide!
  obtain ⟨index, f', h1, -, -, h4, h5, h6, -, h8, h9⟩ :=
    insertPreservingSort_sorted bisectionComparator stepFringe
      (sampleEntry (F64.num 3) (F64.num 0) (F64.num 0) 1) (by decide) (by decide)
  have hidx := (h4 2 (by rw [hp]; decide)).2.2
    (sampleEntry (F64.num 3) (F64.num 0) (F64.num 0) 1) (by decide) (by decide!)
  exact ⟨⟨by decide, by decide⟩, hp, hreg, hs, index, f', h1, hidx, h5, h6, h8, h9 hreg hs⟩

/-- C36, counterexample: the two entries in use of `nanFringe` are sorted under
`fringeEntryLT`, and after `insertPreservingSort` of a third entry the three entries in use
are not: the entry with the NaN empty space, which goes before the new one, stands after
it. -/
theorem insertPreservingSort_nan_counterexample :
    nanFringe.Sorted bisectionComparator ∧
      (insertPreservingSort nanFringe (sampleEntry (F64.num 3) (F64.num 0) (F64.num 0) 1)
        bisectionComparator).map (fun f => decide (f.Sorted bisectionComparator)) =
        some false := by
  decide!

/-- On entries without NaN the sort is lost the same way when two skews are opposite: the
entries of skews `-1` and `+1` of `skewFringe` are sorted, and after the insertion of an
entry of skew `+1` the entries in use are not. -/
theorem insertPreservingSort_opposite_skews :
    skewFringe.Sorted bisectionComparator ∧
      (insertPreservingSort skewFringe (sampleEntry (F64.num 0) (F64.num 0) (F64.num 1) 2)
        bisectionComparator).map (fun f => decide (f.Sorted bisectionComparator)) =
        some false := by
  decide!

/-- C39 (as amended): in both modes `badnessLT` is irreflexive, asymmetric and transitive on
all badnesses; `fringeEntryLT` is irreflexive and asymmetric on all fringe entries, and
transitive on the entries whose components are finite and whose skews are non-negative. -/
theorem badnessLT_strict_order (fComp : fringeEntryComparator_LT_impl) :
    (∀ a, fComp.bComp.badnessLT a a = false) ∧
    (∀ a b, fComp.bComp.badnessLT a b = true → fComp.bComp.badnessLT b a = false) ∧
    (∀ a b c, fComp.bComp.badnessLT a b = true → fComp.bComp.badnessLT b c = true →
      fComp.bComp.badnessLT a c = true) ∧
    (∀ f, fComp.fringeEntryLT f f = false) ∧
    (∀ f g, fComp.fringeEntryLT f g = true → fComp.fringeEntryLT g f = false) ∧
    (∀ f g h, f.Regular → g.Regular → h.Regular → fComp.fringeEntryLT f g = true →
      fComp.fringeEntryLT g h = true → fComp.fringeEntryLT f h = true) :=
  ⟨badnessLT_irrefl _, badnessLT_asymm _, badnessLT_trans _, fringeEntryLT_irrefl _,
    fringeEntryLT_asymm _, fringeEntryLT_trans_regular _⟩

/-- The transitivity of `fringeEntryLT` stated by C39 (as amended), at three entries of
steps 1, 2, 3. -/
theorem badnessLT_strict_order_witness :
    bisectionComparator.fringeEntryLT (sampleEntry (F64.num 1) (F64.num 0) (F64.num 0) 1)
      (sampleEntry (F64.num 2) (F64.num 0) (F64.num 0) 1) = true ∧
    bisectionComparator.fringeEntryLT (sampleEntry (F64.num 2) (F64.num 0) (F64.num 0) 1)
      (sampleEntry (F64.num 3) (F64.num 0) (F64.num 0) 1) = true ∧
    bisectionComparator.fringeEntryLT (sampleEntry (F64.num 1) (F64.num 0) (F64.num 0) 1)
      (sampleEntry (F64.num 3) (F64.num 0) (F64.num 0) 1) = true :=
  ⟨by decide!, by decide!,
    (badnessLT_strict_order bisectionComparator).2.2.2.2.2 _ _ _
      (sampleEntry_regular 1 0 0 1 (le_refl _)) (sampleEntry_regular 2 0 0 1 (le_refl _))
      (sampleEntry_regular 3 0 0 1 (le_refl _)) (by decide!) (by decide!)⟩

/-- C39, counterexample: `fringeEntryLT` is not transitive.  An entry with a NaN empty
space is not comparable by badness, so it is ordered by its step alone: the entry of step 1
goes before it and it goes before the entry of step 3, yet the entry of step 1 does not go
before the entry of step 3, whose badness is better. -/
theorem fringeEntryLT_not_transitive_counterexample :
    bisectionComparator.fringeEntryLT (sampleEntry (F64.num 1) (F64.num 0) (F64.num 1) 1)
      (sampleEntry (F64.num 2) F64.nan (F64.num 0) 1) = true ∧
    bisectionComparator.fringeEntryLT (sampleEntry (F64.num 2) F64.nan (F64.num 0) 1)
      (sampleEntry (F64.num 3) (F64.num 0) (F64.num 0) 1) = true ∧
    bisectionComparator.fringeEntryLT (sampleEntry (F64.num 1) (F64.num 0) (F64.num 1) 1)
      (sampleEntry (F64.num 3) (F64.num 0) (F64.num 0) 1) = false := by
  decide!

/-- Without NaN the transitivity of `fringeEntryLT` fails the same way on opposite skews:
the skews `-1` and `+1` are not comparable, so these entries are ordered by their step. -/
theorem fringeEntryLT_opposite_skews :
    bisectionComparator.fringeEntryLT (sampleEntry (F64.num 1) (F64.num 0) (F64.num 0) (1 / 2))
      (sampleEntry (F64.num 2) (F64.num 0) (F64.num 0) 2) = true ∧
    bisectionComparator.fringeEntryLT (sampleEntry (F64.num 2) (F64.num 0) (F64.num 0) 2)
      (sampleEntry (F64.num 0) (F64.num 0) (F64.num 1) 2) = true ∧
    bisectionComparator.fringeEntryLT (sampleEntry (F64.num 1) (F64.num 0) (F64.num 0) (1 / 2))
      (sampleEntry (F64.num 0) (F64.num 0) (F64.num 1) 2) = false := by
  decide!

/-- C24: with the aspect ratio compared first, a badness of skew `+1` without empty space
and a badness of skew `-1` with empty space 5 are ordered in neither direction by
`badnessLT`, while the lexicographic order on (magnitude of the skew, empty space, sum of
scale-downs) puts the first before the second; the same holds with the empty space compared
first once the empty spaces are equal and the sums of scale-downs differ. -/
theorem badnessLT_opposite_skews :
    (badnessComparator_LT_impl.mk true true).badnessLT skewUpBadness skewDownBadness = false ∧
    (badnessComparator_LT_impl.mk true true).badnessLT skewDownBadness skewUpBadness = false ∧
    badnessLexLT true skewUpBadness skewDownBadness = true ∧
    (badnessComparator_LT_impl.mk false false).badnessLT skewUpBadness
      { skewDownBadness with emptySpace := F64.num 0, scaledownSum := F64.num 3 } = false ∧
    badnessLexLT false skewUpBadness
      { skewDownBadness with emptySpace := F64.num 0, scaledownSum := F64.num 3 } = true := by
  decide!

/-- Apart from opposite skews `badnessLT` is the lexicographic order of the specification:
the two agree on every pair of badnesses whose skews are equal or differ in magnitude. -/
theorem badnessLT_eq_lex (bci : badnessComparator_LT_impl) (b1 b2 : tileInOrder_Badness)
    (h : Log2.fne b1.aspectRatioSkew b2.aspectRatioSkew =
      F64.fne b1.aspectRatioSkew.abs.pow b2.aspectRatioSkew.abs.pow) :
    bci.badnessLT b1 b2 = badnessLexLT bci.prioritizeAspectRatioF b1 b2 := by
  have key : ∀ x y : F64, (if F64.fne x y = true then F64.lt x y else false) = F64.lt x y := by
    intro x y
    by_cases hxy : F64.lt x y = true
    · simp [F64_fne_of_lt x y hxy, hxy]
    · simp [hxy]
  have k2 : ∀ (x y : F64) (r : Bool),
      (if F64.fne x y = true then F64.lt x y else r) = (F64.lt x y || (F64.feq x y && r)) := by
    intro x y r
    by_cases hxy : F64.fne x y = true
    · have : F64.feq x y = false := by simpa [F64.fne] using hxy
      simp [hxy, this]
    · have h1 : F64.feq x y = true := by simpa [F64.fne] using hxy
      have h2 := F64_feq_eq x y h1
      subst h2
      simp [hxy, h1, F64_lt_irrefl]
  unfold badnessComparator_LT_impl.badnessLT badnessLexLT lexLT
    badnessComparator_LT_impl.prioritizeAspectRatio
  by_cases hp : bci.prioritizeAspectRatioF = true
  · simp only [hp, if_true, h, Log2.lt, k2]
  · simp only [hp, if_false, h, Log2.lt, k2, Bool.false_eq_true]

/-- The midpoint `math.Round((a + b) / 2)` of two bounds more than one apart is a whole
number strictly between them. -/
theorem round_midpoint (a b : ℚ) (h : 1 < b - a) :
    ∃ m : Int, F64.round (F64.div (F64.add (F64.num a) (F64.num b)) (F64.num 2)) = F64.num m ∧
      a < m ∧ (m : ℚ) < b := by
  have h2 : (2 : ℚ) ≠ 0 := by norm_num
  simp only [F64.add, F64.div, h2, if_false, F64.round]
  by_cases hx : 0 ≤ (a + b) / 2
  · refine ⟨⌊(a + b) / 2 + 1 / 2⌋, by simp [hx], ?_, ?_⟩
    · have := Int.lt_floor_add_one ((a + b) / 2 + 1 / 2)
      linarith
    · have := Int.floor_le ((a + b) / 2 + 1 / 2)
      linarith
  · refine ⟨-⌊-((a + b) / 2) + 1 / 2⌋, by simp [hx], ?_, ?_⟩
    · have := Int.floor_le (-((a + b) / 2) + 1 / 2)
      push_cast
      linarith
    · have := Int.lt_floor_add_one (-((a + b) / 2) + 1 / 2)
      push_cast
      linarith

/-- The rounding to float64 changes nothing in a number with at most 53 significant bits
whose last bit is `2^i`, `i ≥ -1074`. -/
theorem F64.nearest_exact (k i : Int) (hk : |k| < 2 ^ 53) (hi : -1074 ≤ i) (hi2 : i ≤ 0) :
    F64.nearest (F64.num ((k : ℚ) * (2 : ℚ) ^ i)) = F64.num ((k : ℚ) * (2 : ℚ) ^ i) := by
  have hp : (0 : ℚ) < (2 : ℚ) ^ i := by positivity
  have hle : (2 : ℚ) ^ i ≤ 1 := zpow_le_one_of_nonpos₀ (by norm_num) hi2
  have habs : |(k : ℚ) * (2 : ℚ) ^ i| ≤ 2 ^ 53 := by
    rw [abs_mul, abs_of_pos hp]
    have h1 : |(k : ℚ)| ≤ 2 ^ 53 := by
      have : ((|k| : Int) : ℚ) ≤ ((2 ^ 53 : Int) : ℚ) := by exact_mod_cast le_of_lt hk
      simpa using this
    calc |(k : ℚ)| * (2 : ℚ) ^ i ≤ |(k : ℚ)| * 1 := by
          exact mul_le_mul_of_nonneg_left hle (abs_nonneg _)
      _ ≤ 2 ^ 53 := by simpa using h1
  have hov : (2 : ℚ) ^ 53 < float64Overflow := lt_trans (by norm_num) float64Overflow_large
  have h1 : ¬ float64Overflow ≤ (k : ℚ) * (2 : ℚ) ^ i := by
    have := le_abs_self ((k : ℚ) * (2 : ℚ) ^ i)
    linarith
  have h2 : ¬ (k : ℚ) * (2 : ℚ) ^ i ≤ -float64Overflow := by
    have := neg_abs_le ((k : ℚ) * (2 : ℚ) ^ i)
    linarith
  simp only [F64.nearest, h1, h2, if_false, float64Nearest_exact k i hk hi]

/-- The rounding to float64 changes nothing in a quarter of a whole number below `2^53`. -/
theorem F64.nearest_quarter (k : Int) (hk : |k| < 2 ^ 53) :
    F64.nearest (F64.num ((k : ℚ) / 4)) = F64.num ((k : ℚ) / 4) := by
  have := F64.nearest_exact k (-2) hk (by norm_num) (by norm_num)
  have e : (k : ℚ) * (2 : ℚ) ^ (-2 : Int) = (k : ℚ) / 4 := by
    rw [zpow_neg]
    norm_num
    ring
  rw [e] at this
  exact this

/-- The rounding to float64 changes nothing in a half of a whole number below `2^53`. -/
theorem F64.nearest_half (k : Int) (hk : |k| < 2 ^ 53) :
    F64.nearest (F64.num ((k : ℚ) / 2)) = F64.num ((k : ℚ) / 2) := by
  have := F64.nearest_exact k (-1) hk (by norm_num) (by norm_num)
  have e : (k : ℚ) * (2 : ℚ) ^ (-1 : Int) = (k : ℚ) / 2 := by
    rw [zpow_neg]
    norm_num
    ring
  rw [e] at this
  exact this

/-- The midpoint that the width-halving loop computes for two halves of whole numbers up to
`2^50` in magnitude that are more than one apart: a whole number strictly between them. -/
theorem halve_midpoint (a b : Int) (ha : -(2 ^ 51) ≤ a) (hb : b ≤ 2 ^ 51)
    (h : (1 : ℚ) < (b : ℚ) / 2 - (a : ℚ) / 2) :
    F64.gt (F64.nearest (F64.sub (F64.num ((b : ℚ) / 2)) (F64.num ((a : ℚ) / 2)))) (F64.num 1) =
      true ∧
    ∃ m : Int, F64.round (F64.nearest (F64.div
        (F64.nearest (F64.add (F64.num ((a : ℚ) / 2)) (F64.num ((b : ℚ) / 2)))) (F64.num 2))) =
        F64.num m ∧ (a : ℚ) / 2 < m ∧ (m : ℚ) < (b : ℚ) / 2 := by
  have hab : a < b := by
    have : (a : ℚ) < b := by linarith
    exact_mod_cast this
  have e1 : F64.sub (F64.num ((b : ℚ) / 2)) (F64.num ((a : ℚ) / 2)) =
      F64.num (((b - a : Int) : ℚ) / 2) := by
    rw [F64.sub_num]
    congr 1
    push_cast
    ring
  have e2 : F64.add (F64.num ((a : ℚ) / 2)) (F64.num ((b : ℚ) / 2)) =
      F64.num (((a + b : Int) : ℚ) / 2) := by
    rw [F64.add_num]
    congr 1
    push_cast
    ring
  have e3 : F64.div (F64.num (((a + b : Int) : ℚ) / 2)) (F64.num 2) =
      F64.num (((a + b : Int) : ℚ) / 4) := by
    rw [F64.div_num _ _ (by norm_num)]
    congr 1
    ring
  rw [e1, e2, F64.nearest_half _ (by rw [abs_lt]; constructor <;> omega),
    F64.nearest_half _ (by rw [abs_lt]; constructor <;> omega), e3,
    F64.nearest_quarter _ (by rw [abs_lt]; constructor <;> omega)]
  constructor
  · simp only [F64.gt, F64.lt, decide_eq_true_eq]
    push_cast
    linarith
  · obtain ⟨m, hm1, hm2, hm3⟩ := round_midpoint ((a : ℚ) / 2) ((b : ℚ) / 2) h
    refine ⟨m, ?_, hm2, hm3⟩
    rw [← hm1, F64.add_num, F64.div_num _ _ (by norm_num)]
    congr 2
    push_cast
    ring

theorem findMinimumByBinarySearch_halve_spec {σ : Type}
    (evaluate : σ → F64 → Option (σ × Bool)) (lo hi : Int) (hlo : -(2 ^ 51) ≤ lo)
    (hhi : hi ≤ 2 ^ 51) :
    ∀ (fuel : Nat) (a b : Int) (st : σ) (mids : List F64), lo ≤ a → a ≤ b → b ≤ hi →
      (∀ m ∈ mids, F64.le (F64.num ((lo : ℚ) / 2)) m = true ∧
        F64.le m (F64.num ((hi : ℚ) / 2)) = true) →
      ⌈(b : ℚ) / 2⌉ - ⌊(a : ℚ) / 2⌋ + 1 ≤ (fuel : Int) →
      (findMinimumByBinarySearch_halve evaluate fuel
          ⟨F64.num ((a : ℚ) / 2), F64.num ((b : ℚ) / 2), st, mids⟩).2 ≠ TilingRun.outOfFuel ∧
        ((findMinimumByBinarySearch_halve evaluate fuel
            ⟨F64.num ((a : ℚ) / 2), F64.num ((b : ℚ) / 2), st, mids⟩).2 = TilingRun.done () →
          F64.gt (F64.sub
            (findMinimumByBinarySearch_halve evaluate fuel
              ⟨F64.num ((a : ℚ) / 2), F64.num ((b : ℚ) / 2), st, mids⟩).1.max
            (findMinimumByBinarySearch_halve evaluate fuel
              ⟨F64.num ((a : ℚ) / 2), F64.num ((b : ℚ) / 2), st, mids⟩).1.min)
            (F64.num 1) = false) ∧
        (∀ m ∈ (findMinimumByBinarySearch_halve evaluate fuel
            ⟨F64.num ((a : ℚ) / 2), F64.num ((b : ℚ) / 2), st, mids⟩).1.midpoints,
          F64.le (F64.num ((lo : ℚ) / 2)) m = true ∧
            F64.le m (F64.num ((hi : ℚ) / 2)) = true) ∧
        ((∀ s m, (evaluate s m).isSome = true) →
          (findMinimumByBinarySearch_halve evaluate fuel
            ⟨F64.num ((a : ℚ) / 2), F64.num ((b : ℚ) / 2), st, mids⟩).2 = TilingRun.done ()) := by
  intro fuel
  induction fuel with
  | zero =>
    intro a b st mids _ hab _ _ hf
    have h1 : ⌊(a : ℚ) / 2⌋ ≤ ⌈(b : ℚ) / 2⌉ := by
      have hq : (a : ℚ) / 2 ≤ (b : ℚ) / 2 := by
        have : (a : ℚ) ≤ b := by exact_mod_cast hab
        linarith
      have : (⌊(a : ℚ) / 2⌋ : ℚ) ≤ ⌈(b : ℚ) / 2⌉ :=
        le_trans (Int.floor_le _) (le_trans hq (Int.le_ceil _))
      exact_mod_cast this
    omega
  | succ fuel ih =>
    intro a b st mids hla hab hbh hm hf
    have hlaQ : (lo : ℚ) ≤ a := by exact_mod_cast hla
    have hbhQ : (b : ℚ) ≤ hi := by exact_mod_cast hbh
    by_cases hgap : (1 : ℚ) < (b : ℚ) / 2 - (a : ℚ) / 2
    · obtain ⟨hg, m, hm1, hm2, hm3⟩ := halve_midpoint a b (by omega) (by omega) hgap
      have hmid : ∀ x ∈ F64.num (m : ℚ) :: mids,
          F64.le (F64.num ((lo : ℚ) / 2)) x = true ∧
            F64.le x (F64.num ((hi : ℚ) / 2)) = true := by
        intro x hx
        rw [List.mem_cons] at hx
        rcases hx with rfl | hx
        · simp only [F64.le, decide_eq_true_eq]
          constructor <;> linarith
        · exact hm x hx
      have em : F64.num (m : ℚ) = F64.num (((2 * m : Int) : ℚ) / 2) := by
        congr 1
        push_cast
        ring
      have hma : a < 2 * m := by
        have : (a : ℚ) < 2 * m := by linarith
        exact_mod_cast this
      have hmb : 2 * m < b := by
        have : (2 : ℚ) * m < b := by linarith
        exact_mod_cast this
      have em2 : ((2 * m : Int) : ℚ) / 2 = (m : ℚ) := by
        push_cast
        ring
      simp only [findMinimumByBinarySearch_halve, hg, if_true, hm1]
      cases hev : evaluate st (F64.num (m : ℚ)) with
      | none =>
        refine ⟨by simp, by simp, hmid, ?_⟩
        intro htot
        have := htot st (F64.num (m : ℚ))
        rw [hev] at this
        exact absurd this (by simp)
      | some r =>
        obtain ⟨st', positive⟩ := r
        simp only
        have c1 : ⌈(m : ℚ)⌉ = m := Int.ceil_intCast m
        have c2 : ⌊(m : ℚ)⌋ = m := Int.floor_intCast m
        have c3 : m < ⌈(b : ℚ) / 2⌉ := Int.lt_ceil.mpr hm3
        have c4 : ⌊(a : ℚ) / 2⌋ < m := Int.floor_lt.mpr hm2
        cases positive with
        | true =>
          simp only [if_true]
          have := ih a (2 * m) st' (F64.num (m : ℚ) :: mids) hla (le_of_lt hma) (by omega) hmid
            (by rw [em2, c1]; omega)
          rw [em2] at this
          exact this
        | false =>
          simp only [Bool.false_eq_true, if_false]
          have := ih (2 * m) b st' (F64.num (m : ℚ) :: mids) (by omega) (le_of_lt hmb) hbh hmid
            (by rw [em2, c2]; omega)
          rw [em2] at this
          exact this
    · have e1 : F64.sub (F64.num ((b : ℚ) / 2)) (F64.num ((a : ℚ) / 2)) =
          F64.num (((b - a : Int) : ℚ) / 2) := by
        rw [F64.sub_num]
        congr 1
        push_cast
        ring
      have hle : ((b - a : Int) : ℚ) / 2 ≤ 1 := by
        push_cast
        linarith
      have hg : F64.gt (F64.nearest (F64.sub (F64.num ((b : ℚ) / 2)) (F64.num ((a : ℚ) / 2))))
          (F64.num 1) = false := by
        rw [e1, F64.nearest_half _ (by rw [abs_lt]; constructor <;> omega)]
        simp only [F64.gt, F64.lt, decide_eq_false_iff_not, not_lt]
        exact hle
      have hg' : F64.gt (F64.sub (F64.num ((b : ℚ) / 2)) (F64.num ((a : ℚ) / 2)))
          (F64.num 1) = false := by
        rw [e1]
        simp only [F64.gt, F64.lt, decide_eq_false_iff_not, not_lt]
        exact hle
      simp only [findMinimumByBinarySearch_halve, hg, Bool.false_eq_true, if_false]
      exact ⟨by simp, fun _ => hg', hm, by simp⟩

/-- C37 (as amended): for bounds `lo ≤ hi` that are halves of whole numbers, up to `2^50` in
magnitude, and every evaluation of the midpoints (every outcome of the skew test, or a stop
of the program in it), the width-halving loop of `findMinimumByBinarySearch` ends within
`⌈hi⌉ - ⌊lo⌋ + 1` passes; when it ends by its own test the bounds are no more than one apart
(with bounds no more than one apart from the start it evaluates nothing); every midpoint it
evaluates lies in `[lo, hi]`; and it does end by its own test when no evaluation stops the
program. -/
theorem findMinimumByBinarySearch_halve_terminates {σ : Type}
    (evaluate : σ → F64 → Option (σ × Bool)) (a b : Int) (st : σ) (h : a ≤ b)
    (ha : -(2 ^ 51) ≤ a) (hb : b ≤ 2 ^ 51) :
    (findMinimumByBinarySearch_halve evaluate ((⌈(b : ℚ) / 2⌉ - ⌊(a : ℚ) / 2⌋).toNat + 1)
        ⟨F64.num ((a : ℚ) / 2), F64.num ((b : ℚ) / 2), st, []⟩).2 ≠ TilingRun.outOfFuel ∧
      ((findMinimumByBinarySearch_halve evaluate ((⌈(b : ℚ) / 2⌉ - ⌊(a : ℚ) / 2⌋).toNat + 1)
          ⟨F64.num ((a : ℚ) / 2), F64.num ((b : ℚ) / 2), st, []⟩).2 = TilingRun.done () →
        F64.gt (F64.sub
          (findMinimumByBinarySearch_halve evaluate ((⌈(b : ℚ) / 2⌉ - ⌊(a : ℚ) / 2⌋).toNat + 1)
            ⟨F64.num ((a : ℚ) / 2), F64.num ((b : ℚ) / 2), st, []⟩).1.max
          (findMinimumByBinarySearch_halve evaluate ((⌈(b : ℚ) / 2⌉ - ⌊(a : ℚ) / 2⌋).toNat + 1)
            ⟨F64.num ((a : ℚ) / 2), F64.num ((b : ℚ) / 2), st, []⟩).1.min) (F64.num 1) =
          false) ∧
      (∀ m ∈ (findMinimumByBinarySearch_halve evaluate
          ((⌈(b : ℚ) / 2⌉ - ⌊(a : ℚ) / 2⌋).toNat + 1)
          ⟨F64.num ((a : ℚ) / 2), F64.num ((b : ℚ) / 2), st, []⟩).1.midpoints,
        F64.le (F64.num ((a : ℚ) / 2)) m = true ∧ F64.le m (F64.num ((b : ℚ) / 2)) = true) ∧
      ((b : ℚ) / 2 - (a : ℚ) / 2 ≤ 1 →
        (findMinimumByBinarySearch_halve evaluate ((⌈(b : ℚ) / 2⌉ - ⌊(a : ℚ) / 2⌋).toNat + 1)
          ⟨F64.num ((a : ℚ) / 2), F64.num ((b : ℚ) / 2), st, []⟩).1.midpoints = []) ∧
      ((∀ s m, (evaluate s m).isSome = true) →
        (findMinimumByBinarySearch_halve evaluate ((⌈(b : ℚ) / 2⌉ - ⌊(a : ℚ) / 2⌋).toNat + 1)
          ⟨F64.num ((a : ℚ) / 2), F64.num ((b : ℚ) / 2), st, []⟩).2 = TilingRun.done ()) := by
  have hq : (a : ℚ) / 2 ≤ (b : ℚ) / 2 := by
    have : (a : ℚ) ≤ b := by exact_mod_cast h
    linarith
  have h1 : ⌊(a : ℚ) / 2⌋ ≤ ⌈(b : ℚ) / 2⌉ := by
    have : (⌊(a : ℚ) / 2⌋ : ℚ) ≤ ⌈(b : ℚ) / 2⌉ :=
      le_trans (Int.floor_le _) (le_trans hq (Int.le_ceil _))
    exact_mod_cast this
  obtain ⟨r1, r2, r3, r4⟩ := findMinimumByBinarySearch_halve_spec evaluate a b ha hb
    ((⌈(b : ℚ) / 2⌉ - ⌊(a : ℚ) / 2⌋).toNat + 1) a b st [] (le_refl _) h (le_refl _) (by simp) (by
      push_cast
      omega)
  refine ⟨r1, r2, r3, ?_, r4⟩
  intro hgap
  have e1 : F64.sub (F64.num ((b : ℚ) / 2)) (F64.num ((a : ℚ) / 2)) =
      F64.num (((b - a : Int) : ℚ) / 2) := by
    rw [F64.sub_num]
    congr 1
    push_cast
    ring
  have hg : F64.gt (F64.nearest (F64.sub (F64.num ((b : ℚ) / 2)) (F64.num ((a : ℚ) / 2))))
      (F64.num 1) = false := by
    rw [e1, F64.nearest_half _ (by rw [abs_lt]; constructor <;> omega)]
    simp only [F64.gt, F64.lt, decide_eq_false_iff_not, not_lt]
    push_cast
    linarith
  simp [findMinimumByBinarySearch_halve, hg]

theorem findMinimumByBinarySearch_halve_terminates_witness :
    ((0 : Int) ≤ 20 ∧ -(2 ^ 51) ≤ (0 : Int) ∧ (20 : Int) ≤ 2 ^ 51) ∧
    (findMinimumByBinarySearch_halve
        (fun (s : Unit) (m : F64) => some (s, F64.gt m (F64.num 3)))
        ((⌈((20 : Int) : ℚ) / 2⌉ - ⌊((0 : Int) : ℚ) / 2⌋).toNat + 1)
        ⟨F64.num (((0 : Int) : ℚ) / 2), F64.num (((20 : Int) : ℚ) / 2), (), []⟩).2 =
      TilingRun.done () :=
  ⟨⟨by norm_num, by norm_num, by norm_num⟩,
    (findMinimumByBinarySearch_halve_terminates
      (fun (s : Unit) (m : F64) => some (s, F64.gt m (F64.num 3))) 0 20 ()
      (by norm_num) (by norm_num) (by norm_num)).2.2.2.2 (fun _ _ => rfl)⟩

/-- The width-halving loop on the bounds 0 and 10 with a skew that is positive above the
width 3: the midpoints evaluated are 5, 3 and 4, and the loop ends by its own test on the
bounds 3 and 4. -/
theorem findMinimumByBinarySearch_halve_example :
    (findMinimumByBinarySearch_halve
        (fun (s : Unit) (m : F64) => some (s, F64.gt m (F64.num 3))) 11
        ⟨F64.num 0, F64.num 10, (), []⟩).1.min = F64.num 3 ∧
    (findMinimumByBinarySearch_halve
        (fun (s : Unit) (m : F64) => some (s, F64.gt m (F64.num 3))) 11
        ⟨F64.num 0, F64.num 10, (), []⟩).1.max = F64.num 4 ∧
    (findMinimumByBinarySearch_halve
        (fun (s : Unit) (m : F64) => some (s, F64.gt m (F64.num 3))) 11
        ⟨F64.num 0, F64.num 10, (), []⟩).1.midpoints = [F64.num 4, F64.num 3, F64.num 5] := by
  refine ⟨by decide!, by decide!, by decide!⟩

theorem findMinimumByBinarySearch_halve_stuck (fuel : Nat) :
    ∀ mids : List F64,
      (findMinimumByBinarySearch_halve (fun (s : Unit) (_ : F64) => some (s, false)) fuel
        ⟨F64.num (2 ^ 53), F64.num (2 ^ 53 + 2), (), mids⟩).2 = TilingRun.outOfFuel := by
  have hg : F64.gt (F64.nearest (F64.sub (F64.num (2 ^ 53 + 2)) (F64.num (2 ^ 53))))
      (F64.num 1) = true := by decide!
  have hm : F64.round (F64.nearest (F64.div
      (F64.nearest (F64.add (F64.num (2 ^ 53)) (F64.num (2 ^ 53 + 2)))) (F64.num 2))) =
      F64.num (2 ^ 53) := by decide!
  induction fuel with
  | zero => intro mids; rfl
  | succ fuel ih =>
    intro mids
    simp only [findMinimumByBinarySearch_halve, hg, if_true, hm, Bool.false_eq_true, if_false]
    exact ih _

/-- C37 (counterexample): on the bounds `2^53` and `2^53 + 2`, which are two apart, with a
skew that is never positive, the width-halving loop does not end: the sum of the bounds
rounds to `2^54`, so the midpoint is the lower bound `2^53` itself, and every pass leaves
the bounds as they are, whatever the number of passes allowed. -/
theorem findMinimumByBinarySearch_halve_counterexample :
    F64.round (F64.nearest (F64.div
      (F64.nearest (F64.add (F64.num (2 ^ 53)) (F64.num (2 ^ 53 + 2)))) (F64.num 2))) =
      F64.num (2 ^ 53) ∧
    ∀ fuel : Nat,
      (findMinimumByBinarySearch_halve (fun (s : Unit) (_ : F64) => some (s, false)) fuel
        ⟨F64.num (2 ^ 53), F64.num (2 ^ 53 + 2), (), []⟩).2 = TilingRun.outOfFuel :=
  ⟨by decide!, fun fuel => findMinimumByBinarySearch_halve_stuck fuel []⟩

theorem insertionStep_sorted {α : Type} (less : α → α → Bool) (key : α → ℚ) (x : α)
    (rev : List α)
    (hless : ∀ a ∈ x :: rev, ∀ b ∈ x :: rev, less a b = decide (key a < key b))
    (hs : rev.Pairwise (fun a b => key b ≤ key a)) :
    (insertionStep less x rev).Pairwise (fun a b => key b ≤ key a) := by
  induction rev with
  | nil => simp [insertionStep]
  | cons y rev ih =>
    rw [List.pairwise_cons] at hs
    unfold insertionStep
    rw [hless x (List.mem_cons_self _ _) y (List.mem_cons_of_mem _ (List.mem_cons_self _ _))]
    by_cases hxy : key x < key y
    · simp only [hxy, decide_True, if_true]
      rw [List.pairwise_cons]
      refine ⟨?_, ih ?_ hs.2⟩
      · intro b hb
        have hb' := (insertionStep_perm less x rev).subset hb
        rw [List.mem_cons] at hb'
        rcases hb' with rfl | hb'
        · exact le_of_lt hxy
        · exact hs.1 b hb'
      · intro a ha b hb
        refine hless a ?_ b ?_
        · rw [List.mem_cons] at ha ⊢
          rcases ha with rfl | ha
          · exact Or.inl rfl
          · exact Or.inr (List.mem_cons_of_mem _ ha)
        · rw [List.mem_cons] at hb ⊢
          rcases hb with rfl | hb
          · exact Or.inl rfl
          · exact Or.inr (List.mem_cons_of_mem _ hb)
    · simp only [hxy, decide_False, Bool.false_eq_true, if_false]
      rw [List.pairwise_cons, List.pairwise_cons]
      refine ⟨?_, hs⟩
      intro b hb
      rw [List.mem_cons] at hb
      rcases hb with rfl | hb
      · exact not_lt.mp hxy
      · exact le_trans (hs.1 b hb) (not_lt.mp hxy)

theorem foldl_insertionStep_sorted {α : Type} (less : α → α → Bool) (key : α → ℚ)
    (ids rev : List α)
    (hless : ∀ a ∈ ids ++ rev, ∀ b ∈ ids ++ rev, less a b = decide (key a < key b))
    (hs : rev.Pairwise (fun a b => key b ≤ key a)) :
    (ids.foldl (fun rev x => insertionStep less x rev) rev).Pairwise
      (fun a b => key b ≤ key a) := by
  induction ids generalizing rev with
  | nil => exact hs
  | cons x ids ih =>
    rw [List.foldl_cons]
    have hsub : ∀ a, a ∈ ids ++ insertionStep less x rev → a ∈ x :: ids ++ rev := by
      intro a ha
      rw [List.mem_append] at ha
      rcases ha with ha | ha
      · simp [ha]
      · have := (insertionStep_perm less x rev).subset ha
        rw [List.mem_cons] at this
        rcases this with rfl | h
        · simp
        · simp [h]
    refine ih _ (fun a ha b hb => hless a (hsub a ha) b (hsub b hb)) ?_
    exact insertionStep_sorted less key x rev
      (fun a ha b hb => hless a (by
        rw [List.mem_cons] at ha
        rcases ha with rfl | ha
        · simp
        · simp [ha]) b (by
        rw [List.mem_cons] at hb
        rcases hb with rfl | hb
        · simp
        · simp [hb])) hs

/-- The insertion sort puts the list in ascending order of a rational key whenever the
comparator is the strict order of the keys on the members of the list. -/
theorem IISBy_Sort_sorted {α : Type} (less : α → α → Bool) (key : α → ℚ) (ids : List α)
    (hless : ∀ a ∈ ids, ∀ b ∈ ids, less a b = decide (key a < key b)) :
    (IISBy_Sort less ids).Pairwise (fun a b => key a ≤ key b) := by
  unfold IISBy_Sort
  rw [List.pairwise_reverse]
  exact foldl_insertionStep_sorted less key ids []
    (fun a ha b hb => hless a (by simpa using ha) b (by simpa using hb)) List.Pairwise.nil

/-- C22 (as amended): with `TileInOrder_ExactOrder` set the images are tiled in the order
of the layout; otherwise, on a layout with one `imageInfo` entry per image and finite
dimensions, they are tiled in a permutation of that order that is ascending in the dimension
along the lines, the fixed axis: x for rows, y for columns. -/
theorem calculatePositions_TileInOrder_order_spec (l : ImageLayout) :
    (l.parameters.others.TileInOrder_ExactOrder = true →
      calculatePositions_TileInOrder_order l = some l.images) ∧
    (l.parameters.others.TileInOrder_ExactOrder = false →
      l.images.length = l.imageInfo.len →
      (∀ img ∈ l.images, ∃ q : ℚ,
        (l.DimensionsOf img).Dim (if l.parameters.others.TileInOrder_Columns then 1 else 0) =
          F64.num q) →
      ∃ order, calculatePositions_TileInOrder_order l = some order ∧ order.Perm l.images ∧
        order.Pairwise (fun a b =>
          F64.le
            ((l.DimensionsOf a).Dim (if l.parameters.others.TileInOrder_Columns then 1 else 0))
            ((l.DimensionsOf b).Dim (if l.parameters.others.TileInOrder_Columns then 1 else 0)) =
            true)) := by
  constructor
  · intro h
    simp [calculatePositions_TileInOrder_order, ImageLayout.Parameters, h, ImageLayout.Images]
  · intro h hlen hfin
    generalize hfd : (if l.parameters.others.TileInOrder_Columns then (1 : Int) else 0) = fd
      at hfin ⊢
    have himg : l.Images true = some l.images := by
      simp [ImageLayout.Images, hlen]
    let key : ImageIdentifier → ℚ := fun img =>
      match (l.DimensionsOf img).Dim fd with
      | F64.num q => q
      | _ => 0
    have hkey : ∀ img ∈ l.images, (l.DimensionsOf img).Dim fd = F64.num (key img) := by
      intro img hi
      obtain ⟨q, hq⟩ := hfin img hi
      simp only [key, hq]
    refine ⟨_, ?_, IISBy_Sort_perm
      (fun lhs rhs => F64.lt ((l.DimensionsOf lhs).Dim fd) ((l.DimensionsOf rhs).Dim fd))
      l.images, ?_⟩
    · simp only [calculatePositions_TileInOrder_order, ImageLayout.Parameters, h,
        Bool.false_eq_true, if_false, himg, hfd]
    · have hs := IISBy_Sort_sorted
        (fun lhs rhs => F64.lt ((l.DimensionsOf lhs).Dim fd) ((l.DimensionsOf rhs).Dim fd))
        key l.images (by
          intro a ha b hb
          simp only [hkey a ha, hkey b hb, F64.lt])
      have hp := IISBy_Sort_perm
        (fun lhs rhs => F64.lt ((l.DimensionsOf lhs).Dim fd) ((l.DimensionsOf rhs).Dim fd))
        l.images
      refine List.Pairwise.imp_of_mem ?_ hs
      intro a b ha hb hab
      rw [hkey a (hp.subset ha), hkey b (hp.subset hb)]
      simpa [F64.le] using hab

/-- C22 (as amended) at the layout `wideTallTiling`. -/
theorem calculatePositions_TileInOrder_order_spec_witness :
    wideTallTiling.parameters.others.TileInOrder_ExactOrder = false ∧
    wideTallTiling.images.length = wideTallTiling.imageInfo.len ∧
    ∃ order, calculatePositions_TileInOrder_order wideTallTiling = some order ∧
      order.Perm wideTallTiling.images ∧
      order.Pairwise (fun a b =>
        F64.le
          ((wideTallTiling.DimensionsOf a).Dim
            (if wideTallTiling.parameters.others.TileInOrder_Columns then 1 else 0))
          ((wideTallTiling.DimensionsOf b).Dim
            (if wideTallTiling.parameters.others.TileInOrder_Columns then 1 else 0)) = true) :=
  ⟨by decide, by decide,
    (calculatePositions_TileInOrder_order_spec wideTallTiling).2 (by decide) (by decide)
      (by
        intro img hi
        have him : wideTallTiling.images = [0, 1] := by decide
        rw [him] at hi
        have : img = 0 ∨ img = 1 := by simpa using hi
        rcases this with rfl | rfl
        · exact ⟨100, by decide!⟩
        · exact ⟨50, by decide!⟩)⟩

/-- C22, counterexample: in rows and not in exact order, the 100 by 50 image 0 and the 50 by
100 image 1 are tiled in the order 1, 0, ascending in x, although image 0 has the smaller
dimension on the variable axis y. -/
theorem calculatePositions_TileInOrder_order_counterexample :
    calculatePositions_TileInOrder_order wideTallTiling = some [1, 0] ∧
      F64.lt (wideTallTiling.DimensionsOf 0).Y (wideTallTiling.DimensionsOf 1).Y = true := by
  decide!

theorem calculatePositions_TileInOrder_order_mem (l : ImageLayout)
    (hwf : l.images.length ≤ l.imageInfo.len) :
    ∃ order, calculatePositions_TileInOrder_order l = some order ∧
      ∀ img ∈ l.images, img ∈ order := by
  unfold calculatePositions_TileInOrder_order
  by_cases h : l.Parameters.others.TileInOrder_ExactOrder = true
  · exact ⟨l.images, by simp [h, ImageLayout.Images], fun _ hi => hi⟩
  · simp only [h, Bool.false_eq_true, if_false, ImageLayout.Images, Bool.not_true, hwf, if_true]
    refine ⟨_, rfl, ?_⟩
    intro img hi
    refine (IISBy_Sort_perm _ _).symm.subset ?_
    exact List.mem_append_left _ hi

/-- C21: on a layout with no more images than `imageInfo` entries, when some image has a
cropping geometry with a width, a height or an offset, `calculatePositions_TileInOrder`
returns with an error (for every bound on its loops, which it does not reach), and the
layout passed in keeps its positions and its canvas size. -/
theorem calculatePositions_TileInOrder_cropping (l : ImageLayout) (fuel : Nat)
    (img : ImageIdentifier) (hmem : img ∈ l.images)
    (hcrop : (l.CroppingOf img).HasSize = true ∨ (l.CroppingOf img).HasOffset = true)
    (hwf : l.images.length ≤ l.imageInfo.len) :
    ∃ r, calculatePositions_TileInOrder l fuel = TilingRun.done r ∧ r.err ≠ none ∧
      r.input.positions = l.positions ∧ r.input.size = l.size := by
  simp only [calculatePositions_TileInOrder]
  split
  · exact ⟨_, rfl, by simp, rfl, rfl⟩
  · rename_i hparsed
    generalize hg : (if F64.feq l.Parameters.AspectRatio.1 F64.zero = true then
        ParseGeometry
          (sprintf_f (F64.div (getDimensionsRange l true).2.2.X (getDimensionsRange l true).2.2.Y) ++
            'x' :: sprintf_f (F64.num 1))
      else (l.Parameters.aspectRatio, none)).1 = g
    obtain ⟨order, ho, hin⟩ := calculatePositions_TileInOrder_order_mem
      { l with parameters := { l.parameters with aspectRatio := g } } hwf
    simp only [ho]
    have hany : order.any (fun img =>
        (ImageLayout.CroppingOf { l with parameters := { l.parameters with aspectRatio := g } }
          img).HasSize ||
        (ImageLayout.CroppingOf { l with parameters := { l.parameters with aspectRatio := g } }
          img).HasOffset) = true := by
      rw [List.any_eq_true]
      refine ⟨img, hin img hmem, ?_⟩
      have : ImageLayout.CroppingOf
          { l with parameters := { l.parameters with aspectRatio := g } } img =
          l.CroppingOf img := rfl
      rw [this]
      rcases hcrop with h | h <;> simp [h]
    rw [if_pos hany]
    exact ⟨_, rfl, by simp, rfl, rfl⟩

/-- C21 at the layout `croppedTiling`, whose second image is cropped. -/
theorem calculatePositions_TileInOrder_cropping_witness :
    (1 : ImageIdentifier) ∈ croppedTiling.images ∧
    ((croppedTiling.CroppingOf 1).HasSize = true ∨
      (croppedTiling.CroppingOf 1).HasOffset = true) ∧
    croppedTiling.images.length ≤ croppedTiling.imageInfo.len ∧
    ∃ r, calculatePositions_TileInOrder croppedTiling 0 = TilingRun.done r ∧ r.err ≠ none ∧
      r.input.positions = croppedTiling.positions ∧ r.input.size = croppedTiling.size :=
  ⟨by decide, Or.inl (by decide!), by decide,
    calculatePositions_TileInOrder_cropping croppedTiling 0 1 (by decide) (Or.inl (by decide!))
      (by decide)⟩

set_option maxRecDepth 1000000 in
/-- C25 (as amended): for two 100 by 100 images with zero padding, no limits on the canvas,
no aspect ratio, rows and exact order, `calculatePositions_TileInOrder` returns without
error the layout with canvas 100 by 200, the images at (0,0) and (0,100), both with the
scaling geometry `100x100!`; the aspect ratio of the parameters is left at `1x1`. -/
theorem calculatePositions_TileInOrder_two_squares :
    calculatePositions_TileInOrder twoSquaresTiling 40 =
      TilingRun.done
        { input := { twoSquaresTiling with parameters := twoSquaresTiled.parameters }
          il := some twoSquaresTiled
          err := none } := by
  decide!

set_option maxRecDepth 1000000 in
/-- C25, counterexample: the layout returned for the two 100 by 100 images is not the row
of canvas 200 by 100 with the images at (0,0) and (100,0). -/
theorem calculatePositions_TileInOrder_two_squares_counterexample :
    calculatePositions_TileInOrder twoSquaresTiling 40 ≠
      TilingRun.done
        { input := { twoSquaresTiling with parameters := twoSquaresTiled.parameters }
          il := some twoSquaresInRow
          err := none } := by
  decide!

set_option maxRecDepth 100000 in
/-- C26: for four 50 by 50 images with zero padding, no limits on the canvas and the aspect
ratio `1x1!`, `calculatePositions_TileInOrder` in rows returns without error the layout with
canvas 100 by 100, every image 50 by 50 (scaling geometry `50x50!`), at (0,0), (50,0),
(0,50) and (50,50). -/
theorem calculatePositions_TileInOrder_four_squares :
    calculatePositions_TileInOrder fourSquaresTiling 10 =
      TilingRun.done { input := fourSquaresTiling, il := some fourSquaresTiled, err := none } ∧
    fourSquaresTiled.CanvasSize = NewDims (F64.num 100) (F64.num 100) ∧
    (∀ img ∈ fourSquaresTiled.images,
      fourSquaresTiled.DimensionsOf img = NewDims (F64.num 50) (F64.num 50)) ∧
    fourSquaresTiled.images.map fourSquaresTiled.PositionOf =
      [NewDims (F64.num 0) (F64.num 0), NewDims (F64.num 50) (F64.num 0),
        NewDims (F64.num 0) (F64.num 50), NewDims (F64.num 50) (F64.num 50)] := by
  decide!

set_option maxRecDepth 100000 in
/-- C27: for one 100 by 100 image with the aspect ratio `1x1` (not strict) and a canvas at
least 500 high, no width evaluated gives a canvas inside the limits, and
`calculatePositions_TileInOrder` stops in a run-time panic instead of returning the error
`could not find a usable canvas size within these limits`. -/
theorem calculatePositions_TileInOrder_nil_dereference :
    calculatePositions_TileInOrder tallMinimumTiling 10 = TilingRun.crash := by
  decide!

/-! ## Tiling in order: the lines of one tiling -/

theorem digitsVal_fixedDigits (w n : Nat) : digitsVal (fixedDigits w n) = n % 10 ^ w := by
  induction w generalizing n with
  | zero => simp [fixedDigits, digitsVal, Nat.mod_one]
  | succ w ih =>
    rw [fixedDigits, digitsVal_append, ih, digitVal_digitChar _ (Nat.mod_lt _ (by norm_num))]
    rw [pow_succ, mul_comm (10 ^ w) 10, Nat.mod_mul]
    omega

theorem roundHalfEven_close (q : ℚ) (hq : 0 ≤ q) :
    |(roundHalfEven q : ℚ) - q| ≤ 1 / 2 := by
  have hfl : ((⌊q⌋.toNat : Nat) : ℚ) = (⌊q⌋ : ℚ) := by
    have : (0 : Int) ≤ ⌊q⌋ := Int.floor_nonneg.mpr hq
    have h2 : ((⌊q⌋.toNat : Int)) = ⌊q⌋ := Int.toNat_of_nonneg this
    exact_mod_cast congrArg (fun z : Int => (z : ℚ)) h2
  have h1 := Int.floor_le q
  have h2 := Int.lt_floor_add_one q
  unfold roundHalfEven
  simp only
  rw [abs_le]
  split_ifs with c1 c2 c3
  · rw [hfl] at c1 ⊢
    constructor <;> linarith
  · rw [hfl] at c2
    push_cast
    rw [hfl]
    constructor <;> linarith
  · rw [hfl] at c1 c2 ⊢
    constructor <;> linarith
  · rw [hfl] at c1 c2
    push_cast
    rw [hfl]
    constructor <;> linarith

theorem round6_close (q : ℚ) (hq : 0 ≤ q) : |round6 q - q| ≤ 1 / 2000000 := by
  have h := roundHalfEven_close (q * 1000000) (by positivity)
  unfold round6
  rw [abs_le] at h ⊢
  constructor <;> linarith [h.1, h.2]

theorem round6_nonneg (q : ℚ) : 0 ≤ round6 q := by
  unfold round6
  positivity

/-- The text `%f` prints for a non-negative number is a well-formed number whose value is
the number rounded to six decimals. -/
theorem sprintf_f_numeral (q : ℚ) (hq : 0 ≤ q) :
    ∃ m : Numeral, m.valid = true ∧ sprintf_f (F64.num q) = m.text ∧ m.value = round6 q := by
  have habs : |q| = q := abs_of_nonneg hq
  obtain ⟨h1, h2, h5⟩ := natToDec_spec (roundHalfEven (|q| * 1000000) / 1000000)
  obtain ⟨h3, h4⟩ := fixedDigits_spec 6 (roundHalfEven (|q| * 1000000) % 1000000)
  have hv : (⟨natToDec (roundHalfEven (|q| * 1000000) / 1000000),
      some (fixedDigits 6 (roundHalfEven (|q| * 1000000) % 1000000))⟩ : Numeral).valid =
      true := by
    refine valid_of_digits _ _ h1 h2 ?_
    intro f hf
    cases hf
    refine ⟨?_, h4⟩
    intro h0
    rw [h0] at h3
    simp at h3
  have hq' : ¬ q < 0 := not_lt.mpr hq
  refine ⟨_, hv, by simp [sprintf_f, hq', Numeral.text, Numeral.fracText], ?_⟩
  simp only [Numeral.value, h5, h3, digitsVal_fixedDigits, round6]
  rw [habs]
  generalize roundHalfEven (q * 1000000) = n
  have hn := Nat.div_add_mod n 1000000
  have e1 : n % 1000000 % 10 ^ 6 = n % 1000000 := by
    norm_num
  rw [e1]
  have hc : ((n : ℚ)) = 1000000 * ((n / 1000000 : Nat) : ℚ) + ((n % 1000000 : Nat) : ℚ) := by
    exact_mod_cast hn.symm
  rw [hc]
  norm_num
  ring

/-- `MustParseGeometry` on the text `WxH!` printed with `%f` from two non-negative numbers
below the overflow threshold: the geometry of the two numbers rounded to six decimals. -/
theorem MustParseGeometry_sprintf (a b : ℚ) (ha : 0 ≤ a) (hb : 0 ≤ b)
    (ra : round6 a < float64Overflow) (rb : round6 b < float64Overflow) :
    MustParseGeometry (sprintf_f (F64.num a) ++ ('x' :: sprintf_f (F64.num b)) ++ ['!']) =
      some (stretchTo (stored6 a) (stored6 b)) := by
  unfold MustParseGeometry
  obtain ⟨ma, va, ta, ea⟩ := sprintf_f_numeral a ha
  obtain ⟨mb, vb, tb, eb⟩ := sprintf_f_numeral b hb
  have h := (ParseGeometry_text ⟨some ma, some (some mb), none, none, false, true,
      GeometryScaling.ScaleAlways⟩
    (by simp [GeometryText.valid, GeometryText.optValid, GeometryText.hNumeral,
      GeometryText.offsetNumeral, va, vb])
    (by simp [GeometryText.canonical])
    (by
      have := Numeral.text_ne_nil ma va
      simp [GeometryText.text, optText, this])).1
    (by simp [GeometryText.inRange, GeometryText.optInRange, GeometryText.hNumeral,
      GeometryText.offsetNumeral, ea, eb, ra, rb])
  have ht : (⟨some ma, some (some mb), none, none, false, true,
      GeometryScaling.ScaleAlways⟩ : GeometryText).text =
      sprintf_f (F64.num a) ++ ('x' :: sprintf_f (F64.num b)) ++ ['!'] := by
    simp [GeometryText.text, GeometryText.hText, offsetText, optText,
      GeometryText.percentText, GeometryText.bangText, GeometryText.scalingText, ta, tb]
  rw [ht] at h
  rw [h]
  simp [GeometryText.geometry, GeometryText.optValue, GeometryText.offsetValue,
    GeometryText.units, GeometryText.hNumeral, stretchTo, EmptyGeometry, ea, eb, stored6]

theorem stretchTo_ScaleAndCrop (a b : ℚ) (original : Dims) (cropping : Geometry)
    (hc : cropping.HasOffset = false) :
    ScaleAndCrop original cropping (stretchTo a b) = ⟨F64.num a, F64.num b⟩ := by
  simp [ScaleAndCrop, Geometry.Crop, hc, Geometry.Scale, Geometry.scaleUnits, stretchTo,
    EmptyGeometry, Geometry.HasWidth, Geometry.HasHeight, F64.isNaN,
    Geometry.PreserveAspectRatio, NewDims]

theorem axes_runOneTiling (dim : Dims) :
    Axes (runOneTiling_fixedDim dim) (runOneTiling_varDim dim) := by
  unfold Axes runOneTiling_fixedDim runOneTiling_varDim
  by_cases h : F64.gt dim.Y F64.zero = true
  · simp [h]
  · simp [h]

theorem Dims_ext_axes {fd vd : Int} (h : Axes fd vd) (d e : Dims)
    (h1 : d.Dim fd = e.Dim fd) (h2 : d.Dim vd = e.Dim vd) : d = e := by
  obtain ⟨dx, dy⟩ := d
  obtain ⟨ex, ey⟩ := e
  rcases h with ⟨rfl, rfl⟩ | ⟨rfl, rfl⟩ <;> simp_all [Dims.Dim]

theorem Dim_SetDim_axes {fd vd : Int} (h : Axes fd vd) (a b : F64) :
    (((NewDims F64.zero F64.zero).SetDim fd a).SetDim vd b).Dim fd = a ∧
      (((NewDims F64.zero F64.zero).SetDim fd a).SetDim vd b).Dim vd = b := by
  rcases h with ⟨rfl, rfl⟩ | ⟨rfl, rfl⟩ <;> simp [Dims.Dim, Dims.SetDim, NewDims]

theorem SetDim_xy {fd vd : Int} (h : Axes fd vd) (a b : F64) :
    (fd = 0 ∧ ((NewDims F64.zero F64.zero).SetDim fd a).SetDim vd b = ⟨a, b⟩) ∨
    (fd = 1 ∧ ((NewDims F64.zero F64.zero).SetDim fd a).SetDim vd b = ⟨b, a⟩) := by
  rcases h with ⟨rfl, rfl⟩ | ⟨rfl, rfl⟩ <;> simp [Dims.SetDim, NewDims]

theorem round6_in_range (q : ℚ) (hq : 0 ≤ q) (hb : q ≤ 2 ^ 63) : round6 q < float64Overflow := by
  have h1 := round6_close q hq
  rw [abs_le] at h1
  have h2 := float64Overflow_large
  have h3 : (2 : ℚ) ^ 64 = 2 * 2 ^ 63 := by norm_num
  have h4 : (1 : ℚ) ≤ 2 ^ 63 := one_le_pow₀ (by norm_num)
  linarith [h1.2]

/-- A number of at least a millionth is stored as a positive number. -/
theorem stored6_pos (q : ℚ) (h : 1 / 1000000 ≤ q) : 0 < stored6 q := by
  unfold stored6
  apply float64Nearest_pos
  have h1 : (1 : ℚ) ≤ q * 1000000 := by linarith
  have h2 : (1 : Int) ≤ ⌊q * 1000000⌋ := Int.le_floor.mpr (by exact_mod_cast h1)
  have h3 := floor_le_roundHalfEven (q * 1000000)
  have h4 : 1 ≤ roundHalfEven (q * 1000000) := by omega
  have h5 : (1 : ℚ) ≤ (roundHalfEven (q * 1000000) : ℚ) := by exact_mod_cast h4
  have h6 : (1 : ℚ) / 1000000 ≤ round6 q := by
    unfold round6
    apply div_le_div_of_nonneg_right h5
    norm_num
  have h7 : (2 : ℚ) ^ (-1022 : Int) ≤ (2 : ℚ) ^ (-20 : Int) :=
    zpow_le_zpow_right₀ (by norm_num) (by norm_num)
  have h8 : (2 : ℚ) ^ (-20 : Int) ≤ 1 / 1000000 := by
    rw [zpow_neg]
    norm_num
  exact le_trans h7 (le_trans h8 h6)

/-- A padding geometry that is not negative, read on the axes of a tiling. -/
theorem NonnegPadding_axes {fd vd : Int} (h : Axes fd vd) (g : Geometry) (hg : NonnegPadding g)
    (d : Dims) (a b : ℚ) (ha : d.Dim fd = F64.num a) (hb : d.Dim vd = F64.num b)
    (ha0 : 0 < a) (hb0 : 0 < b) :
    ∃ pf pv : ℚ, 0 ≤ pf ∧ 0 ≤ pv ∧ (g.Scale d).Dim fd = F64.num pf ∧
      (g.Scale d).Dim vd = F64.num pv := by
  obtain ⟨dx, dy⟩ := d
  rcases h with ⟨rfl, rfl⟩ | ⟨rfl, rfl⟩
  · simp only [Dims.Dim] at ha hb
    simp at ha hb
    subst ha hb
    obtain ⟨px, py, h1, h2, e⟩ := hg a b ha0 hb0
    exact ⟨px, py, h1, h2, by rw [e]; simp [Dims.Dim], by rw [e]; simp [Dims.Dim]⟩
  · simp only [Dims.Dim] at ha hb
    simp at ha hb
    subst ha hb
    obtain ⟨px, py, h1, h2, e⟩ := hg b a hb0 ha0
    exact ⟨py, px, h2, h1, by rw [e]; simp [Dims.Dim], by rw [e]; simp [Dims.Dim]⟩

/-- A padding written in pixels that keeps the aspect ratio is finite and not negative on
every image of positive dimensions. -/
theorem NonnegPadding_pixels (w h : ℚ) (hw : 0 ≤ w) (hh : 0 ≤ h) :
    NonnegPadding { EmptyGeometry with
      width := ⟨F64.num w, GeometryUnits.Pixels⟩, height := ⟨F64.num h, GeometryUnits.Pixels⟩ } := by
  intro x y hx hy
  have hy' : y ≠ 0 := ne_of_gt hy
  have hxy : x / y ≠ 0 := ne_of_gt (by positivity)
  refine ⟨Min.min w (h * (x / y)), Min.min h (w / (x / y)), ?_, ?_, ?_⟩
  · exact le_min hw (by positivity)
  · exact le_min hh (by positivity)
  · simp [Geometry.Scale, Geometry.scaleUnits, EmptyGeometry, Geometry.HasWidth,
      Geometry.HasHeight, F64.isNaN, Geometry.PreserveAspectRatio, NewDims, Dims.X, Dims.Y,
      F64.div_num _ _ hy', F64.div_num _ _ hxy, F64.mul_num, F64.min_num]

theorem Padding_congr (cl cl' : ImageLayout) (img : ImageIdentifier)
    (h1 : cl'.parameters = cl.parameters) (h2 : cl'.DimensionsOf img = cl.DimensionsOf img) :
    Padding cl' img = Padding cl img := by
  simp only [Padding, ImageLayout.Parameters, h1, h2]

/-- The body of the loop of `finalizeTiling_line` on an image of positive dimensions `f`
along the line and `v` across it, when neither of the new dimensions is stored as zero: the
image gets the dimensions of the line as they are stored and a padding that is not negative,
it is placed at the cursor plus its padding, and the cursor advances by the length of the
image and twice its padding. -/
theorem finalizeTiling_image_spec {fd vd : Int} (h : Axes fd vd) (line : tileLine)
    (t y c f v : ℚ) (cl : ImageLayout) (img : ImageIdentifier) (info : ImageInfo)
    (ht : line.fixedDim = F64.num t) (ht0 : 0 ≤ t)
    (hinfo : List.lookup img cl.imageInfo = some info)
    (hcrop : (cl.CroppingOf img).HasOffset = false)
    (hf : (cl.DimensionsOf img).Dim fd = F64.num f)
    (hv : (cl.DimensionsOf img).Dim vd = F64.num v) (hf0 : 0 < f) (hv0 : 0 < v)
    (hg : NonnegPadding cl.parameters.padding)
    (hs1 : 0 < stored6 (f * t / v)) (hs2 : 0 < stored6 t)
    (hr1 : f * t / v ≤ 2 ^ 63) (hr2 : t ≤ 2 ^ 63) :
    ∃ cl' pf pv, 0 ≤ pf ∧ 0 ≤ pv ∧
      finalizeTiling_image line (F64.num y) fd vd (some (cl, F64.num c)) img =
        some (cl', F64.num (c + (f * t / v + 2 * pf))) ∧
      cl'.parameters = cl.parameters ∧ cl'.imageInfo = cl.imageInfo ∧
      cl'.cropping = cl.cropping ∧ cl'.size = cl.size ∧
      (cl'.DimensionsOf img).Dim fd = F64.num (stored6 (f * t / v)) ∧
      (cl'.DimensionsOf img).Dim vd = F64.num (stored6 t) ∧
      (Padding cl' img).Dim fd = F64.num pf ∧ (Padding cl' img).Dim vd = F64.num pv ∧
      (cl'.PositionOf img).Dim fd = F64.num (c + pf) ∧
      (cl'.PositionOf img).Dim vd = F64.num (y + pv) ∧
      ∀ j, j ≠ img → cl'.DimensionsOf j = cl.DimensionsOf j ∧
        cl'.PositionOf j = cl.PositionOf j := by
  have hlen0 : 0 ≤ f * t / v := by positivity
  have hv' : v ≠ 0 := ne_of_gt hv0
  have hnew := Dim_SetDim_axes h
    (F64.div (F64.mul ((cl.DimensionsOf img).Dim fd) line.fixedDim) ((cl.DimensionsOf img).Dim vd))
    line.fixedDim
  rw [hf, hv, ht, F64.mul_num, F64.div_num _ _ hv'] at hnew
  have hxy := SetDim_xy h
    (F64.div (F64.mul ((cl.DimensionsOf img).Dim fd) line.fixedDim) ((cl.DimensionsOf img).Dim vd))
    line.fixedDim
  rw [hf, hv, ht, F64.mul_num, F64.div_num _ _ hv'] at hxy
  have hcrop' : (IdMap.get cl.cropping Geometry.zeroValue img).HasOffset = false := hcrop
  simp only [finalizeTiling_image, finalizeTiling_dims]
  rcases hxy with ⟨hfd, hxy⟩ | ⟨hfd, hxy⟩
  · have hvd : vd = 1 := by
      rcases h with ⟨_, h2⟩ | ⟨h1, _⟩
      · exact h2
      · omega
    subst hfd hvd
    obtain ⟨px, py, hp1, hp2, hS⟩ := hg _ _ hs1 hs2
    rw [hf, hv, ht, F64.mul_num, F64.div_num _ _ hv']
    simp only [hxy, Dims.X, Dims.Y,
      MustParseGeometry_sprintf (f * t / v) t hlen0 ht0 (round6_in_range _ hlen0 hr1)
        (round6_in_range _ ht0 hr2)]
    simp only [ImageLayout.SetScaling, hinfo, IdMap.get_set_self,
      stretchTo_ScaleAndCrop _ _ _ _ hcrop', ImageLayout.SetPosition, Padding,
      ImageLayout.Parameters, Parameters.Padding, ImageLayout.DimensionsOf, hS]
    refine ⟨_, px, py, hp1, hp2, rfl, rfl, rfl, rfl, rfl, ?_, ?_, ?_, ?_, ?_, ?_, ?_⟩
    · simp [IdMap.get_set_self, Dims.Dim]
    · simp [IdMap.get_set_self, Dims.Dim]
    · simp [IdMap.get_set_self, hS, Dims.Dim]
    · simp [IdMap.get_set_self, hS, Dims.Dim]
    · simp [ImageLayout.PositionOf, IdMap.get_set_self, Dims.Dim, Dims.SetDim, NewDims,
        F64.add_num]
    · simp [ImageLayout.PositionOf, IdMap.get_set_self, Dims.Dim, Dims.SetDim, NewDims,
        F64.add_num]
    · intro j hj
      simp [ImageLayout.PositionOf, IdMap.get_set_ne _ _ _ _ _ hj]
  · have hvd : vd = 0 := by
      rcases h with ⟨h1, _⟩ | ⟨_, h2⟩
      · omega
      · exact h2
    subst hfd hvd
    obtain ⟨px, py, hp1, hp2, hS⟩ := hg _ _ hs2 hs1
    rw [hf, hv, ht, F64.mul_num, F64.div_num _ _ hv']
    simp only [hxy, Dims.X, Dims.Y,
      MustParseGeometry_sprintf t (f * t / v) ht0 hlen0 (round6_in_range _ ht0 hr2)
        (round6_in_range _ hlen0 hr1)]
    simp only [ImageLayout.SetScaling, hinfo, IdMap.get_set_self,
      stretchTo_ScaleAndCrop _ _ _ _ hcrop', ImageLayout.SetPosition, Padding,
      ImageLayout.Parameters, Parameters.Padding, ImageLayout.DimensionsOf, hS]
    refine ⟨_, py, px, hp2, hp1, rfl, rfl, rfl, rfl, rfl, ?_, ?_, ?_, ?_, ?_, ?_, ?_⟩
    · simp [IdMap.get_set_self, Dims.Dim]
    · simp [IdMap.get_set_self, Dims.Dim]
    · simp [IdMap.get_set_self, hS, Dims.Dim]
    · simp [IdMap.get_set_self, hS, Dims.Dim]
    · simp [ImageLayout.PositionOf, IdMap.get_set_self, Dims.Dim, Dims.SetDim, NewDims,
        F64.add_num]
    · simp [ImageLayout.PositionOf, IdMap.get_set_self, Dims.Dim, Dims.SetDim, NewDims,
        F64.add_num]
    · intro j hj
      simp [ImageLayout.PositionOf, IdMap.get_set_ne _ _ _ _ _ hj]

theorem LinePlaced_congr (cl cl' : ImageLayout) (fd vd : Int) (fQ vQ : ImageIdentifier → ℚ)
    (t c y : ℚ) (images : List ImageIdentifier)
    (hpar : cl'.parameters = cl.parameters)
    (hsame : ∀ img ∈ images, cl'.DimensionsOf img = cl.DimensionsOf img ∧
      cl'.PositionOf img = cl.PositionOf img)
    (h : LinePlaced cl fd vd fQ vQ t c y images) :
    LinePlaced cl' fd vd fQ vQ t c y images := by
  obtain ⟨h1, h2, h3⟩ := h
  have hpad : ∀ img ∈ images, Padding cl' img = Padding cl img := fun img hi =>
    Padding_congr cl cl' img hpar (hsame img hi).1
  refine ⟨?_, ?_, ?_⟩
  · intro img hi
    rw [(hsame img hi).1, (hsame img hi).2, hpad img hi]
    exact h1 img hi
  · intro a ha
    have hm : a ∈ images := List.mem_of_mem_head? ha
    rw [(hsame a hm).2, hpad a hm]
    exact h2 a ha
  · rw [List.chain'_iff_get] at h3 ⊢
    intro i hi
    have m1 : images.get ⟨i, by omega⟩ ∈ images := List.get_mem _ _ _
    have m2 : images.get ⟨i + 1, by omega⟩ ∈ images := List.get_mem _ _ _
    rw [(hsame _ m1).2, (hsame _ m2).2, hpad _ m1, hpad _ m2]
    exact h3 i hi

/-- The loop of `finalizeTiling_line` on distinct images that are ready: it ends with every
image of the line placed, the rest of the layout untouched. -/
theorem finalizeTiling_fold_spec {fd vd : Int} (h : Axes fd vd) (line : tileLine)
    (fQ vQ : ImageIdentifier → ℚ) (t y : ℚ) (ht : line.fixedDim = F64.num t)
    (ht0 : 0 ≤ t) (hr2 : t ≤ 2 ^ 63) (hs2 : 0 < stored6 t) :
    ∀ (images : List ImageIdentifier) (cl : ImageLayout) (c : ℚ), images.Nodup →
      (∀ img ∈ images, TileReady cl fd vd fQ vQ img ∧ fQ img * t / vQ img ≤ 2 ^ 63 ∧
        0 < stored6 (fQ img * t / vQ img)) →
      NonnegPadding cl.parameters.padding →
      ∃ cl' c', images.foldl (finalizeTiling_image line (F64.num y) fd vd)
          (some (cl, F64.num c)) = some (cl', F64.num c') ∧ c ≤ c' ∧
        cl'.parameters = cl.parameters ∧ cl'.imageInfo = cl.imageInfo ∧
        cl'.cropping = cl.cropping ∧ cl'.size = cl.size ∧
        (∀ j, j ∉ images → cl'.DimensionsOf j = cl.DimensionsOf j ∧
          cl'.PositionOf j = cl.PositionOf j) ∧
        LinePlaced cl' fd vd fQ vQ t c y images := by
  intro images
  induction images with
  | nil =>
    intro cl c _ _ _
    refine ⟨cl, c, by simp, le_refl _, rfl, rfl, rfl, rfl, fun _ _ => ⟨rfl, rfl⟩, ?_⟩
    exact ⟨fun _ hi => absurd hi (List.not_mem_nil _), fun a ha => by simp at ha,
      List.chain'_nil⟩
  | cons a images ih =>
    intro cl c hnd hready hg
    rw [List.nodup_cons] at hnd
    obtain ⟨⟨ha1, ha2, ha3, ha4, ha5, ha6⟩, ha7, ha8⟩ := hready a (List.mem_cons_self _ _)
    obtain ⟨info, hinfo⟩ := Option.isSome_iff_exists.mp ha1
    obtain ⟨cl1, pf, pv, hpf0, hpv0, e1, q1, q2, q3, q4, d1, d2, k1, k2, d3, d4, fr⟩ :=
      finalizeTiling_image_spec h line t y c (fQ a) (vQ a) cl a info ht ht0 hinfo ha2 ha3
        ha4 ha5 ha6 hg ha8 hs2 ha7 hr2
    have hlen0 : 0 ≤ fQ a * t / vQ a := by positivity
    obtain ⟨cl', c', e2, hc', r1, r2, r3, r4, fr2, ⟨p1, p2, p3⟩⟩ :=
      ih cl1 (c + (fQ a * t / vQ a + 2 * pf)) hnd.2
      (by
        intro img hi
        obtain ⟨⟨b1, b2, b3, b4, b5, b6⟩, b7⟩ := hready img (List.mem_cons_of_mem _ hi)
        have hne : img ≠ a := fun e => hnd.1 (e ▸ hi)
        refine ⟨⟨?_, ?_, ?_, ?_, b5, b6⟩, b7⟩
        · rw [q2]; exact b1
        · simpa [ImageLayout.CroppingOf, q3] using b2
        · rw [(fr img hne).1]; exact b3
        · rw [(fr img hne).1]; exact b4)
      (by rw [q1]; exact hg)
    have fa := fr2 a hnd.1
    have hpa : Padding cl' a = Padding cl1 a := Padding_congr cl1 cl' a r1 fa.1
    refine ⟨cl', c', ?_, by linarith, r1.trans q1, r2.trans q2, r3.trans q3, r4.trans q4,
      ?_, ?_, ?_, ?_⟩
    · rw [List.foldl_cons, e1, e2]
    · intro j hj
      rw [List.mem_cons, not_or] at hj
      exact ⟨(fr2 j hj.2).1.trans (fr j hj.1).1, (fr2 j hj.2).2.trans (fr j hj.1).2⟩
    · intro img hi
      rw [List.mem_cons] at hi
      rcases hi with rfl | hi
      · rw [fa.1, fa.2, hpa]
        exact ⟨d1, d2, pf, pv, c + pf, hpf0, hpv0, k1, k2, d4, d3, le_refl _⟩
      · obtain ⟨g1, g2, pf', pv', p, g3, g4, g5, g6, g7, g8, g9⟩ := p1 img hi
        exact ⟨g1, g2, pf', pv', p, g3, g4, g5, g6, g7, g8, by linarith⟩
    · intro b hb
      simp only [List.head?_cons, Option.some.injEq] at hb
      subst hb
      rw [fa.2, hpa]
      exact ⟨pf, k1, d3⟩
    · rw [List.chain'_cons']
      refine ⟨?_, p3⟩
      intro b hb
      obtain ⟨pb, hb1, hb2⟩ := p2 b hb
      refine ⟨c + pf, pf, pb, by rw [hpa]; exact k1, hb1, by rw [fa.2]; exact d3, ?_⟩
      rw [hb2]
      congr 1
      ring

theorem linePadding_congr (cl cl' : ImageLayout) (vd : Int) (line : tileLine)
    (hpar : cl'.parameters = cl.parameters)
    (hsame : ∀ img ∈ line.images, cl'.DimensionsOf img = cl.DimensionsOf img) :
    linePadding cl' vd line = linePadding cl vd line := by
  unfold linePadding
  cases hl : line.images.head? with
  | none => rfl
  | some first =>
    simp only
    rw [Padding_congr cl cl' first hpar (hsame first (List.mem_of_mem_head? hl))]

/-- The function `finalizeTiling_line` on a line of distinct images that are ready: every
image of the line is placed, and the next line starts after the thickness of the line and
twice the padding of its first image. -/
theorem finalizeTiling_line_spec {fd vd : Int} (h : Axes fd vd) (line : tileLine)
    (fQ vQ : ImageIdentifier → ℚ) (t s y : ℚ) (cl : ImageLayout)
    (ht : line.fixedDim = F64.num t) (hs : line.startsAt = F64.num s)
    (ht0 : 0 ≤ t) (hr2 : t ≤ 2 ^ 63) (hs2 : 0 < stored6 t) (hne : line.images ≠ [])
    (hnd : line.images.Nodup)
    (hready : ∀ img ∈ line.images, TileReady cl fd vd fQ vQ img ∧
      fQ img * t / vQ img ≤ 2 ^ 63 ∧ 0 < stored6 (fQ img * t / vQ img))
    (hg : NonnegPadding cl.parameters.padding) :
    ∃ cl', finalizeTiling_line cl line (F64.num y) fd vd =
        some (cl', F64.num (y + t + 2 * linePadding cl' vd line)) ∧
      0 ≤ linePadding cl' vd line ∧
      cl'.parameters = cl.parameters ∧ cl'.imageInfo = cl.imageInfo ∧
      cl'.cropping = cl.cropping ∧ cl'.size = cl.size ∧
      (∀ j, j ∉ line.images → cl'.DimensionsOf j = cl.DimensionsOf j ∧
        cl'.PositionOf j = cl.PositionOf j) ∧
      LinePlaced cl' fd vd fQ vQ t s y line.images := by
  obtain ⟨cl', c', e, -, q1, q2, q3, q4, fr, hp⟩ := finalizeTiling_fold_spec h line fQ vQ t y ht
    ht0 hr2 hs2 line.images cl s hnd hready hg
  have hp' := hp
  obtain ⟨p1, -, -⟩ := hp'
  unfold finalizeTiling_line linePadding
  rw [hs, e]
  cases hl : line.images with
  | nil => exact absurd hl hne
  | cons first rest =>
    obtain ⟨-, -, pf, pv, p, -, hpv0, -, k2, -⟩ := p1 first (by rw [hl]; exact List.mem_cons_self _ _)
    refine ⟨cl', ?_, ?_, q1, q2, q3, q4, ?_, ?_⟩
    · simp only [List.head?_cons, ht, k2, F64.toRat, F64.add_num, F64.mul_num]
    · simp only [List.head?_cons, k2, F64.toRat]
      exact hpv0
    · rw [← hl]; exact fr
    · rw [← hl]; exact hp

theorem TileReady_congr (cl cl' : ImageLayout) (fd vd : Int) (fQ vQ : ImageIdentifier → ℚ)
    (img : ImageIdentifier) (h1 : cl'.imageInfo = cl.imageInfo) (h2 : cl'.cropping = cl.cropping)
    (h3 : cl'.DimensionsOf img = cl.DimensionsOf img) (h : TileReady cl fd vd fQ vQ img) :
    TileReady cl' fd vd fQ vQ img := by
  obtain ⟨b1, b2, b3, b4, b5, b6⟩ := h
  refine ⟨?_, ?_, ?_, ?_, b5, b6⟩
  · rw [h1]; exact b1
  · simpa [ImageLayout.CroppingOf, h2] using b2
  · rw [h3]; exact b3
  · rw [h3]; exact b4

/-- The loop of `finalizeTiling` on lines that are fit and share no image: it ends with
every line placed, each line at a position further across than the lines before it. -/
theorem finalizeTiling_lines_spec {fd vd : Int} (h : Axes fd vd)
    (fQ vQ : ImageIdentifier → ℚ) :
    ∀ (lines : List tileLine) (cl : ImageLayout) (y0 : ℚ),
      ((lines.map tileLine.images).flatten).Nodup →
      (∀ line ∈ lines, LineFit cl fd vd fQ vQ line) →
      NonnegPadding cl.parameters.padding →
      ∃ (cl' : ImageLayout) (Y : List ℚ),
        lines.foldl (finalizeTiling_next fd vd) (some (cl, F64.num y0)) =
          some (cl', F64.num (y0 + (lines.map
            (fun L => L.fixedDim.toRat + 2 * linePadding cl' vd L)).sum)) ∧
        cl'.parameters = cl.parameters ∧ cl'.imageInfo = cl.imageInfo ∧
        cl'.cropping = cl.cropping ∧ cl'.size = cl.size ∧
        (∀ j, j ∉ (lines.map tileLine.images).flatten → cl'.DimensionsOf j = cl.DimensionsOf j ∧
          cl'.PositionOf j = cl.PositionOf j) ∧
        List.Forall₂ (fun line y =>
          LinePlaced cl' fd vd fQ vQ line.fixedDim.toRat line.startsAt.toRat y line.images)
          lines Y ∧
        (∀ y ∈ Y, y0 ≤ y) ∧ Y.Pairwise (fun y1 y2 => y1 < y2) ∧
        (∀ line ∈ lines, 0 ≤ linePadding cl' vd line) := by
  intro lines
  induction lines with
  | nil =>
    intro cl y0 _ _ _
    exact ⟨cl, [], by simp, rfl, rfl, rfl, rfl, fun _ _ => ⟨rfl, rfl⟩, List.Forall₂.nil,
      fun _ hy => absurd hy (List.not_mem_nil _), List.Pairwise.nil,
      fun _ hl => absurd hl (List.not_mem_nil _)⟩
  | cons L lines ih =>
    intro cl y0 hnd hfit hg
    simp only [List.map_cons, List.flatten_cons] at hnd
    rw [List.nodup_append] at hnd
    obtain ⟨hnd1, hnd2, hdisj⟩ := hnd
    obtain ⟨hne, t, s, ht, ht0, htb, hst, hs, hs0, hready⟩ := hfit L (List.mem_cons_self _ _)
    obtain ⟨cl1, e1, hlp0, q1, q2, q3, q4, fr, hp⟩ := finalizeTiling_line_spec h L fQ vQ t s y0
      cl ht hs (le_of_lt ht0) htb hst hne hnd1 hready hg
    obtain ⟨cl', Y, e2, r1, r2, r3, r4, fr2, hall, hge, hpw, hlp⟩ :=
      ih cl1 (y0 + t + 2 * linePadding cl1 vd L) hnd2
      (by
        intro line hl
        obtain ⟨c1, t', s', c2, c3, c4, c5, c6, c7, c8⟩ := hfit line (List.mem_cons_of_mem _ hl)
        refine ⟨c1, t', s', c2, c3, c4, c5, c6, c7, ?_⟩
        intro img hi
        have hin : img ∈ (lines.map tileLine.images).flatten := by
          rw [List.mem_flatten]
          exact ⟨line.images, List.mem_map_of_mem _ hl, hi⟩
        have hnot : img ∉ L.images := fun hc => hdisj hc hin
        exact ⟨TileReady_congr cl cl1 fd vd fQ vQ img q2 q3 (fr img hnot).1 (c8 img hi).1,
          (c8 img hi).2⟩)
      (by rw [q1]; exact hg)
    have htr : L.fixedDim.toRat = t := by rw [ht]; rfl
    have hsr : L.startsAt.toRat = s := by rw [hs]; rfl
    have hL : LinePlaced cl' fd vd fQ vQ t s y0 L.images := by
      refine LinePlaced_congr cl1 cl' fd vd fQ vQ t s y0 L.images r1 ?_ hp
      intro img hi
      exact fr2 img (fun hc => hdisj hi hc)
    have hLp : linePadding cl' vd L = linePadding cl1 vd L :=
      linePadding_congr cl1 cl' vd L r1 (fun img hi => (fr2 img (fun hc => hdisj hi hc)).1)
    refine ⟨cl', y0 :: Y, ?_, r1.trans q1, r2.trans q2, r3.trans q3, r4.trans q4, ?_, ?_, ?_,
      ?_, ?_⟩
    · rw [List.foldl_cons]
      simp only [finalizeTiling_next, e1, e2, List.map_cons, List.sum_cons, htr, hLp]
      congr 3
      ring
    · intro j hj
      simp only [List.map_cons, List.flatten_cons, List.mem_append, not_or] at hj
      exact ⟨(fr2 j hj.2).1.trans (fr j hj.1).1, (fr2 j hj.2).2.trans (fr j hj.1).2⟩
    · refine List.Forall₂.cons ?_ hall
      rw [htr, hsr]
      exact hL
    · intro y hy
      rw [List.mem_cons] at hy
      rcases hy with rfl | hy
      · exact le_refl _
      · have := hge y hy
        linarith
    · rw [List.pairwise_cons]
      refine ⟨?_, hpw⟩
      intro y hy
      have := hge y hy
      linarith
    · intro line hl
      rw [List.mem_cons] at hl
      rcases hl with rfl | hl
      · rw [hLp]; exact hlp0
      · exact hlp line hl

theorem lineAspect_append (fQ vQ : ImageIdentifier → ℚ) (L : List ImageIdentifier)
    (a : ImageIdentifier) : lineAspect fQ vQ (L ++ [a]) = lineAspect fQ vQ L + fQ a / vQ a := by
  simp [lineAspect]

theorem lineRel_append (rel : Bool) (pQ vQ : ImageIdentifier → ℚ) (L : List ImageIdentifier)
    (a : ImageIdentifier) :
    lineRel rel pQ vQ (L ++ [a]) = lineRel rel pQ vQ L + if rel then 2 * pQ a / vQ a else 0 := by
  cases rel <;> simp [lineRel]

theorem lineAbs_append (rel : Bool) (pQ : ImageIdentifier → ℚ) (L : List ImageIdentifier)
    (a : ImageIdentifier) :
    lineAbs rel pQ (L ++ [a]) = lineAbs rel pQ L + if rel then 0 else 2 * pQ a := by
  cases rel <;> simp [lineAbs]

theorem lineAspect_nonneg (l : ImageLayout) (fd vd : Int) (fQ vQ pQ : ImageIdentifier → ℚ)
    (rel : Bool) (L : List ImageIdentifier) (h : ∀ a ∈ L, TileInput l fd vd fQ vQ pQ rel a) :
    0 ≤ lineAspect fQ vQ L ∧ 0 ≤ lineRel rel pQ vQ L ∧ 0 ≤ lineAbs rel pQ L := by
  refine ⟨?_, ?_, ?_⟩
  · apply List.sum_nonneg
    intro x hx
    obtain ⟨a, ha, rfl⟩ := List.mem_map.mp hx
    obtain ⟨-, -, h3, h4, -⟩ := h a ha
    positivity
  · unfold lineRel
    split
    · apply List.sum_nonneg
      intro x hx
      obtain ⟨a, ha, rfl⟩ := List.mem_map.mp hx
      obtain ⟨-, -, h3, h4, -, h6, -⟩ := h a ha
      positivity
    · exact le_refl _
  · unfold lineAbs
    split
    · exact le_refl _
    · apply List.sum_nonneg
      intro x hx
      obtain ⟨a, ha, rfl⟩ := List.mem_map.mp hx
      obtain ⟨-, -, h3, h4, -, h6, -⟩ := h a ha
      positivity

theorem F64_ge_zero_add (x y : F64) (hx : F64.ge x (F64.num 0) = true)
    (hy : F64.ge y (F64.num 0) = true) : F64.ge (F64.add x y) (F64.num 0) = true := by
  cases x <;> cases y <;> simp_all [F64.ge, F64.le, F64.add]
  linarith

/-- The sum of scale-downs stays non-negative over a line whose thickness is not negative
and not more than the length across the line of any of its images. -/
theorem runOneTiling_scaledown_nonneg (l : ImageLayout) (fd vd : Int)
    (fQ vQ pQ : ImageIdentifier → ℚ) (rel : Bool) (t : ℚ) (ht : 0 ≤ t) :
    ∀ (images : List ImageIdentifier) (s : F64) (sd : F64),
      F64.ge sd (F64.num 0) = true →
      (∀ a ∈ images, TileInput l fd vd fQ vQ pQ rel a ∧ t ≤ vQ a) →
      F64.ge (runOneTiling_scaledown l vd ⟨images, F64.num t, s⟩ sd) (F64.num 0) = true := by
  intro images
  induction images with
  | nil =>
    intro _ sd hsd _
    simpa [runOneTiling_scaledown] using hsd
  | cons a images ih =>
    intro s sd hsd hall
    obtain ⟨⟨h1, h2, h3, h4, -⟩, h5⟩ := hall a (List.mem_cons_self _ _)
    have hstep : F64.ge (F64.add sd (F64.sub (F64.div ((l.DimensionsOf a).Dim vd) (F64.num t))
        (F64.num 1))) (F64.num 0) = true := by
      apply F64_ge_zero_add _ _ hsd
      rw [h2]
      by_cases ht0 : t = 0
      · subst ht0
        simp [F64.div, F64.sub, F64.add, F64.neg, F64.ge, F64.le, ne_of_gt h4, h4]
      · have htp : 0 < t := lt_of_le_of_ne ht (Ne.symm ht0)
        rw [F64.div_num _ _ ht0, F64.sub_num]
        simp only [F64.ge, F64.le, decide_eq_true_eq]
        have : 1 ≤ vQ a / t := by
          rw [le_div_iff₀ htp]
          linarith
        linarith
    have := ih s _ hstep (fun b hb => hall b (List.mem_cons_of_mem _ hb))
    simpa [runOneTiling_scaledown] using this

/-- The body of the first loop of `runOneTiling` in rational numbers: the image joins the
line being filled, and the line is closed when its width reaches the budget. -/
theorem runOneTiling_step_eq (l : ImageLayout) (fd vd : Int) (w : ℚ)
    (fQ vQ pQ : ImageIdentifier → ℚ) (rel : Bool) (s : tilingState) (m : ℚ)
    (img : ImageIdentifier)
    (h1 : s.currentMinVarDim = F64.num m)
    (h2 : s.imagesAspect = F64.num (lineAspect fQ vQ s.current))
    (h3 : s.relativePaddingAspect = F64.num (lineRel rel pQ vQ s.current))
    (h4 : s.absolutePadding = F64.num (lineAbs rel pQ s.current))
    (himg : TileInput l fd vd fQ vQ pQ rel img)
    (hpos : lineAspect fQ vQ (s.current ++ [img]) + lineRel rel pQ vQ (s.current ++ [img]) ≠ 0) :
    runOneTiling_step l fd vd (F64.num w) s img =
      if w ≤ (lineAspect fQ vQ (s.current ++ [img]) + lineRel rel pQ vQ (s.current ++ [img])) *
          (if m = 0 ∨ vQ img < m then vQ img else m) + lineAbs rel pQ (s.current ++ [img]) then
        { current := []
          currentMinVarDim := F64.zero
          imagesAspect := F64.zero
          relativePaddingAspect := F64.zero
          absolutePadding := F64.zero
          scaledownSum := runOneTiling_scaledown l vd
            ⟨s.current ++ [img], F64.num ((w - lineAbs rel pQ (s.current ++ [img])) /
              (lineAspect fQ vQ (s.current ++ [img]) + lineRel rel pQ vQ (s.current ++ [img]))),
              F64.zero⟩ s.scaledownSum
          tl := s.tl.append
            ⟨s.current ++ [img], F64.num ((w - lineAbs rel pQ (s.current ++ [img])) /
              (lineAspect fQ vQ (s.current ++ [img]) + lineRel rel pQ vQ (s.current ++ [img]))),
              F64.zero⟩ }
      else
        { current := s.current ++ [img]
          currentMinVarDim := F64.num (if m = 0 ∨ vQ img < m then vQ img else m)
          imagesAspect := F64.num (lineAspect fQ vQ (s.current ++ [img]))
          relativePaddingAspect := F64.num (lineRel rel pQ vQ (s.current ++ [img]))
          absolutePadding := F64.num (lineAbs rel pQ (s.current ++ [img]))
          scaledownSum := s.scaledownSum
          tl := s.tl } := by
  obtain ⟨d1, d2, d3, d4, d5, d6, d7⟩ := himg
  have hv : vQ img ≠ 0 := ne_of_gt d4
  have hmin : (if (F64.feq (F64.num m) F64.zero || F64.lt (F64.num (vQ img)) (F64.num m)) = true
      then F64.num (vQ img) else F64.num m) =
      F64.num (if m = 0 ∨ vQ img < m then vQ img else m) := by
    by_cases c1 : m = 0
    · simp [c1, F64.feq, F64.zero]
    · by_cases c2 : vQ img < m
      · simp [c1, c2, F64.feq, F64.zero, F64.lt]
      · simp [c1, c2, F64.feq, F64.zero, F64.lt]
  have hA : F64.add (F64.num (lineAspect fQ vQ s.current))
      (F64.div (F64.num (fQ img)) (F64.num (vQ img))) =
      F64.num (lineAspect fQ vQ (s.current ++ [img])) := by
    rw [F64.div_num _ _ hv, F64.add_num, lineAspect_append]
  have hR : (if rel = true then
        F64.add (F64.num (lineRel rel pQ vQ s.current))
          (F64.div (F64.mul (F64.num 2) (F64.num (pQ img))) (F64.num (vQ img)))
      else F64.num (lineRel rel pQ vQ s.current)) =
      F64.num (lineRel rel pQ vQ (s.current ++ [img])) := by
    rw [lineRel_append]
    cases rel
    · simp
    · simp [F64.mul_num, F64.div_num _ _ hv, F64.add_num]
  have hP : (if rel = true then F64.num (lineAbs rel pQ s.current)
      else F64.add (F64.num (lineAbs rel pQ s.current))
        (F64.mul (F64.num 2) (F64.num (pQ img)))) =
      F64.num (lineAbs rel pQ (s.current ++ [img])) := by
    rw [lineAbs_append]
    cases rel
    · simp [F64.mul_num, F64.add_num]
    · simp
  unfold runOneTiling_step
  simp only [d1, d2, d5, d7, h1, h2, h3, h4]
  simp only [hmin, hA, hR, hP]
  simp only [F64.add_num, F64.mul_num, F64.sub_num, F64.div_num _ _ hpos, F64.ge, F64.le]
  by_cases hc : w ≤ (lineAspect fQ vQ (s.current ++ [img]) +
      lineRel rel pQ vQ (s.current ++ [img])) *
      (if m = 0 ∨ vQ img < m then vQ img else m) + lineAbs rel pQ (s.current ++ [img])
  · simp only [hc, decide_True, if_true]
  · simp only [hc, decide_False, if_false, Bool.false_eq_true]

theorem TilingInv_initial (l : ImageLayout) (fd vd : Int) (w : ℚ)
    (fQ vQ pQ : ImageIdentifier → ℚ) (rel : Bool) :
    TilingInv l fd vd w fQ vQ pQ rel tilingState.initial [] := by
  refine ⟨0, rfl, ?_, ?_, ?_, fun _ => rfl, fun h => absurd rfl h, ?_, rfl, ?_, ?_⟩
  · simp [tilingState.initial, lineAspect, F64.zero]
  · simp [tilingState.initial, lineRel, F64.zero]
  · simp [tilingState.initial, lineAbs, F64.zero]
  · intro a ha
    simp [tilingState.initial] at ha
  · intro line hl
    simp [tilingState.initial] at hl
  · intro _
    simp [tilingState.initial, F64.zero, F64.ge, F64.le]

/-- The body of the first loop of `runOneTiling` keeps the description `TilingInv` of its
state. -/
theorem runOneTiling_step_inv (l : ImageLayout) (fd vd : Int) (w : ℚ)
    (fQ vQ pQ : ImageIdentifier → ℚ) (rel : Bool) (s : tilingState)
    (done : List ImageIdentifier) (img : ImageIdentifier)
    (hinv : TilingInv l fd vd w fQ vQ pQ rel s done)
    (himg : TileInput l fd vd fQ vQ pQ rel img) :
    TilingInv l fd vd w fQ vQ pQ rel (runOneTiling_step l fd vd (F64.num w) s img)
      (done ++ [img]) := by
  obtain ⟨m, h1, h2, h3, h4, h5, h6, h7, h8, h9, h10⟩ := hinv
  have hall : ∀ a ∈ s.current ++ [img], TileInput l fd vd fQ vQ pQ rel a := by
    intro a ha
    rw [List.mem_append, List.mem_singleton] at ha
    rcases ha with ha | rfl
    · exact h7 a ha
    · exact himg
  obtain ⟨n1, n2, n3⟩ := lineAspect_nonneg l fd vd fQ vQ pQ rel (s.current ++ [img]) hall
  obtain ⟨o1, -, -⟩ := lineAspect_nonneg l fd vd fQ vQ pQ rel s.current h7
  obtain ⟨d1, d2, d3, d4, d5, d6, d7⟩ := himg
  have hApos : 0 < lineAspect fQ vQ (s.current ++ [img]) := by
    rw [lineAspect_append]
    have : 0 < fQ img / vQ img := by positivity
    linarith
  have hsum : 0 < lineAspect fQ vQ (s.current ++ [img]) +
      lineRel rel pQ vQ (s.current ++ [img]) := by linarith
  rw [runOneTiling_step_eq l fd vd w fQ vQ pQ rel s m img h1 h2 h3 h4
    ⟨d1, d2, d3, d4, d5, d6, d7⟩ (ne_of_gt hsum)]
  have hm' : 0 < (if m = 0 ∨ vQ img < m then vQ img else m) ∧
      ∀ a ∈ s.current ++ [img], (if m = 0 ∨ vQ img < m then vQ img else m) ≤ vQ a := by
    by_cases hcur : s.current = []
    · have hm0 := h5 hcur
      simp only [hm0, true_or, if_true, hcur, List.nil_append, List.mem_singleton]
      exact ⟨d4, fun a ha => by rw [ha]⟩
    · obtain ⟨g1, g2, -⟩ := h6 hcur
      have hm0 : m ≠ 0 := ne_of_gt g1
      by_cases hlt : vQ img < m
      · simp only [hlt, or_true, if_true]
        refine ⟨d4, ?_⟩
        intro a ha
        rw [List.mem_append, List.mem_singleton] at ha
        rcases ha with ha | rfl
        · exact le_trans (le_of_lt hlt) (g2 a ha)
        · exact le_refl _
      · simp only [hm0, hlt, or_self, if_false]
        refine ⟨g1, ?_⟩
        intro a ha
        rw [List.mem_append, List.mem_singleton] at ha
        rcases ha with ha | rfl
        · exact g2 a ha
        · exact not_lt.mp hlt
  generalize (if m = 0 ∨ vQ img < m then vQ img else m) = m' at hm' ⊢
  obtain ⟨hm'0, hm'le⟩ := hm'
  by_cases hc : w ≤ (lineAspect fQ vQ (s.current ++ [img]) +
      lineRel rel pQ vQ (s.current ++ [img])) * m' + lineAbs rel pQ (s.current ++ [img])
  · rw [if_pos hc]
    have hne : s.current ++ [img] ≠ [] := by simp
    have htle : (w - lineAbs rel pQ (s.current ++ [img])) /
        (lineAspect fQ vQ (s.current ++ [img]) + lineRel rel pQ vQ (s.current ++ [img])) ≤
        m' := by
      rw [div_le_iff₀ hsum]
      linarith
    refine ⟨0, rfl, ?_, ?_, ?_, fun _ => rfl, fun h => absurd rfl h, ?_, ?_, ?_, ?_⟩
    · simp [lineAspect, F64.zero]
    · simp [lineRel, F64.zero]
    · simp [lineAbs, F64.zero]
    · intro a ha
      simp at ha
    · simp only [tileLayout.append, List.map_append, List.map_cons, List.map_nil,
        List.flatten_append, List.flatten_cons, List.flatten_nil, List.append_nil]
      rw [← h8, List.append_assoc]
    · intro line hl
      simp only [tileLayout.append, List.mem_append, List.mem_singleton] at hl
      rcases hl with hl | rfl
      · exact h9 line hl
      · exact ⟨hne, rfl, rfl, fun a ha => le_trans htle (hm'le a ha)⟩
    · intro hnn
      simp only [tileLayout.append] at hnn
      have hold : F64.ge s.scaledownSum (F64.num 0) = true :=
        h10 (fun line hl => hnn line (List.mem_append_left _ hl))
      have htn := hnn ⟨s.current ++ [img], F64.num ((w - lineAbs rel pQ (s.current ++ [img])) /
        (lineAspect fQ vQ (s.current ++ [img]) + lineRel rel pQ vQ (s.current ++ [img]))),
        F64.zero⟩ (List.mem_append_right _ (List.mem_singleton_self _))
      simp only [F64.toRat] at htn
      exact runOneTiling_scaledown_nonneg l fd vd fQ vQ pQ rel _ htn _ _ _ hold
        (fun a ha => ⟨hall a ha, le_trans htle (hm'le a ha)⟩)
  · rw [if_neg hc]
    have hne : s.current ++ [img] ≠ [] := by simp
    refine ⟨m', rfl, rfl, rfl, rfl, fun h => absurd h hne, fun _ => ⟨hm'0, hm'le, not_le.mp hc⟩,
      hall, ?_, h9, h10⟩
    simp only
    rw [← h8, List.append_assoc]

/-- The first loop of `runOneTiling` keeps the description `TilingInv` of its state. -/
theorem runOneTiling_fold_inv (l : ImageLayout) (fd vd : Int) (w : ℚ)
    (fQ vQ pQ : ImageIdentifier → ℚ) (rel : Bool) :
    ∀ (imgs : List ImageIdentifier) (s : tilingState) (done : List ImageIdentifier),
      TilingInv l fd vd w fQ vQ pQ rel s done →
      (∀ img ∈ imgs, TileInput l fd vd fQ vQ pQ rel img) →
      TilingInv l fd vd w fQ vQ pQ rel
        (imgs.foldl (runOneTiling_step l fd vd (F64.num w)) s) (done ++ imgs) := by
  intro imgs
  induction imgs with
  | nil =>
    intro s done h _
    simpa using h
  | cons a imgs ih =>
    intro s done h hall
    rw [List.foldl_cons]
    have := ih _ _ (runOneTiling_step_inv l fd vd w fQ vQ pQ rel s done a h
      (hall a (List.mem_cons_self _ _))) (fun b hb => hall b (List.mem_cons_of_mem _ hb))
    simpa using this

theorem lineAspect_pos (l : ImageLayout) (fd vd : Int) (fQ vQ pQ : ImageIdentifier → ℚ)
    (rel : Bool) (L : List ImageIdentifier) (hne : L ≠ [])
    (h : ∀ a ∈ L, TileInput l fd vd fQ vQ pQ rel a) : 0 < lineAspect fQ vQ L := by
  cases L with
  | nil => exact absurd rfl hne
  | cons a L =>
    obtain ⟨n1, -, -⟩ := lineAspect_nonneg l fd vd fQ vQ pQ rel L
      (fun b hb => h b (List.mem_cons_of_mem _ hb))
    obtain ⟨-, -, h3, h4, -⟩ := h a (List.mem_cons_self _ _)
    have : 0 < fQ a / vQ a := by positivity
    simp only [lineAspect, List.map_cons, List.sum_cons] at n1 ⊢
    linarith

theorem aspect_le_lineAspect (l : ImageLayout) (fd vd : Int) (fQ vQ pQ : ImageIdentifier → ℚ)
    (rel : Bool) (L : List ImageIdentifier) (h : ∀ a ∈ L, TileInput l fd vd fQ vQ pQ rel a)
    (a : ImageIdentifier) (ha : a ∈ L) : fQ a / vQ a ≤ lineAspect fQ vQ L := by
  unfold lineAspect
  apply List.single_le_sum
  · intro x hx
    obtain ⟨b, hb, rfl⟩ := List.mem_map.mp hx
    obtain ⟨-, -, h3, h4, -⟩ := h b hb
    positivity
  · exact List.mem_map_of_mem _ ha

theorem Forall₂_mem_left {α β : Type} {R : α → β → Prop} :
    ∀ {l1 : List α} {l2 : List β}, List.Forall₂ R l1 l2 →
      List.Forall₂ (fun a b => a ∈ l1 ∧ R a b) l1 l2 := by
  intro l1 l2 h
  induction h with
  | nil => exact List.Forall₂.nil
  | cons hab _ ih =>
    exact List.Forall₂.cons ⟨List.mem_cons_self _ _, hab⟩
      (ih.imp (fun _ _ h => ⟨List.mem_cons_of_mem _ h.1, h.2⟩))

theorem Forall₂_exists_right {α β : Type} {R : α → β → Prop} :
    ∀ {l1 : List α} {l2 : List β}, List.Forall₂ R l1 l2 → ∀ a ∈ l1, ∃ b ∈ l2, R a b := by
  intro l1 l2 h
  induction h with
  | nil => intro a ha; exact absurd ha (List.not_mem_nil _)
  | cons hab _ ih =>
    intro a ha
    rw [List.mem_cons] at ha
    rcases ha with rfl | ha
    · exact ⟨_, List.mem_cons_self _ _, hab⟩
    · obtain ⟨b, hb, hr⟩ := ih a ha
      exact ⟨b, List.mem_cons_of_mem _ hb, hr⟩

/-- The lines of `runOneTiling` under a padding that is not negative, when every line is at
least a millionth thick and every image at least a millionth long at the thickness of its
line: the images of the lines are the images given, in order; every line is fit for
`finalizeTiling`; and `finalizeTiling` places every line, each at a position further across
than the lines before. -/
theorem runOneTiling_placed (l : ImageLayout) (imgs : List ImageIdentifier) (dim : Dims)
    (fd vd : Int) (w : ℚ)
    (hfd : runOneTiling_fixedDim dim = fd) (hvd : runOneTiling_varDim dim = vd)
    (hw : dim.Dim fd = F64.num w) (hw63 : w ≤ 2 ^ 63)
    (hg : NonnegPadding l.parameters.padding)
    (hmin : ∀ line ∈ (runOneTiling_tiling l imgs dim).lines,
      1 / 1000000 ≤ line.fixedDim.toRat ∧
      ∀ img ∈ line.images, 1 / 1000000 ≤ tileLength l fd vd line.fixedDim.toRat img)
    (hnd : imgs.Nodup)
    (himgs : ∀ img ∈ imgs, (List.lookup img l.imageInfo).isSome = true ∧
      (l.CroppingOf img).HasOffset = false ∧
      ∃ f v : ℚ, 0 < f ∧ 0 < v ∧ v ≤ 2 ^ 63 ∧ (l.DimensionsOf img).Dim fd = F64.num f ∧
        (l.DimensionsOf img).Dim vd = F64.num v) :
    ∃ (cl' : ImageLayout) (Y : List ℚ),
      finalizeTiling l (runOneTiling_tiling l imgs dim) fd vd =
        some (cl', F64.num (((runOneTiling_tiling l imgs dim).lines.map
          (fun L => L.fixedDim.toRat + 2 * linePadding cl' vd L)).sum)) ∧
      cl'.parameters = l.parameters ∧
      TilingInv l fd vd w (dimQ l fd) (dimQ l vd) (fun a => ((Padding l a).Dim fd).toRat)
        (PaddingIsRelative l 0) (runOneTiling_state l imgs dim) imgs ∧
      (runOneTiling_tiling l imgs dim).lines =
        (runOneTiling_state l imgs dim).tl.lines ++
          (if (runOneTiling_state l imgs dim).current = [] then []
            else [⟨(runOneTiling_state l imgs dim).current,
              (runOneTiling_state l imgs dim).currentMinVarDim,
              F64.div (F64.sub (F64.num w) (runOneTiling_state l imgs dim).currentLineWidth)
                (F64.num 2)⟩]) ∧
      ((runOneTiling_tiling l imgs dim).lines.map tileLine.images).flatten = imgs ∧
      (∀ line ∈ (runOneTiling_tiling l imgs dim).lines,
        LineFit l fd vd (dimQ l fd) (dimQ l vd) line) ∧
      List.Forall₂ (fun line y =>
        LinePlaced cl' fd vd (dimQ l fd) (dimQ l vd) line.fixedDim.toRat
          line.startsAt.toRat y line.images) (runOneTiling_tiling l imgs dim).lines Y ∧
      (∀ y ∈ Y, 0 ≤ y) ∧ Y.Pairwise (fun y1 y2 => y1 < y2) ∧
      (∀ line ∈ (runOneTiling_tiling l imgs dim).lines, 0 ≤ linePadding cl' vd line) := by
  have hax : Axes fd vd := by
    rw [← hfd, ← hvd]
    exact axes_runOneTiling dim
  have hin : ∀ img ∈ imgs, TileInput l fd vd (dimQ l fd) (dimQ l vd)
      (fun a => ((Padding l a).Dim fd).toRat) (PaddingIsRelative l 0) img := by
    intro img hi
    obtain ⟨-, -, f, v, hf, hv, -, e1, e2⟩ := himgs img hi
    obtain ⟨pf, pv, hp1, -, e3, -⟩ := NonnegPadding_axes hax _ hg (l.DimensionsOf img) f v e1 e2
      hf hv
    have e3' : (Padding l img).Dim fd = F64.num pf := e3
    refine ⟨?_, ?_, ?_, ?_, ?_, ?_, rfl⟩
    · simp only [dimQ, e1, F64.toRat]
    · simp only [dimQ, e2, F64.toRat]
    · simpa only [dimQ, e1, F64.toRat] using hf
    · simpa only [dimQ, e2, F64.toRat] using hv
    · simp only [e3', F64.toRat]
    · simpa only [e3', F64.toRat] using hp1
  have hready : ∀ img ∈ imgs, TileReady l fd vd (dimQ l fd) (dimQ l vd) img := by
    intro img hi
    obtain ⟨a1, a2, -⟩ := himgs img hi
    obtain ⟨b1, b2, b3, b4, -⟩ := hin img hi
    exact ⟨a1, a2, b1, b2, b3, b4⟩
  have hvb : ∀ img ∈ imgs, dimQ l vd img ≤ 2 ^ 63 := by
    intro img hi
    obtain ⟨-, -, f, v, hf, hv, hb, e1, e2⟩ := himgs img hi
    simpa [dimQ, e2, F64.toRat] using hb
  have hstate : runOneTiling_state l imgs dim =
      imgs.foldl (runOneTiling_step l fd vd (F64.num w)) tilingState.initial := by
    unfold runOneTiling_state
    rw [hfd, hvd, hw]
  have hinv : TilingInv l fd vd w (dimQ l fd) (dimQ l vd)
      (fun a => ((Padding l a).Dim fd).toRat) (PaddingIsRelative l 0)
      (runOneTiling_state l imgs dim) imgs := by
    have := runOneTiling_fold_inv l fd vd w (dimQ l fd) (dimQ l vd)
      (fun a => ((Padding l a).Dim fd).toRat)
      (PaddingIsRelative l 0) imgs tilingState.initial []
      (TilingInv_initial l fd vd w _ _ _ _) hin
    rw [hstate]
    simpa using this
  generalize hst : runOneTiling_state l imgs dim = st at hinv ⊢
  generalize hpQ : (fun a => ((Padding l a).Dim fd).toRat) = pQ at hinv hin ⊢
  have hinv' := hinv
  obtain ⟨m, h1, h2, h3, h4, h5, h6, h7, h8, h9, h10⟩ := hinv'
  -- the lines
  have hwidth : st.currentLineWidth = F64.num ((lineAspect (dimQ l fd) (dimQ l vd) st.current +
      lineRel (PaddingIsRelative l 0) pQ (dimQ l vd) st.current) * m +
      lineAbs (PaddingIsRelative l 0) pQ st.current) := by
    simp only [tilingState.currentLineWidth, h1, h2, h3, h4, F64.add_num, F64.mul_num]
  have hlines : (runOneTiling_tiling l imgs dim).lines =
      st.tl.lines ++ (if st.current = [] then []
        else [⟨st.current, st.currentMinVarDim,
          F64.div (F64.sub (F64.num w) st.currentLineWidth) (F64.num 2)⟩]) := by
    unfold runOneTiling_tiling runOneTiling_lines
    rw [hst, hfd, hvd, hw]
    by_cases hc : st.current = []
    · simp [hc]
    · simp [hc, tileLayout.append]
  have hcurin : ∀ a ∈ st.current, a ∈ imgs := by
    intro a ha
    rw [← h8]
    exact List.mem_append_right _ ha
  have hclosedin : ∀ line ∈ st.tl.lines, ∀ a ∈ line.images, a ∈ imgs := by
    intro line hl a ha
    rw [← h8]
    refine List.mem_append_left _ ?_
    rw [List.mem_flatten]
    exact ⟨line.images, List.mem_map_of_mem _ hl, ha⟩
  have hflat : ((runOneTiling_tiling l imgs dim).lines.map tileLine.images).flatten = imgs := by
    rw [hlines]
    by_cases hc : st.current = []
    · simp only [hc, if_true, List.append_nil]
      rw [← h8, hc, List.append_nil]
    · simp only [hc, if_false, List.map_append, List.map_cons, List.map_nil,
        List.flatten_append, List.flatten_cons, List.flatten_nil, List.append_nil]
      exact h8
  have hfitclosed : ∀ line ∈ st.tl.lines, LineFit l fd vd (dimQ l fd) (dimQ l vd) line := by
    intro line hl
    have hl' : line ∈ (runOneTiling_tiling l imgs dim).lines := by
      rw [hlines]
      exact List.mem_append_left _ hl
    obtain ⟨hm1, hm2⟩ := hmin line hl'
    obtain ⟨c1, c2, c3, c4⟩ := h9 line hl
    have hall : ∀ a ∈ line.images, TileInput l fd vd (dimQ l fd) (dimQ l vd) pQ
        (PaddingIsRelative l 0) a := fun a ha => hin a (hclosedin line hl a ha)
    obtain ⟨n1, n2, n3⟩ := lineAspect_nonneg l fd vd _ _ _ _ line.images hall
    have hA := lineAspect_pos l fd vd _ _ _ _ line.images c1 hall
    have hsum : 0 < lineAspect (dimQ l fd) (dimQ l vd) line.images +
        lineRel (PaddingIsRelative l 0) pQ (dimQ l vd) line.images := by linarith
    generalize ht : (w - lineAbs (PaddingIsRelative l 0) pQ line.images) /
      (lineAspect (dimQ l fd) (dimQ l vd) line.images +
        lineRel (PaddingIsRelative l 0) pQ (dimQ l vd) line.images) = t at c3 c4
    have htr : line.fixedDim.toRat = t := by rw [c3]; rfl
    rw [htr] at hm1 hm2
    have ht0 : 0 < t := by linarith
    have hmul : t * (lineAspect (dimQ l fd) (dimQ l vd) line.images +
        lineRel (PaddingIsRelative l 0) pQ (dimQ l vd) line.images) =
        w - lineAbs (PaddingIsRelative l 0) pQ line.images := by
      rw [← ht]
      field_simp
    obtain ⟨a0, ha0⟩ := List.exists_mem_of_ne_nil _ c1
    refine ⟨c1, t, 0, c3, ht0, le_trans (c4 a0 ha0) (hvb a0 (hclosedin line hl a0 ha0)),
      stored6_pos t hm1, c2, le_refl _, ?_⟩
    intro a ha
    refine ⟨hready a (hclosedin line hl a ha), ?_, stored6_pos _ (hm2 a ha)⟩
    have k1 := aspect_le_lineAspect l fd vd _ _ _ _ line.images hall a ha
    have k2 : dimQ l fd a * t / dimQ l vd a = dimQ l fd a / dimQ l vd a * t := by ring
    rw [k2]
    have k3 : dimQ l fd a / dimQ l vd a * t ≤
        lineAspect (dimQ l fd) (dimQ l vd) line.images * t :=
      mul_le_mul_of_nonneg_right k1 (le_of_lt ht0)
    have k4 : 0 ≤ lineRel (PaddingIsRelative l 0) pQ (dimQ l vd) line.images * t :=
      mul_nonneg n2 (le_of_lt ht0)
    have k5 : lineAspect (dimQ l fd) (dimQ l vd) line.images * t +
        lineRel (PaddingIsRelative l 0) pQ (dimQ l vd) line.images * t =
        w - lineAbs (PaddingIsRelative l 0) pQ line.images := by
      rw [← hmul]
      ring
    linarith
  have hfit : ∀ line ∈ (runOneTiling_tiling l imgs dim).lines,
      LineFit l fd vd (dimQ l fd) (dimQ l vd) line := by
    intro line hl
    have hl0 := hl
    rw [hlines, List.mem_append] at hl
    rcases hl with hl | hl
    · exact hfitclosed line hl
    · by_cases hc : st.current = []
      · simp [hc] at hl
      · simp only [hc, if_false, List.mem_singleton] at hl
        obtain ⟨hm1, hm2⟩ := hmin line hl0
        subst hl
        simp only [h1, F64.toRat] at hm1 hm2
        obtain ⟨g1, g2, g3⟩ := h6 hc
        obtain ⟨n1, n2, n3⟩ := lineAspect_nonneg l fd vd _ _ _ _ st.current h7
        obtain ⟨a0, ha0⟩ := List.exists_mem_of_ne_nil _ hc
        refine ⟨hc, m, (w - ((lineAspect (dimQ l fd) (dimQ l vd) st.current +
          lineRel (PaddingIsRelative l 0) pQ (dimQ l vd) st.current) * m +
          lineAbs (PaddingIsRelative l 0) pQ st.current)) / 2, h1, g1,
          le_trans (g2 a0 ha0) (hvb a0 (hcurin a0 ha0)), stored6_pos m hm1, ?_, ?_, ?_⟩
        · simp only [hwidth, F64.sub_num]
          rw [F64.div_num _ _ (by norm_num)]
        · linarith
        · intro a ha
          refine ⟨hready a (hcurin a ha), ?_, stored6_pos _ (hm2 a ha)⟩
          have k1 := aspect_le_lineAspect l fd vd _ _ _ _ st.current h7 a ha
          have k2 : dimQ l fd a * m / dimQ l vd a = dimQ l fd a / dimQ l vd a * m := by ring
          rw [k2]
          have k3 : dimQ l fd a / dimQ l vd a * m ≤
              lineAspect (dimQ l fd) (dimQ l vd) st.current * m :=
            mul_le_mul_of_nonneg_right k1 (le_of_lt g1)
          have k4 : 0 ≤ lineRel (PaddingIsRelative l 0) pQ (dimQ l vd) st.current * m :=
            mul_nonneg n2 (le_of_lt g1)
          nlinarith
  obtain ⟨cl', Y, e, q1, -, -, -, -, hall, hge, hpw, hlp⟩ := finalizeTiling_lines_spec hax
    (dimQ l fd) (dimQ l vd) (runOneTiling_tiling l imgs dim).lines l 0
    (by rw [hflat]; exact hnd) hfit hg
  refine ⟨cl', Y, ?_, q1, hinv, hlines, hflat, hfit, hall, hge, hpw, hlp⟩
  unfold finalizeTiling
  rw [zero_add] at e
  exact e

theorem LinePlaced_increasing (cl : ImageLayout) (fd vd : Int) (fQ vQ : ImageIdentifier → ℚ)
    (t c y : ℚ) (images : List ImageIdentifier)
    (h : LinePlaced cl fd vd fQ vQ t c y images)
    (hpos : ∀ a ∈ images, 0 < fQ a ∧ 0 < vQ a) (ht : 0 < t) :
    images.Pairwise (fun a b =>
      F64.lt ((cl.PositionOf a).Dim fd) ((cl.PositionOf b).Dim fd) = true) := by
  haveI : IsTrans ImageIdentifier (fun a b =>
      F64.lt ((cl.PositionOf a).Dim fd) ((cl.PositionOf b).Dim fd) = true) :=
    ⟨fun a b c h1 h2 => F64_lt_trans _ _ _ h1 h2⟩
  rw [← List.chain'_iff_pairwise]
  obtain ⟨h1, -, h3⟩ := h
  rw [List.chain'_iff_get] at h3 ⊢
  intro i hi
  obtain ⟨p, pa, pb, k1, k2, e1, e2⟩ := h3 i hi
  have hm : images.get ⟨i, by omega⟩ ∈ images := List.get_mem _ _ _
  have hm2 : images.get ⟨i + 1, by omega⟩ ∈ images := List.get_mem _ _ _
  obtain ⟨g1, g2⟩ := hpos _ hm
  obtain ⟨-, -, pf, -, -, hpf, -, j1, -⟩ := h1 _ hm
  obtain ⟨-, -, pf2, -, -, hpf2, -, j2, -⟩ := h1 _ hm2
  rw [k1] at j1
  rw [k2] at j2
  have ea : pa = pf := F64.num.inj j1
  have eb : pb = pf2 := F64.num.inj j2
  rw [e1, e2]
  simp only [F64.lt, decide_eq_true_eq]
  have : 0 < fQ (images.get ⟨i, by omega⟩) * t / vQ (images.get ⟨i, by omega⟩) := by positivity
  linarith

/-- The result of `runOneTiling` once `finalizeTiling` has placed the lines: the layout
with the canvas set. -/
theorem runOneTiling_of_finalize (l : ImageLayout) (imgs : List ImageIdentifier) (dim : Dims)
    (cl' : ImageLayout) (pos : F64)
    (h : finalizeTiling l (runOneTiling_tiling l imgs dim) (runOneTiling_fixedDim dim)
      (runOneTiling_varDim dim) = some (cl', pos)) :
    ∃ b, runOneTiling l imgs dim =
      some (cl'.SetCanvasSize (((NewDims F64.zero F64.zero).SetDim (runOneTiling_fixedDim dim)
        (dim.Dim (runOneTiling_fixedDim dim))).SetDim (runOneTiling_varDim dim) pos), b) ∧
      b.emptySpace = (runOneTiling_lines l (runOneTiling_varDim dim)
        (dim.Dim (runOneTiling_fixedDim dim)) (runOneTiling_state l imgs dim)).2.1 ∧
      b.scaledownSum = (runOneTiling_lines l (runOneTiling_varDim dim)
        (dim.Dim (runOneTiling_fixedDim dim)) (runOneTiling_state l imgs dim)).2.2 := by
  unfold runOneTiling_tiling at h
  simp only [runOneTiling, h]
  exact ⟨_, rfl, rfl, rfl⟩

/-- C23 (as amended): for distinct images of positive dimensions, without cropping offset,
under a padding geometry that gives every image of positive size a finite padding that is
not negative, and a budget `w` (all numbers up to `2^63`), when every line is at least a
millionth thick and every image at least a millionth long at the thickness of its line,
`runOneTiling` returns a layout and the lines have positions `Y` across the lines such that
the images of one line all have the thickness of the line (as it is stored) as their
dimension across the lines and lie at the position of the line plus their padding; the
positions of the lines are strictly increasing; and the positions along the line of the
images of one line are strictly increasing. -/
theorem runOneTiling_line_structure (l : ImageLayout) (imgs : List ImageIdentifier) (dim : Dims)
    (w : ℚ)
    (hw : dim.Dim (runOneTiling_fixedDim dim) = F64.num w) (hw63 : w ≤ 2 ^ 63)
    (hpad : NonnegPadding l.parameters.padding)
    (hmin : ∀ line ∈ (runOneTiling_tiling l imgs dim).lines,
      1 / 1000000 ≤ line.fixedDim.toRat ∧
      ∀ img ∈ line.images, 1 / 1000000 ≤
        tileLength l (runOneTiling_fixedDim dim) (runOneTiling_varDim dim)
          line.fixedDim.toRat img)
    (hnd : imgs.Nodup)
    (himgs : ∀ img ∈ imgs, (List.lookup img l.imageInfo).isSome = true ∧
      (l.CroppingOf img).HasOffset = false ∧
      ∃ f v : ℚ, 0 < f ∧ 0 < v ∧ v ≤ 2 ^ 63 ∧
        (l.DimensionsOf img).Dim (runOneTiling_fixedDim dim) = F64.num f ∧
        (l.DimensionsOf img).Dim (runOneTiling_varDim dim) = F64.num v) :
    ∃ (l' : ImageLayout) (b : tileInOrder_Badness) (Y : List ℚ),
      runOneTiling l imgs dim = some (l', b) ∧
      ((runOneTiling_tiling l imgs dim).lines.map tileLine.images).flatten = imgs ∧
      List.Forall₂ (fun line y => ∃ t : ℚ, 0 < t ∧ line.fixedDim = F64.num t ∧
        ∀ img ∈ line.images,
          (l'.DimensionsOf img).Dim (runOneTiling_varDim dim) = F64.num (stored6 t) ∧
          ∃ pv : ℚ, 0 ≤ pv ∧ (Padding l' img).Dim (runOneTiling_varDim dim) = F64.num pv ∧
            (l'.PositionOf img).Dim (runOneTiling_varDim dim) = F64.num (y + pv))
        (runOneTiling_tiling l imgs dim).lines Y ∧
      Y.Pairwise (fun y1 y2 => y1 < y2) ∧
      (∀ line ∈ (runOneTiling_tiling l imgs dim).lines,
        line.images.Pairwise (fun a b =>
          F64.lt ((l'.PositionOf a).Dim (runOneTiling_fixedDim dim))
            ((l'.PositionOf b).Dim (runOneTiling_fixedDim dim)) = true)) := by
  obtain ⟨cl', Y, e, -, -, -, hflat, hfit, hall, -, hpw, -⟩ := runOneTiling_placed l imgs dim _ _ w
    rfl rfl hw hw63 hpad hmin hnd himgs
  obtain ⟨b, hb, -, -⟩ := runOneTiling_of_finalize l imgs dim cl' _ e
  refine ⟨_, b, Y, hb, hflat, ?_, hpw, ?_⟩
  · refine (Forall₂_mem_left hall).imp ?_
    intro line y hh
    obtain ⟨hl, hp, -, -⟩ := hh
    obtain ⟨-, t, s, ht, ht0, -, -, hs, -, -⟩ := hfit line hl
    have htr : line.fixedDim.toRat = t := by rw [ht]; rfl
    rw [htr] at hp
    refine ⟨t, ht0, ht, ?_⟩
    intro img hi
    obtain ⟨-, g2, pf, pv, p, -, g4, -, g6, g7, -⟩ := hp img hi
    exact ⟨g2, pv, g4, g6, g7⟩
  · intro line hl
    obtain ⟨-, t, s, ht, ht0, -, -, hs, -, hr⟩ := hfit line hl
    obtain ⟨y, -, hp⟩ := Forall₂_exists_right hall line hl
    have htr : line.fixedDim.toRat = t := by rw [ht]; rfl
    rw [htr] at hp
    exact LinePlaced_increasing cl' _ _ _ _ t _ y line.images hp
      (fun a ha => ⟨(hr a ha).1.2.2.2.2.1, (hr a ha).1.2.2.2.2.2⟩) ht0

/-- C33 (as amended): for distinct images of positive dimensions, without cropping offset,
under a padding geometry that gives every image of positive size the padding zero, and a
budget `w` (all numbers up to `2^63`), when every line is at least a millionth thick and
every image at least a millionth long at the thickness of its line, `runOneTiling` returns
a layout whose canvas is `w` along the lines and the sum of the thicknesses of the lines
across them, and in which every closed line starts at zero, has its first image at position
zero and each next image after the length of the one before, the lengths being those that
keep the proportions at the thickness of the line; these lengths add up to `w`, and the
dimension stored for an image is its length rounded to six decimals and then to a float64;
the thickness is `w` over the sum of the aspect ratios of the images of the line and not
more than the dimension across the line of any of them. -/
theorem runOneTiling_closed_lines (l : ImageLayout) (imgs : List ImageIdentifier) (dim : Dims)
    (w : ℚ)
    (hw : dim.Dim (runOneTiling_fixedDim dim) = F64.num w) (hw63 : w ≤ 2 ^ 63)
    (hpad : ∀ x y : ℚ, 0 < x → 0 < y →
      l.parameters.padding.Scale ⟨F64.num x, F64.num y⟩ = ⟨F64.num 0, F64.num 0⟩)
    (hmin : ∀ line ∈ (runOneTiling_tiling l imgs dim).lines,
      1 / 1000000 ≤ line.fixedDim.toRat ∧
      ∀ img ∈ line.images, 1 / 1000000 ≤
        tileLength l (runOneTiling_fixedDim dim) (runOneTiling_varDim dim)
          line.fixedDim.toRat img)
    (hnd : imgs.Nodup)
    (himgs : ∀ img ∈ imgs, (List.lookup img l.imageInfo).isSome = true ∧
      (l.CroppingOf img).HasOffset = false ∧
      ∃ f v : ℚ, 0 < f ∧ 0 < v ∧ v ≤ 2 ^ 63 ∧
        (l.DimensionsOf img).Dim (runOneTiling_fixedDim dim) = F64.num f ∧
        (l.DimensionsOf img).Dim (runOneTiling_varDim dim) = F64.num v) :
    ∃ l' b, runOneTiling l imgs dim = some (l', b) ∧
      l'.CanvasSize.Dim (runOneTiling_fixedDim dim) = F64.num w ∧
      l'.CanvasSize.Dim (runOneTiling_varDim dim) =
        F64.num (((runOneTiling_tiling l imgs dim).lines.map
          (fun L => L.fixedDim.toRat)).sum) ∧
      ∀ line ∈ (runOneTiling_state l imgs dim).tl.lines,
        line.startsAt = F64.num 0 ∧
        (∀ a, line.images.head? = some a →
          (l'.PositionOf a).Dim (runOneTiling_fixedDim dim) = F64.num 0) ∧
        line.images.Chain' (fun a b => ∃ p,
          (l'.PositionOf a).Dim (runOneTiling_fixedDim dim) = F64.num p ∧
          (l'.PositionOf b).Dim (runOneTiling_fixedDim dim) =
            F64.num (p + tileLength l (runOneTiling_fixedDim dim) (runOneTiling_varDim dim)
              line.fixedDim.toRat a)) ∧
        (∀ a ∈ line.images,
          (l'.DimensionsOf a).Dim (runOneTiling_fixedDim dim) =
            F64.num (stored6 (tileLength l (runOneTiling_fixedDim dim) (runOneTiling_varDim dim)
              line.fixedDim.toRat a))) ∧
        (line.images.map (tileLength l (runOneTiling_fixedDim dim) (runOneTiling_varDim dim)
          line.fixedDim.toRat)).sum = w ∧
        line.fixedDim = F64.num (w / (line.images.map
          (tileAspect l (runOneTiling_fixedDim dim) (runOneTiling_varDim dim))).sum) ∧
        ∀ a ∈ line.images,
          F64.le line.fixedDim ((l.DimensionsOf a).Dim (runOneTiling_varDim dim)) = true := by
  have hax := axes_runOneTiling dim
  have hg : NonnegPadding l.parameters.padding := fun x y hx hy =>
    ⟨0, 0, le_refl _, le_refl _, hpad x y hx hy⟩
  -- the padding of an image whose dimensions are positive is zero
  have hzero : ∀ (cl : ImageLayout) (img : ImageIdentifier) (a b : ℚ),
      cl.parameters = l.parameters →
      (cl.DimensionsOf img).Dim (runOneTiling_fixedDim dim) = F64.num a →
      (cl.DimensionsOf img).Dim (runOneTiling_varDim dim) = F64.num b → 0 < a → 0 < b →
      Padding cl img = ⟨F64.num 0, F64.num 0⟩ := by
    intro cl img a b hp ha hb ha0 hb0
    have hP : Padding cl img = l.parameters.padding.Scale (cl.DimensionsOf img) := by
      simp only [Padding, ImageLayout.Parameters, Parameters.Padding, hp]
    rw [hP]
    generalize cl.DimensionsOf img = d at ha hb
    obtain ⟨dx, dy⟩ := d
    rcases hax with ⟨e1, e2⟩ | ⟨e1, e2⟩
    · rw [e1] at ha
      rw [e2] at hb
      simp [Dims.Dim] at ha hb
      rw [ha, hb]
      exact hpad a b ha0 hb0
    · rw [e1] at ha
      rw [e2] at hb
      simp [Dims.Dim] at ha hb
      rw [ha, hb]
      exact hpad b a hb0 ha0
  have hz0 : ∀ i : Int, (⟨F64.num 0, F64.num 0⟩ : Dims).Dim i = F64.num 0 := by
    intro i
    unfold Dims.Dim
    split <;> rfl
  obtain ⟨cl', Y, e, hpar, hinv, hlines, hflat, hfit, hall, -, -, -⟩ :=
    runOneTiling_placed l imgs dim _ _ w rfl rfl hw hw63 hg hmin hnd himgs
  -- every image of a line has the padding zero
  have hpz : ∀ line ∈ (runOneTiling_tiling l imgs dim).lines, ∀ a ∈ line.images,
      Padding cl' a = ⟨F64.num 0, F64.num 0⟩ := by
    intro line hl a ha
    obtain ⟨-, t, s, ht, ht0, -, hst, hs, -, hr⟩ := hfit line hl
    obtain ⟨y, -, hp, -, -⟩ := Forall₂_exists_right hall line hl
    have htr : line.fixedDim.toRat = t := by rw [ht]; rfl
    rw [htr] at hp
    obtain ⟨g1, g2, -⟩ := hp a ha
    exact hzero cl' a _ _ hpar g1 g2 (hr a ha).2.2 hst
  have hlpz : ∀ line ∈ (runOneTiling_tiling l imgs dim).lines,
      linePadding cl' (runOneTiling_varDim dim) line = 0 := by
    intro line hl
    unfold linePadding
    cases hh : line.images.head? with
    | none => rfl
    | some first =>
      simp only
      rw [hpz line hl first (List.mem_of_mem_head? hh), hz0]
      rfl
  have hsum : ((runOneTiling_tiling l imgs dim).lines.map
      (fun L => L.fixedDim.toRat + 2 * linePadding cl' (runOneTiling_varDim dim) L)).sum =
      ((runOneTiling_tiling l imgs dim).lines.map (fun L => L.fixedDim.toRat)).sum := by
    congr 1
    apply List.map_congr_left
    intro L hL
    rw [hlpz L hL]
    ring
  rw [hsum] at e
  obtain ⟨b, hb, -, -⟩ := runOneTiling_of_finalize l imgs dim cl' _ e
  obtain ⟨m, -, -, -, -, -, -, h7, h8, h9, -⟩ := hinv
  have hcanvas := Dim_SetDim_axes hax (dim.Dim (runOneTiling_fixedDim dim))
    (F64.num (((runOneTiling_tiling l imgs dim).lines.map
      (fun L => L.fixedDim.toRat)).sum))
  refine ⟨_, b, hb, ?_, ?_, ?_⟩
  · simp only [ImageLayout.CanvasSize, ImageLayout.SetCanvasSize]
    rw [hcanvas.1, hw]
  · simp only [ImageLayout.CanvasSize, ImageLayout.SetCanvasSize]
    rw [hcanvas.2]
  · intro line hl
    have hl' : line ∈ (runOneTiling_tiling l imgs dim).lines := by
      rw [hlines]
      exact List.mem_append_left _ hl
    have hclosedin : ∀ a ∈ line.images, a ∈ imgs := by
      intro a ha
      rw [← hflat, List.mem_flatten]
      exact ⟨line.images, List.mem_map_of_mem _ hl', ha⟩
    -- the padding that the first loop reads is zero as well
    have hpq : ∀ a ∈ line.images,
        ((Padding l a).Dim (runOneTiling_fixedDim dim)).toRat = 0 := by
      intro a ha
      obtain ⟨-, -, f, v, hf, hv, -, e1, e2⟩ := himgs a (hclosedin a ha)
      rw [hzero l a f v rfl e1 e2 hf hv, hz0]
      rfl
    have hAbs : lineAbs (PaddingIsRelative l 0)
        (fun a => ((Padding l a).Dim (runOneTiling_fixedDim dim)).toRat) line.images = 0 := by
      unfold lineAbs
      split
      · rfl
      · apply List.sum_eq_zero
        intro x hx
        obtain ⟨a, ha, rfl⟩ := List.mem_map.mp hx
        simp only [hpq a ha, mul_zero]
    have hRel : lineRel (PaddingIsRelative l 0)
        (fun a => ((Padding l a).Dim (runOneTiling_fixedDim dim)).toRat)
        (dimQ l (runOneTiling_varDim dim)) line.images = 0 := by
      unfold lineRel
      split
      · apply List.sum_eq_zero
        intro x hx
        obtain ⟨a, ha, rfl⟩ := List.mem_map.mp hx
        simp only [hpq a ha, mul_zero, zero_div]
      · rfl
    obtain ⟨c1, c2, c3, c4⟩ := h9 line hl
    rw [hAbs, hRel, sub_zero, add_zero] at c3 c4
    obtain ⟨y, -, hp1, hp2, hp3⟩ := Forall₂_exists_right hall line hl'
    obtain ⟨-, t, s, ht, ht0, -, -, hs, -, hr⟩ := hfit line hl'
    have htr : line.fixedDim.toRat = t := by rw [ht]; rfl
    have hsr : line.startsAt.toRat = 0 := by rw [c2]; rfl
    have hA : lineAspect (dimQ l (runOneTiling_fixedDim dim)) (dimQ l (runOneTiling_varDim dim))
        line.images =
        (line.images.map
          (tileAspect l (runOneTiling_fixedDim dim) (runOneTiling_varDim dim))).sum := rfl
    have hteq : t = w / lineAspect (dimQ l (runOneTiling_fixedDim dim))
        (dimQ l (runOneTiling_varDim dim)) line.images := by
      rw [ht] at c3
      exact F64.num.inj c3
    have hpf0 : ∀ a ∈ line.images, ∀ q : ℚ,
        (Padding cl' a).Dim (runOneTiling_fixedDim dim) = F64.num q → q = 0 := by
      intro a ha q hq
      rw [hpz line hl' a ha, hz0] at hq
      exact (F64.num.inj hq).symm
    refine ⟨c2, ?_, ?_, ?_, ?_, ?_, ?_⟩
    · intro a ha
      obtain ⟨pf, k1, k2⟩ := hp2 a ha
      have := hpf0 a (List.mem_of_mem_head? ha) pf k1
      rw [hsr, this] at k2
      show (cl'.PositionOf a).Dim _ = _
      rw [k2]
      simp
    · rw [List.chain'_iff_get] at hp3 ⊢
      intro i hi
      obtain ⟨p, pa, pb, k1, k2, e1, e2⟩ := hp3 i hi
      have z1 := hpf0 _ (List.get_mem _ _ _) pa k1
      have z2 := hpf0 _ (List.get_mem _ _ _) pb k2
      refine ⟨p, e1, ?_⟩
      show (cl'.PositionOf _).Dim _ = _
      rw [e2, z1, z2]
      simp [tileLength]
    · intro a ha
      exact (hp1 a ha).1
    · have hAne : lineAspect (dimQ l (runOneTiling_fixedDim dim))
          (dimQ l (runOneTiling_varDim dim)) line.images ≠ 0 := by
        intro h0
        rw [h0, div_zero] at hteq
        linarith
      have hmap : line.images.map (tileLength l (runOneTiling_fixedDim dim)
          (runOneTiling_varDim dim) line.fixedDim.toRat) =
          line.images.map (fun a => tileAspect l (runOneTiling_fixedDim dim)
            (runOneTiling_varDim dim) a * t) := by
        apply List.map_congr_left
        intro a _
        simp only [tileLength, tileAspect, htr]
        ring
      rw [hmap, List.sum_map_mul_right, ← hA, hteq]
      field_simp
    · rw [ht, hteq, hA]
    · intro a ha
      have hv := (hr a ha).1.2.2.2.1
      rw [hv, ht]
      simp only [F64.le, decide_eq_true_eq]
      rw [hteq]
      exact c4 a ha

theorem Numeral_text_chars (m : Numeral) (hm : m.valid = true) :
    ∀ c ∈ m.text, c ≠ 'x' := by
  obtain ⟨hne, hip, hfp⟩ := (Numeral.valid_iff m).mp hm
  intro c hc
  simp only [Numeral.text, List.mem_append] at hc
  rcases hc with hc | hc
  · exact isDigit_ne (hip c hc) (by decide)
  · unfold Numeral.fracText at hc
    cases hf : m.fp with
    | none => simp [hf] at hc
    | some f =>
      simp only [hf, List.mem_cons] at hc
      rcases hc with rfl | hc
      · decide
      · exact isDigit_ne ((hfp f hf).2 c hc) (by decide)

theorem optText_chars (n : Option Numeral) (hn : GeometryText.optValid n = true) :
    ∀ c ∈ optText n, c ≠ 'x' := by
  cases n with
  | none => simp [optText]
  | some m => exact Numeral_text_chars m hn

theorem offsetText_chars (o : Option (Bool × Option Numeral))
    (ho : GeometryText.optValid (GeometryText.offsetNumeral o) = true) :
    ∀ c ∈ offsetText o, c ≠ 'x' := by
  cases o with
  | none => simp [offsetText]
  | some p =>
    obtain ⟨negative, n⟩ := p
    intro c hc
    simp only [offsetText, List.mem_cons] at hc
    rcases hc with rfl | hc
    · cases negative <;> decide
    · exact optText_chars n ho c hc

/-- No geometry text starts with `-` and holds an `x`. -/
theorem not_geometryText_of_minus (rest : List Char) (hx : 'x' ∈ rest) :
    ¬ IsGeometryText ('-' :: rest) := by
  rintro ⟨t, hv, ht⟩
  simp only [GeometryText.valid, Bool.and_eq_true] at hv
  obtain ⟨⟨⟨hw, hh⟩, hxo⟩, hyo⟩ := hv
  cases hwc : t.w with
  | some m =>
    rw [hwc] at hw
    obtain ⟨c, cs, e1, e2⟩ := Numeral.head_isDigit m hw
    simp only [GeometryText.text, hwc, optText, e1, List.cons_append, List.cons.injEq] at ht
    rw [ht.1] at e2
    exact absurd e2 (by decide)
  | none =>
    cases hhc : t.h with
    | some n =>
      simp only [GeometryText.text, hwc, optText, GeometryText.hText, hhc, List.nil_append,
        List.cons_append, List.cons.injEq] at ht
      exact absurd ht.1 (by decide)
    | none =>
      have hmem : 'x' ∈ t.text := by
        rw [ht]
        exact List.mem_cons_of_mem _ hx
      simp only [GeometryText.text, hwc, optText, GeometryText.hText, hhc, List.nil_append,
        List.mem_append] at hmem
      rcases hmem with h | h | h | h | h
      · exact offsetText_chars t.x hxo _ h rfl
      · exact offsetText_chars t.y hyo _ h rfl
      · unfold GeometryText.percentText at h
        split at h <;> simp at h
      · unfold GeometryText.bangText at h
        split at h <;> simp at h
      · unfold GeometryText.scalingText at h
        split at h <;> simp at h

/-- `MustParseGeometry` exits on the text `WxH!` printed with `%f` from a negative `W`. -/
theorem MustParseGeometry_negative (a : ℚ) (ha : a < 0) (B : F64) :
    MustParseGeometry (sprintf_f (F64.num a) ++ ('x' :: sprintf_f B) ++ ['!']) = none := by
  have hs : ∃ body, sprintf_f (F64.num a) = '-' :: body := by
    simp [sprintf_f, ha]
  obtain ⟨body, hb⟩ := hs
  have hnot : ¬ IsGeometryText (sprintf_f (F64.num a) ++ ('x' :: sprintf_f B) ++ ['!']) := by
    rw [hb]
    simp only [List.cons_append]
    apply not_geometryText_of_minus
    simp
  unfold MustParseGeometry
  rw [ParseGeometry_of_not_instance _ hnot]

/-- The body of the loop of `finalizeTiling_line` stops the program on a line of negative
thickness. -/
theorem finalizeTiling_image_negative {fd vd : Int} (h : Axes fd vd) (line : tileLine)
    (t f v : ℚ) (y c : F64) (cl : ImageLayout) (img : ImageIdentifier)
    (ht : line.fixedDim = F64.num t) (ht0 : t < 0)
    (hf : (cl.DimensionsOf img).Dim fd = F64.num f)
    (hv : (cl.DimensionsOf img).Dim vd = F64.num v) (hf0 : 0 < f) (hv0 : 0 < v) :
    finalizeTiling_image line y fd vd (some (cl, c)) img = none := by
  have hv' : v ≠ 0 := ne_of_gt hv0
  have hlen : f * t / v < 0 := by
    apply div_neg_of_neg_of_pos _ hv0
    nlinarith
  have hxy := SetDim_xy h
    (F64.div (F64.mul ((cl.DimensionsOf img).Dim fd) line.fixedDim) ((cl.DimensionsOf img).Dim vd))
    line.fixedDim
  rw [hf, hv, ht, F64.mul_num, F64.div_num _ _ hv'] at hxy
  simp only [finalizeTiling_image, finalizeTiling_dims]
  rw [hf, hv, ht, F64.mul_num, F64.div_num _ _ hv']
  rcases hxy with ⟨-, hxy⟩ | ⟨-, hxy⟩
  · simp only [hxy, Dims.X, Dims.Y, MustParseGeometry_negative _ hlen]
  · simp only [hxy, Dims.X, Dims.Y, MustParseGeometry_negative _ ht0]

theorem finalizeTiling_image_none (line : tileLine) (y : F64) (fd vd : Int)
    (images : List ImageIdentifier) :
    images.foldl (finalizeTiling_image line y fd vd) none = none := by
  induction images with
  | nil => rfl
  | cons a images ih => simpa [List.foldl_cons, finalizeTiling_image] using ih

theorem finalizeTiling_next_none (fd vd : Int) (lines : List tileLine) :
    lines.foldl (finalizeTiling_next fd vd) none = none := by
  induction lines with
  | nil => rfl
  | cons a lines ih => simpa [List.foldl_cons, finalizeTiling_next] using ih

/-- The body of the loop of `finalizeTiling_line` leaves the dimensions of the other images
as they are. -/
theorem finalizeTiling_image_frame (line : tileLine) (y : F64) (fd vd : Int)
    (cl cl' : ImageLayout) (c c' : F64) (img : ImageIdentifier)
    (h : finalizeTiling_image line y fd vd (some (cl, c)) img = some (cl', c')) :
    ∀ j, j ≠ img → cl'.DimensionsOf j = cl.DimensionsOf j := by
  intro j hj
  simp only [finalizeTiling_image] at h
  split at h
  · exact absurd h (by simp)
  · rename_i g hg
    split at h
    · exact absurd h (by simp)
    · rename_i cl2 coll hset
      simp only [Option.some.injEq, Prod.mk.injEq] at h
      obtain ⟨h1, -⟩ := h
      rw [← h1]
      simp only [ImageLayout.SetScaling] at hset
      split at hset
      · exact absurd hset (by simp)
      · simp only [Option.some.injEq, Prod.mk.injEq] at hset
        obtain ⟨h2, -⟩ := hset
        rw [← h2]
        simp [ImageLayout.SetPosition, ImageLayout.DimensionsOf, IdMap.get_set_ne _ _ _ _ _ hj]

theorem finalizeTiling_fold_frame (line : tileLine) (y : F64) (fd vd : Int) :
    ∀ (images : List ImageIdentifier) (cl cl' : ImageLayout) (c c' : F64),
      images.foldl (finalizeTiling_image line y fd vd) (some (cl, c)) = some (cl', c') →
      ∀ j, j ∉ images → cl'.DimensionsOf j = cl.DimensionsOf j := by
  intro images
  induction images with
  | nil =>
    intro cl cl' c c' h j _
    simp only [List.foldl_nil, Option.some.injEq, Prod.mk.injEq] at h
    rw [h.1]
  | cons a images ih =>
    intro cl cl' c c' h j hj
    rw [List.foldl_cons] at h
    rw [List.mem_cons, not_or] at hj
    cases hstep : finalizeTiling_image line y fd vd (some (cl, c)) a with
    | none =>
      rw [hstep, finalizeTiling_image_none] at h
      exact absurd h (by simp)
    | some r =>
      obtain ⟨cl1, c1⟩ := r
      rw [hstep] at h
      rw [ih cl1 cl' c1 c' h j hj.2]
      exact finalizeTiling_image_frame line y fd vd cl cl1 c c1 a hstep j hj.1

theorem finalizeTiling_line_frame (line : tileLine) (y : F64) (fd vd : Int)
    (cl cl' : ImageLayout) (y' : F64)
    (h : finalizeTiling_line cl line y fd vd = some (cl', y')) :
    ∀ j, j ∉ line.images → cl'.DimensionsOf j = cl.DimensionsOf j := by
  unfold finalizeTiling_line at h
  split at h
  · exact absurd h (by simp)
  · rename_i cl1 c1 hfold
    split at h
    · exact absurd h (by simp)
    · simp only [Option.some.injEq, Prod.mk.injEq] at h
      rw [← h.1]
      exact finalizeTiling_fold_frame line y fd vd line.images cl cl1 _ c1 hfold

/-- The loop of `finalizeTiling` stops the program when a line has a negative thickness. -/
theorem finalizeTiling_negative {fd vd : Int} (h : Axes fd vd) (fQ vQ : ImageIdentifier → ℚ) :
    ∀ (lines : List tileLine) (cl : ImageLayout) (y : F64),
      ((lines.map tileLine.images).flatten).Nodup →
      (∀ line ∈ lines, line.images ≠ [] ∧ ∃ t : ℚ, line.fixedDim = F64.num t) →
      (∀ img ∈ (lines.map tileLine.images).flatten,
        (cl.DimensionsOf img).Dim fd = F64.num (fQ img) ∧
        (cl.DimensionsOf img).Dim vd = F64.num (vQ img) ∧ 0 < fQ img ∧ 0 < vQ img) →
      (∃ line ∈ lines, line.fixedDim.toRat < 0) →
      lines.foldl (finalizeTiling_next fd vd) (some (cl, y)) = none := by
  intro lines
  induction lines with
  | nil =>
    intro _ _ _ _ _ hex
    obtain ⟨line, hl, -⟩ := hex
    exact absurd hl (List.not_mem_nil _)
  | cons L lines ih =>
    intro cl y hnd hline hdims hex
    simp only [List.map_cons, List.flatten_cons] at hnd hdims
    rw [List.nodup_append] at hnd
    obtain ⟨-, hnd2, hdisj⟩ := hnd
    obtain ⟨hne, t, ht⟩ := hline L (List.mem_cons_self _ _)
    rw [List.foldl_cons]
    simp only [finalizeTiling_next]
    by_cases hneg : t < 0
    · obtain ⟨a, rest, hL⟩ := List.exists_cons_of_ne_nil hne
      obtain ⟨e1, e2, e3, e4⟩ := hdims a (List.mem_append_left _ (by simp [hL]))
      have hcrash := finalizeTiling_image_negative h L t (fQ a) (vQ a) y L.startsAt cl a ht hneg e1
        e2 e3 e4
      have : finalizeTiling_line cl L y fd vd = none := by
        unfold finalizeTiling_line
        rw [hL, List.foldl_cons, hcrash, finalizeTiling_image_none]
      rw [this, finalizeTiling_next_none]
    · cases hres : finalizeTiling_line cl L y fd vd with
      | none => exact finalizeTiling_next_none fd vd lines
      | some r =>
        obtain ⟨cl1, y1⟩ := r
        have hfr := finalizeTiling_line_frame L y fd vd cl cl1 y1 hres
        refine ih cl1 y1 hnd2 (fun line hl => hline line (List.mem_cons_of_mem _ hl)) ?_ ?_
        · intro img hi
          have hnot : img ∉ L.images := fun hc => hdisj hc hi
          rw [hfr img hnot]
          exact hdims img (List.mem_append_right _ hi)
        · obtain ⟨line, hl, hlt⟩ := hex
          rw [List.mem_cons] at hl
          rcases hl with rfl | hl
          · rw [ht] at hlt
            exact absurd hlt hneg
          · exact ⟨line, hl, hlt⟩

/-- `runOneTiling` returns a layout under the conditions of `runOneTiling_placed`. -/
theorem runOneTiling_returns (l : ImageLayout) (imgs : List ImageIdentifier) (dim : Dims)
    (w : ℚ)
    (hw : dim.Dim (runOneTiling_fixedDim dim) = F64.num w) (hw63 : w ≤ 2 ^ 63)
    (hpad : NonnegPadding l.parameters.padding)
    (hmin : ∀ line ∈ (runOneTiling_tiling l imgs dim).lines,
      1 / 1000000 ≤ line.fixedDim.toRat ∧
      ∀ img ∈ line.images, 1 / 1000000 ≤
        tileLength l (runOneTiling_fixedDim dim) (runOneTiling_varDim dim)
          line.fixedDim.toRat img)
    (hnd : imgs.Nodup)
    (himgs : ∀ img ∈ imgs, (List.lookup img l.imageInfo).isSome = true ∧
      (l.CroppingOf img).HasOffset = false ∧
      ∃ f v : ℚ, 0 < f ∧ 0 < v ∧ v ≤ 2 ^ 63 ∧
        (l.DimensionsOf img).Dim (runOneTiling_fixedDim dim) = F64.num f ∧
        (l.DimensionsOf img).Dim (runOneTiling_varDim dim) = F64.num v) :
    (runOneTiling l imgs dim).isSome = true := by
  obtain ⟨cl', Y, e, -⟩ := runOneTiling_placed l imgs dim _ _ w
    rfl rfl hw hw63 hpad hmin hnd himgs
  obtain ⟨b, hb, -, -⟩ := runOneTiling_of_finalize l imgs dim cl' _ e
  rw [hb]
  rfl

/-- The padding geometry `0x0` gives every image of positive dimensions the padding zero. -/
theorem zeroPadding_Scale (x y : ℚ) (hx : 0 < x) (hy : 0 < y) :
    zeroPadding.Scale ⟨F64.num x, F64.num y⟩ = ⟨F64.num 0, F64.num 0⟩ := by
  have hy' : y ≠ 0 := ne_of_gt hy
  have hxy : x / y ≠ 0 := ne_of_gt (by positivity)
  simp [zeroPadding, Geometry.Scale, Geometry.scaleUnits, EmptyGeometry, Geometry.HasWidth,
    Geometry.HasHeight, F64.isNaN, Geometry.PreserveAspectRatio, NewDims, Dims.X, Dims.Y,
    F64.div_num _ _ hy', F64.div_num _ _ hxy, F64.mul_num, F64.min_num]

theorem runOneTiling_line_structure_witness :
    [(0 : ImageIdentifier), 1].Nodup ∧ NonnegPadding paddedSquaresTiling.parameters.padding ∧
    (runOneTiling_tiling paddedSquaresTiling [0, 1] (NewDims (F64.num 100) F64.zero)).lines =
      [⟨[0], F64.num 80, F64.num 0⟩, ⟨[1], F64.num 80, F64.num 0⟩] ∧
    ∃ (l' : ImageLayout) (b : tileInOrder_Badness) (Y : List ℚ),
      runOneTiling paddedSquaresTiling [0, 1] (NewDims (F64.num 100) F64.zero) = some (l', b) ∧
      ((runOneTiling_tiling paddedSquaresTiling [0, 1]
        (NewDims (F64.num 100) F64.zero)).lines.map tileLine.images).flatten = [0, 1] ∧
      List.Forall₂ (fun line y => ∃ t : ℚ, 0 < t ∧ line.fixedDim = F64.num t ∧
        ∀ img ∈ line.images,
          (l'.DimensionsOf img).Dim 1 = F64.num (stored6 t) ∧
          ∃ pv : ℚ, 0 ≤ pv ∧ (Padding l' img).Dim 1 = F64.num pv ∧
            (l'.PositionOf img).Dim 1 = F64.num (y + pv))
        (runOneTiling_tiling paddedSquaresTiling [0, 1] (NewDims (F64.num 100) F64.zero)).lines
        Y ∧
      Y.Pairwise (fun y1 y2 => y1 < y2) ∧
      (∀ line ∈ (runOneTiling_tiling paddedSquaresTiling [0, 1]
          (NewDims (F64.num 100) F64.zero)).lines,
        line.images.Pairwise (fun a b =>
          F64.lt ((l'.PositionOf a).Dim 0) ((l'.PositionOf b).Dim 0) = true)) := by
  have hfd : runOneTiling_fixedDim (NewDims (F64.num 100) F64.zero) = 0 := by decide
  have hvd : runOneTiling_varDim (NewDims (F64.num 100) F64.zero) = 1 := by decide
  have hnd : [(0 : ImageIdentifier), 1].Nodup := by decide
  have hp : NonnegPadding paddedSquaresTiling.parameters.padding :=
    NonnegPadding_pixels 10 10 (by norm_num) (by norm_num)
  refine ⟨hnd, hp, by decide!, ?_⟩
  have h := runOneTiling_line_structure paddedSquaresTiling [0, 1]
    (NewDims (F64.num 100) F64.zero) 100 (by decide!) (by norm_num) hp (by decide!) hnd
    (by
      intro img hi
      rw [hfd, hvd]
      simp only [List.mem_cons, List.mem_singleton, List.not_mem_nil, or_false] at hi
      rcases hi with rfl | rfl
      · exact ⟨by decide!, by decide!, 100, 100, by norm_num, by norm_num, by norm_num,
          by decide!, by decide!⟩
      · exact ⟨by decide!, by decide!, 100, 100, by norm_num, by norm_num, by norm_num,
          by decide!, by decide!⟩)
  rw [hfd, hvd] at h
  exact h

/-- C23 (counterexample): two 100 by 100 images under the padding geometry `10x10`, which
gives each of them the padding 10 by 10, with the budget 20: each image closes a line of
thickness zero, `runOneTiling` returns a layout in which both images are stored with the
height zero, and the positions of both are NaN, so the positions of the two lines are not
strictly increasing. -/
theorem runOneTiling_line_structure_counterexample :
    Padding paddedSquaresTiling 0 = ⟨F64.num 10, F64.num 10⟩ ∧
    Padding paddedSquaresTiling 1 = ⟨F64.num 10, F64.num 10⟩ ∧
    (runOneTiling_tiling paddedSquaresTiling [0, 1] (NewDims (F64.num 20) F64.zero)).lines =
      [⟨[0], F64.num 0, F64.num 0⟩, ⟨[1], F64.num 0, F64.num 0⟩] ∧
    (runOneTiling paddedSquaresTiling [0, 1] (NewDims (F64.num 20) F64.zero)).map
        (fun r => ((r.1.DimensionsOf 0).Y, (r.1.DimensionsOf 1).Y, (r.1.PositionOf 0).Y,
          (r.1.PositionOf 1).Y)) =
      some (F64.num 0, F64.num 0, F64.nan, F64.nan) ∧
    F64.lt F64.nan F64.nan = false := by
  refine ⟨by decide!, by decide!, by decide!, by decide!, by decide⟩

theorem runOneTiling_closed_lines_witness :
    [(0 : ImageIdentifier), 1, 2].Nodup ∧
    (runOneTiling_tiling plainSquaresTiling [0, 1, 2] (NewDims (F64.num 80) F64.zero)).lines =
      [⟨[0, 1], F64.num 40, F64.num 0⟩, ⟨[2], F64.num 50, F64.num 15⟩] ∧
    (runOneTiling_state plainSquaresTiling [0, 1, 2] (NewDims (F64.num 80) F64.zero)).tl.lines =
      [⟨[0, 1], F64.num 40, F64.num 0⟩] ∧
    ∃ l' b, runOneTiling plainSquaresTiling [0, 1, 2] (NewDims (F64.num 80) F64.zero) =
        some (l', b) ∧
      l'.CanvasSize.Dim 0 = F64.num 80 ∧
      l'.CanvasSize.Dim 1 =
        F64.num (((runOneTiling_tiling plainSquaresTiling [0, 1, 2]
          (NewDims (F64.num 80) F64.zero)).lines.map (fun L => L.fixedDim.toRat)).sum) ∧
      ∀ line ∈ (runOneTiling_state plainSquaresTiling [0, 1, 2]
          (NewDims (F64.num 80) F64.zero)).tl.lines,
        line.startsAt = F64.num 0 ∧
        (∀ a, line.images.head? = some a → (l'.PositionOf a).Dim 0 = F64.num 0) ∧
        line.images.Chain' (fun a b => ∃ p,
          (l'.PositionOf a).Dim 0 = F64.num p ∧
          (l'.PositionOf b).Dim 0 =
            F64.num (p + tileLength plainSquaresTiling 0 1 line.fixedDim.toRat a)) ∧
        (∀ a ∈ line.images,
          (l'.DimensionsOf a).Dim 0 =
            F64.num (stored6 (tileLength plainSquaresTiling 0 1 line.fixedDim.toRat a))) ∧
        (line.images.map (tileLength plainSquaresTiling 0 1 line.fixedDim.toRat)).sum = 80 ∧
        line.fixedDim = F64.num (80 / (line.images.map
          (tileAspect plainSquaresTiling 0 1)).sum) ∧
        ∀ a ∈ line.images,
          F64.le line.fixedDim ((plainSquaresTiling.DimensionsOf a).Dim 1) = true := by
  have hfd : runOneTiling_fixedDim (NewDims (F64.num 80) F64.zero) = 0 := by decide
  have hvd : runOneTiling_varDim (NewDims (F64.num 80) F64.zero) = 1 := by decide
  have hnd : [(0 : ImageIdentifier), 1, 2].Nodup := by decide
  refine ⟨hnd, by decide!, by decide!, ?_⟩
  have h := runOneTiling_closed_lines plainSquaresTiling [0, 1, 2]
    (NewDims (F64.num 80) F64.zero) 80 (by decide!) (by norm_num)
    (fun x y hx hy => zeroPadding_Scale x y hx hy) (by decide!) hnd
    (by
      intro img hi
      rw [hfd, hvd]
      simp only [List.mem_cons, List.mem_singleton, List.not_mem_nil, or_false] at hi
      rcases hi with rfl | rfl | rfl
      · exact ⟨by decide!, by decide!, 50, 50, by norm_num, by norm_num, by norm_num,
          by decide!, by decide!⟩
      · exact ⟨by decide!, by decide!, 50, 50, by norm_num, by norm_num, by norm_num,
          by decide!, by decide!⟩
      · exact ⟨by decide!, by decide!, 50, 50, by norm_num, by norm_num, by norm_num,
          by decide!, by decide!⟩)
  rw [hfd, hvd] at h
  exact h

/-- C33 (counterexample): three 50 by 50 images under the padding geometry `0x0`, with the
budget 113: the three images close one line of thickness 113/3, and the width stored for
each of them is the float64 nearest to 37.666667; the three widths add up to about
113.000001 and not to the budget. -/
theorem runOneTiling_closed_lines_counterexample :
    ((runOneTiling_state plainSquaresTiling [0, 1, 2]
        (NewDims (F64.num 113) F64.zero)).tl.lines =
      [⟨[0, 1, 2], F64.num (113 / 3), F64.num 0⟩]) ∧
    (runOneTiling plainSquaresTiling [0, 1, 2] (NewDims (F64.num 113) F64.zero)).map
        (fun r => ([0, 1, 2].map (fun i => (r.1.DimensionsOf i).X))) =
      some [F64.num (5301112108296517 / 140737488355328),
        F64.num (5301112108296517 / 140737488355328),
        F64.num (5301112108296517 / 140737488355328)] ∧
    stored6 (113 / 3) = 5301112108296517 / 140737488355328 ∧
    F64.add (F64.add (F64.num (5301112108296517 / 140737488355328))
        (F64.num (5301112108296517 / 140737488355328)))
        (F64.num (5301112108296517 / 140737488355328)) =
      F64.num (15903336324889551 / 140737488355328) ∧
    F64.fne (F64.num (15903336324889551 / 140737488355328)) (F64.num 113) = true := by
  refine ⟨by decide!, by decide!, by decide!, by decide!, by decide!⟩

/-- The line being filled is empty after the last image exactly when that image has closed
a line. -/
theorem runOneTiling_state_closes (l : ImageLayout) (init : List ImageIdentifier)
    (a : ImageIdentifier) (dim : Dims) :
    (runOneTiling_state l (init ++ [a]) dim).current = [] ↔
      (runOneTiling_state l (init ++ [a]) dim).tl.lines.length =
        (runOneTiling_state l init dim).tl.lines.length + 1 := by
  unfold runOneTiling_state
  rw [List.foldl_append, List.foldl_cons, List.foldl_nil]
  generalize List.foldl _ tilingState.initial init = s
  unfold runOneTiling_step
  simp only
  split_ifs <;> simp [tileLayout.append]

/-- C40: for distinct images of positive dimensions, each under a padding along the lines
that is not negative, and a budget `w`, the badness that `runOneTiling` returns has a sum of
scale-downs and an empty space that are not negative; the empty space is zero exactly when
no image is left over after the last closed line (the last image closes a line), and is the
budget minus the width of the final line otherwise. -/
theorem runOneTiling_badness_nonneg (l : ImageLayout) (imgs : List ImageIdentifier) (dim : Dims)
    (w : ℚ) (l' : ImageLayout) (b : tileInOrder_Badness)
    (hw : dim.Dim (runOneTiling_fixedDim dim) = F64.num w)
    (hnd : imgs.Nodup)
    (himgs : ∀ img ∈ imgs, ∃ f v p : ℚ, 0 < f ∧ 0 < v ∧ 0 ≤ p ∧
      (l.DimensionsOf img).Dim (runOneTiling_fixedDim dim) = F64.num f ∧
      (l.DimensionsOf img).Dim (runOneTiling_varDim dim) = F64.num v ∧
      (Padding l img).Dim (runOneTiling_fixedDim dim) = F64.num p)
    (hrun : runOneTiling l imgs dim = some (l', b)) :
    F64.ge b.scaledownSum (F64.num 0) = true ∧
    F64.ge b.emptySpace (F64.num 0) = true ∧
    (b.emptySpace = F64.num 0 ↔ (runOneTiling_state l imgs dim).current = []) ∧
    ((runOneTiling_state l imgs dim).current ≠ [] →
      b.emptySpace = F64.sub (dim.Dim (runOneTiling_fixedDim dim))
        (runOneTiling_state l imgs dim).currentLineWidth) := by
  have hax := axes_runOneTiling dim
  generalize hfd : runOneTiling_fixedDim dim = fd at *
  generalize hvd : runOneTiling_varDim dim = vd at *
  -- the inputs
  have hin : ∀ img ∈ imgs, TileInput l fd vd (dimQ l fd) (dimQ l vd)
      (fun a => ((Padding l a).Dim fd).toRat) (PaddingIsRelative l 0) img := by
    intro img hi
    obtain ⟨f, v, p, hf, hv, hp, e1, e2, e3⟩ := himgs img hi
    refine ⟨?_, ?_, ?_, ?_, ?_, ?_, rfl⟩
    · simp only [dimQ, e1, F64.toRat]
    · simp only [dimQ, e2, F64.toRat]
    · simpa only [dimQ, e1, F64.toRat] using hf
    · simpa only [dimQ, e2, F64.toRat] using hv
    · simp only [e3, F64.toRat]
    · simpa only [e3, F64.toRat] using hp
  have hinv := runOneTiling_fold_inv l fd vd w (dimQ l fd) (dimQ l vd)
    (fun a => ((Padding l a).Dim fd).toRat) (PaddingIsRelative l 0) imgs tilingState.initial []
    (TilingInv_initial l fd vd w _ _ _ _) hin
  rw [List.nil_append] at hinv
  have hstate : List.foldl (runOneTiling_step l fd vd (F64.num w)) tilingState.initial imgs =
      runOneTiling_state l imgs dim := by
    unfold runOneTiling_state
    rw [hfd, hvd, hw]
  rw [hstate] at hinv
  obtain ⟨m, h1, h2, h3, h4, h5, h6, h7, h8, h9, h10⟩ := hinv
  -- finalizeTiling has returned
  have hfin : ∃ r, finalizeTiling l (runOneTiling_tiling l imgs dim) fd vd = some r := by
    cases hf : finalizeTiling l (runOneTiling_tiling l imgs dim) fd vd with
    | some r => exact ⟨r, rfl⟩
    | none =>
      exfalso
      unfold runOneTiling_tiling at hf
      rw [hfd, hvd] at hf
      simp only [runOneTiling, hfd, hvd, hf] at hrun
      exact absurd hrun (by simp)
  obtain ⟨⟨cl', pos⟩, hfin⟩ := hfin
  have hfin' := hfin
  rw [← hfd, ← hvd] at hfin'
  obtain ⟨b', hb', he, hs⟩ := runOneTiling_of_finalize l imgs dim cl' pos hfin'
  rw [hrun, Option.some.injEq, Prod.mk.injEq] at hb'
  obtain ⟨-, rfl⟩ := hb'
  rw [hfd, hvd, hw] at he hs
  rw [hw]
  clear hfin'
  generalize hst : runOneTiling_state l imgs dim = st at *
  have hwidth : st.currentLineWidth = F64.num ((lineAspect (dimQ l fd) (dimQ l vd) st.current +
      lineRel (PaddingIsRelative l 0) (fun a => ((Padding l a).Dim fd).toRat) (dimQ l vd)
        st.current) * m +
      lineAbs (PaddingIsRelative l 0) (fun a => ((Padding l a).Dim fd).toRat) st.current) := by
    simp only [tilingState.currentLineWidth, h1, h2, h3, h4, F64.add_num, F64.mul_num]
  have hlines : (runOneTiling_tiling l imgs dim).lines =
      st.tl.lines ++ (if st.current = [] then []
        else [⟨st.current, st.currentMinVarDim,
          F64.div (F64.sub (F64.num w) st.currentLineWidth) (F64.num 2)⟩]) := by
    unfold runOneTiling_tiling runOneTiling_lines
    rw [hst, hfd, hvd, hw]
    by_cases hc : st.current = []
    · simp [hc]
    · simp [hc, tileLayout.append]
  have hflat : ((runOneTiling_tiling l imgs dim).lines.map tileLine.images).flatten = imgs := by
    rw [hlines]
    by_cases hc : st.current = []
    · simp only [hc, if_true, List.append_nil]
      rw [← h8, hc, List.append_nil]
    · simp only [hc, if_false, List.map_append, List.map_cons, List.map_nil,
        List.flatten_append, List.flatten_cons, List.flatten_nil, List.append_nil]
      exact h8
  -- no line has a negative thickness, since finalizeTiling has returned
  have hnn : ∀ line ∈ (runOneTiling_tiling l imgs dim).lines, 0 ≤ line.fixedDim.toRat := by
    intro line hl
    by_contra hneg
    rw [not_le] at hneg
    have hcrash := finalizeTiling_negative hax (dimQ l fd) (dimQ l vd)
      (runOneTiling_tiling l imgs dim).lines l F64.zero (by rw [hflat]; exact hnd)
      (by
        intro L hL
        rw [hlines, List.mem_append] at hL
        rcases hL with hL | hL
        · obtain ⟨c1, -, c3, -⟩ := h9 L hL
          exact ⟨c1, _, c3⟩
        · by_cases hc : st.current = []
          · simp [hc] at hL
          · simp only [hc, if_false, List.mem_singleton] at hL
            rw [hL]
            exact ⟨hc, m, h1⟩)
      (by
        rw [hflat]
        intro img hi
        obtain ⟨e1, e2, e3, e4, -⟩ := hin img hi
        exact ⟨e1, e2, e3, e4⟩)
      ⟨line, hl, hneg⟩
    unfold finalizeTiling at hfin
    rw [hcrash] at hfin
    exact absurd hfin (by simp)
  have hclosednn : ∀ line ∈ st.tl.lines, 0 ≤ line.fixedDim.toRat := by
    intro line hl
    apply hnn
    rw [hlines]
    exact List.mem_append_left _ hl
  have hsd := h10 hclosednn
  by_cases hc : st.current = []
  · simp only [runOneTiling_lines, hc, ne_eq, not_true_eq_false, if_false] at he hs
    rw [he, hs]
    refine ⟨hsd, by decide, ?_, fun h => absurd hc h⟩
    exact ⟨fun _ => hc, fun _ => rfl⟩
  · obtain ⟨m0, mle, mlt⟩ := h6 hc
    simp only [runOneTiling_lines, hc, ne_eq, not_false_eq_true, if_true] at he hs
    rw [he, hs, hwidth, F64.sub_num, h1]
    refine ⟨?_, ?_, ?_, fun _ => rfl⟩
    · exact runOneTiling_scaledown_nonneg l fd vd (dimQ l fd) (dimQ l vd)
        (fun a => ((Padding l a).Dim fd).toRat) (PaddingIsRelative l 0) m (le_of_lt m0)
        st.current _ st.scaledownSum hsd (fun a ha => ⟨h7 a ha, mle a ha⟩)
    · simp only [F64.ge, F64.le, decide_eq_true_eq]
      linarith
    · constructor
      · intro h
        exfalso
        simp only [F64.num.injEq] at h
        linarith
      · intro h
        exact absurd h hc

theorem runOneTiling_badness_nonneg_witness :
    [(0 : ImageIdentifier), 1, 2].Nodup ∧
    ∃ l' b, runOneTiling threeSquaresTiling [0, 1, 2] (NewDims (F64.num 80) F64.zero) =
        some (l', b) ∧
      F64.ge b.scaledownSum (F64.num 0) = true ∧ F64.ge b.emptySpace (F64.num 0) = true ∧
      (runOneTiling_state threeSquaresTiling [0, 1, 2]
        (NewDims (F64.num 80) F64.zero)).current = [2] := by
  have hfd : runOneTiling_fixedDim (NewDims (F64.num 80) F64.zero) = 0 := by decide
  have hvd : runOneTiling_varDim (NewDims (F64.num 80) F64.zero) = 1 := by decide
  have hnd : [(0 : ImageIdentifier), 1, 2].Nodup := by decide
  have hs : (runOneTiling threeSquaresTiling [0, 1, 2]
      (NewDims (F64.num 80) F64.zero)).isSome = true := by decide!
  obtain ⟨⟨l', b⟩, h⟩ := Option.isSome_iff_exists.mp hs
  obtain ⟨h1, h2, -⟩ := runOneTiling_badness_nonneg threeSquaresTiling [0, 1, 2]
    (NewDims (F64.num 80) F64.zero) 80 l' b (by decide!) hnd
    (by
      intro img hi
      rw [hfd, hvd]
      simp only [List.mem_cons, List.mem_singleton, List.not_mem_nil, or_false] at hi
      rcases hi with rfl | rfl | rfl
      · exact ⟨50, 50, 0, by norm_num, by norm_num, le_refl _, by decide!, by decide!,
          by decide!⟩
      · exact ⟨50, 50, 0, by norm_num, by norm_num, le_refl _, by decide!, by decide!,
          by decide!⟩
      · exact ⟨50, 50, 0, by norm_num, by norm_num, le_refl _, by decide!, by decide!,
          by decide!⟩)
    h
  exact ⟨hnd, l', b, h, h1, h2, by decide!⟩

end CollageCreator
